import Mathlib

/-! Wavelet filterbank (ircam-ismm/wavelet): a shallow embedding.

The C++ sources are embedded over the reals: every `float` and `double` is a
real number, `std::complex<double>` is `ℂ`, `int` and `long` are `ℤ`,
`std::size_t` is `ℕ` and `unsigned int` is `ℕ` reduced modulo `2 ^ 32` where the
source computes in that type.  A conversion of a floating value to an integer
type truncates toward zero, as in C++.  Undefined behaviour of the source (an
access outside a vector, a dereferenced end iterator) and a thrown exception are
both the value `none` in the member functions of the wavelets and of the
filterbank.  The attributes and the filterbank as an object (constructor,
`setAttribute`, `getAttribute`) tell the two apart: an `Outcome` is a normal
return, an exception together with the state it leaves, or undefined behaviour.
-/

namespace woma

/-! ## Wavelet kernels (womaWavelet, womaMorlet, womaPaul) -/

/-- Wavelet family: `woma::Family`. -/
inductive Family where
  | Morlet
  | Paul
  deriving DecidableEq, Repr

/-- Domain of the sampled kernel: `woma::Wavelet::WaveletDomain`. -/
inductive WaveletDomain where
  | RECURSIVE
  | SPECTRAL
  deriving DecidableEq, Repr

/-- Conversion of a floating value to an integer type (`long(x)`,
`static_cast<int>(x)`): the fractional part is discarded, toward zero. -/
noncomputable def truncToInt (x : ℝ) : ℤ :=
  if 0 ≤ x then ⌊x⌋ else ⌈x⌉

/-- Conversion of a floating value to `std::size_t` for a value that is not
negative (the source only converts such values). -/
noncomputable def truncToNat (x : ℝ) : ℕ :=
  ⌊x⌋₊

/-- A wavelet object: the attributes of `woma::Wavelet`, the attribute of the
concrete class (`omega0` for Morlet, `order` for Paul; the other one is unused)
and the computed state. -/
structure Wavelet where
  family : Family
  samplerate : ℝ
  scale : ℝ
  window_size : ℕ
  mode : WaveletDomain
  delay : ℝ
  padding : ℝ
  omega0 : ℝ
  order : ℕ
  values : List ℂ
  prepad_value_ : ℂ
  postpad_value_ : ℂ

namespace MorletWavelet

/-- Mirror of `MorletWavelet::DEFAULT_OMEGA0`. -/
def DEFAULT_OMEGA0 : ℝ := 5

/-- Mirror of `MorletWavelet::scale2frequency`. -/
noncomputable def scale2frequency (omega0 scale : ℝ) : ℝ :=
  (omega0 + Real.sqrt (2 + omega0 * omega0)) / (4 * Real.pi * scale)

/-- Mirror of `MorletWavelet::frequency2scale`. -/
noncomputable def frequency2scale (omega0 frequency : ℝ) : ℝ :=
  (omega0 + Real.sqrt (2 + omega0 * omega0)) / (4 * Real.pi * frequency)

/-- Mirror of `MorletWavelet::eFoldingTime`. -/
noncomputable def eFoldingTime (scale : ℝ) : ℝ :=
  Real.sqrt 2 * scale

/-- Mirror of `MorletWavelet::phi` (the complete Morlet wavelet; the second
`return` of the source is unreachable). -/
noncomputable def phi (omega0 scale samplerate arg : ℝ) : ℂ :=
  ((Real.exp (-0.5 * arg * arg) : ℝ) : ℂ) *
    (Complex.exp (Complex.mk 0 (1 * omega0 * arg)) -
      Complex.exp (-(Complex.mk (0.5 * omega0 * omega0) 0))) *
    ((Real.sqrt (1 / (scale * samplerate)) : ℝ) : ℂ) *
    (((Real.pi : ℝ) ^ (-0.25 : ℝ) : ℝ) : ℂ)

/-- Mirror of `MorletWavelet::phi_spectral`. -/
noncomputable def phi_spectral (omega0 scale samplerate s_omega : ℝ) : ℂ :=
  if 0 < s_omega then
    (((Real.pi : ℝ) ^ (-0.25 : ℝ) * Real.exp (-0.5 * (s_omega - omega0) * (s_omega - omega0)) *
      Real.sqrt (2 * Real.pi * scale * samplerate) : ℝ) : ℂ)
  else 0

end MorletWavelet

namespace PaulWavelet

/-- Mirror of `PaulWavelet::DEFAULT_ORDER`. -/
def DEFAULT_ORDER : ℕ := 2

/-- Loop of `PaulWavelet::factorial`: multiplies `result` by `i`, `i + 1`, ...
for `fuel` rounds, in `unsigned int` arithmetic. -/
def factorialLoop : ℕ → ℕ → ℕ → ℕ
  | 0, _, result => result
  | fuel + 1, i, result => factorialLoop fuel (i + 1) ((result * i) % 2 ^ 32)

/-- Mirror of `PaulWavelet::factorial`: `for (i = 2; i <= n; i++) result *= i`
with `unsigned int result`. -/
def factorial (n : ℕ) : ℕ :=
  factorialLoop (n - 1) 2 1

/-- Mirror of `PaulWavelet::scale2frequency`; `2 * order + 1` is computed in
`unsigned int`. -/
noncomputable def scale2frequency (order : ℕ) (scale : ℝ) : ℝ :=
  (((2 * order + 1) % 2 ^ 32 : ℕ) : ℝ) / (4 * Real.pi * scale)

/-- Mirror of `PaulWavelet::frequency2scale`. -/
noncomputable def frequency2scale (order : ℕ) (frequency : ℝ) : ℝ :=
  (((2 * order + 1) % 2 ^ 32 : ℕ) : ℝ) / (4 * Real.pi * frequency)

/-- Mirror of `PaulWavelet::eFoldingTime`. -/
noncomputable def eFoldingTime (scale : ℝ) : ℝ :=
  scale / Real.sqrt 2

/-- Conversion `int(u)` of an `unsigned int` value. -/
def toInt32 (u : ℕ) : ℤ :=
  if u % 2 ^ 32 < 2 ^ 31 then ((u % 2 ^ 32 : ℕ) : ℤ) else ((u % 2 ^ 32 : ℕ) : ℤ) - 2 ^ 32

/-- Mirror of `PaulWavelet::phi`.  `factorial`, `2 * order` and `order + 1` are
`unsigned int` computations; `-int(order + 1)` is the exponent. -/
noncomputable def phi (order : ℕ) (scale samplerate arg : ℝ) : ℂ :=
  let numer : ℂ := (2 * Complex.I) ^ order * ((factorial order : ℕ) : ℂ)
  let denum : ℂ := ((Real.sqrt (Real.pi * (factorial ((2 * order) % 2 ^ 32) : ℕ)) : ℝ) : ℂ)
  let second_arg : ℂ := (Complex.mk 1 (-arg)) ^ (-(toInt32 (order + 1)))
  (numer / denum) * second_arg * ((Real.sqrt (1 / (scale * samplerate)) : ℝ) : ℂ)

/-- Mirror of `PaulWavelet::phi_spectral`. -/
noncomputable def phi_spectral (order : ℕ) (s_omega : ℝ) : ℂ :=
  if 0 < s_omega then
    let numer : ℝ := (2 : ℝ) ^ order
    let denum : ℝ :=
      Real.sqrt (((order * factorial ((2 * order + 2 ^ 32 - 1) % 2 ^ 32)) % 2 ^ 32 : ℕ) : ℝ)
    let second_arg : ℝ := s_omega ^ order
    let third_arg : ℝ := Real.exp (-s_omega)
    (((numer / denum) * second_arg * third_arg : ℝ) : ℂ)
  else 0

end PaulWavelet

namespace Wavelet

/-- Mirror of `Wavelet::DEFAULT_DELAY`. -/
def DEFAULT_DELAY : ℝ := 1.5

/-- Mirror of `Wavelet::DEFAULT_PADDING`. -/
def DEFAULT_PADDING : ℝ := 1

/-- Virtual `scale2frequency`, dispatched on the family of the object. -/
noncomputable def scale2frequency (w : Wavelet) (scale : ℝ) : ℝ :=
  match w.family with
  | Family.Morlet => MorletWavelet.scale2frequency w.omega0 scale
  | Family.Paul => PaulWavelet.scale2frequency w.order scale

/-- Virtual `frequency2scale`, dispatched on the family of the object. -/
noncomputable def frequency2scale (w : Wavelet) (frequency : ℝ) : ℝ :=
  match w.family with
  | Family.Morlet => MorletWavelet.frequency2scale w.omega0 frequency
  | Family.Paul => PaulWavelet.frequency2scale w.order frequency

/-- Virtual `eFoldingTime`, at the scale of the object. -/
noncomputable def eFoldingTime (w : Wavelet) : ℝ :=
  match w.family with
  | Family.Morlet => MorletWavelet.eFoldingTime w.scale
  | Family.Paul => PaulWavelet.eFoldingTime w.scale

/-- Virtual `phi`, with the attributes of the object. -/
noncomputable def phi (w : Wavelet) (arg : ℝ) : ℂ :=
  match w.family with
  | Family.Morlet => MorletWavelet.phi w.omega0 w.scale w.samplerate arg
  | Family.Paul => PaulWavelet.phi w.order w.scale w.samplerate arg

/-- Virtual `phi_spectral`, with the attributes of the object. -/
noncomputable def phi_spectral (w : Wavelet) (s_omega : ℝ) : ℂ :=
  match w.family with
  | Family.Morlet => MorletWavelet.phi_spectral w.omega0 w.scale w.samplerate s_omega
  | Family.Paul => PaulWavelet.phi_spectral w.order s_omega

/-- Copy construction (`Wavelet::_copy` and the copy constructors of the two
families): the attributes and `values` are copied, the two padding sums are
not and start from their default, zero. -/
def copy (src : Wavelet) : Wavelet :=
  { src with prepad_value_ := 0, postpad_value_ := 0 }

/-- Argument of the wavelet at the integer sample index `t` in `Wavelet::init`:
`(double(t) - double(window_size / 2)) / (scale * samplerate)`, with the integer
division of `window_size`. -/
noncomputable def wavelet_arg (w : Wavelet) (t : ℤ) : ℝ :=
  ((t : ℝ) - ((w.window_size / 2 : ℕ) : ℝ)) / (w.scale * w.samplerate)

/-- Mirror of `pad_length` in `Wavelet::init`. -/
noncomputable def pad_length (w : Wavelet) : ℤ :=
  truncToInt (w.padding * w.eFoldingTime * w.samplerate)

/-- Mirror of `Wavelet::init`: recomputes `values`, and in recursive mode the
two padding sums. -/
noncomputable def init (w : Wavelet) : Wavelet :=
  match w.mode with
  | WaveletDomain.RECURSIVE =>
    let P : ℕ := (pad_length w).toNat
    { w with
      prepad_value_ :=
        ((List.range P).map
          (fun (i : ℕ) => (starRingEnd ℂ) (w.phi (w.wavelet_arg (-(P : ℤ) + (i : ℤ)))))).sum
      postpad_value_ :=
        ((List.range P).map
          (fun (i : ℕ) =>
            (starRingEnd ℂ) (w.phi (w.wavelet_arg ((w.window_size : ℤ) + (i : ℤ)))))).sum
      values := (List.range w.window_size).map (fun (t : ℕ) => w.phi (w.wavelet_arg (t : ℤ))) }
  | WaveletDomain.SPECTRAL =>
    { w with
      values := (List.range w.window_size).map (fun (t : ℕ) =>
        let s_omega : ℝ :=
          w.scale * 2 * Real.pi * (t : ℝ) * w.samplerate / (w.window_size : ℝ)
        if t < w.window_size / 2 then w.phi_spectral s_omega
        else w.phi_spectral (-s_omega)) }

/-- Mirror of `Wavelet::setDefaultWindowsize`; the assignment of `window_size`
notifies the object, which runs `init`. -/
noncomputable def setDefaultWindowsize (w : Wavelet) : Wavelet :=
  let winsize : ℕ := truncToNat (2 * w.delay * w.eFoldingTime * w.samplerate)
  let winsize : ℕ := if winsize < 3 then 3 else winsize
  let winsize : ℕ := winsize + (if winsize % 2 = 0 then 1 else 0)
  init { w with window_size := winsize }

end Wavelet

/-- The members of a `MorletWavelet` when its constructor reaches `init`: the
attributes of the base class (`scale = 2 / samplerate`, `window_size = 1`,
recursive mode, default delay and padding) and `omega0`. -/
noncomputable def MorletWavelet.members (samplerate : ℝ) : Wavelet :=
  { family := Family.Morlet, samplerate := samplerate, scale := 2 / samplerate,
    window_size := 1, mode := WaveletDomain.RECURSIVE, delay := Wavelet.DEFAULT_DELAY,
    padding := Wavelet.DEFAULT_PADDING, omega0 := MorletWavelet.DEFAULT_OMEGA0,
    order := PaulWavelet.DEFAULT_ORDER, values := [], prepad_value_ := 0,
    postpad_value_ := 0 }

/-- Mirror of the constructor `MorletWavelet(samplerate)`; it throws when the
sample rate is below its lower limit, 0, and when it is 0: the scale
`2 / samplerate` is then infinite and exceeds its upper limit. -/
noncomputable def MorletWavelet.create (samplerate : ℝ) : Option Wavelet :=
  if samplerate < 0 ∨ samplerate = 0 then none
  else some (Wavelet.init (MorletWavelet.members samplerate))

/-- The members of a `PaulWavelet` when its constructor reaches `init`. -/
noncomputable def PaulWavelet.members (samplerate : ℝ) : Wavelet :=
  { family := Family.Paul, samplerate := samplerate, scale := 2 / samplerate,
    window_size := 1, mode := WaveletDomain.RECURSIVE, delay := Wavelet.DEFAULT_DELAY,
    padding := Wavelet.DEFAULT_PADDING, omega0 := MorletWavelet.DEFAULT_OMEGA0,
    order := PaulWavelet.DEFAULT_ORDER, values := [], prepad_value_ := 0,
    postpad_value_ := 0 }

/-- Mirror of the constructor `PaulWavelet(samplerate)`; it throws for a sample
rate that is negative or 0, as the constructor of the Morlet wavelet does. -/
noncomputable def PaulWavelet.create (samplerate : ℝ) : Option Wavelet :=
  if samplerate < 0 ∨ samplerate = 0 then none
  else some (Wavelet.init (PaulWavelet.members samplerate))

/-! ## Chebyshev low-pass filter (womaLowpass) -/

/-- State of `woma::LowpassFilter`: its three attributes, the coefficient
vectors `b`, `a` and the memory `z`. -/
structure LowpassFilter where
  cutoff : ℝ
  order : ℤ
  rippleLevel : ℝ
  b : List ℝ
  a : List ℝ
  z : List ℝ

namespace LowpassFilter

/-- Mirror of `LowpassFilter::cheby1ap`: the analog prototype, as the pair of
the gain and the poles. -/
noncomputable def cheby1ap (filter_order : ℤ) (ripple_db : ℝ) : ℝ × List ℂ :=
  let eps : ℝ := Real.sqrt ((10 : ℝ) ^ (0.1 * ripple_db) - 1)
  let mu : ℝ := 1 / (filter_order : ℝ) * Real.arsinh (1 / eps)
  let theta : ℕ → ℝ := fun i =>
    Real.pi * ((-filter_order + 1 + 2 * (i : ℤ) : ℤ) : ℝ) / (2 * (filter_order : ℝ))
  let p : List ℂ := (List.range filter_order.toNat).map (fun (i : ℕ) =>
    -Complex.sinh (Complex.mk mu (theta i)))
  let k_c : ℂ := (p.map (fun x => -x)).prod
  let k : ℝ := k_c.re
  let k : ℝ := if filter_order % 2 = 0 then k / Real.sqrt (1 + eps * eps) else k
  (k, p)

/-- Mirror of `LowpassFilter::_zpklp2lp`: the gain and the poles moved to the
cutoff `wo`. -/
noncomputable def _zpklp2lp (p : List ℂ) (k wo : ℝ) : ℝ × List ℂ :=
  (k * wo ^ p.length, p.map (fun x => x * (wo : ℂ)))

/-- Mirror of `LowpassFilter::_zpkbilinear`: the gain, the zeros and the poles
after the bilinear transform. -/
noncomputable def _zpkbilinear (p : List ℂ) (k : ℝ) : ℝ × List ℂ × List ℂ :=
  let fs2 : ℝ := 4
  let factor_denum : ℂ := (p.map (fun x => (fs2 : ℂ) - x)).prod
  let factor_denum : ℂ := 1 / factor_denum
  (k * factor_denum.re, List.replicate p.length (-1 : ℂ),
    p.map (fun x => ((fs2 : ℂ) + x) / ((fs2 : ℂ) - x)))

/-- Mirror of `LowpassFilter::convolve`; a read outside `x` or `y` cannot occur
for the index bounds of the source and is written with a zero default. -/
def convolve (x y : List ℂ) : List ℂ :=
  let x1 := if y.length > x.length then y else x
  let y1 := if y.length > x.length then x else y
  (List.range (x1.length + y1.length - 1)).map (fun (i : ℕ) =>
    let kmin : ℕ := if i ≥ y1.length - 1 then i - (y1.length - 1) else 0
    let kmax : ℕ := if i < x1.length - 1 then i else x1.length - 1
    ((List.range (kmax + 1 - kmin)).map (fun (j : ℕ) =>
      x1.getD (kmin + j) 0 * y1.getD (i - (kmin + j)) 0)).sum)

/-- Mirror of `LowpassFilter::poly`: the coefficients of the monic polynomial
with the given zeros. -/
def poly (sequence_of_zeros : List ℂ) : List ℂ :=
  sequence_of_zeros.foldl (fun result zero => convolve result [1, -zero]) [1]

/-- Mirror of `LowpassFilter::zpk2tf`: the pair `(b, a)`. -/
def zpk2tf (z p : List ℂ) (k : ℝ) : List ℝ × List ℝ :=
  ((poly z).map (fun c => k * c.re), (poly p).map (fun c => c.re))

/-- Mirror of `LowpassFilter::cheby1`: the pair `(b, a)`, or `none` where the
source throws `invalid_argument`. -/
noncomputable def cheby1 (filter_order : ℤ) (ripple_db cutoff : ℝ) :
    Option (List ℝ × List ℝ) :=
  if cutoff ≤ 0 ∨ cutoff > 1 then none
  else
    let kp := cheby1ap filter_order ripple_db
    let warped_cutoff : ℝ := 4 * Real.tan (Real.pi * cutoff / 2)
    let kp := _zpklp2lp kp.2 kp.1 warped_cutoff
    let kzp := _zpkbilinear kp.2 kp.1
    some (zpk2tf kzp.2.1 kzp.2.2 kzp.1)

/-- Mirror of `LowpassFilter::init`: designs `b`, `a` and zeroes the memory. -/
noncomputable def init (f : LowpassFilter) : Option LowpassFilter :=
  (cheby1 f.order f.rippleLevel f.cutoff).map (fun ba =>
    { f with b := ba.1, a := ba.2, z := List.replicate f.order.toNat 0 })

/-- Mirror of the constructor `LowpassFilter(cutoff, order, rippleLevel)`: the
limits of the attributes are `[0, 1]` for the cutoff and `order ≥ 1`. -/
noncomputable def create (cutoff : ℝ) (order : ℤ) (rippleLevel : ℝ) : Option LowpassFilter :=
  if cutoff < 0 ∨ cutoff > 1 ∨ order < 1 then none
  else init { cutoff := cutoff, order := order, rippleLevel := rippleLevel, b := [], a := [], z := [] }

/-- Mirror of `cutoff.set(value)` on a filter: the limit check of the attribute
(`[0, 1]`), then the notification, which runs `init`. -/
noncomputable def setCutoff (f : LowpassFilter) (value : ℝ) : Option LowpassFilter :=
  if value < 0 ∨ value > 1 then none else init { f with cutoff := value }

/-- Loop of `LowpassFilter::filter` over `i = 0 .. order - 2`, written on the
memory as a list: entry `i` becomes `b[i + 1] * value + z[i + 1] - a[i + 1] * y`
and the last entry `b[order] * value - a[order] * y`. -/
def filterMemory (b a : List ℝ) (value filtered_value : ℝ) : ℕ → List ℝ → Option (List ℝ)
  | _, [] => some []
  | i, [_] => do
    let bi ← b[i + 1]?
    let ai ← a[i + 1]?
    some [bi * value - ai * filtered_value]
  | i, _ :: z1 :: rest => do
    let bi ← b[i + 1]?
    let ai ← a[i + 1]?
    let tail ← filterMemory b a value filtered_value (i + 1) (z1 :: rest)
    some ((bi * value + z1 - ai * filtered_value) :: tail)

/-- Mirror of `LowpassFilter::filter`: the output and the filter with its new
memory; `none` when the memory has not `order` entries, `order ≥ 1`, or a
coefficient is missing (an access outside a vector in the source). -/
def filter (f : LowpassFilter) (value : ℝ) : Option (ℝ × LowpassFilter) :=
  if f.order < 1 ∨ (f.z.length : ℤ) ≠ f.order then none
  else do
    let b0 ← f.b[0]?
    let z0 ← f.z[0]?
    let filtered_value : ℝ := b0 * value + z0
    let z ← filterMemory f.b f.a value filtered_value 0 f.z
    some (filtered_value, { f with z := z })

end LowpassFilter

/-! ## Ring buffers and ordered maps -/

/-- State of a `boost::circular_buffer<float>`: its capacity and its elements,
oldest first (`items[0]` is `buffer[0]`). -/
structure CircularBuffer where
  capacity : ℕ
  items : List ℝ

namespace CircularBuffer

/-- A default-constructed buffer: no capacity, no element. -/
def empty : CircularBuffer :=
  { capacity := 0, items := [] }

/-- Mirror of `circular_buffer::size`. -/
def size (c : CircularBuffer) : ℕ :=
  c.items.length

/-- Mirror of `circular_buffer::push_back`: appends, overwriting the oldest
element when the buffer is full; does nothing when the capacity is zero. -/
def push_back (c : CircularBuffer) (v : ℝ) : CircularBuffer :=
  if c.capacity = 0 then c
  else if c.items.length < c.capacity then { c with items := c.items ++ [v] }
  else { c with items := c.items.drop 1 ++ [v] }

/-- Mirror of `circular_buffer::clear`: removes the elements, keeps the
capacity. -/
def clear (c : CircularBuffer) : CircularBuffer :=
  { c with items := [] }

/-- Mirror of `circular_buffer::resize(new_size)`: a larger size appends zeros
(and raises the capacity to `new_size` when it is exceeded), a smaller size
removes the last elements and keeps the capacity. -/
def resize (c : CircularBuffer) (new_size : ℕ) : CircularBuffer :=
  if new_size > c.items.length then
    { capacity := if new_size > c.capacity then new_size else c.capacity,
      items := c.items ++ List.replicate (new_size - c.items.length) 0 }
  else { c with items := c.items.take new_size }

/-- The loop `for (i = 0; i < n; ++i) buffer.push_back(v)`. -/
def push_back_n (c : CircularBuffer) (v : ℝ) : ℕ → CircularBuffer
  | 0 => c
  | n + 1 => push_back_n (c.push_back v) v n

end CircularBuffer

/-- The statement `m[key] = f(m[key])` on a `std::map<int, T>` kept as the list
of its entries in increasing key order: `m[key]` inserts the default value
`dflt` at its place when the key is absent. -/
def mapUpdate {β : Type} (dflt : β) (f : β → β) (key : ℤ) : List (ℤ × β) → List (ℤ × β)
  | [] => [(key, f dflt)]
  | (k, v) :: rest =>
    if key < k then (key, f dflt) :: (k, v) :: rest
    else if key = k then (k, f v) :: rest
    else (k, v) :: mapUpdate dflt f key rest

/-- Mirror of `std::map::count` on the list of entries. -/
def mapCount {β : Type} (key : ℤ) (m : List (ℤ × β)) : ℕ :=
  (m.filter (fun e => e.1 = key)).length

/-! ## The filterbank (womaFilterbank): state and `init` -/

/-- Optimisation level: `woma::Filterbank::Optimisation`. -/
inductive Optimisation where
  | None
  | Standard1
  | Standard2
  | Aggressive1
  | Aggressive2
  deriving DecidableEq, Repr

/-- State of `woma::Filterbank`: the values of its attributes, the public
result vectors and the protected members. -/
structure Filterbank where
  frequency_min : ℝ
  frequency_max : ℝ
  bands_per_octave : ℝ
  optimisation : Optimisation
  family : Family
  rescale : Bool
  scales : List ℝ
  frequencies : List ℝ
  downsampling_factors : List ℤ
  result_complex : List ℂ
  result_power : List ℝ
  data_ : List (ℤ × CircularBuffer)
  filters_ : List (ℤ × LowpassFilter)
  wavelets_ : List Wavelet
  reference_wavelet_ : Wavelet
  frame_index_ : ℤ

namespace Wavelet

/-- Mirror of `samplerate.set(value)` on a wavelet: the limit check of the
attribute (lower limit 0), then the notification, which runs `init`. -/
noncomputable def setSamplerate (w : Wavelet) (value : ℝ) : Option Wavelet :=
  if value < 0 then none else some (init { w with samplerate := value })

/-- Mirror of `scale.set(value)` on a wavelet: the limit check of the attribute
(lower limit 0), then the notification, which runs `init`. -/
noncomputable def setScale (w : Wavelet) (value : ℝ) : Option Wavelet :=
  if value < 0 then none else some (init { w with scale := value })

end Wavelet

namespace Filterbank

/-- Local `scale_0` of `Filterbank::init`. -/
noncomputable def scale_0 (fb : Filterbank) : ℝ :=
  2 / fb.reference_wavelet_.samplerate

/-- Local `min_scale` of `Filterbank::init`. -/
noncomputable def min_scale (fb : Filterbank) : ℝ :=
  fb.reference_wavelet_.frequency2scale fb.frequency_max

/-- Local `max_scale` of `Filterbank::init`. -/
noncomputable def max_scale (fb : Filterbank) : ℝ :=
  fb.reference_wavelet_.frequency2scale fb.frequency_min

/-- Local `min_index` of `Filterbank::init`:
`1 + long(log2(min_scale / scale_0) * bands_per_octave)`. -/
noncomputable def min_index (fb : Filterbank) : ℤ :=
  1 + truncToInt (Real.logb 2 (fb.min_scale / fb.scale_0) * fb.bands_per_octave)

/-- Local `max_index` of `Filterbank::init`:
`1 + long(log2(max_scale / scale_0) * bands_per_octave)`. -/
noncomputable def max_index (fb : Filterbank) : ℤ :=
  1 + truncToInt (Real.logb 2 (fb.max_scale / fb.scale_0) * fb.bands_per_octave)

/-- The length `max_index - min_index` given to the `resize` calls of
`Filterbank::init` (which is reached only when it is not negative). -/
noncomputable def bandCount (fb : Filterbank) : ℕ :=
  (fb.max_index - fb.min_index).toNat

/-- The scale assigned at position `i` by the first loop of `Filterbank::init`:
`scale_0 * pow(2., double(scale_index) / bands_per_octave)` with
`scale_index = min_index + i`. -/
noncomputable def scaleAt (fb : Filterbank) (i : ℕ) : ℝ :=
  fb.scale_0 * (2 : ℝ) ^ ((((fb.min_index + (i : ℤ)) : ℤ) : ℝ) / fb.bands_per_octave)

/-- The vector `scales` after the first loop of `Filterbank::init`, of length
`n = max_index - min_index`. -/
noncomputable def initScales (fb : Filterbank) (n : ℕ) : List ℝ :=
  (List.range n).map fb.scaleAt

/-- The vector `frequencies` after the first loop of `Filterbank::init`. -/
noncomputable def initFrequencies (fb : Filterbank) (n : ℕ) : List ℝ :=
  (fb.initScales n).map fb.reference_wavelet_.scale2frequency

/-- The divisor of the sample rate in the second loop of `Filterbank::init`: 8
for `Standard1` and `Aggressive1`, 4 otherwise. -/
def rateDivisor (o : Optimisation) : ℝ :=
  if o = Optimisation.Standard1 ∨ o = Optimisation.Aggressive1 then 8 else 4

/-- The factor assigned to a band of frequency `frequency` by the second loop
of `Filterbank::init`: `static_cast<int>(samplerate_ratio)`, raised to 1. -/
noncomputable def factorOf (fb : Filterbank) (frequency : ℝ) : ℤ :=
  let samplerate_ratio : ℝ :=
    (fb.reference_wavelet_.samplerate / rateDivisor fb.optimisation) / frequency
  let d : ℤ := truncToInt samplerate_ratio
  if d > 1 then d else 1

/-- The vector `downsampling_factors` after the second loop of
`Filterbank::init`: recomputed when an optimisation is selected, left as it was
otherwise. -/
noncomputable def initFactors (fb : Filterbank) (n : ℕ) : List ℤ :=
  if fb.optimisation ≠ Optimisation.None then (fb.initFrequencies n).map fb.factorOf
  else fb.downsampling_factors

/-- One round of the wavelet loop of `Filterbank::init`: a copy of the reference
wavelet, its sample rate divided by the factor when an optimisation is selected
(`factor = some d`), its scale, its default window size. -/
noncomputable def initWavelet (fb : Filterbank) (scale : ℝ) (factor : Option ℤ) :
    Option Wavelet := do
  let w := fb.reference_wavelet_.copy
  let w ← match factor with
    | none => some w
    | some d => w.setSamplerate (fb.reference_wavelet_.samplerate / (d : ℝ))
  let w ← w.setScale scale
  some w.setDefaultWindowsize

/-- The vector `wavelets_` after the wavelet loop of `Filterbank::init` (the two
branches of the `switch` differ only in the class of the copy, which is the
class of the reference wavelet). -/
noncomputable def initWavelets (fb : Filterbank) (scales : List ℝ) (factors : List ℤ) :
    Option (List Wavelet) :=
  if fb.optimisation ≠ Optimisation.None then
    (List.range scales.length).mapM (fun (i : ℕ) => do
      let s ← scales[i]?
      let d ← factors[i]?
      fb.initWavelet s (some d))
  else
    (List.range scales.length).mapM (fun (i : ℕ) => do
      let s ← scales[i]?
      fb.initWavelet s none)

/-- One round of the buffer loop of `Filterbank::init` for a band of window size
`window_size` and factor `d`: the buffer keyed by `d` is resized to
`window_size * d` and cleared, and a filter of cutoff `0.8 / d` is installed
when `d > 1` has none yet (`filters_[d]` constructs the default filter, of
cutoff 1, order 4 and ripple 0.05, before its cutoff is assigned). -/
noncomputable def initBufferStep
    (st : List (ℤ × CircularBuffer) × List (ℤ × LowpassFilter)) (band : ℕ × ℤ) :
    Option (List (ℤ × CircularBuffer) × List (ℤ × LowpassFilter)) :=
  let data := mapUpdate CircularBuffer.empty
    (fun c => (c.resize (band.1 * band.2.toNat)).clear) band.2 st.1
  if band.2 > 1 ∧ mapCount band.2 st.2 = 0 then do
    let dflt ← LowpassFilter.create 1 4 0.05
    let flt ← dflt.setCutoff (0.8 / (band.2 : ℝ))
    some (data, mapUpdate flt id band.2 st.2)
  else some (data, st.2)

/-- The maps `data_` and `filters_` at the end of `Filterbank::init`, from the
wavelets and the factors computed before. -/
noncomputable def initBuffers (fb : Filterbank) (wavelets : List Wavelet) (factors : List ℤ) :
    Option (List (ℤ × CircularBuffer) × List (ℤ × LowpassFilter)) :=
  if fb.optimisation = Optimisation.None then do
    let last ← wavelets[wavelets.length - 1]?
    some (mapUpdate CircularBuffer.empty (fun c => c.resize last.window_size) 1 [], [])
  else do
    let bands ← (List.range wavelets.length).mapM (fun (i : ℕ) => do
      let w ← wavelets[i]?
      let d ← factors[i]?
      some (w.window_size, d))
    bands.foldlM initBufferStep ([], [])

/-- Mirror of `Filterbank::init`.  The result is `none` where the source throws
or has undefined behaviour: a negative length `max_index - min_index`, a
reference wavelet that is not of the class selected by `family`, a rejected
attribute value, no band at all when no optimisation is selected. -/
noncomputable def init (fb : Filterbank) : Option Filterbank :=
  if fb.max_index < fb.min_index then none
  else if fb.family ≠ fb.reference_wavelet_.family then none
  else do
    let n : ℕ := fb.bandCount
    let scales := fb.initScales n
    let frequencies := fb.initFrequencies n
    let factors := fb.initFactors n
    let wavelets ← fb.initWavelets scales factors
    let buffers ← fb.initBuffers wavelets factors
    some { fb with
      scales := scales
      frequencies := frequencies
      downsampling_factors := if fb.optimisation = Optimisation.None then [] else factors
      wavelets_ := wavelets
      data_ := buffers.1
      filters_ := buffers.2
      frame_index_ := 0
      result_complex := List.replicate wavelets.length 0
      result_power := List.replicate wavelets.length 0 }

/-- The members of a filterbank when its constructor reaches `init`: the four
attribute values, no optimisation, rescaling on, the given reference wavelet,
empty vectors and maps. -/
def members (frequency_min_ frequency_max_ bands_per_octave_ : ℝ) (family_ : Family)
    (reference : Wavelet) : Filterbank :=
  { frequency_min := frequency_min_, frequency_max := frequency_max_,
    bands_per_octave := bands_per_octave_, optimisation := Optimisation.None,
    family := family_, rescale := true, scales := [], frequencies := [],
    downsampling_factors := [], result_complex := [], result_power := [], data_ := [],
    filters_ := [], wavelets_ := [], reference_wavelet_ := reference, frame_index_ := 0 }

/-- Mirror of the constructor `Filterbank(samplerate, frequency_min,
frequency_max, bands_per_octave)`: the limit checks of the three attributes
(`frequency_min` in `[1e-12, frequency_max]`, `frequency_max` in
`[frequency_min, samplerate / 2]`, `bands_per_octave ≥ 1`), the reference wavelet
of the default family, Morlet, then `init`. -/
noncomputable def create (samplerate_ frequency_min_ frequency_max_ bands_per_octave_ : ℝ) :
    Option Filterbank :=
  if frequency_min_ < 1e-12 ∨ frequency_min_ > frequency_max_ then none
  else if frequency_max_ < frequency_min_ ∨ frequency_max_ > samplerate_ / 2 then none
  else if bands_per_octave_ < 1 then none
  else do
    let reference ← MorletWavelet.create samplerate_
    init (members frequency_min_ frequency_max_ bands_per_octave_ Family.Morlet reference)

/-- Mirror of `Filterbank::size`. -/
def size (fb : Filterbank) : ℕ :=
  fb.wavelets_.length

/-- Mirror of `Filterbank::reset`: every buffer is cleared and the frame
counter is zeroed; nothing else changes. -/
def reset (fb : Filterbank) : Filterbank :=
  { fb with
    data_ := fb.data_.map (fun e => (e.1, e.2.clear))
    frame_index_ := 0 }

/-! ## The filterbank: `update` -/

/-- The buffer statement of `Filterbank::update` for the rate-1 buffer: a push
when the buffer holds elements, `2 * capacity - 1` pushes of the value when it
is empty. -/
def fillRaw (c : CircularBuffer) (value : ℝ) : CircularBuffer :=
  if c.size > 0 then c.push_back value
  else c.push_back_n value (2 * c.capacity - 1)

/-- The loop `for (i = 0; i < n; ++i) filtered_value = filter(value)`: the last
output (`last` when `n = 0`) and the filter after the `n` calls. -/
def filter_n (f : LowpassFilter) (value : ℝ) : ℕ → ℝ → Option (ℝ × LowpassFilter)
  | 0, last => some (last, f)
  | n + 1, _ => do
    let r ← f.filter value
    filter_n r.2 value n r.1

/-- The body of the filter loop of `Filterbank::update` for one filter and the
buffer under `data_it`: the filter is advanced on `value`; the output is pushed
when the buffer holds elements; on an empty buffer the filter is advanced
`2 * capacity - 1` more times on `value` and the last output is pushed
`2 * capacity - 1` times. -/
def fillFilteredStep (flt : LowpassFilter) (c : CircularBuffer) (value : ℝ) :
    Option (LowpassFilter × CircularBuffer) := do
  let r ← flt.filter value
  if c.size > 0 then some (r.2, c.push_back r.1)
  else do
    let r2 ← filter_n r.2 value (2 * c.capacity - 1) r.1
    some (r2.2, c.push_back_n r2.1 (2 * c.capacity - 1))

/-- The filter loop of `Filterbank::update`: `filters_it` walks the filters and
`data_it` the buffers, in step; a buffer missing for a filter is a dereferenced
end iterator. -/
def fillFiltered (value : ℝ) :
    List (ℤ × LowpassFilter) → List (ℤ × CircularBuffer) →
      Option (List (ℤ × LowpassFilter) × List (ℤ × CircularBuffer))
  | [], ds => some ([], ds)
  | _ :: _, [] => none
  | (kf, flt) :: fs, (kd, c) :: ds => do
    let r ← fillFilteredStep flt c value
    let rest ← fillFiltered value fs ds
    some ((kf, r.1) :: rest.1, (kd, r.2) :: rest.2)

/-- The first half of `Filterbank::update` ("Update Buffers"): the new maps
`filters_` and `data_`. -/
def fillBuffers (fb : Filterbank) (value : ℝ) :
    Option (List (ℤ × LowpassFilter) × List (ℤ × CircularBuffer)) := do
  let first ← fb.data_[0]?
  let head : List (ℤ × CircularBuffer) :=
    if first.1 = 1 then [(first.1, fillRaw first.2 value)] else []
  let rest : List (ℤ × CircularBuffer) :=
    if first.1 = 1 then fb.data_.drop 1 else fb.data_
  if fb.optimisation ≠ Optimisation.None then do
    let r ← fillFiltered value fb.filters_ rest
    some (r.1, head ++ r.2)
  else some (fb.filters_, head ++ rest)

/-- The data loop of `Filterbank::update`:
`for (; data_index < size; data_index += decim, wvt_index++)
   result += complex(buffer[data_index], 0) * conj(values[wvt_index])`.
A zero step, with which the source would not terminate, is `none`. -/
def dataLoop (items : List ℝ) (values : List ℂ) (decim : ℕ)
    (data_index wvt_index : ℕ) (acc : ℂ) : Option ℂ :=
  if data_index < items.length then
    if decim = 0 then none
    else
      match items[data_index]?, values[wvt_index]? with
      | some x, some v =>
        dataLoop items values decim (data_index + decim) (wvt_index + 1)
          (acc + (x : ℂ) * (starRingEnd ℂ) v)
      | _, _ => none
  else some acc
termination_by items.length - data_index
decreasing_by omega

/-- The coefficient of one band in `Filterbank::update`, from the buffer under
`data_it` and the wavelet of the band: padding before, data loop, padding
after, rescaling, factor `sqrt(decim)`.  When `decim * window_size` exceeds the
size of the buffer the start index wraps around in `std::size_t` and the data
loop does not run. -/
noncomputable def bandCoefficient (rescale : Bool) (entry : ℤ × CircularBuffer) (w : Wavelet) :
    Option ℂ := do
  let c := entry.2
  let first : ℝ ← c.items[0]?
  let acc : ℂ := (first : ℂ) * w.prepad_value_
  let decim : ℕ := entry.1.toNat
  let acc ←
    if decim * w.window_size ≤ c.size then
      dataLoop c.items w.values decim (c.size - decim * w.window_size) 0 acc
    else some acc
  let last : ℝ ← c.items[c.size - 1]?
  let acc : ℂ := acc + (last : ℂ) * w.postpad_value_
  let acc : ℂ := if rescale then acc / ((Real.sqrt w.scale : ℝ) : ℂ) else acc
  some (acc * ((Real.sqrt (decim : ℝ) : ℝ) : ℂ))

/-- The variables carried by the band loop of `Filterbank::update`. -/
structure BandCursor where
  data_it : ℕ
  previous_downrate : ℤ
  result_complex : List ℂ
  result_power : List ℝ

/-- The first statement of a round of the band loop of `Filterbank::update`:
with an optimisation selected, a factor that differs from `previous_downrate`
moves `data_it` on (except at the first band) and becomes `previous_downrate`. -/
def walkCursor (fb : Filterbank) (cur : BandCursor) (filter_index : ℕ) : Option BandCursor :=
  if fb.optimisation ≠ Optimisation.None then
    (fb.downsampling_factors[filter_index]?).bind (fun d =>
      if d ≠ cur.previous_downrate then
        some { cur with
          data_it := if filter_index > 0 then cur.data_it + 1 else cur.data_it
          previous_downrate := d }
      else some cur)
  else some cur

/-- The test of a round of the band loop of `Filterbank::update` that skips the
band: an aggressive optimisation is selected and
`frame_index_ % downsampling_factors[filter_index] != 0` (a zero factor is a
division by zero). -/
def skipTest (fb : Filterbank) (filter_index : ℕ) : Option Bool :=
  if fb.optimisation = Optimisation.Aggressive1 ∨
      fb.optimisation = Optimisation.Aggressive2 then
    (fb.downsampling_factors[filter_index]?).bind (fun d =>
      if d = 0 then none else some (decide (Int.tmod fb.frame_index_ d ≠ 0)))
  else some false

/-- One round of the band loop of `Filterbank::update`, over the buffers `data`
filled by the first half: the walk of `data_it`, the skip test, then the
coefficient of the band, stored with its squared modulus. -/
noncomputable def updateBand (fb : Filterbank) (data : List (ℤ × CircularBuffer))
    (cur : BandCursor) (filter_index : ℕ) : Option BandCursor :=
  (fb.wavelets_[filter_index]?).bind (fun w =>
    (walkCursor fb cur filter_index).bind (fun cur =>
      (skipTest fb filter_index).bind (fun skip =>
        if skip then some cur
        else
          (data[cur.data_it]?).bind (fun entry =>
            (bandCoefficient fb.rescale entry w).bind (fun c =>
              if filter_index < cur.result_complex.length ∧
                  filter_index < cur.result_power.length then
                some { cur with
                  result_complex := cur.result_complex.set filter_index c
                  result_power := cur.result_power.set filter_index (Complex.normSq c) }
              else none)))))

/-- Mirror of `Filterbank::update`. -/
noncomputable def update (fb : Filterbank) (value : ℝ) : Option Filterbank := do
  let filled ← fillBuffers fb value
  let cur ← (List.range fb.wavelets_.length).foldlM (updateBand fb filled.2)
    { data_it := 0, previous_downrate := 1,
      result_complex := fb.result_complex, result_power := fb.result_power }
  some { fb with
    filters_ := filled.1
    data_ := filled.2
    result_complex := cur.result_complex
    result_power := cur.result_power
    frame_index_ := fb.frame_index_ + 1 }

/-- Feeding a sequence of samples through `update`, the way `process_online`
does after its `reset`: the filterbank after the last sample and the vector
`result_complex` read after each sample. -/
noncomputable def feed (fb : Filterbank) : List ℝ → Option (Filterbank × List (List ℂ))
  | [] => some (fb, [])
  | v :: vs => do
    let fb1 ← fb.update v
    let r ← feed fb1 vs
    some (r.1, fb1.result_complex :: r.2)

end Filterbank

/-! ## Definitions used by the statements -/

namespace Filterbank

/-- The conditions of a valid configuration: a positive sample rate,
`0 < frequency_min ≤ frequency_max ≤ samplerate / 2`, at least one band per
octave (the lower limit of the attribute), and a reference wavelet of the
selected family (which the constructor and the setters maintain). -/
structure Valid (fb : Filterbank) : Prop where
  samplerate_pos : 0 < fb.reference_wavelet_.samplerate
  frequency_min_pos : 0 < fb.frequency_min
  min_le_max : fb.frequency_min ≤ fb.frequency_max
  max_le_nyquist : fb.frequency_max ≤ fb.reference_wavelet_.samplerate / 2
  bands_per_octave_ge : 1 ≤ fb.bands_per_octave
  family_eq : fb.family = fb.reference_wavelet_.family

end Filterbank

/-- A filterbank with the default Morlet reference wavelet at sample rate 100
when its constructor reaches `init`. -/
noncomputable def sampleBank (fmin fmax bpo : ℝ) : Filterbank :=
  Filterbank.members fmin fmax bpo Family.Morlet (Wavelet.init (MorletWavelet.members 100))

/-- The filterbank of the test "Filterbank: Scales": sample rate 100,
frequencies from 1 to 30, 4 bands per octave, Morlet. -/
noncomputable def scenarioBank : Filterbank :=
  sampleBank 1 30 4

/-- The filterbank of the test "Filterbank: Scales" with an optimisation
selected, when `init` is reached. -/
noncomputable def optimisedBank (o : Optimisation) : Filterbank :=
  { scenarioBank with optimisation := o }

/-- The filterbank `Filterbank(100, 1, 50, 4)` when its constructor reaches
`init`: the maximum frequency is the Nyquist frequency. -/
noncomputable def nyquistBank : Filterbank :=
  sampleBank 1 50 4

/-- The filterbank `Filterbank(100, 46, 50, 8)` when its constructor reaches
`init`. -/
noncomputable def narrowBank : Filterbank :=
  sampleBank 46 50 8

namespace Filterbank

/-- The sum computed by the data loop of `Filterbank::update` on a buffer of
elements `items`, for a band of window size `W` read with step `decim`: tap `k`
multiplies the element at index `size - decim * W + k * decim` by the conjugate
of `values[k]`. -/
noncomputable def tapSum (items : List ℝ) (values : List ℂ) (decim W : ℕ) : ℂ :=
  ((List.range W).map (fun (k : ℕ) =>
    ((items.getD (items.length - decim * W + k * decim) 0 : ℝ) : ℂ) *
      (starRingEnd ℂ) (values.getD k 0))).sum

/-- The coefficient of a band before the rescaling and the factor `sqrt(decim)`:
`buf[0] * prepad + Σ_k buf[size - (W - k) * decim] * conj(values[k]) +
buf[size - 1] * postpad`. -/
noncomputable def rawCoefficient (decim : ℕ) (c : CircularBuffer) (w : Wavelet) : ℂ :=
  ((c.items.getD 0 0 : ℝ) : ℂ) * w.prepad_value_ +
    tapSum c.items w.values decim w.window_size +
    ((c.items.getD (c.items.length - 1) 0 : ℝ) : ℂ) * w.postpad_value_

/-- The coefficient of a band as `Filterbank::update` stores it: the raw
coefficient, divided by `sqrt(scale)` when `rescale` is set, times
`sqrt(decim)`. -/
noncomputable def coefficientOf (rescale : Bool) (decim : ℕ) (c : CircularBuffer) (w : Wavelet) :
    ℂ :=
  (if rescale then rawCoefficient decim c w / ((Real.sqrt w.scale : ℝ) : ℂ)
    else rawCoefficient decim c w) * ((Real.sqrt (decim : ℝ) : ℝ) : ℂ)

end Filterbank

namespace LowpassFilter

/-- The sizes `LowpassFilter::init` establishes: `order ≥ 1`, a memory of `order`
entries and `order + 1` coefficients in `b` and in `a`. -/
def Sized (f : LowpassFilter) : Prop :=
  1 ≤ f.order ∧ (f.z.length : ℤ) = f.order ∧ f.b.length = f.z.length + 1 ∧
    f.a.length = f.z.length + 1

/-- The output of `LowpassFilter::filter` in closed form: `b[0] * value + z[0]`. -/
def output (f : LowpassFilter) (value : ℝ) : ℝ :=
  f.b.getD 0 0 * value + f.z.getD 0 0

/-- The memory after `LowpassFilter::filter` in closed form: entry `i` is
`b[i + 1] * value + z[i + 1] - a[i + 1] * y`, with `z[order] = 0`. -/
def nextMemory (f : LowpassFilter) (value : ℝ) : List ℝ :=
  (List.range f.z.length).map (fun (i : ℕ) =>
    f.b.getD (i + 1) 0 * value + f.z.getD (i + 1) 0 - f.a.getD (i + 1) 0 * f.output value)

/-- The filter after `LowpassFilter::filter` in closed form. -/
def step (f : LowpassFilter) (value : ℝ) : LowpassFilter :=
  { f with z := f.nextMemory value }

/-- The filter after `n` calls of `LowpassFilter::filter` on the same value. -/
def stepN (f : LowpassFilter) (value : ℝ) : ℕ → LowpassFilter
  | 0 => f
  | n + 1 => stepN (f.step value) value n

/-- The last output of `n` calls of `LowpassFilter::filter` on the same value
(`last` when `n = 0`). -/
def outputN (f : LowpassFilter) (value : ℝ) : ℕ → ℝ → ℝ
  | 0, last => last
  | n + 1, _ => outputN (f.step value) value n (f.output value)

end LowpassFilter

namespace CircularBuffer

/-- The states a ring buffer of the filterbank is in between two calls: a
capacity of at least one element, and either no element or as many as the
capacity. -/
def Sound (c : CircularBuffer) : Prop :=
  1 ≤ c.capacity ∧ (c.items.length = 0 ∨ c.items.length = c.capacity)

/-- The buffer statement of `Filterbank::update` in closed form: an empty
buffer is filled to its capacity with the value, a full one drops its oldest
element and takes the value as its newest. -/
def fill (c : CircularBuffer) (v : ℝ) : CircularBuffer :=
  { c with
    items := if c.items.length = 0 then List.replicate c.capacity v else c.items.drop 1 ++ [v] }

end CircularBuffer

namespace Filterbank

/-- The value pushed into the buffer `c` by the body of the filter loop of
`Filterbank::update`, in closed form. -/
def filteredValue (flt : LowpassFilter) (c : CircularBuffer) (value : ℝ) : ℝ :=
  if c.items.length = 0 then
    (flt.step value).outputN value (2 * c.capacity - 1) (flt.output value)
  else flt.output value

/-- The filter after the body of the filter loop of `Filterbank::update`, in
closed form. -/
def feedFilter (flt : LowpassFilter) (c : CircularBuffer) (value : ℝ) : LowpassFilter :=
  if c.items.length = 0 then (flt.step value).stepN value (2 * c.capacity - 1)
  else flt.step value

/-- The buffers after the filter loop of `Filterbank::update`, in closed form:
the buffers paired with a filter take its output, the others are untouched. -/
def fillFilteredData (value : ℝ) :
    List (ℤ × LowpassFilter) → List (ℤ × CircularBuffer) → List (ℤ × CircularBuffer)
  | (_, flt) :: fs, (kd, c) :: ds =>
    (kd, c.fill (filteredValue flt c value)) :: fillFilteredData value fs ds
  | _, ds => ds

/-- The filters after the filter loop of `Filterbank::update`, in closed
form. -/
def fillFilteredFilters (value : ℝ) :
    List (ℤ × LowpassFilter) → List (ℤ × CircularBuffer) → List (ℤ × LowpassFilter)
  | (kf, flt) :: fs, (_, c) :: ds => (kf, feedFilter flt c value) :: fillFilteredFilters value fs ds
  | fs, _ => fs

/-- The map `data_` after the first half of `Filterbank::update`, in closed
form. -/
def nextData (fb : Filterbank) (value : ℝ) : List (ℤ × CircularBuffer) :=
  match fb.data_ with
  | [] => []
  | first :: rest =>
    if first.1 = 1 then
      (first.1, first.2.fill value) ::
        (if fb.optimisation ≠ Optimisation.None then fillFilteredData value fb.filters_ rest
          else rest)
    else
      (if fb.optimisation ≠ Optimisation.None then
          fillFilteredData value fb.filters_ (first :: rest)
        else first :: rest)

/-- The map `filters_` after the first half of `Filterbank::update`, in closed
form. -/
def nextFilters (fb : Filterbank) (value : ℝ) : List (ℤ × LowpassFilter) :=
  match fb.data_ with
  | [] => fb.filters_
  | first :: rest =>
    if fb.optimisation ≠ Optimisation.None then
      fillFilteredFilters value fb.filters_ (if first.1 = 1 then rest else first :: rest)
    else fb.filters_

end Filterbank

namespace Filterbank

/-- The position in `data_` of the buffer `data_it` points to when the band
loop of `Filterbank::update` computes band `j`: `data_it` starts at the first
buffer and moves on by one at every band, after the first, whose factor differs
from the factor of the band before; it does not move when no optimisation is
selected. -/
def bandPos (fb : Filterbank) : ℕ → ℕ
  | 0 => 0
  | j + 1 =>
    if fb.optimisation ≠ Optimisation.None ∧
        fb.downsampling_factors.getD (j + 1) 0 ≠ fb.downsampling_factors.getD j 0 then
      bandPos fb j + 1
    else bandPos fb j

/-- The decimation factor of band `j`: `downsampling_factors[j]`, and 1 when no
optimisation is selected. -/
def bandFactor (fb : Filterbank) (j : ℕ) : ℤ :=
  if fb.optimisation = Optimisation.None then 1 else fb.downsampling_factors.getD j 1

/-- Whether the band loop of `Filterbank::update` skips band `j`: an aggressive
optimisation is selected and `frame_index_ % downsampling_factors[j] != 0`. -/
def skips (fb : Filterbank) (j : ℕ) : Bool :=
  decide ((fb.optimisation = Optimisation.Aggressive1 ∨
      fb.optimisation = Optimisation.Aggressive2) ∧
    Int.tmod fb.frame_index_ (fb.downsampling_factors.getD j 1) ≠ 0)

/-- The entry `result_complex[j]` after the band loop of `Filterbank::update`
over the filled buffers `data`, in closed form: the former entry when the band
is skipped, the coefficient of the band on the buffer under `data_it`
otherwise. -/
noncomputable def bandResult (fb : Filterbank) (data : List (ℤ × CircularBuffer)) (j : ℕ) : ℂ :=
  if fb.skips j then fb.result_complex.getD j 0
  else
    match data[fb.bandPos j]?, fb.wavelets_[j]? with
    | some e, some w => coefficientOf fb.rescale e.1.toNat e.2 w
    | _, _ => 0

/-- The entry `result_power[j]` after the band loop, in closed form. -/
noncomputable def bandPower (fb : Filterbank) (data : List (ℤ × CircularBuffer)) (j : ℕ) : ℝ :=
  if fb.skips j then fb.result_power.getD j 0
  else Complex.normSq (fb.bandResult data j)

/-- The filterbank after `Filterbank::update`, in closed form. -/
noncomputable def next (fb : Filterbank) (value : ℝ) : Filterbank :=
  { fb with
    filters_ := fb.nextFilters value
    data_ := fb.nextData value
    result_complex := (List.range fb.wavelets_.length).map (fb.bandResult (fb.nextData value))
    result_power := (List.range fb.wavelets_.length).map (fb.bandPower (fb.nextData value))
    frame_index_ := fb.frame_index_ + 1 }

/-- The states of a configured filterbank: what `init` establishes and `update`
and `reset` keep.  The result vectors have one entry per band; there is a
buffer, every buffer has a capacity and is empty or full, the keys increase;
every filter has its coefficients and memory, and there is one filter for every
buffer but the one of rate 1; with no optimisation the only buffer is the one
of rate 1; the factors are at least 1, one per band; every kernel has
`window_size` values; and the buffer `data_it` reaches at band `j` is keyed by
the factor of the band and holds `window_size * factor` elements or more. -/
structure Ready (fb : Filterbank) : Prop where
  result_complex_length : fb.result_complex.length = fb.wavelets_.length
  result_power_length : fb.result_power.length = fb.wavelets_.length
  data_nonempty : fb.data_ ≠ []
  buffers_sound : ∀ e ∈ fb.data_, e.2.Sound
  keys_sorted : (fb.data_.map Prod.fst).Pairwise (fun a b => a < b)
  filters_sized : ∀ e ∈ fb.filters_, e.2.Sized
  filters_length : fb.optimisation ≠ Optimisation.None →
    ∀ first rest, fb.data_ = first :: rest →
      fb.filters_.length = (if first.1 = 1 then rest else first :: rest).length
  none_single : fb.optimisation = Optimisation.None → ∃ c, fb.data_ = [(1, c)]
  factors_length : fb.optimisation ≠ Optimisation.None →
    fb.downsampling_factors.length = fb.wavelets_.length
  factors_pos : fb.optimisation ≠ Optimisation.None → ∀ d ∈ fb.downsampling_factors, 1 ≤ d
  values_length : ∀ w ∈ fb.wavelets_, w.values.length = w.window_size
  aligned : ∀ j, j < fb.wavelets_.length →
    ∃ e w, fb.data_[fb.bandPos j]? = some e ∧ fb.wavelets_[j]? = some w ∧
      e.1 = fb.bandFactor j ∧ 1 ≤ e.1 ∧ e.1.toNat * w.window_size ≤ e.2.capacity

end Filterbank
namespace Filterbank

/-- The variables of the band loop of `Filterbank::update` after its first `m`
rounds over the filled buffers `data`, in closed form. -/
noncomputable def cursorAfter (fb : Filterbank) (data : List (ℤ × CircularBuffer)) (m : ℕ) :
    BandCursor :=
  { data_it := if m = 0 then 0 else fb.bandPos (m - 1)
    previous_downrate :=
      if m = 0 ∨ fb.optimisation = Optimisation.None then 1
      else fb.downsampling_factors.getD (m - 1) 1
    result_complex := (List.range fb.wavelets_.length).map (fun (j : ℕ) =>
      if j < m then fb.bandResult data j else fb.result_complex.getD j 0)
    result_power := (List.range fb.wavelets_.length).map (fun (j : ℕ) =>
      if j < m then fb.bandPower data j else fb.result_power.getD j 0) }

end Filterbank

/-- The number of positions `i` in `1 .. j` at which the list of factors
changes (`ds[i] ≠ ds[i - 1]`): the number of steps of `data_it` up to band
`j`. -/
def changes (ds : List ℤ) : ℕ → ℕ
  | 0 => 0
  | j + 1 => if ds.getD (j + 1) 0 ≠ ds.getD j 0 then changes ds j + 1 else changes ds j

/-- The state of the maps `data_` and `filters_` after the first `m` rounds of
the buffer loop of `Filterbank::init` over the bands `bands` (window size and
factor of each band). -/
structure BuffersInv (bands : List (ℕ × ℤ)) (m : ℕ)
    (st : List (ℤ × CircularBuffer) × List (ℤ × LowpassFilter)) : Prop where
  keys_sorted : (st.1.map Prod.fst).Pairwise (fun a b => a < b)
  buffers : ∀ e ∈ st.1, e.2.items = [] ∧ 1 ≤ e.2.capacity ∧ 1 ≤ e.1
  empty : m = 0 → st.1 = [] ∧ st.2 = []
  last : 0 < m → ∃ pre c, st.1 = pre ++ [((bands.map Prod.snd).getD (m - 1) 0, c)] ∧
    pre.length = changes (bands.map Prod.snd) (m - 1)
  aligned : ∀ j, j < m → ∃ e, st.1[changes (bands.map Prod.snd) j]? = some e ∧
    e.1 = (bands.map Prod.snd).getD j 0 ∧
    e.1.toNat * (bands.map Prod.fst).getD j 0 ≤ e.2.capacity
  filter_keys : st.2.map Prod.fst = (st.1.map Prod.fst).filter (fun k => decide (1 < k))
  filters_sized : ∀ f ∈ st.2, f.2.Sized

namespace Filterbank

/-- Feeding a sequence of samples through the closed form `next` of `update`:
the filterbank after the last sample and the vector `result_complex` after each
sample. -/
noncomputable def run (fb : Filterbank) : List ℝ → Filterbank × List (List ℂ)
  | [] => (fb, [])
  | v :: vs => ((run (fb.next v) vs).1, (fb.next v).result_complex :: (run (fb.next v) vs).2)

/-- The relation of the rescaling law between the two result vectors `rt`
(rescaling on) and `rf` (rescaling off) at band `j` of `fb`: both are the same
coefficient `C` times `sqrt(d)`, the first one divided by `sqrt(scale)` before,
for the scale of the kernel of the band and the factor `d` of the band. -/
def RescaleLaw (fb : Filterbank) (rt rf : List ℂ) (j : ℕ) : Prop :=
  ∃ (C : ℂ) (w : Wavelet), fb.wavelets_[j]? = some w ∧
    rf.getD j 0 = C * ((Real.sqrt (((fb.bandFactor j).toNat : ℕ) : ℝ) : ℝ) : ℂ) ∧
    rt.getD j 0 = C / ((Real.sqrt w.scale : ℝ) : ℂ) *
      ((Real.sqrt (((fb.bandFactor j).toNat : ℕ) : ℝ) : ℝ) : ℂ)

end Filterbank

/-- The reference wavelet of a Morlet filterbank of sample rate 100 after its
attributes `delay` and `padding` have been set to 0, each assignment running
`init` on the wavelet. -/
noncomputable def plainReference : Wavelet :=
  Wavelet.init { Wavelet.init { Wavelet.init (MorletWavelet.members 100) with delay := 0 } with
    padding := 0 }

/-- The filterbank `Filterbank(100, 1, 30, 4)` after `setAttribute("delay", 0)`
and `setAttribute("padding", 0)`, when `init` is reached (`init` reads the
attributes and the reference wavelet only). -/
noncomputable def plainBank : Filterbank :=
  Filterbank.members 1 30 4 Family.Morlet plainReference

namespace Filterbank

/-- The coefficient of a band before the rescaling as the specification states
it: `buf[0] * prepad + Σ_k buf[end - 1 - (W - 1 - k) * d] * conj(values[k]) +
buf[end - 1] * postpad`, with `end` the number of elements of the buffer. -/
noncomputable def statedCoefficient (decim : ℕ) (c : CircularBuffer) (w : Wavelet) : ℂ :=
  ((c.items.getD 0 0 : ℝ) : ℂ) * w.prepad_value_ +
    ((List.range w.window_size).map (fun (k : ℕ) =>
      ((c.items.getD (c.items.length - 1 - (w.window_size - 1 - k) * decim) 0 : ℝ) : ℂ) *
        (starRingEnd ℂ) (w.values.getD k 0))).sum +
    ((c.items.getD (c.items.length - 1) 0 : ℝ) : ℂ) * w.postpad_value_

end Filterbank

namespace LowpassFilter

/-- A filter as `init` leaves it: its coefficients and memory in place, the
memory zero, and a leading coefficient `b[0]` that is not zero. -/
def AtRest (f : LowpassFilter) : Prop :=
  f.Sized ∧ (∀ x ∈ f.z, x = 0) ∧ f.b.getD 0 0 ≠ 0

end LowpassFilter

namespace Wavelet

/-- Mirror of `window_size.set(value)` on a wavelet: the limit check of the
attribute (lower limit 1), then the notification, which runs `init`. -/
noncomputable def setWindowsize (w : Wavelet) (value : ℕ) : Option Wavelet :=
  if value < 1 then none else some (init { w with window_size := value })

end Wavelet

/-- The kernel of the test "MorletWavelet: Values (Recursive)":
`MorletWavelet morlet(100)` followed by `morlet.window_size.set(8)`. -/
noncomputable def morletEight : Option Wavelet :=
  (MorletWavelet.create 100).bind (fun w => w.setWindowsize 8)

/-! ## Attributes (womaAttribute) -/

/-- The exception classes the library throws: `std::domain_error` (a value
outside the limits of an attribute), `std::out_of_range` (an unknown attribute
name), `std::runtime_error` (a name that is not shared, a value of the wrong
type), `boost::bad_any_cast` (before `setAttribute` turns it into a runtime
error) and `std::invalid_argument` (the cutoff check of
`LowpassFilter::cheby1`). -/
inductive Failure where
  | domain_error
  | out_of_range
  | runtime_error
  | bad_any_cast
  | invalid_argument
  deriving DecidableEq, Repr

/-- The result of a member function on an object of state `σ`: a normal return
with the state it leaves, an exception with the state it leaves, or undefined
behaviour. -/
inductive Outcome (σ : Type) where
  | ok (state : σ)
  | thrown (e : Failure) (state : σ)
  | undefined

/-- State of a `woma::Attribute<T>`: the value, the two limits, the flag
`changed` and whether a parent is attached (`parent_ != nullptr`). -/
structure Attribute (α : Type) where
  value : α
  limit_min : α
  limit_max : α
  changed : Bool
  has_parent : Bool

/-- Mirror of `checkLimits<T>` for the ordered types (`float`, `double`,
`size_t`, the enumerations): `domain_error` when the value is below the lower
or above the upper limit. -/
def checkLimits {α : Type} [LT α] [DecidableRel (fun (a b : α) => a < b)]
    (value limit_min limit_max : α) : Option Failure :=
  if value < limit_min ∨ value > limit_max then some Failure.domain_error else none

/-- Mirror of `checkLimits<bool>`, which accepts every value. -/
def checkLimitsBool (_value _limit_min _limit_max : Bool) : Option Failure :=
  none

namespace Attribute

/-- Mirror of `Attribute<T>::set(value, silently)`, for an attribute that is a
member of a parent of state `σ`.  `check` is the `checkLimits` of the type and
`notify` the `onAttributeChange` of the parent, which receives the attribute
as it is at the call and the state of the parent, and may change both. -/
def set {α σ : Type} (check : α → α → α → Option Failure) (a : Attribute α) (value : α)
    (silently : Bool) (notify : Attribute α → σ → Outcome (Attribute α × σ)) (parent : σ) :
    Outcome (Attribute α × σ) :=
  match check value a.limit_min a.limit_max with
  | some e => Outcome.thrown e (a, parent)
  | none =>
    if !silently && a.has_parent then notify { a with value := value, changed := true } parent
    else Outcome.ok ({ a with value := value, changed := true }, parent)

/-- Mirror of `Attribute<T>::get`. -/
def get {α : Type} (a : Attribute α) : α :=
  a.value

/-- A parent that counts the calls of its `onAttributeChange` and leaves the
attribute untouched. -/
def countingParent {α : Type} (a : Attribute α) (calls : ℕ) : Outcome (Attribute α × ℕ) :=
  Outcome.ok (a, calls + 1)

end Attribute

/-- An attribute of value 30 with the limits `[10, 50]` and a parent
attached. -/
def sampleAttribute : Attribute ℕ :=
  { value := 30, limit_min := 10, limit_max := 50, changed := false, has_parent := true }

/-! ## Attributes by name (`setAttribute`, `getAttribute`) -/

/-- The type of the value held by a `boost::any`. -/
inductive AnyKind where
  | float
  | double
  | size_t
  | unsigned
  | bool
  | family
  | optimisation
  | mode
  | other
  deriving DecidableEq, Repr

/-- A `boost::any` argument or result: a value with its type (`other` stands
for a value of any type the library does not cast to). -/
inductive AnyValue where
  | float (x : ℝ)
  | double (x : ℝ)
  | size_t (n : ℕ)
  | unsigned (n : ℕ)
  | bool (b : Bool)
  | family (f : Family)
  | optimisation (o : Optimisation)
  | mode (m : WaveletDomain)
  | other

/-- The type of the value held. -/
def AnyValue.kind : AnyValue → AnyKind
  | AnyValue.float _ => AnyKind.float
  | AnyValue.double _ => AnyKind.double
  | AnyValue.size_t _ => AnyKind.size_t
  | AnyValue.unsigned _ => AnyKind.unsigned
  | AnyValue.bool _ => AnyKind.bool
  | AnyValue.family _ => AnyKind.family
  | AnyValue.optimisation _ => AnyKind.optimisation
  | AnyValue.mode _ => AnyKind.mode
  | AnyValue.other => AnyKind.other

namespace Wavelet

/-- Mirror of `Wavelet::setAttribute_internal` of the base class: the cast of
the value to the type of the attribute (`bad_any_cast` on another type), the
limit check of the attribute (`domain_error`), the assignment and the
notification, which runs `init`; `out_of_range` on a name the base class does
not know.  The lower limits are 0 for `samplerate`, `scale`, `delay` and
`padding` and 1 for `window_size`; every `mode` is within its limits. -/
noncomputable def setAttribute_base (w : Wavelet) (attr_name : String) (attr_value : AnyValue) :
    Outcome Wavelet :=
  if attr_name = "samplerate" then
    match attr_value with
    | AnyValue.float x =>
      if x < 0 then Outcome.thrown Failure.domain_error w
      else Outcome.ok (init { w with samplerate := x })
    | _ => Outcome.thrown Failure.bad_any_cast w
  else if attr_name = "scale" then
    match attr_value with
    | AnyValue.double x =>
      if x < 0 then Outcome.thrown Failure.domain_error w
      else Outcome.ok (init { w with scale := x })
    | _ => Outcome.thrown Failure.bad_any_cast w
  else if attr_name = "window_size" then
    match attr_value with
    | AnyValue.size_t n =>
      if n < 1 then Outcome.thrown Failure.domain_error w
      else Outcome.ok (init { w with window_size := n })
    | _ => Outcome.thrown Failure.bad_any_cast w
  else if attr_name = "mode" then
    match attr_value with
    | AnyValue.mode m => Outcome.ok (init { w with mode := m })
    | _ => Outcome.thrown Failure.bad_any_cast w
  else if attr_name = "delay" then
    match attr_value with
    | AnyValue.float x =>
      if x < 0 then Outcome.thrown Failure.domain_error w
      else Outcome.ok (init { w with delay := x })
    | _ => Outcome.thrown Failure.bad_any_cast w
  else if attr_name = "padding" then
    match attr_value with
    | AnyValue.float x =>
      if x < 0 then Outcome.thrown Failure.domain_error w
      else Outcome.ok (init { w with padding := x })
    | _ => Outcome.thrown Failure.bad_any_cast w
  else Outcome.thrown Failure.out_of_range w

/-- The handler of `out_of_range` in `MorletWavelet::setAttribute_internal` and
`PaulWavelet::setAttribute_internal`: `omega0` (a `float`, lower limit 0) on a
Morlet wavelet; `order` on a Paul wavelet, cast to `float` and converted to
`unsigned int` (undefined for a value that does not fit), lower limit 1; the
exception is thrown again on any other name. -/
noncomputable def setAttribute_family (w : Wavelet) (attr_name : String)
    (attr_value : AnyValue) : Outcome Wavelet :=
  match w.family with
  | Family.Morlet =>
    if attr_name = "omega0" then
      match attr_value with
      | AnyValue.float x =>
        if x < 0 then Outcome.thrown Failure.domain_error w
        else Outcome.ok (init { w with omega0 := x })
      | _ => Outcome.thrown Failure.bad_any_cast w
    else Outcome.thrown Failure.out_of_range w
  | Family.Paul =>
    if attr_name = "order" then
      match attr_value with
      | AnyValue.float x =>
        if x ≤ -1 ∨ (2 : ℝ) ^ 32 ≤ x then Outcome.undefined
        else if truncToNat x < 1 then Outcome.thrown Failure.domain_error w
        else Outcome.ok (init { w with order := truncToNat x })
      | _ => Outcome.thrown Failure.bad_any_cast w
    else Outcome.thrown Failure.out_of_range w

/-- Mirror of the virtual `setAttribute_internal` of a wavelet (and of
`Wavelet::setAttribute`, which only wraps the value): the base class first,
the class of the wavelet when the base class throws `out_of_range`. -/
noncomputable def setAttribute_internal (w : Wavelet) (attr_name : String)
    (attr_value : AnyValue) : Outcome Wavelet :=
  match setAttribute_base w attr_name attr_value with
  | Outcome.thrown Failure.out_of_range _ => setAttribute_family w attr_name attr_value
  | r => r

/-- Mirror of the virtual `getAttribute_internal` of a wavelet: the attributes
of the base class, then `omega0` (Morlet) or `order` (Paul); `out_of_range` on
any other name. -/
def getAttribute_internal (w : Wavelet) (attr_name : String) : Except Failure AnyValue :=
  if attr_name = "samplerate" then Except.ok (AnyValue.float w.samplerate)
  else if attr_name = "scale" then Except.ok (AnyValue.double w.scale)
  else if attr_name = "window_size" then Except.ok (AnyValue.size_t w.window_size)
  else if attr_name = "mode" then Except.ok (AnyValue.mode w.mode)
  else if attr_name = "delay" then Except.ok (AnyValue.float w.delay)
  else if attr_name = "padding" then Except.ok (AnyValue.float w.padding)
  else
    match w.family with
    | Family.Morlet =>
      if attr_name = "omega0" then Except.ok (AnyValue.float w.omega0)
      else Except.error Failure.out_of_range
    | Family.Paul =>
      if attr_name = "order" then Except.ok (AnyValue.unsigned w.order)
      else Except.error Failure.out_of_range

end Wavelet

/-! ## The filterbank as an object: construction and attributes by name -/

/-- The result of a constructor: the object built, an exception, or undefined
behaviour. -/
inductive Construction (σ : Type) where
  | built (state : σ)
  | failed (e : Failure)
  | undefined

/-- A `woma::Filterbank` object between two calls: its members (attribute
values, reference wavelet, vectors, maps, frame counter) and the limits of its
attributes that change: the upper limit of `frequency_min` and the two limits
of `frequency_max`.  The other limits are constants (`1e-12` below
`frequency_min`, 1 below `bands_per_octave`, the whole enumeration for
`optimisation` and `family`), and the flags `changed` are lowered by
`onAttributeChange` before a setter returns. -/
structure FilterbankObject where
  members : Filterbank
  frequency_min_limit_max : ℝ
  frequency_max_limit_min : ℝ
  frequency_max_limit_max : ℝ

/-- Position of an optimisation level in its enumeration. -/
def Optimisation.rank : Optimisation → ℕ
  | Optimisation.None => 0
  | Optimisation.Standard1 => 1
  | Optimisation.Standard2 => 2
  | Optimisation.Aggressive1 => 3
  | Optimisation.Aggressive2 => 4

/-- Position of a family in its enumeration. -/
def Family.rank : Family → ℕ
  | Family.Morlet => 0
  | Family.Paul => 1

namespace FilterbankObject

/-- Mirror of `Filterbank::onAttributeChange`: for the attribute `family` the
reference wavelet is replaced by a new wavelet of the family at the same sample
rate (its constructor may throw); then `init`.  A sample rate of 0 makes
`scale_0` infinite and the conversions of `init` undefined; `init` is also
undefined when it enumerates no band with no optimisation selected. -/
noncomputable def onAttributeChange (obj : FilterbankObject) (is_family : Bool) :
    Outcome FilterbankObject :=
  let reference : Option Wavelet :=
    if is_family then
      match obj.members.family with
      | Family.Morlet => MorletWavelet.create obj.members.reference_wavelet_.samplerate
      | Family.Paul => PaulWavelet.create obj.members.reference_wavelet_.samplerate
    else some obj.members.reference_wavelet_
  match reference with
  | none => Outcome.thrown Failure.domain_error obj
  | some w =>
    if w.samplerate = 0 then Outcome.undefined
    else
      match Filterbank.init { obj.members with reference_wavelet_ := w } with
      | some m => Outcome.ok { obj with members := m }
      | none => Outcome.undefined

/-- A setter of an attribute of the filterbank: `Attribute::set` on the
attribute of value `current` and limits `[lo, hi]`, not silently, with the
filterbank as parent: the handler stores the value of the attribute (a member
of the object) and runs `onAttributeChange`. -/
noncomputable def setMember {α : Type} (check : α → α → α → Option Failure)
    (obj : FilterbankObject) (current lo hi value : α) (store : Filterbank → α → Filterbank)
    (is_family : Bool) : Outcome FilterbankObject :=
  match Attribute.set check
      { value := current, limit_min := lo, limit_max := hi, changed := false, has_parent := true }
      value false
      (fun a o =>
        match onAttributeChange { o with members := store o.members a.value } is_family with
        | Outcome.ok o1 => Outcome.ok ({ a with changed := false }, o1)
        | Outcome.thrown e o1 => Outcome.thrown e (a, o1)
        | Outcome.undefined => Outcome.undefined)
      obj with
  | Outcome.ok r => Outcome.ok r.2
  | Outcome.thrown e r => Outcome.thrown e r.2
  | Outcome.undefined => Outcome.undefined

end FilterbankObject

/-- The largest finite value of the type `float`,
`std::numeric_limits<float>::max()`: the default upper limit of an attribute of
that type. -/
def FLT_MAX : ℝ := 340282346638528859811704183484516925440

namespace FilterbankObject

/-- Mirror of `Filterbank::setAttribute_internal`.  The attributes of the
filterbank are cast (`bad_any_cast` on another type) and set, which runs
`init`; `frequency_min` and `frequency_max` then move the limit of the other
one.  Any other name but `scale` and `window_size` goes to the reference
wavelet; `samplerate` then moves the upper limit of `frequency_max` to half the
value, and `init` runs. -/
noncomputable def setAttribute_internal (obj : FilterbankObject) (attr_name : String)
    (attr_value : AnyValue) : Outcome FilterbankObject :=
  if attr_name = "frequency_min" then
    match attr_value with
    | AnyValue.float x =>
      match setMember checkLimits obj obj.members.frequency_min 1e-12
          obj.frequency_min_limit_max x (fun m v => { m with frequency_min := v }) false with
      | Outcome.ok o => Outcome.ok { o with frequency_max_limit_min := o.members.frequency_min }
      | r => r
    | _ => Outcome.thrown Failure.bad_any_cast obj
  else if attr_name = "frequency_max" then
    match attr_value with
    | AnyValue.float x =>
      match setMember checkLimits obj obj.members.frequency_max obj.frequency_max_limit_min
          obj.frequency_max_limit_max x (fun m v => { m with frequency_max := v }) false with
      | Outcome.ok o => Outcome.ok { o with frequency_min_limit_max := o.members.frequency_max }
      | r => r
    | _ => Outcome.thrown Failure.bad_any_cast obj
  else if attr_name = "bands_per_octave" then
    match attr_value with
    | AnyValue.float x =>
      setMember checkLimits obj obj.members.bands_per_octave 1 FLT_MAX x
        (fun m v => { m with bands_per_octave := v }) false
    | _ => Outcome.thrown Failure.bad_any_cast obj
  else if attr_name = "family" then
    match attr_value with
    | AnyValue.family f =>
      setMember (fun v lo hi => checkLimits v.rank lo.rank hi.rank) obj obj.members.family
        Family.Morlet Family.Paul f (fun m v => { m with family := v }) true
    | _ => Outcome.thrown Failure.bad_any_cast obj
  else if attr_name = "optimisation" then
    match attr_value with
    | AnyValue.optimisation o =>
      setMember (fun v lo hi => checkLimits v.rank lo.rank hi.rank) obj
        obj.members.optimisation Optimisation.None Optimisation.Aggressive2 o
        (fun m v => { m with optimisation := v }) false
    | _ => Outcome.thrown Failure.bad_any_cast obj
  else if attr_name = "rescale" then
    match attr_value with
    | AnyValue.bool b =>
      setMember checkLimitsBool obj obj.members.rescale false true b
        (fun m v => { m with rescale := v }) false
    | _ => Outcome.thrown Failure.bad_any_cast obj
  else if attr_name ≠ "scale" ∧ attr_name ≠ "window_size" then
    match obj.members.reference_wavelet_.setAttribute_internal attr_name attr_value with
    | Outcome.ok w =>
      if attr_name = "samplerate" then
        match attr_value with
        | AnyValue.float x =>
          onAttributeChange
            { obj with
              members := { obj.members with reference_wavelet_ := w }
              frequency_max_limit_max := x / 2 } false
        | _ =>
          Outcome.thrown Failure.bad_any_cast
            { obj with members := { obj.members with reference_wavelet_ := w } }
      else
        onAttributeChange { obj with members := { obj.members with reference_wavelet_ := w } }
          false
    | Outcome.thrown e _ => Outcome.thrown e obj
    | Outcome.undefined => Outcome.undefined
  else Outcome.thrown Failure.runtime_error obj

/-- Mirror of the template `Filterbank::setAttribute`: `bad_any_cast` becomes a
`runtime_error`. -/
noncomputable def setAttribute (obj : FilterbankObject) (attr_name : String)
    (attr_value : AnyValue) : Outcome FilterbankObject :=
  match setAttribute_internal obj attr_name attr_value with
  | Outcome.thrown Failure.bad_any_cast s => Outcome.thrown Failure.runtime_error s
  | r => r

/-- Mirror of `Filterbank::getAttribute_internal`. -/
def getAttribute_internal (obj : FilterbankObject) (attr_name : String) :
    Except Failure AnyValue :=
  if attr_name = "frequency_min" then Except.ok (AnyValue.float obj.members.frequency_min)
  else if attr_name = "frequency_max" then Except.ok (AnyValue.float obj.members.frequency_max)
  else if attr_name = "bands_per_octave" then
    Except.ok (AnyValue.float obj.members.bands_per_octave)
  else if attr_name = "optimisation" then
    Except.ok (AnyValue.optimisation obj.members.optimisation)
  else if attr_name = "family" then Except.ok (AnyValue.family obj.members.family)
  else if attr_name = "rescale" then Except.ok (AnyValue.bool obj.members.rescale)
  else if attr_name ≠ "scale" ∧ attr_name ≠ "window_size" then
    obj.members.reference_wavelet_.getAttribute_internal attr_name
  else Except.error Failure.runtime_error

/-- Mirror of the template `Filterbank::getAttribute<T>`: the cast of the
result to the type `T` asked for, `runtime_error` when it holds another
type. -/
def getAttribute (obj : FilterbankObject) (attr_name : String) (T : AnyKind) :
    Except Failure AnyValue :=
  match getAttribute_internal obj attr_name with
  | Except.ok a => if a.kind = T then Except.ok a else Except.error Failure.runtime_error
  | Except.error e => Except.error e

end FilterbankObject

namespace FilterbankObject

/-- Mirror of the constructor `Filterbank(samplerate, frequency_min,
frequency_max, bands_per_octave)`: the attributes are constructed in the order
of their declaration, each one checking its value against its limits
(`frequency_min` in `[1e-12, frequency_max]`, `frequency_max` in
`[frequency_min, samplerate / 2]`, `bands_per_octave` in `[1, FLT_MAX]`); then
the reference wavelet of the default family, Morlet, and `init`. -/
noncomputable def construct (samplerate_ frequency_min_ frequency_max_ bands_per_octave_ : ℝ) :
    Construction FilterbankObject :=
  match checkLimits frequency_min_ 1e-12 frequency_max_ with
  | some e => Construction.failed e
  | none =>
    match checkLimits frequency_max_ frequency_min_ (samplerate_ / 2) with
    | some e => Construction.failed e
    | none =>
      match checkLimits bands_per_octave_ 1 FLT_MAX with
      | some e => Construction.failed e
      | none =>
        match MorletWavelet.create samplerate_ with
        | none => Construction.failed Failure.domain_error
        | some reference =>
          match Filterbank.init (Filterbank.members frequency_min_ frequency_max_
              bands_per_octave_ Family.Morlet reference) with
          | some m =>
            Construction.built
              { members := m, frequency_min_limit_max := frequency_max_,
                frequency_max_limit_min := frequency_min_,
                frequency_max_limit_max := samplerate_ / 2 }
          | none => Construction.undefined

/-- Mirror of `Filterbank::reset` on the object. -/
def reset (obj : FilterbankObject) : FilterbankObject :=
  { obj with members := obj.members.reset }

/-- Mirror of `Filterbank::update` on the object; an access outside a buffer
or a vector is undefined behaviour. -/
noncomputable def update (obj : FilterbankObject) (value : ℝ) : Outcome FilterbankObject :=
  match obj.members.update value with
  | some m => Outcome.ok { obj with members := m }
  | none => Outcome.undefined

/-- The states of a filterbank object: the object a constructor call returns,
and the states reached from there through `setAttribute` (whether it returns
or throws), `reset` and `update`. -/
inductive Reachable : FilterbankObject → Prop where
  | construct (samplerate_ frequency_min_ frequency_max_ bands_per_octave_ : ℝ)
      (obj : FilterbankObject)
      (h : FilterbankObject.construct samplerate_ frequency_min_ frequency_max_
        bands_per_octave_ = Construction.built obj) : Reachable obj
  | setAttribute (obj obj1 : FilterbankObject) (attr_name : String) (attr_value : AnyValue)
      (h : Reachable obj) (hs : obj.setAttribute attr_name attr_value = Outcome.ok obj1) :
      Reachable obj1
  | thrown (obj obj1 : FilterbankObject) (attr_name : String) (attr_value : AnyValue)
      (e : Failure) (h : Reachable obj)
      (hs : obj.setAttribute attr_name attr_value = Outcome.thrown e obj1) : Reachable obj1
  | reset (obj : FilterbankObject) (h : Reachable obj) : Reachable obj.reset
  | update (obj obj1 : FilterbankObject) (value : ℝ) (h : Reachable obj)
      (hu : obj.update value = Outcome.ok obj1) : Reachable obj1

/-- What holds in every reachable state: the coupled limits of the two
frequencies, `1e-12 ≤ frequency_min ≤ frequency_max`, a positive sample rate,
at least one band per octave, a reference wavelet of the selected family, and
members as `init` leaves them and `update` and `reset` keep them when there is
a band. -/
structure Consistent (obj : FilterbankObject) : Prop where
  limit_max_eq : obj.frequency_min_limit_max = obj.members.frequency_max
  limit_min_eq : obj.frequency_max_limit_min = obj.members.frequency_min
  frequency_min_ge : 1e-12 ≤ obj.members.frequency_min
  min_le_max : obj.members.frequency_min ≤ obj.members.frequency_max
  samplerate_pos : 0 < obj.members.reference_wavelet_.samplerate
  bands_per_octave_ge : 1 ≤ obj.members.bands_per_octave
  family_eq : obj.members.family = obj.members.reference_wavelet_.family
  ready : 0 < obj.members.size → obj.members.Ready

end FilterbankObject

/-! ## Definitions for the constructor of the filter, the delays and the Paul wavelet -/

/-- The largest value of the type `int`, the default upper limit of an
attribute of that type. -/
def INT_MAX : ℤ := 2 ^ 31 - 1

namespace LowpassFilter

/-- Mirror of the constructor `LowpassFilter(cutoff, order, rippleLevel)` with
the exception it throws: the attributes are constructed in the order of their
declaration, each one checking its value against its limits (`cutoff` in
`[0, 1]`, `order` in `[1, INT_MAX]`, no limit on `rippleLevel`) with
`domain_error`; then `init` runs `cheby1`, which throws `invalid_argument` for
a cutoff that is not in `(0, 1]`. -/
noncomputable def construct (cutoff_ : ℝ) (order_ : ℤ) (rippleLevel_ : ℝ) :
    Construction LowpassFilter :=
  match checkLimits cutoff_ 0 1 with
  | some e => Construction.failed e
  | none =>
    match checkLimits order_ 1 INT_MAX with
    | some e => Construction.failed e
    | none =>
      match init { cutoff := cutoff_, order := order_, rippleLevel := rippleLevel_,
                   b := [], a := [], z := [] } with
      | some f => Construction.built f
      | none => Construction.failed Failure.invalid_argument

end LowpassFilter

namespace Filterbank

/-- Mirror of `Filterbank::delaysInSamples`: for every band the product
`delay * eFoldingTime * samplerate` of the kernel of the band and the sample
rate of the reference wavelet, to which the factor of the band is added when an
optimisation is selected and the factor exceeds 1; the sum is converted to
`int`. -/
noncomputable def delaysInSamples (fb : Filterbank) : Option (List ℤ) :=
  (List.range fb.wavelets_.length).mapM (fun (i : ℕ) => do
    let wav ← fb.wavelets_[i]?
    if fb.optimisation ≠ Optimisation.None then do
      let d ← fb.downsampling_factors[i]?
      some (truncToInt (wav.delay * wav.eFoldingTime * fb.reference_wavelet_.samplerate +
        (((if d > 1 then d else 0 : ℤ)) : ℝ)))
    else
      some (truncToInt (wav.delay * wav.eFoldingTime * fb.reference_wavelet_.samplerate)))

end Filterbank

namespace PaulWavelet

/-- The Paul wavelet as the specification states it, with the exact
factorials: `(2i)^m * m! / sqrt(pi * (2m)!) * (1 - i * arg)^(-(m + 1)) *
(scale * sample_rate)^(-1/2)`. -/
noncomputable def statedPhi (m : ℕ) (scale samplerate arg : ℝ) : ℂ :=
  (2 * Complex.I) ^ m * ((Nat.factorial m : ℕ) : ℂ) /
      ((Real.sqrt (Real.pi * ((Nat.factorial (2 * m) : ℕ) : ℝ)) : ℝ) : ℂ) *
    (1 - Complex.I * (arg : ℂ)) ^ (-((m : ℤ) + 1)) *
    (((scale * samplerate) ^ (-(1 / 2) : ℝ) : ℝ) : ℂ)

end PaulWavelet

namespace LowpassFilter

/-- Mirror of `order.set(value)` on a filter: the limit check of the attribute
(`[1, INT_MAX]`), then the notification, which runs `init`; `none` where the
source throws. -/
noncomputable def setOrder (f : LowpassFilter) (value : ℤ) : Option LowpassFilter :=
  if value < 1 ∨ value > INT_MAX then none else init { f with order := value }

/-- Mirror of `rippleLevel.set(value)` on a filter: the attribute has no limit;
the notification runs `init`. -/
noncomputable def setRippleLevel (f : LowpassFilter) (value : ℝ) : Option LowpassFilter :=
  init { f with rippleLevel := value }

/-- Successive calls of `LowpassFilter::filter` on the samples of a sequence:
the outputs, in order, and the filter after the last call. -/
def filterSeq (f : LowpassFilter) : List ℝ → Option (List ℝ × LowpassFilter)
  | [] => some ([], f)
  | x :: xs => do
    let r ← f.filter x
    let rest ← filterSeq r.2 xs
    some (r.1 :: rest.1, rest.2)

/-- The bilinear step as the specification states it: all the zeros at `-1`,
each pole `p` mapped to `(fs2 + p) / (fs2 - p)` with `fs2 = 4`, and the gain
divided by the real part of the product of the `fs2 - p`. -/
noncomputable def statedBilinear (p : List ℂ) (k : ℝ) : ℝ × List ℂ × List ℂ :=
  (k / ((p.map (fun x => (4 : ℂ) - x)).prod).re, List.replicate p.length (-1 : ℂ),
    p.map (fun x => ((4 : ℂ) + x) / ((4 : ℂ) - x)))

end LowpassFilter

namespace Filterbank

/-- The buffers the filter loop of `Filterbank::update` walks in step with the
filters: `data_it` starts at `data_.begin()` and is moved on by one when the
first buffer has the key 1. -/
def filteredBuffers (fb : Filterbank) : List (ℤ × CircularBuffer) :=
  match fb.data_ with
  | [] => []
  | first :: rest => if first.1 = 1 then rest else first :: rest

/-- The body of the filter loop of `update` as the specification states it, to
be compared with `fillFilteredStep`: on an empty buffer the filter is first
advanced on `2 * capacity - 1` inputs equal to `value`, whose outputs are
discarded, and then the next `2 * capacity - 1` outputs of the filter on
`value` are pushed; on a buffer that holds elements the filter is advanced once
and its output is pushed. -/
def statedWarmup (flt : LowpassFilter) (c : CircularBuffer) (value : ℝ) :
    Option (LowpassFilter × CircularBuffer) :=
  if c.size > 0 then do
    let r ← flt.filter value
    some (r.2, c.push_back r.1)
  else do
    let warm ← flt.filterSeq (List.replicate (2 * c.capacity - 1) value)
    let fed ← warm.2.filterSeq (List.replicate (2 * c.capacity - 1) value)
    some (fed.2, fed.1.foldl CircularBuffer.push_back c)

end Filterbank

/-! # Theorems -/

/-! ## Scale and frequency -/

theorem Wavelet.scale2frequency_eq_div (w : Wavelet) (s : ℝ) :
    w.scale2frequency s = w.scale2frequency 1 / s := by
  unfold Wavelet.scale2frequency
  cases w.family <;>
    simp only [MorletWavelet.scale2frequency, PaulWavelet.scale2frequency, mul_one] <;>
    rw [div_div]

theorem Wavelet.frequency2scale_eq_div (w : Wavelet) (f : ℝ) :
    w.frequency2scale f = w.scale2frequency 1 / f := by
  unfold Wavelet.scale2frequency Wavelet.frequency2scale
  cases w.family <;>
    simp only [MorletWavelet.scale2frequency, MorletWavelet.frequency2scale,
      PaulWavelet.scale2frequency, PaulWavelet.frequency2scale, mul_one] <;>
    rw [div_div]

theorem Wavelet.scale2frequency_one_pos (w : Wavelet) : 0 < w.scale2frequency 1 := by
  open woma.MorletWavelet in
    have numerator_pos : ∀ (x : ℝ), 0 < x + Real.sqrt (2 + x * x) := by
      intro x
      have h1 : |x| < Real.sqrt (2 + x * x) := by
        apply Real.lt_sqrt_of_sq_lt
        rw [sq_abs]; nlinarith
      have h2 := neg_abs_le x
      linarith
  unfold Wavelet.scale2frequency
  cases w.family
  · simp only [MorletWavelet.scale2frequency, mul_one]
    exact div_pos (numerator_pos _) (by positivity)
  · simp only [PaulWavelet.scale2frequency, mul_one]
    have h : 0 < (2 * w.order + 1) % 2 ^ 32 := by omega
    have h2 : (0 : ℝ) < (((2 * w.order + 1) % 2 ^ 32 : ℕ) : ℝ) := by exact_mod_cast h
    exact div_pos h2 (by positivity)

/-- C9. Scale/frequency inverse: for every kernel (Morlet or Paul, whatever its
`omega0` or `order`), `scale2frequency (frequency2scale f) = f` for every
`f > 0` and `frequency2scale (scale2frequency s) = s` for every `s > 0`. -/
theorem scale_frequency_inverse (w : Wavelet) (f s : ℝ) (hf : 0 < f) (hs : 0 < s) :
    w.scale2frequency (w.frequency2scale f) = f ∧
      w.frequency2scale (w.scale2frequency s) = s := by
  have hK := w.scale2frequency_one_pos
  constructor
  · rw [w.scale2frequency_eq_div, w.frequency2scale_eq_div]
    field_simp
  · rw [w.frequency2scale_eq_div, w.scale2frequency_eq_div s]
    field_simp

/-- Witness of C9 on the reference wavelet of the test "Filterbank: Scales":
frequency 30 and scale 0.02 are recovered. -/
theorem scale_frequency_inverse_witness :
    (0 : ℝ) < 30 ∧ (0 : ℝ) < 0.02 ∧
      scenarioBank.reference_wavelet_.scale2frequency
          (scenarioBank.reference_wavelet_.frequency2scale 30) = 30 ∧
        scenarioBank.reference_wavelet_.frequency2scale
          (scenarioBank.reference_wavelet_.scale2frequency 0.02) = 0.02 :=
  ⟨by norm_num, by norm_num,
    scale_frequency_inverse scenarioBank.reference_wavelet_ 30 0.02 (by norm_num) (by norm_num)⟩

/-! ## Auxiliary facts on lists and truncation -/

theorem truncToInt_mono : Monotone truncToInt := by
  intro x y hxy
  unfold truncToInt
  by_cases hx : 0 ≤ x
  · have hy : 0 ≤ y := le_trans hx hxy
    rw [if_pos hx, if_pos hy]
    exact Int.floor_mono hxy
  · rw [if_neg hx]
    by_cases hy : 0 ≤ y
    · rw [if_pos hy]
      have h1 : ⌈x⌉ ≤ 0 := by
        rw [Int.ceil_le]; push_neg at hx; exact_mod_cast hx.le
      have h2 : (0 : ℤ) ≤ ⌊y⌋ := Int.floor_nonneg.mpr hy
      exact le_trans h1 h2
    · rw [if_neg hy]
      exact Int.ceil_mono hxy

theorem truncToInt_of_nonneg {x : ℝ} (hx : 0 ≤ x) : truncToInt x = ⌊x⌋ := by
  unfold truncToInt; rw [if_pos hx]

theorem truncToInt_of_neg {x : ℝ} (hx : x < 0) : truncToInt x = ⌈x⌉ := by
  unfold truncToInt; rw [if_neg (not_le.mpr hx)]

/-! ## Facts on `Wavelet::init` and on the band enumeration -/

@[simp] theorem Wavelet.init_family (w : Wavelet) : w.init.family = w.family := by
  unfold Wavelet.init; cases w.mode <;> rfl

@[simp] theorem Wavelet.init_samplerate (w : Wavelet) : w.init.samplerate = w.samplerate := by
  unfold Wavelet.init; cases w.mode <;> rfl

@[simp] theorem Wavelet.init_scale (w : Wavelet) : w.init.scale = w.scale := by
  unfold Wavelet.init; cases w.mode <;> rfl

@[simp] theorem Wavelet.init_window_size (w : Wavelet) : w.init.window_size = w.window_size := by
  unfold Wavelet.init; cases w.mode <;> rfl

@[simp] theorem Wavelet.init_mode (w : Wavelet) : w.init.mode = w.mode := by
  unfold Wavelet.init; cases h : w.mode <;> simp [h]

@[simp] theorem Wavelet.init_delay (w : Wavelet) : w.init.delay = w.delay := by
  unfold Wavelet.init; cases w.mode <;> rfl

@[simp] theorem Wavelet.init_padding (w : Wavelet) : w.init.padding = w.padding := by
  unfold Wavelet.init; cases w.mode <;> rfl

@[simp] theorem Wavelet.init_omega0 (w : Wavelet) : w.init.omega0 = w.omega0 := by
  unfold Wavelet.init; cases w.mode <;> rfl

@[simp] theorem Wavelet.init_order (w : Wavelet) : w.init.order = w.order := by
  unfold Wavelet.init; cases w.mode <;> rfl

@[simp] theorem Wavelet.init_values_length (w : Wavelet) :
    w.init.values.length = w.window_size := by
  unfold Wavelet.init; cases w.mode <;> simp

theorem Wavelet.setDefaultWindowsize_window_size (w : Wavelet) :
    3 ≤ w.setDefaultWindowsize.window_size ∧ w.setDefaultWindowsize.window_size % 2 = 1 := by
  unfold Wavelet.setDefaultWindowsize
  simp only [Wavelet.init_window_size]
  generalize truncToNat (2 * w.delay * w.eFoldingTime * w.samplerate) = m
  by_cases h3 : m < 3
  · simp [h3]
  · simp only [h3, if_false]
    by_cases h2 : m % 2 = 0
    · simp only [h2, if_true]; omega
    · simp only [h2, if_false]; omega

@[simp] theorem Wavelet.setDefaultWindowsize_values_length (w : Wavelet) :
    w.setDefaultWindowsize.values.length = w.setDefaultWindowsize.window_size := by
  unfold Wavelet.setDefaultWindowsize
  simp

@[simp] theorem Wavelet.setDefaultWindowsize_scale (w : Wavelet) :
    w.setDefaultWindowsize.scale = w.scale := by
  unfold Wavelet.setDefaultWindowsize
  simp

theorem mapM_option_length {α β : Type} (f : α → Option β) :
    ∀ (l : List α) (r : List β), l.mapM f = some r → r.length = l.length := by
  intro l
  induction l with
  | nil => intro r h; rw [List.mapM_nil] at h; cases h; rfl
  | cons a t ih =>
    intro r h
    rw [List.mapM_cons] at h
    cases ha : f a with
    | none => rw [ha] at h; simp at h
    | some y =>
      cases ht : t.mapM f with
      | none => rw [ha, ht] at h; simp at h
      | some ys =>
        rw [ha, ht] at h
        simp at h
        subst h
        simp [ih ys ht]

theorem mapM_option_getElem? {α β : Type} (f : α → Option β) :
    ∀ (l : List α) (r : List β), l.mapM f = some r →
      ∀ (i : ℕ) (x : α), l[i]? = some x → ∃ y, r[i]? = some y ∧ f x = some y := by
  intro l
  induction l with
  | nil => intro r _ i x hx; simp at hx
  | cons a t ih =>
    intro r h i x hx
    rw [List.mapM_cons] at h
    cases ha : f a with
    | none => rw [ha] at h; simp at h
    | some y =>
      cases ht : t.mapM f with
      | none => rw [ha, ht] at h; simp at h
      | some ys =>
        rw [ha, ht] at h
        simp at h
        subst h
        cases i with
        | zero =>
          simp at hx; subst hx
          exact ⟨y, by simp, ha⟩
        | succ j =>
          simp at hx
          obtain ⟨z, hz, hfz⟩ := ih ys ht j x hx
          exact ⟨z, by simpa using hz, hfz⟩

theorem mapM_option_isSome {α β : Type} (f : α → Option β) (l : List α)
    (h : ∀ x ∈ l, ∃ y, f x = some y) : ∃ r, l.mapM f = some r := by
  induction l with
  | nil => exact ⟨[], rfl⟩
  | cons a t ih =>
    obtain ⟨y, hy⟩ := h a (List.mem_cons_self a t)
    obtain ⟨ys, hys⟩ := ih (fun x hx => h x (List.mem_cons_of_mem a hx))
    exact ⟨y :: ys, by rw [List.mapM_cons, hy, hys]; rfl⟩

namespace Filterbank

theorem scale_0_pos (fb : Filterbank) (h : 0 < fb.reference_wavelet_.samplerate) :
    0 < fb.scale_0 := by
  unfold scale_0; positivity

theorem min_scale_le_max_scale (fb : Filterbank) (h0 : 0 < fb.frequency_min)
    (h : fb.frequency_min ≤ fb.frequency_max) : fb.min_scale ≤ fb.max_scale := by
  unfold min_scale max_scale
  rw [Wavelet.frequency2scale_eq_div, Wavelet.frequency2scale_eq_div]
  exact div_le_div_of_nonneg_left (Wavelet.scale2frequency_one_pos _).le h0 h

theorem scaleAt_pos (fb : Filterbank) (hsr : 0 < fb.reference_wavelet_.samplerate) (i : ℕ) :
    0 < fb.scaleAt i := by
  unfold scaleAt
  exact mul_pos (fb.scale_0_pos hsr) (Real.rpow_pos_of_pos (by norm_num) _)

theorem scaleAt_lt (fb : Filterbank) (hsr : 0 < fb.reference_wavelet_.samplerate)
    (hb : 0 < fb.bands_per_octave) (i : ℕ) : fb.scaleAt i < fb.scaleAt (i + 1) := by
  unfold scaleAt
  apply mul_lt_mul_of_pos_left _ (fb.scale_0_pos hsr)
  apply Real.rpow_lt_rpow_of_exponent_lt (by norm_num)
  apply div_lt_div_of_pos_right _ hb
  push_cast
  linarith

end Filterbank

namespace LowpassFilter

theorem lowpass_init_isSome (f : LowpassFilter) (h0 : 0 < f.cutoff) (h1 : f.cutoff ≤ 1) :
    ∃ g, f.init = some g ∧ g.order = f.order ∧ g.z = List.replicate f.order.toNat 0 ∧
      g.cutoff = f.cutoff ∧ g.rippleLevel = f.rippleLevel := by
  unfold init cheby1
  have hc : ¬ (f.cutoff ≤ 0 ∨ f.cutoff > 1) := by
    push_neg; exact ⟨h0, h1⟩
  rw [if_neg hc]
  exact ⟨_, rfl, rfl, rfl, rfl, rfl⟩

theorem create_default_isSome :
    ∃ g, create 1 4 0.05 = some g ∧ g.order = 4 ∧ g.rippleLevel = 0.05 := by
  unfold create
  have hc : ¬ ((1 : ℝ) < 0 ∨ (1 : ℝ) > 1 ∨ (4 : ℤ) < 1) := by norm_num
  rw [if_neg hc]
  obtain ⟨g, hg, ho, _, _, hr⟩ := lowpass_init_isSome
    { cutoff := 1, order := 4, rippleLevel := 0.05, b := [], a := [], z := [] }
    (by norm_num) (by norm_num)
  exact ⟨g, hg, ho, hr⟩

theorem setCutoff_isSome (f : LowpassFilter) (v : ℝ) (h0 : 0 < v) (h1 : v ≤ 1) :
    ∃ g, f.setCutoff v = some g ∧ g.order = f.order ∧ g.z = List.replicate f.order.toNat 0 ∧
      g.cutoff = v ∧ g.rippleLevel = f.rippleLevel := by
  unfold setCutoff
  have hc : ¬ (v < 0 ∨ v > 1) := by push_neg; exact ⟨h0.le, h1⟩
  rw [if_neg hc]
  exact lowpass_init_isSome { f with cutoff := v } h0 h1

end LowpassFilter

namespace Filterbank

theorem init_eq_some (fb fb' : Filterbank) (h : fb.init = some fb') :
    fb.min_index ≤ fb.max_index ∧ fb.family = fb.reference_wavelet_.family ∧
    ∃ ws bufs, fb.initWavelets (fb.initScales fb.bandCount) (fb.initFactors fb.bandCount) = some ws ∧
      fb.initBuffers ws (fb.initFactors fb.bandCount) = some bufs ∧
      fb' = { fb with
        scales := fb.initScales fb.bandCount
        frequencies := fb.initFrequencies fb.bandCount
        downsampling_factors :=
          if fb.optimisation = Optimisation.None then [] else fb.initFactors fb.bandCount
        wavelets_ := ws
        data_ := bufs.1
        filters_ := bufs.2
        frame_index_ := 0
        result_complex := List.replicate ws.length 0
        result_power := List.replicate ws.length 0 } := by
  unfold init at h
  by_cases h1 : fb.max_index < fb.min_index
  · rw [if_pos h1] at h; cases h
  rw [if_neg h1] at h
  by_cases h2 : fb.family ≠ fb.reference_wavelet_.family
  · rw [if_pos h2] at h; cases h
  rw [if_neg h2] at h
  refine ⟨not_lt.mp h1, not_not.mp h2, ?_⟩
  dsimp only at h
  cases hw : fb.initWavelets (fb.initScales fb.bandCount) (fb.initFactors fb.bandCount) with
  | none => rw [hw] at h; cases h
  | some ws =>
    rw [hw] at h
    simp only [Option.bind_eq_bind, Option.some_bind] at h
    cases hbuf : fb.initBuffers ws (fb.initFactors fb.bandCount) with
    | none => rw [hbuf] at h; cases h
    | some bufs =>
      rw [hbuf] at h
      simp only [Option.some_bind, Option.some.injEq] at h
      exact ⟨ws, bufs, rfl, hbuf, h.symm⟩

theorem factorOf_ge_one (fb : Filterbank) (f : ℝ) : 1 ≤ fb.factorOf f := by
  unfold factorOf
  simp only
  split_ifs with h
  · exact h.le
  · exact le_refl 1

theorem initFactors_length (fb : Filterbank) (n : ℕ) (h : fb.optimisation ≠ Optimisation.None) :
    (fb.initFactors n).length = n := by
  unfold initFactors initFrequencies initScales
  rw [if_pos h]; simp

theorem initFactors_getElem? (fb : Filterbank) (n i : ℕ) (hi : i < n)
    (h : fb.optimisation ≠ Optimisation.None) :
    (fb.initFactors n)[i]? =
      some (fb.factorOf (fb.reference_wavelet_.scale2frequency (fb.scaleAt i))) := by
  unfold initFactors initFrequencies initScales
  rw [if_pos h]
  simp [List.getElem?_map, List.getElem?_range hi]

theorem initScales_getElem? (fb : Filterbank) (n i : ℕ) (hi : i < n) :
    (fb.initScales n)[i]? = some (fb.scaleAt i) := by
  unfold initScales
  simp [List.getElem?_map, List.getElem?_range hi]

theorem initFrequencies_getElem? (fb : Filterbank) (n i : ℕ) (hi : i < n) :
    (fb.initFrequencies n)[i]? = some (fb.reference_wavelet_.scale2frequency (fb.scaleAt i)) := by
  unfold initFrequencies
  simp [List.getElem?_map, fb.initScales_getElem? n i hi]

theorem initWavelet_isSome (fb : Filterbank) (s : ℝ) (hs : 0 ≤ s)
    (hsr : 0 ≤ fb.reference_wavelet_.samplerate) (factor : Option ℤ)
    (hd : ∀ d, factor = some d → 1 ≤ d) :
    ∃ w, fb.initWavelet s factor = some w ∧ w.scale = s ∧ 3 ≤ w.window_size ∧
      w.values.length = w.window_size := by
  unfold initWavelet
  cases factor with
  | none =>
    simp only [Option.bind_eq_bind, Option.some_bind, Wavelet.setScale, if_neg (not_lt.mpr hs)]
    exact ⟨_, rfl, by simp, (Wavelet.setDefaultWindowsize_window_size _).1, by simp⟩
  | some d =>
    have h1 : (1 : ℝ) ≤ (d : ℝ) := by exact_mod_cast hd d rfl
    have h2 : ¬ (fb.reference_wavelet_.samplerate / (d : ℝ) < 0) :=
      not_lt.mpr (div_nonneg hsr (by linarith))
    simp only [Option.bind_eq_bind, Option.some_bind, Wavelet.setScale, Wavelet.setSamplerate,
      if_neg (not_lt.mpr hs), if_neg h2]
    exact ⟨_, rfl, by simp, (Wavelet.setDefaultWindowsize_window_size _).1, by simp⟩

end Filterbank

theorem truncToInt_eq_of_mem_Ico {x : ℝ} {k : ℤ} (hk : 0 ≤ k) (h1 : (k : ℝ) ≤ x)
    (h2 : x < (k : ℝ) + 1) : truncToInt x = k := by
  have hx : 0 ≤ x := le_trans (by exact_mod_cast hk) h1
  rw [truncToInt_of_nonneg hx, Int.floor_eq_iff]
  exact ⟨h1, h2⟩

theorem logb_two_mul_natCast_mem {r : ℝ} {n k : ℕ} (hr : 0 < r)
    (h1 : (2 : ℝ) ^ k ≤ r ^ n) (h2 : r ^ n < (2 : ℝ) ^ (k + 1)) :
    ((k : ℤ) : ℝ) ≤ Real.logb 2 r * (n : ℝ) ∧ Real.logb 2 r * (n : ℝ) < ((k : ℤ) : ℝ) + 1 := by
  have hrn : 0 < r ^ n := pow_pos hr n
  have e : Real.logb 2 r * (n : ℝ) = Real.logb 2 (r ^ n) := by
    rw [Real.logb_pow]; ring
  rw [e]
  constructor
  · rw [Real.le_logb_iff_rpow_le (by norm_num) hrn]
    simpa using h1
  · rw [Real.logb_lt_iff_lt_rpow (by norm_num) hrn]
    have : ((k : ℤ) : ℝ) + 1 = ((k + 1 : ℕ) : ℝ) := by push_cast; ring
    rw [this, Real.rpow_natCast]
    exact h2

theorem sqrt_27_bounds : 5.19 ≤ Real.sqrt 27 ∧ Real.sqrt 27 ≤ 5.2 := by
  constructor
  · apply Real.le_sqrt_of_sq_le; norm_num
  · rw [Real.sqrt_le_left (by norm_num)]; norm_num

namespace Filterbank

theorem bandCount_cast (fb : Filterbank) (h : fb.min_index ≤ fb.max_index) :
    (fb.bandCount : ℤ) = fb.max_index - fb.min_index := by
  unfold bandCount
  exact Int.toNat_of_nonneg (by linarith)

/-- `init` returns on every configuration with a positive sample rate,
`0 < frequency_min ≤ frequency_max`, a non-negative number of bands per octave
and a reference wavelet of the selected family, provided at least one band is
enumerated when no optimisation is selected. -/
theorem init_isSome (fb : Filterbank) (hsr : 0 < fb.reference_wavelet_.samplerate)
    (h0 : 0 < fb.frequency_min) (hle : fb.frequency_min ≤ fb.frequency_max)
    (hb : 0 ≤ fb.bands_per_octave) (hfam : fb.family = fb.reference_wavelet_.family)
    (hne : fb.optimisation = Optimisation.None → fb.min_index < fb.max_index) :
    ∃ fb', fb.init = some fb' := by
  have min_index_le_max_index : ∀ (fb : Filterbank) (hsr : 0 < fb.reference_wavelet_.samplerate)
      (h0 : 0 < fb.frequency_min) (h : fb.frequency_min ≤ fb.frequency_max)
      (hb : 0 ≤ fb.bands_per_octave), fb.min_index ≤ fb.max_index := by
    intro fb hsr h0 h hb
    have min_scale_pos : ∀ (fb : Filterbank) (h : 0 < fb.frequency_max), 0 < fb.min_scale := by
      intro fb h
      unfold min_scale
      rw [Wavelet.frequency2scale_eq_div]
      exact div_pos (Wavelet.scale2frequency_one_pos _) h
    unfold min_index max_index
    have hs0 := fb.scale_0_pos hsr
    have h1 : fb.min_scale / fb.scale_0 ≤ fb.max_scale / fb.scale_0 :=
      div_le_div_of_nonneg_right (fb.min_scale_le_max_scale h0 h) hs0.le
    have h2 : 0 < fb.min_scale / fb.scale_0 := div_pos (min_scale_pos fb (lt_of_lt_of_le h0 h)) hs0
    have h3 : Real.logb 2 (fb.min_scale / fb.scale_0) ≤ Real.logb 2 (fb.max_scale / fb.scale_0) :=
      (Real.logb_le_logb (by norm_num) h2 (lt_of_lt_of_le h2 h1)).mpr h1
    have h4 := truncToInt_mono (mul_le_mul_of_nonneg_right h3 hb)
    linarith
  have initWavelets_isSome : ∀ (fb : Filterbank) (n : ℕ)
      (hsr : 0 < fb.reference_wavelet_.samplerate),
      ∃ ws, fb.initWavelets (fb.initScales n) (fb.initFactors n) = some ws ∧ ws.length = n := by
    intro fb n hsr
    have hlen : (fb.initScales n).length = n := by unfold initScales; simp
    unfold initWavelets
    by_cases h : fb.optimisation ≠ Optimisation.None
    · rw [if_pos h, hlen]
      have := mapM_option_isSome (fun (i : ℕ) => do
          let s ← (fb.initScales n)[i]?
          let d ← (fb.initFactors n)[i]?
          fb.initWavelet s (some d)) (List.range n) (by
        intro i hi
        have hi' : i < n := List.mem_range.mp hi
        beta_reduce
        rw [fb.initScales_getElem? n i hi', fb.initFactors_getElem? n i hi' h]
        simp only [Option.bind_eq_bind, Option.some_bind]
        obtain ⟨w, hw, _⟩ := fb.initWavelet_isSome (fb.scaleAt i) (fb.scaleAt_pos hsr i).le hsr.le
          (some (fb.factorOf (fb.reference_wavelet_.scale2frequency (fb.scaleAt i))))
          (by intro d hd; cases hd; exact fb.factorOf_ge_one _)
        exact ⟨w, hw⟩)
      obtain ⟨ws, hws⟩ := this
      exact ⟨ws, hws, by rw [mapM_option_length _ _ _ hws]; simp⟩
    · rw [if_neg h, hlen]
      have := mapM_option_isSome (fun (i : ℕ) => do
          let s ← (fb.initScales n)[i]?
          fb.initWavelet s none) (List.range n) (by
        intro i hi
        have hi' : i < n := List.mem_range.mp hi
        beta_reduce
        rw [fb.initScales_getElem? n i hi']
        simp only [Option.bind_eq_bind, Option.some_bind]
        obtain ⟨w, hw, _⟩ := fb.initWavelet_isSome (fb.scaleAt i) (fb.scaleAt_pos hsr i).le hsr.le
          none (by intro d hd; cases hd)
        exact ⟨w, hw⟩)
      obtain ⟨ws, hws⟩ := this
      exact ⟨ws, hws, by rw [mapM_option_length _ _ _ hws]; simp⟩
  have initBuffers_isSome : ∀ (fb : Filterbank) (ws : List Wavelet) (factors : List ℤ)
      (hne : fb.optimisation = Optimisation.None → ws ≠ [])
      (hlen : fb.optimisation ≠ Optimisation.None → factors.length = ws.length),
      ∃ bufs, fb.initBuffers ws factors = some bufs := by
    intro fb ws factors hne hlen
    have foldlM_option_isSome : ∀ {α β : Type} (f : β → α → Option β) (l : List α)
        (h : ∀ b, ∀ x ∈ l, ∃ b', f b x = some b'), ∀ b, ∃ r, l.foldlM f b = some r := by
      intro α β f l h
      induction l with
      | nil => intro b; exact ⟨b, rfl⟩
      | cons a t ih =>
        intro b
        obtain ⟨b', hb'⟩ := h b a (List.mem_cons_self a t)
        obtain ⟨r, hr⟩ := ih (fun b x hx => h b x (List.mem_cons_of_mem a hx)) b'
        exact ⟨r, by rw [List.foldlM_cons, hb']; exact hr⟩
    have initBufferStep_isSome : ∀ (st : List (ℤ × CircularBuffer) × List (ℤ × LowpassFilter))
        (band : ℕ × ℤ), ∃ st', initBufferStep st band = some st' := by
      intro st band
      unfold initBufferStep
      by_cases h : band.2 > 1 ∧ mapCount band.2 st.2 = 0
      · obtain ⟨g, hg, _⟩ := LowpassFilter.create_default_isSome
        have hd : (1 : ℝ) < (band.2 : ℝ) := by exact_mod_cast h.1
        have h0 : (0 : ℝ) < 0.8 / (band.2 : ℝ) := by positivity
        have h1 : 0.8 / (band.2 : ℝ) ≤ 1 := by
          rw [div_le_one (by linarith)]; linarith
        obtain ⟨g2, hg2, _⟩ := g.setCutoff_isSome _ h0 h1
        rw [if_pos h, hg]
        simp only [Option.bind_eq_bind, Option.some_bind, hg2]
        exact ⟨_, rfl⟩
      · rw [if_neg h]
        exact ⟨_, rfl⟩
    unfold initBuffers
    by_cases h : fb.optimisation = Optimisation.None
    · rw [if_pos h]
      have hpos : 0 < ws.length := List.length_pos.mpr (hne h)
      have hlt : ws.length - 1 < ws.length := by omega
      rw [List.getElem?_eq_getElem hlt]
      exact ⟨_, rfl⟩
    · rw [if_neg h]
      obtain ⟨bands, hbands⟩ := mapM_option_isSome (fun (i : ℕ) => do
          let w ← ws[i]?
          let d ← factors[i]?
          some (w.window_size, d)) (List.range ws.length) (by
        intro i hi
        have hi' : i < ws.length := List.mem_range.mp hi
        have hi2 : i < factors.length := by rw [hlen h]; exact hi'
        beta_reduce
        rw [List.getElem?_eq_getElem hi', List.getElem?_eq_getElem hi2]
        exact ⟨_, rfl⟩)
      rw [hbands]
      simp only [Option.bind_eq_bind, Option.some_bind]
      exact foldlM_option_isSome initBufferStep bands
        (fun st band _ => initBufferStep_isSome st band) ([], [])
  have hidx := min_index_le_max_index fb hsr h0 hle hb
  obtain ⟨ws, hws, hwlen⟩ := initWavelets_isSome fb fb.bandCount hsr
  obtain ⟨bufs, hbufs⟩ := initBuffers_isSome fb ws (fb.initFactors fb.bandCount)
    (by
      intro hN hnil
      have h1 := fb.bandCount_cast hidx
      have h2 := hne hN
      rw [hnil] at hwlen
      simp at hwlen
      rw [← hwlen] at h1
      simp at h1
      linarith)
    (by intro hO; rw [fb.initFactors_length _ hO, hwlen])
  unfold init
  rw [if_neg (not_lt.mpr hidx), if_neg (not_not.mpr hfam)]
  dsimp only
  rw [hws]
  simp only [Option.bind_eq_bind, Option.some_bind]
  rw [hbufs]
  exact ⟨_, rfl⟩

theorem initWavelets_length (fb : Filterbank) (scales : List ℝ) (factors : List ℤ)
    (ws : List Wavelet) (h : fb.initWavelets scales factors = some ws) :
    ws.length = scales.length := by
  unfold initWavelets at h
  split_ifs at h
  · rw [mapM_option_length _ _ _ h]; simp
  · rw [mapM_option_length _ _ _ h]; simp

theorem init_size (fb fb' : Filterbank) (h : fb.init = some fb') : fb'.size = fb.bandCount := by
  obtain ⟨_, _, ws, bufs, hws, _, rfl⟩ := fb.init_eq_some fb' h
  unfold size
  simp only
  rw [fb.initWavelets_length _ _ _ hws]
  simp [initScales]

end Filterbank

/-! ## Morlet filterbanks at sample rate 100 -/

theorem sampleBank_valid (fmin fmax bpo : ℝ) (h0 : 0 < fmin) (h1 : fmin ≤ fmax)
    (h2 : fmax ≤ 50) (h3 : 1 ≤ bpo) : (sampleBank fmin fmax bpo).Valid := by
  constructor <;>
    simp [sampleBank, Filterbank.members, MorletWavelet.members]
  · exact h0
  · exact h1
  · norm_num; exact h2
  · exact h3

theorem sampleBank_min_ratio (fmin fmax bpo : ℝ) (h : fmax ≠ 0) :
    (sampleBank fmin fmax bpo).min_scale / (sampleBank fmin fmax bpo).scale_0 =
      (5 + Real.sqrt 27) * 25 / (2 * Real.pi * fmax) := by
  simp only [Filterbank.min_scale, Filterbank.scale_0, sampleBank, Filterbank.members,
    Wavelet.frequency2scale, Wavelet.init_family, Wavelet.init_omega0, Wavelet.init_samplerate,
    MorletWavelet.members, MorletWavelet.frequency2scale, MorletWavelet.DEFAULT_OMEGA0]
  have : (2 : ℝ) + 5 * 5 = 27 := by norm_num
  rw [this]
  field_simp
  ring

theorem sampleBank_max_ratio (fmin fmax bpo : ℝ) (h : fmin ≠ 0) :
    (sampleBank fmin fmax bpo).max_scale / (sampleBank fmin fmax bpo).scale_0 =
      (5 + Real.sqrt 27) * 25 / (2 * Real.pi * fmin) := by
  simp only [Filterbank.max_scale, Filterbank.scale_0, sampleBank, Filterbank.members,
    Wavelet.frequency2scale, Wavelet.init_family, Wavelet.init_omega0, Wavelet.init_samplerate,
    MorletWavelet.members, MorletWavelet.frequency2scale, MorletWavelet.DEFAULT_OMEGA0]
  have : (2 : ℝ) + 5 * 5 = 27 := by norm_num
  rw [this]
  field_simp
  ring

theorem scenarioBank_valid : scenarioBank.Valid :=
  sampleBank_valid 1 30 4 (by norm_num) (by norm_num) (by norm_num) (by norm_num)

theorem scenarioBank_min_index : scenarioBank.min_index = 2 := by
  unfold Filterbank.min_index scenarioBank
  rw [sampleBank_min_ratio 1 30 4 (by norm_num)]
  have hb : (sampleBank 1 30 4).bands_per_octave = ((4 : ℕ) : ℝ) := by
    simp [sampleBank, Filterbank.members]
  rw [hb]
  obtain ⟨hs1, hs2⟩ := sqrt_27_bounds
  have hp1 := Real.pi_gt_d2
  have hp2 := Real.pi_lt_d2
  have hpos : (0 : ℝ) < 2 * Real.pi * 30 := by positivity
  have hlo : (1.34 : ℝ) ≤ (5 + Real.sqrt 27) * 25 / (2 * Real.pi * 30) := by
    rw [le_div_iff₀ hpos]; nlinarith
  have hhi : (5 + Real.sqrt 27) * 25 / (2 * Real.pi * 30) ≤ 1.36 := by
    rw [div_le_iff₀ hpos]; nlinarith
  have hr : (0 : ℝ) < (5 + Real.sqrt 27) * 25 / (2 * Real.pi * 30) := by linarith
  have h1 : (2 : ℝ) ^ 1 ≤ ((5 + Real.sqrt 27) * 25 / (2 * Real.pi * 30)) ^ 4 := by
    calc (2 : ℝ) ^ 1 ≤ (1.34 : ℝ) ^ 4 := by norm_num
      _ ≤ _ := pow_le_pow_left₀ (by norm_num) hlo 4
  have h2 : ((5 + Real.sqrt 27) * 25 / (2 * Real.pi * 30)) ^ 4 < (2 : ℝ) ^ (1 + 1) := by
    calc ((5 + Real.sqrt 27) * 25 / (2 * Real.pi * 30)) ^ 4 ≤ (1.36 : ℝ) ^ 4 :=
          pow_le_pow_left₀ hr.le hhi 4
      _ < _ := by norm_num
  obtain ⟨ha, hb'⟩ := logb_two_mul_natCast_mem hr h1 h2
  rw [truncToInt_eq_of_mem_Ico (by norm_num) ha hb']
  norm_num

theorem sampleBank_max_index_of_one (fmax bpo : ℝ) (hb : bpo = 4) :
    (sampleBank 1 fmax bpo).max_index = 22 := by
  unfold Filterbank.max_index
  rw [sampleBank_max_ratio 1 fmax bpo (by norm_num)]
  have hb : (sampleBank 1 fmax bpo).bands_per_octave = ((4 : ℕ) : ℝ) := by
    simp [sampleBank, Filterbank.members, hb]
  rw [hb]
  obtain ⟨hs1, hs2⟩ := sqrt_27_bounds
  have hp1 := Real.pi_gt_d2
  have hp2 := Real.pi_lt_d2
  have hpos : (0 : ℝ) < 2 * Real.pi * 1 := by positivity
  have hlo : (40.4 : ℝ) ≤ (5 + Real.sqrt 27) * 25 / (2 * Real.pi * 1) := by
    rw [le_div_iff₀ hpos]; nlinarith
  have hhi : (5 + Real.sqrt 27) * 25 / (2 * Real.pi * 1) ≤ 40.7 := by
    rw [div_le_iff₀ hpos]; nlinarith
  have hr : (0 : ℝ) < (5 + Real.sqrt 27) * 25 / (2 * Real.pi * 1) := by linarith
  have h1 : (2 : ℝ) ^ 21 ≤ ((5 + Real.sqrt 27) * 25 / (2 * Real.pi * 1)) ^ 4 := by
    calc (2 : ℝ) ^ 21 ≤ (40.4 : ℝ) ^ 4 := by norm_num
      _ ≤ _ := pow_le_pow_left₀ (by norm_num) hlo 4
  have h2 : ((5 + Real.sqrt 27) * 25 / (2 * Real.pi * 1)) ^ 4 < (2 : ℝ) ^ (21 + 1) := by
    calc ((5 + Real.sqrt 27) * 25 / (2 * Real.pi * 1)) ^ 4 ≤ (40.7 : ℝ) ^ 4 :=
          pow_le_pow_left₀ hr.le hhi 4
      _ < _ := by norm_num
  obtain ⟨ha, hb'⟩ := logb_two_mul_natCast_mem hr h1 h2
  rw [truncToInt_eq_of_mem_Ico (by norm_num) ha hb']
  norm_num

theorem scenarioBank_max_index : scenarioBank.max_index = 22 :=
  sampleBank_max_index_of_one 30 4 rfl

theorem scenarioBank_init : ∃ fb', scenarioBank.init = some fb' ∧ fb'.size = 20 := by
  have hv := scenarioBank_valid
  obtain ⟨fb', h⟩ := scenarioBank.init_isSome hv.samplerate_pos hv.frequency_min_pos
    hv.min_le_max (by linarith [hv.bands_per_octave_ge]) hv.family_eq
    (by intro _; rw [scenarioBank_min_index, scenarioBank_max_index]; norm_num)
  refine ⟨fb', h, ?_⟩
  rw [Filterbank.init_size _ _ h]
  unfold Filterbank.bandCount
  rw [scenarioBank_min_index, scenarioBank_max_index]
  rfl

/-! ## Claims on the band enumeration -/

/-- C8. Scale monotonicity: after `init` on a configuration with a positive
sample rate and a positive number of bands per octave, `scales[i] < scales[i+1]`
and `frequencies[i] > frequencies[i+1]` for every `i` with `i + 1 < size()`,
whatever the family of the reference wavelet. -/
theorem scale_monotonicity (fb fb' : Filterbank) (h : fb.init = some fb')
    (hsr : 0 < fb.reference_wavelet_.samplerate) (hb : 0 < fb.bands_per_octave)
    (i : ℕ) (hi : i + 1 < fb'.size) :
    ∃ s s' f f', fb'.scales[i]? = some s ∧ fb'.scales[i + 1]? = some s' ∧ s < s' ∧
      fb'.frequencies[i]? = some f ∧ fb'.frequencies[i + 1]? = some f' ∧ f' < f := by
  have hsize := fb.init_size fb' h
  obtain ⟨_, _, ws, bufs, _, _, rfl⟩ := fb.init_eq_some fb' h
  rw [hsize] at hi
  have hi0 : i < fb.bandCount := by omega
  refine ⟨fb.scaleAt i, fb.scaleAt (i + 1), _, _, fb.initScales_getElem? _ i hi0,
    fb.initScales_getElem? _ (i + 1) hi, fb.scaleAt_lt hsr hb i,
    fb.initFrequencies_getElem? _ i hi0, fb.initFrequencies_getElem? _ (i + 1) hi, ?_⟩
  rw [Wavelet.scale2frequency_eq_div, Wavelet.scale2frequency_eq_div _ (fb.scaleAt i)]
  exact div_lt_div_of_pos_left (Wavelet.scale2frequency_one_pos _) (fb.scaleAt_pos hsr i)
    (fb.scaleAt_lt hsr hb i)

/-- Witness of C8 on the filterbank of the test "Filterbank: Scales": `init`
returns, with 20 bands, and the first two scales and frequencies are ordered. -/
theorem scale_monotonicity_witness :
    ∃ fb', scenarioBank.init = some fb' ∧ fb'.size = 20 ∧
      ∃ s s' f f', fb'.scales[0]? = some s ∧ fb'.scales[0 + 1]? = some s' ∧ s < s' ∧
        fb'.frequencies[0]? = some f ∧ fb'.frequencies[0 + 1]? = some f' ∧ f' < f := by
  obtain ⟨fb', h, hsize⟩ := scenarioBank_init
  exact ⟨fb', h, hsize, scale_monotonicity scenarioBank fb' h scenarioBank_valid.samplerate_pos
    (by linarith [scenarioBank_valid.bands_per_octave_ge]) 0 (by omega)⟩

/-- C10. Decimation factors: after `init` with an optimisation selected,
`downsampling_factors` has length `size()` and its entry `j` is
`max(1, ⌊(samplerate / K) / frequencies[j]⌋) ≥ 1`, with `K = 8` for `Standard1`
and `Aggressive1` and `K = 4` for `Standard2` and `Aggressive2`; after `init`
with no optimisation the vector is empty, whatever it held before. -/
theorem decimation_factors (fb fb' : Filterbank) (h : fb.init = some fb')
    (hsr : 0 < fb.reference_wavelet_.samplerate) :
    (fb'.optimisation ≠ Optimisation.None →
      fb'.downsampling_factors.length = fb'.size ∧
      ∀ j, j < fb'.size → ∃ d f, fb'.downsampling_factors[j]? = some d ∧
        fb'.frequencies[j]? = some f ∧ 1 ≤ d ∧
        d = max 1 ⌊(fb'.reference_wavelet_.samplerate /
          (if fb'.optimisation = Optimisation.Standard1 ∨
              fb'.optimisation = Optimisation.Aggressive1 then 8 else 4)) / f⌋) ∧
    (fb'.optimisation = Optimisation.None → fb'.downsampling_factors = []) := by
  have hsize := fb.init_size fb' h
  obtain ⟨_, _, ws, bufs, _, _, rfl⟩ := fb.init_eq_some fb' h
  rw [hsize]
  constructor
  · intro hO
    have hO' : fb.optimisation ≠ Optimisation.None := hO
    simp only [if_neg hO']
    refine ⟨fb.initFactors_length _ hO', ?_⟩
    intro j hj
    refine ⟨_, _, fb.initFactors_getElem? _ j hj hO', fb.initFrequencies_getElem? _ j hj,
      fb.factorOf_ge_one _, ?_⟩
    have hf : 0 < fb.reference_wavelet_.scale2frequency (fb.scaleAt j) := by
      rw [Wavelet.scale2frequency_eq_div]
      exact div_pos (Wavelet.scale2frequency_one_pos _) (fb.scaleAt_pos hsr j)
    have hK : (0 : ℝ) < Filterbank.rateDivisor fb.optimisation := by
      unfold Filterbank.rateDivisor; split_ifs <;> norm_num
    have hratio : 0 ≤ fb.reference_wavelet_.samplerate / Filterbank.rateDivisor fb.optimisation /
        fb.reference_wavelet_.scale2frequency (fb.scaleAt j) := by positivity
    unfold Filterbank.factorOf
    simp only [truncToInt_of_nonneg hratio]
    unfold Filterbank.rateDivisor
    split_ifs with h1 h2 h2
    · exact (max_eq_right h2.le).symm
    · exact (max_eq_left (not_lt.mp h2)).symm
    · exact (max_eq_right h2.le).symm
    · exact (max_eq_left (not_lt.mp h2)).symm
  · intro hN
    have hN' : fb.optimisation = Optimisation.None := hN
    simp only [if_pos hN']

theorem optimisedBank_init (o : Optimisation) :
    ∃ fb', (optimisedBank o).init = some fb' ∧ fb'.size = 20 ∧ fb'.optimisation = o := by
  have hv := scenarioBank_valid
  have e1 : (optimisedBank o).min_index = 2 := scenarioBank_min_index
  have e2 : (optimisedBank o).max_index = 22 := scenarioBank_max_index
  obtain ⟨fb', h⟩ := (optimisedBank o).init_isSome hv.samplerate_pos hv.frequency_min_pos
    hv.min_le_max (le_trans zero_le_one hv.bands_per_octave_ge) hv.family_eq
    (by intro _; rw [e1, e2]; norm_num)
  refine ⟨fb', h, ?_, ?_⟩
  · rw [Filterbank.init_size _ _ h]
    unfold Filterbank.bandCount
    rw [e1, e2]
    rfl
  · obtain ⟨_, _, ws, bufs, _, _, rfl⟩ := (optimisedBank o).init_eq_some fb' h
    rfl

/-- Witness of C10: with `Standard1` selected on the filterbank of the test
"Filterbank: Scales", `init` returns 20 bands and 20 factors; after a switch
back to no optimisation a second `init` returns and leaves the vector empty. -/
theorem decimation_factors_witness :
    ∃ fb1 fb2, (optimisedBank Optimisation.Standard1).init = some fb1 ∧
      fb1.downsampling_factors.length = 20 ∧
      ({ fb1 with optimisation := Optimisation.None } : Filterbank).init = some fb2 ∧
      fb2.downsampling_factors = [] := by
  have init_min_index : ∀ (fb fb' : Filterbank) (h : fb.init = some fb') (o : Optimisation),
      ({ fb' with optimisation := o } : Filterbank).min_index = fb.min_index ∧
      ({ fb' with optimisation := o } : Filterbank).max_index = fb.max_index ∧
      ({ fb' with optimisation := o } : Filterbank).reference_wavelet_ = fb.reference_wavelet_ ∧
      ({ fb' with optimisation := o } : Filterbank).frequency_min = fb.frequency_min ∧
      ({ fb' with optimisation := o } : Filterbank).frequency_max = fb.frequency_max ∧
      ({ fb' with optimisation := o } : Filterbank).bands_per_octave = fb.bands_per_octave ∧
      ({ fb' with optimisation := o } : Filterbank).family = fb.family := by
    intro fb fb' h o
    obtain ⟨_, _, ws, bufs, _, _, rfl⟩ := fb.init_eq_some fb' h
    exact ⟨rfl, rfl, rfl, rfl, rfl, rfl, rfl⟩
  obtain ⟨fb1, h1, hsize, hopt⟩ := optimisedBank_init Optimisation.Standard1
  have hv := scenarioBank_valid
  have hc := decimation_factors (optimisedBank Optimisation.Standard1) fb1 h1 hv.samplerate_pos
  obtain ⟨e1, e2, e3, e4, e5, e6, e7⟩ :=
    init_min_index (optimisedBank Optimisation.Standard1) fb1 h1 Optimisation.None
  have m1 : (optimisedBank Optimisation.Standard1).min_index = 2 := scenarioBank_min_index
  have m2 : (optimisedBank Optimisation.Standard1).max_index = 22 := scenarioBank_max_index
  obtain ⟨fb2, h2⟩ := ({ fb1 with optimisation := Optimisation.None } : Filterbank).init_isSome
    (by rw [e3]; exact hv.samplerate_pos) (by rw [e4]; exact hv.frequency_min_pos)
    (by rw [e4, e5]; exact hv.min_le_max)
    (by rw [e6]; exact le_trans zero_le_one hv.bands_per_octave_ge)
    (by rw [e7, e3]; exact hv.family_eq)
    (by intro _; rw [e1, e2, m1, m2]; norm_num)
  have hc2 := decimation_factors _ fb2 h2 (by rw [e3]; exact hv.samplerate_pos)
  have hN : fb2.optimisation = Optimisation.None := by
    obtain ⟨_, _, ws, bufs, _, _, rfl⟩ := Filterbank.init_eq_some _ fb2 h2
    rfl
  refine ⟨fb1, fb2, h1, ?_, h2, hc2.2 hN⟩
  rw [(hc.1 (by rw [hopt]; decide)).1, hsize]

/-- C7, counterexample. On the filterbank of the test "Filterbank: Scales"
(sample rate 100, frequencies 1 to 30, 4 bands per octave) `init` returns 20
bands, whereas `⌊log2(frequency2scale(1) / frequency2scale(30)) * 4⌋ = 19`. -/
theorem band_count_counterexample :
    ∃ fb', scenarioBank.init = some fb' ∧ fb'.size = 20 ∧
      ⌊Real.logb 2 (fb'.reference_wavelet_.frequency2scale fb'.frequency_min /
        fb'.reference_wavelet_.frequency2scale fb'.frequency_max) *
          fb'.bands_per_octave⌋ = 19 := by
  obtain ⟨fb', h, hsize⟩ := scenarioBank_init
  refine ⟨fb', h, hsize, ?_⟩
  obtain ⟨_, _, ws, bufs, _, _, rfl⟩ := Filterbank.init_eq_some _ fb' h
  simp only
  have e : scenarioBank.reference_wavelet_.frequency2scale scenarioBank.frequency_min /
      scenarioBank.reference_wavelet_.frequency2scale scenarioBank.frequency_max = 30 := by
    rw [Wavelet.frequency2scale_eq_div, Wavelet.frequency2scale_eq_div]
    have hK := scenarioBank.reference_wavelet_.scale2frequency_one_pos
    have h1 : scenarioBank.frequency_min = 1 := rfl
    have h2 : scenarioBank.frequency_max = 30 := rfl
    rw [h1, h2]
    field_simp
  have hb : scenarioBank.bands_per_octave = ((4 : ℕ) : ℝ) := by
    simp [scenarioBank, sampleBank, Filterbank.members]
  rw [e, hb]
  obtain ⟨ha, hb'⟩ := logb_two_mul_natCast_mem (r := 30) (n := 4) (k := 19) (by norm_num)
    (by norm_num) (by norm_num)
  rw [Int.floor_eq_iff]
  exact ⟨by simpa using ha, by simpa using hb'⟩

/-- C7, amended. After `init` on a valid configuration whose smallest scale
`frequency2scale(frequency_max)` is not below `scale_0 = 2 / samplerate` (no
logarithm of the enumeration is negative then), `size()` is the difference
`i_max - i_min` of the two indices, that is the difference of the two floors
`⌊log2(frequency2scale(frequency_min) / scale_0) * bpo⌋ -
⌊log2(frequency2scale(frequency_max) / scale_0) * bpo⌋`, and not the floor of
the difference. -/
theorem band_count (fb fb' : Filterbank) (h : fb.init = some fb') (hv : fb.Valid)
    (hs : 2 / fb.reference_wavelet_.samplerate ≤
      fb.reference_wavelet_.frequency2scale fb.frequency_max) :
    (fb'.size : ℤ) =
      ⌊Real.logb 2 (fb'.reference_wavelet_.frequency2scale fb'.frequency_min /
        (2 / fb'.reference_wavelet_.samplerate)) * fb'.bands_per_octave⌋ -
      ⌊Real.logb 2 (fb'.reference_wavelet_.frequency2scale fb'.frequency_max /
        (2 / fb'.reference_wavelet_.samplerate)) * fb'.bands_per_octave⌋ := by
  have hsize := fb.init_size fb' h
  obtain ⟨hidx, _, ws, bufs, _, _, rfl⟩ := fb.init_eq_some fb' h
  rw [hsize, fb.bandCount_cast hidx]
  have hs0 : 0 < fb.scale_0 := fb.scale_0_pos hv.samplerate_pos
  have hmin : fb.scale_0 ≤ fb.min_scale := hs
  have hmax : fb.scale_0 ≤ fb.max_scale :=
    le_trans hmin (fb.min_scale_le_max_scale hv.frequency_min_pos hv.min_le_max)
  have hb : 0 ≤ fb.bands_per_octave := le_trans zero_le_one hv.bands_per_octave_ge
  have h1 : 0 ≤ Real.logb 2 (fb.min_scale / fb.scale_0) * fb.bands_per_octave :=
    mul_nonneg (Real.logb_nonneg (by norm_num) ((one_le_div hs0).mpr hmin)) hb
  have h2 : 0 ≤ Real.logb 2 (fb.max_scale / fb.scale_0) * fb.bands_per_octave :=
    mul_nonneg (Real.logb_nonneg (by norm_num) ((one_le_div hs0).mpr hmax)) hb
  unfold Filterbank.max_index Filterbank.min_index
  rw [truncToInt_of_nonneg h1, truncToInt_of_nonneg h2]
  simp only [Filterbank.max_scale, Filterbank.min_scale, Filterbank.scale_0]
  ring

/-- Witness of C7 (amended) on the filterbank of the test "Filterbank: Scales":
the configuration is valid, its smallest scale is above `scale_0`, `init`
returns and the 20 bands are the difference of the two floors. -/
theorem band_count_witness :
    scenarioBank.Valid ∧
      2 / scenarioBank.reference_wavelet_.samplerate ≤
        scenarioBank.reference_wavelet_.frequency2scale scenarioBank.frequency_max ∧
      ∃ fb', scenarioBank.init = some fb' ∧ fb'.size = 20 ∧
        (fb'.size : ℤ) =
          ⌊Real.logb 2 (fb'.reference_wavelet_.frequency2scale fb'.frequency_min /
            (2 / fb'.reference_wavelet_.samplerate)) * fb'.bands_per_octave⌋ -
          ⌊Real.logb 2 (fb'.reference_wavelet_.frequency2scale fb'.frequency_max /
            (2 / fb'.reference_wavelet_.samplerate)) * fb'.bands_per_octave⌋ := by
  have hv := scenarioBank_valid
  have hs : 2 / scenarioBank.reference_wavelet_.samplerate ≤
      scenarioBank.reference_wavelet_.frequency2scale scenarioBank.frequency_max := by
    have hs0 : 0 < scenarioBank.scale_0 := scenarioBank.scale_0_pos hv.samplerate_pos
    have hratio : 1 ≤ scenarioBank.min_scale / scenarioBank.scale_0 := by
      unfold scenarioBank
      rw [sampleBank_min_ratio 1 30 4 (by norm_num)]
      obtain ⟨hs1, _⟩ := sqrt_27_bounds
      have hp2 := Real.pi_lt_d2
      have hpos : (0 : ℝ) < 2 * Real.pi * 30 := by positivity
      rw [le_div_iff₀ hpos]
      nlinarith
    exact (one_le_div hs0).mp hratio
  obtain ⟨fb', h, hsize⟩ := scenarioBank_init
  exact ⟨hv, hs, fb', h, hsize, band_count scenarioBank fb' h hv hs⟩

/-! ## Truncation toward zero in the band enumeration -/

theorem logb_two_mul_natCast_neg_mem {r : ℝ} {n k : ℕ} (hr : 0 < r)
    (h1 : 1 / (2 : ℝ) ^ (k + 1) < r ^ n) (h2 : r ^ n < 1 / (2 : ℝ) ^ k) :
    -(((k : ℤ) : ℝ) + 1) < Real.logb 2 r * (n : ℝ) ∧ Real.logb 2 r * (n : ℝ) < -((k : ℤ) : ℝ) := by
  have hrn : 0 < r ^ n := pow_pos hr n
  have e : Real.logb 2 r * (n : ℝ) = Real.logb 2 (r ^ n) := by
    rw [Real.logb_pow]; ring
  rw [e]
  constructor
  · rw [Real.lt_logb_iff_rpow_lt (by norm_num) hrn]
    have : -(((k : ℤ) : ℝ) + 1) = -(((k + 1 : ℕ) : ℝ)) := by push_cast; ring
    rw [this, Real.rpow_neg (by norm_num), Real.rpow_natCast, ← one_div]
    exact h1
  · rw [Real.logb_lt_iff_lt_rpow (by norm_num) hrn]
    have : -((k : ℤ) : ℝ) = -((k : ℕ) : ℝ) := by push_cast; ring
    rw [this, Real.rpow_neg (by norm_num), Real.rpow_natCast, ← one_div]
    exact h2

theorem truncToInt_eq_of_mem_Ioo_neg {x : ℝ} {k : ℕ} (h1 : -(((k : ℤ) : ℝ) + 1) < x)
    (h2 : x < -((k : ℤ) : ℝ)) : truncToInt x = -(k : ℤ) ∧ ⌊x⌋ = -(k : ℤ) - 1 := by
  have hk : (0 : ℝ) ≤ ((k : ℤ) : ℝ) := by exact_mod_cast Int.natCast_nonneg k
  have hx : x < 0 := by linarith
  simp only [Int.cast_natCast] at h1 h2 hk
  constructor
  · rw [truncToInt_of_neg hx, Int.ceil_eq_iff]
    push_cast
    constructor <;> linarith
  · rw [Int.floor_eq_iff]
    push_cast
    constructor <;> linarith

theorem morlet_ratio_bounds :
    (0.808 : ℝ) ≤ (5 + Real.sqrt 27) * 25 / (2 * Real.pi * 50) ∧
      (5 + Real.sqrt 27) * 25 / (2 * Real.pi * 50) ≤ 0.8122 := by
  obtain ⟨hs1, hs2⟩ := sqrt_27_bounds
  have hp1 := Real.pi_gt_d2
  have hp2 := Real.pi_lt_d2
  have hpos : (0 : ℝ) < 2 * Real.pi * 50 := by positivity
  constructor
  · rw [le_div_iff₀ hpos]; nlinarith
  · rw [div_le_iff₀ hpos]; nlinarith

theorem nyquistBank_min_index :
    nyquistBank.min_index = 0 ∧
      1 + ⌊Real.logb 2 (nyquistBank.min_scale / nyquistBank.scale_0) *
        nyquistBank.bands_per_octave⌋ = -1 := by
  unfold Filterbank.min_index nyquistBank
  rw [sampleBank_min_ratio 1 50 4 (by norm_num)]
  have hb : (sampleBank 1 50 4).bands_per_octave = ((4 : ℕ) : ℝ) := by
    simp [sampleBank, Filterbank.members]
  rw [hb]
  obtain ⟨hlo, hhi⟩ := morlet_ratio_bounds
  have hr : (0 : ℝ) < (5 + Real.sqrt 27) * 25 / (2 * Real.pi * 50) := by linarith
  have h1 : 1 / (2 : ℝ) ^ (1 + 1) < ((5 + Real.sqrt 27) * 25 / (2 * Real.pi * 50)) ^ 4 := by
    calc 1 / (2 : ℝ) ^ (1 + 1) < (0.808 : ℝ) ^ 4 := by norm_num
      _ ≤ _ := pow_le_pow_left₀ (by norm_num) hlo 4
  have h2 : ((5 + Real.sqrt 27) * 25 / (2 * Real.pi * 50)) ^ 4 < 1 / (2 : ℝ) ^ 1 := by
    calc ((5 + Real.sqrt 27) * 25 / (2 * Real.pi * 50)) ^ 4 ≤ (0.8122 : ℝ) ^ 4 :=
          pow_le_pow_left₀ hr.le hhi 4
      _ < _ := by norm_num
  obtain ⟨ha, hb'⟩ := logb_two_mul_natCast_neg_mem hr h1 h2
  obtain ⟨e1, e2⟩ := truncToInt_eq_of_mem_Ioo_neg ha hb'
  rw [e1, e2]
  constructor <;> norm_num

/-- C2, the code at the failing input `Filterbank(100, 1, 50, 4)` (Morlet, no
optimisation): `init` returns 22 bands and `scales[0] = scale_0 * 2^(0 / 4)`,
because `min_index = 1 + long(-1.2...) = 0`; with the mathematical floor the
index would be `1 + ⌊-1.2...⌋ = -1`, hence `22 - (-1) = 23` bands starting at
`scale_0 * 2^(-1 / 4)`. -/
theorem init_truncates_toward_zero :
    ∃ fb', nyquistBank.init = some fb' ∧ fb'.size = 22 ∧
      fb'.scales[0]? = some (2 / 100 * (2 : ℝ) ^ ((0 : ℝ) / 4)) ∧
      1 + ⌊Real.logb 2 (fb'.reference_wavelet_.frequency2scale fb'.frequency_max /
        (2 / fb'.reference_wavelet_.samplerate)) * fb'.bands_per_octave⌋ = -1 ∧
      1 + ⌊Real.logb 2 (fb'.reference_wavelet_.frequency2scale fb'.frequency_min /
        (2 / fb'.reference_wavelet_.samplerate)) * fb'.bands_per_octave⌋ = 22 := by
  have nyquistBank_init :  ∃ fb', nyquistBank.init = some fb' ∧ fb'.size = 22 := by
    have hv : nyquistBank.Valid :=
      sampleBank_valid 1 50 4 (by norm_num) (by norm_num) (by norm_num) (by norm_num)
    have e1 : nyquistBank.min_index = 0 := nyquistBank_min_index.1
    have e2 : nyquistBank.max_index = 22 := sampleBank_max_index_of_one 50 4 rfl
    obtain ⟨fb', h⟩ := nyquistBank.init_isSome hv.samplerate_pos hv.frequency_min_pos
      hv.min_le_max (le_trans zero_le_one hv.bands_per_octave_ge) hv.family_eq
      (by intro _; rw [e1, e2]; norm_num)
    refine ⟨fb', h, ?_⟩
    rw [Filterbank.init_size _ _ h]
    unfold Filterbank.bandCount
    rw [e1, e2]
    rfl
  obtain ⟨fb', h, hsize⟩ := nyquistBank_init
  refine ⟨fb', h, hsize, ?_, ?_, ?_⟩
  · obtain ⟨_, _, ws, bufs, _, _, rfl⟩ := Filterbank.init_eq_some _ fb' h
    have hn : 0 < nyquistBank.bandCount := by
      have := Filterbank.init_size _ _ h
      rw [← this, hsize]; norm_num
    simp only
    rw [Filterbank.initScales_getElem? _ _ 0 hn]
    unfold Filterbank.scaleAt
    rw [nyquistBank_min_index.1]
    simp [Filterbank.scale_0, nyquistBank, sampleBank, Filterbank.members, MorletWavelet.members]
  · obtain ⟨_, _, ws, bufs, _, _, rfl⟩ := Filterbank.init_eq_some _ fb' h
    exact nyquistBank_min_index.2
  · obtain ⟨_, _, ws, bufs, _, _, rfl⟩ := Filterbank.init_eq_some _ fb' h
    have e2 : nyquistBank.max_index = 22 := sampleBank_max_index_of_one 50 4 rfl
    unfold Filterbank.max_index at e2
    have hnn : 0 ≤ Real.logb 2 (nyquistBank.max_scale / nyquistBank.scale_0) *
        nyquistBank.bands_per_octave := by
      by_contra hneg
      push_neg at hneg
      rw [truncToInt_of_neg hneg] at e2
      have : ⌈Real.logb 2 (nyquistBank.max_scale / nyquistBank.scale_0) *
        nyquistBank.bands_per_octave⌉ ≤ 0 := by
        rw [Int.ceil_le]; exact_mod_cast hneg.le
      omega
    rw [truncToInt_of_nonneg hnn] at e2
    exact e2

theorem narrowBank_indices : narrowBank.min_index = -1 ∧ narrowBank.max_index = 0 := by
  obtain ⟨hlo, hhi⟩ := morlet_ratio_bounds
  have hb : (sampleBank 46 50 8).bands_per_octave = ((8 : ℕ) : ℝ) := by
    simp [sampleBank, Filterbank.members]
  constructor
  · unfold Filterbank.min_index narrowBank
    rw [sampleBank_min_ratio 46 50 8 (by norm_num), hb]
    have hr : (0 : ℝ) < (5 + Real.sqrt 27) * 25 / (2 * Real.pi * 50) := by linarith
    have h1 : 1 / (2 : ℝ) ^ (2 + 1) < ((5 + Real.sqrt 27) * 25 / (2 * Real.pi * 50)) ^ 8 := by
      calc 1 / (2 : ℝ) ^ (2 + 1) < (0.808 : ℝ) ^ 8 := by norm_num
        _ ≤ _ := pow_le_pow_left₀ (by norm_num) hlo 8
    have h2 : ((5 + Real.sqrt 27) * 25 / (2 * Real.pi * 50)) ^ 8 < 1 / (2 : ℝ) ^ 2 := by
      calc ((5 + Real.sqrt 27) * 25 / (2 * Real.pi * 50)) ^ 8 ≤ (0.8122 : ℝ) ^ 8 :=
            pow_le_pow_left₀ hr.le hhi 8
        _ < _ := by norm_num
    obtain ⟨ha, hb'⟩ := logb_two_mul_natCast_neg_mem hr h1 h2
    rw [(truncToInt_eq_of_mem_Ioo_neg ha hb').1]
    norm_num
  · unfold Filterbank.max_index narrowBank
    rw [sampleBank_max_ratio 46 50 8 (by norm_num), hb]
    have e : (5 + Real.sqrt 27) * 25 / (2 * Real.pi * 46) =
        (5 + Real.sqrt 27) * 25 / (2 * Real.pi * 50) * (50 / 46) := by
      field_simp; ring
    have hlo' : (0.878 : ℝ) ≤ (5 + Real.sqrt 27) * 25 / (2 * Real.pi * 46) := by
      rw [e]; nlinarith
    have hhi' : (5 + Real.sqrt 27) * 25 / (2 * Real.pi * 46) ≤ 0.883 := by
      rw [e]; nlinarith
    have hr : (0 : ℝ) < (5 + Real.sqrt 27) * 25 / (2 * Real.pi * 46) := by linarith
    have h1 : 1 / (2 : ℝ) ^ (1 + 1) < ((5 + Real.sqrt 27) * 25 / (2 * Real.pi * 46)) ^ 8 := by
      calc 1 / (2 : ℝ) ^ (1 + 1) < (0.878 : ℝ) ^ 8 := by norm_num
        _ ≤ _ := pow_le_pow_left₀ (by norm_num) hlo' 8
    have h2 : ((5 + Real.sqrt 27) * 25 / (2 * Real.pi * 46)) ^ 8 < 1 / (2 : ℝ) ^ 1 := by
      calc ((5 + Real.sqrt 27) * 25 / (2 * Real.pi * 46)) ^ 8 ≤ (0.883 : ℝ) ^ 8 :=
            pow_le_pow_left₀ hr.le hhi' 8
        _ < _ := by norm_num
    obtain ⟨ha, hb'⟩ := logb_two_mul_natCast_neg_mem hr h1 h2
    rw [(truncToInt_eq_of_mem_Ioo_neg ha hb').1]
    norm_num

/-- C6, the code at the failing input `Filterbank(100, 46, 50, 8)` (Morlet, no
optimisation), a valid configuration: `init` returns one band, and its
frequency (about 44.2) is below `frequency_min = 46`. -/
theorem band_below_frequency_min :
    ∃ fb' f, narrowBank.init = some fb' ∧ fb'.size = 1 ∧ fb'.frequency_min = 46 ∧
      fb'.frequency_max = 50 ∧ fb'.frequencies[0]? = some f ∧ f < fb'.frequency_min := by
  have narrowBank_init :  ∃ fb', narrowBank.init = some fb' ∧ fb'.size = 1 := by
    have hv : narrowBank.Valid :=
      sampleBank_valid 46 50 8 (by norm_num) (by norm_num) (by norm_num) (by norm_num)
    obtain ⟨e1, e2⟩ := narrowBank_indices
    obtain ⟨fb', h⟩ := narrowBank.init_isSome hv.samplerate_pos hv.frequency_min_pos
      hv.min_le_max (le_trans zero_le_one hv.bands_per_octave_ge) hv.family_eq
      (by intro _; rw [e1, e2]; norm_num)
    refine ⟨fb', h, ?_⟩
    rw [Filterbank.init_size _ _ h]
    unfold Filterbank.bandCount
    rw [e1, e2]
    rfl
  obtain ⟨fb', h, hsize⟩ := narrowBank_init
  have hn : 0 < narrowBank.bandCount := by
    have := Filterbank.init_size _ _ h
    rw [← this, hsize]; norm_num
  obtain ⟨_, _, ws, bufs, _, _, rfl⟩ := Filterbank.init_eq_some _ fb' h
  refine ⟨_, _, h, hsize, rfl, rfl, Filterbank.initFrequencies_getElem? _ _ 0 hn, ?_⟩
  show _ < (46 : ℝ)
  unfold Filterbank.scaleAt
  rw [narrowBank_indices.1]
  simp only [Filterbank.scale_0, narrowBank, sampleBank, Filterbank.members,
    Wavelet.scale2frequency, Wavelet.init_family, Wavelet.init_omega0, Wavelet.init_samplerate,
    MorletWavelet.members, MorletWavelet.scale2frequency, MorletWavelet.DEFAULT_OMEGA0]
  have h27 : (2 : ℝ) + 5 * 5 = 27 := by norm_num
  rw [h27]
  have hexp : (((-1 + ((0 : ℕ) : ℤ) : ℤ) : ℝ)) / 8 = -(1 / 8 : ℝ) := by norm_num
  rw [hexp]
  set t : ℝ := (2 : ℝ) ^ (-(1 / 8 : ℝ)) with ht
  have ht0 : 0 < t := Real.rpow_pos_of_pos (by norm_num) _
  have ht8 : t ^ 8 = 1 / 2 := by
    rw [ht, ← Real.rpow_natCast, ← Real.rpow_mul (by norm_num)]
    norm_num
  have ht9 : (0.9 : ℝ) ≤ t := by
    by_contra hlt
    push_neg at hlt
    have : t ^ 8 < (0.9 : ℝ) ^ 8 := pow_lt_pow_left hlt ht0.le (by norm_num)
    rw [ht8] at this
    norm_num at this
  obtain ⟨_, hhi⟩ := morlet_ratio_bounds
  obtain ⟨hs1, hs2⟩ := sqrt_27_bounds
  have hp1 := Real.pi_gt_d2
  have hden : (0 : ℝ) < 4 * Real.pi * (2 / 100 * t) := by positivity
  rw [div_lt_iff₀ hden]
  nlinarith [mul_pos Real.pi_pos ht0]

/-- The concrete sentence of C2 holds on the code: the filterbank of the test
"Filterbank: Scales" has exactly 20 bands, from `0.02 * 2^(2/4)` to
`0.02 * 2^(21/4)`. -/
theorem scenario_scales :
    ∃ fb', scenarioBank.init = some fb' ∧ fb'.size = 20 ∧
      fb'.scales[0]? = some (0.02 * (2 : ℝ) ^ ((2 : ℝ) / 4)) ∧
      fb'.scales[19]? = some (0.02 * (2 : ℝ) ^ ((21 : ℝ) / 4)) := by
  obtain ⟨fb', h, hsize⟩ := scenarioBank_init
  have hn : scenarioBank.bandCount = 20 := by
    rw [← Filterbank.init_size _ _ h, hsize]
  obtain ⟨_, _, ws, bufs, _, _, rfl⟩ := Filterbank.init_eq_some _ fb' h
  refine ⟨_, h, hsize, ?_, ?_⟩
  · simp only
    rw [Filterbank.initScales_getElem? _ _ 0 (by rw [hn]; norm_num)]
    unfold Filterbank.scaleAt
    rw [scenarioBank_min_index]
    simp only [Filterbank.scale_0, scenarioBank, sampleBank, Filterbank.members,
      Wavelet.init_samplerate, MorletWavelet.members]
    norm_num
  · simp only
    rw [Filterbank.initScales_getElem? _ _ 19 (by rw [hn]; norm_num)]
    unfold Filterbank.scaleAt
    rw [scenarioBank_min_index]
    simp only [Filterbank.scale_0, scenarioBank, sampleBank, Filterbank.members,
      Wavelet.init_samplerate, MorletWavelet.members]
    norm_num

namespace Filterbank

/-! ## The data loop and the coefficient of a band -/

theorem bandCoefficient_eq (rescale : Bool) (entry : ℤ × CircularBuffer) (w : Wavelet)
    (hne : entry.2.items ≠ []) (hd : 1 ≤ entry.1)
    (hcap : entry.1.toNat * w.window_size ≤ entry.2.items.length)
    (hv : w.values.length = w.window_size) :
    bandCoefficient rescale entry w = some (coefficientOf rescale entry.1.toNat entry.2 w) := by
  have dataLoop_eq : ∀ (items : List ℝ) (values : List ℂ) (decim : ℕ) (hd : 0 < decim),
      ∀ (n idx wi : ℕ) (acc : ℂ), idx + n * decim = items.length → wi + n ≤ values.length →
        dataLoop items values decim idx wi acc =
          some (acc + ((List.range n).map (fun (k : ℕ) =>
            ((items.getD (idx + k * decim) 0 : ℝ) : ℂ) *
              (starRingEnd ℂ) (values.getD (wi + k) 0))).sum) := by
    intro items values decim hd
    intro n
    induction n with
    | zero =>
      intro idx wi acc h _
      rw [dataLoop]
      have : ¬ idx < items.length := by omega
      simp [this]
    | succ n ih =>
      intro idx wi acc h hv
      rw [dataLoop]
      have h1 : idx < items.length := by
        have : 0 < (n + 1) * decim := Nat.mul_pos (Nat.succ_pos n) hd
        omega
      have h2 : wi < values.length := by omega
      have h3 : decim ≠ 0 := by omega
      rw [if_pos h1, if_neg h3, List.getElem?_eq_getElem h1, List.getElem?_eq_getElem h2]
      simp only
      rw [ih (idx + decim) (wi + 1) _ (by rw [← h]; ring) (by omega)]
      congr 1
      rw [List.range_succ_eq_map, List.map_cons, List.sum_cons, List.map_map]
      have e1 : items.getD (idx + 0 * decim) 0 = items[idx] := by
        simp [List.getD_eq_getElem?_getD, List.getElem?_eq_getElem h1]
      have e2 : values.getD (wi + 0) 0 = values[wi] := by
        simp [List.getD_eq_getElem?_getD, List.getElem?_eq_getElem h2]
      rw [e1, e2, add_assoc]
      congr 3
      apply List.map_congr_left
      intro k _
      simp only [Function.comp, Nat.succ_eq_add_one]
      have e3 : idx + decim + k * decim = idx + (k + 1) * decim := by ring
      have e4 : wi + 1 + k = wi + (k + 1) := by ring
      rw [e3, e4]
  have hlen : 0 < entry.2.items.length := List.length_pos.mpr hne
  have hdn : 0 < entry.1.toNat := by omega
  unfold bandCoefficient
  simp only [CircularBuffer.size]
  rw [List.getElem?_eq_getElem hlen, List.getElem?_eq_getElem (by omega : entry.2.items.length - 1 < entry.2.items.length)]
  simp only [Option.bind_eq_bind, Option.some_bind, if_pos hcap]
  rw [dataLoop_eq entry.2.items w.values entry.1.toNat hdn w.window_size _ 0 _
    (by rw [Nat.mul_comm w.window_size]; omega) (by omega)]
  simp only [Option.some_bind, zero_add]
  unfold coefficientOf rawCoefficient tapSum
  simp [List.getD_eq_getElem?_getD, List.getElem?_eq_getElem hlen,
    List.getElem?_eq_getElem (by omega : entry.2.items.length - 1 < entry.2.items.length)]

end Filterbank

/-! ## The streaming filter in closed form -/

namespace LowpassFilter

theorem filter_eq (f : LowpassFilter) (h : f.Sized) (value : ℝ) :
    f.filter value = some (f.output value, f.step value) := by
  have filterMemory_eq : ∀ (b a : List ℝ) (value y : ℝ),
      ∀ (z : List ℝ) (i : ℕ), i + z.length + 1 ≤ b.length → i + z.length + 1 ≤ a.length →
        filterMemory b a value y i z =
          some ((List.range z.length).map (fun (k : ℕ) =>
            b.getD (i + k + 1) 0 * value + z.getD (k + 1) 0 - a.getD (i + k + 1) 0 * y)) := by
    intro b a value y
    intro z
    induction z with
    | nil => intro i _ _; rfl
    | cons z0 t ih =>
      intro i hb ha
      cases t with
      | nil =>
        simp only [List.length_cons, List.length_nil] at hb ha
        have hbi : i + 1 < b.length := by omega
        have hai : i + 1 < a.length := by omega
        simp [filterMemory, List.getElem?_eq_getElem hbi, List.getElem?_eq_getElem hai,
          List.getD_eq_getElem?_getD, List.range_succ]
      | cons z1 rest =>
        simp only [List.length_cons] at hb ha
        have hbi : i + 1 < b.length := by omega
        have hai : i + 1 < a.length := by omega
        have ih' := ih (i + 1) (by simp only [List.length_cons]; omega)
          (by simp only [List.length_cons]; omega)
        simp only [filterMemory, List.getElem?_eq_getElem hbi, List.getElem?_eq_getElem hai,
          Option.bind_eq_bind, Option.some_bind, ih']
        simp only [List.length_cons, Option.some.injEq]
        rw [List.range_succ_eq_map (rest.length + 1), List.map_cons, List.map_map]
        congr 1
        · simp [List.getD_eq_getElem?_getD, List.getElem?_eq_getElem hbi,
            List.getElem?_eq_getElem hai]
        · apply List.map_congr_left
          intro k _
          simp only [Function.comp, Nat.succ_eq_add_one]
          have e : i + 1 + k + 1 = i + (k + 1) + 1 := by ring
          rw [e]
          simp [List.getD_cons_succ]
  obtain ⟨h1, h2, h3, h4⟩ := h
  have hz : 0 < f.z.length := by omega
  have hb : 0 < f.b.length := by omega
  unfold filter
  have hc : ¬ (f.order < 1 ∨ (f.z.length : ℤ) ≠ f.order) := by
    push_neg; exact ⟨h1, h2⟩
  rw [if_neg hc, List.getElem?_eq_getElem hb, List.getElem?_eq_getElem hz]
  simp only [Option.bind_eq_bind, Option.some_bind]
  rw [filterMemory_eq f.b f.a value _ f.z 0 (by omega) (by omega)]
  simp only [Option.some_bind, Option.some.injEq, Prod.mk.injEq]
  have e : f.b[0] * value + f.z[0] = f.output value := by
    simp [output, List.getD_eq_getElem?_getD, List.getElem?_eq_getElem hb,
      List.getElem?_eq_getElem hz]
  rw [e]
  refine ⟨rfl, ?_⟩
  simp [step, nextMemory]

theorem step_sized (f : LowpassFilter) (h : f.Sized) (value : ℝ) : (f.step value).Sized := by
  obtain ⟨h1, h2, h3, h4⟩ := h
  simp only [Sized, step, nextMemory, List.length_map, List.length_range]
  exact ⟨h1, h2, h3, h4⟩

theorem stepN_sized (value : ℝ) : ∀ (n : ℕ) (f : LowpassFilter), f.Sized →
    (f.stepN value n).Sized := by
  intro n
  induction n with
  | zero => intro f h; exact h
  | succ n ih => intro f h; exact ih _ (f.step_sized h value)

end LowpassFilter

/-! ## The buffer fill in closed form -/

namespace CircularBuffer

theorem push_back_n_capacity (v : ℝ) : ∀ (n : ℕ) (c : CircularBuffer),
    (c.push_back_n v n).capacity = c.capacity := by
  intro n
  induction n with
  | zero => intro c; rfl
  | succ n ih =>
    intro c
    simp only [push_back_n]
    rw [ih]
    unfold push_back
    split_ifs <;> rfl

theorem push_back_n_replicate (v : ℝ) : ∀ (n : ℕ) (c : CircularBuffer) (m : ℕ),
    1 ≤ c.capacity → m ≤ c.capacity → c.items = List.replicate m v →
      (c.push_back_n v n).items = List.replicate (min (m + n) c.capacity) v := by
  intro n
  induction n with
  | zero =>
    intro c m _ hm h
    simp only [push_back_n, add_zero, min_eq_left hm, h]
  | succ n ih =>
    intro c m hc hm h
    simp only [push_back_n]
    by_cases hfull : m < c.capacity
    · have hpush : c.push_back v = { c with items := List.replicate (m + 1) v } := by
        unfold push_back
        have h0 : c.capacity ≠ 0 := by omega
        have hl : c.items.length < c.capacity := by rw [h]; simpa using hfull
        rw [if_neg h0, if_pos hl, h]
        simp [List.replicate_succ']
      rw [hpush]
      rw [ih { c with items := List.replicate (m + 1) v } (m + 1) hc (by simpa using hfull) rfl]
      simp only
      congr 1
      omega
    · have hmc : m = c.capacity := by omega
      have hpush : c.push_back v = c := by
        unfold push_back
        have h0 : c.capacity ≠ 0 := by omega
        have hl : ¬ c.items.length < c.capacity := by rw [h]; simp; omega
        rw [if_neg h0, if_neg hl, h]
        have : List.drop 1 (List.replicate m v) ++ [v] = List.replicate m v := by
          cases m with
          | zero => omega
          | succ k =>
            rw [List.replicate_succ, List.drop_succ_cons, List.drop_zero,
              ← List.replicate_succ', List.replicate_succ]
        rw [this, ← h]
      rw [hpush]
      rw [ih c m hc hm h]
      congr 1
      omega

theorem fillRaw_eq (c : CircularBuffer) (h : c.Sound) (v : ℝ) :
    Filterbank.fillRaw c v = c.fill v := by
  obtain ⟨hc, hs⟩ := h
  unfold Filterbank.fillRaw fill size
  by_cases he : c.items.length = 0
  · have hnil : c.items = [] := List.length_eq_zero.mp he
    have hn : ¬ c.items.length > 0 := by omega
    rw [if_neg hn, if_pos he]
    have hitems := push_back_n_replicate v (2 * c.capacity - 1) c 0 hc (Nat.zero_le _)
      (by rw [hnil]; rfl)
    have hcap := push_back_n_capacity v (2 * c.capacity - 1) c
    have hmin : min (0 + (2 * c.capacity - 1)) c.capacity = c.capacity := by
      apply min_eq_right; omega
    rw [hmin] at hitems
    cases hres : c.push_back_n v (2 * c.capacity - 1) with
    | mk cap items =>
      rw [hres] at hitems hcap
      simp only at hitems hcap
      rw [hitems, hcap]
  · have hp : c.items.length > 0 := by omega
    rw [if_pos hp, if_neg he]
    have hfull : c.items.length = c.capacity := by
      rcases hs with hs | hs
      · omega
      · exact hs
    unfold push_back
    have h0 : c.capacity ≠ 0 := by omega
    have hl : ¬ c.items.length < c.capacity := by omega
    rw [if_neg h0, if_neg hl]

theorem fill_sound (c : CircularBuffer) (h : c.Sound) (v : ℝ) :
    (c.fill v).capacity = c.capacity ∧ (c.fill v).items.length = c.capacity ∧
      (c.fill v).Sound := by
  obtain ⟨hc, hs⟩ := h
  have hlen : (c.fill v).items.length = c.capacity := by
    unfold fill
    by_cases he : c.items.length = 0
    · simp [he]
    · have hfull : c.items.length = c.capacity := by
        rcases hs with hs | hs
        · omega
        · exact hs
      simp only [if_neg he, List.length_append, List.length_drop, List.length_singleton]
      omega
  exact ⟨rfl, hlen, hc, Or.inr hlen⟩

end CircularBuffer

namespace Filterbank

theorem fillFilteredStep_eq (flt : LowpassFilter) (c : CircularBuffer) (hf : flt.Sized)
    (hc : c.Sound) (v : ℝ) :
    fillFilteredStep flt c v = some (feedFilter flt c v, c.fill (filteredValue flt c v)) := by
  open woma.LowpassFilter in
    have filter_n_eq : ∀ (value : ℝ), ∀ (n : ℕ) (f : LowpassFilter) (last : ℝ), f.Sized →
        Filterbank.filter_n f value n last = some (f.outputN value n last, f.stepN value n) := by
      intro value
      intro n
      induction n with
      | zero => intro f last _; rfl
      | succ n ih =>
        intro f last h
        simp only [Filterbank.filter_n, f.filter_eq h value, Option.bind_eq_bind, Option.some_bind]
        rw [ih _ _ (f.step_sized h value)]
        rfl
  unfold fillFilteredStep feedFilter filteredValue
  rw [flt.filter_eq hf v]
  simp only [Option.bind_eq_bind, Option.some_bind, CircularBuffer.size]
  by_cases he : c.items.length = 0
  · have hn : ¬ c.items.length > 0 := by omega
    rw [if_neg hn, if_pos he, if_pos he,
      filter_n_eq v _ _ _ (flt.step_sized hf v)]
    simp only [Option.some_bind]
    rw [← CircularBuffer.fillRaw_eq c hc]
    unfold fillRaw CircularBuffer.size
    rw [if_neg hn]
  · have hp : c.items.length > 0 := by omega
    rw [if_pos hp, if_neg he, if_neg he, ← CircularBuffer.fillRaw_eq c hc]
    unfold fillRaw CircularBuffer.size
    rw [if_pos hp]

theorem fillBuffers_eq (fb : Filterbank) (v : ℝ) (hne : fb.data_ ≠ [])
    (hd : ∀ e ∈ fb.data_, e.2.Sound) (hf : ∀ e ∈ fb.filters_, e.2.Sized)
    (hlen : fb.optimisation ≠ Optimisation.None →
      ∀ first rest, fb.data_ = first :: rest →
        fb.filters_.length ≤ (if first.1 = 1 then rest else first :: rest).length) :
    fillBuffers fb v = some (fb.nextFilters v, fb.nextData v) := by
  have fillFiltered_eq : ∀ (v : ℝ), ∀ (fs : List (ℤ × LowpassFilter))
      (ds : List (ℤ × CircularBuffer)), (∀ e ∈ fs, e.2.Sized) → (∀ e ∈ ds, e.2.Sound) →
        fs.length ≤ ds.length →
        fillFiltered v fs ds = some (fillFilteredFilters v fs ds, fillFilteredData v fs ds) := by
    intro v
    intro fs
    induction fs with
    | nil =>
      intro ds _ _ _
      cases ds <;> rfl
    | cons f fs ih =>
      intro ds hf hd hlen
      cases ds with
      | nil => simp at hlen
      | cons d ds =>
        obtain ⟨kf, flt⟩ := f
        obtain ⟨kd, c⟩ := d
        have h1 : flt.Sized := hf (kf, flt) (List.mem_cons_self _ _)
        have h2 : c.Sound := hd (kd, c) (List.mem_cons_self _ _)
        simp only [fillFiltered, fillFilteredStep_eq flt c h1 h2 v, Option.bind_eq_bind,
          Option.some_bind]
        rw [ih ds (fun e he => hf e (List.mem_cons_of_mem _ he))
          (fun e he => hd e (List.mem_cons_of_mem _ he))
          (by simpa using hlen)]
        rfl
  unfold fillBuffers nextFilters nextData
  cases hdata : fb.data_ with
  | nil => exact absurd hdata hne
  | cons first rest =>
    have hfirst : first.2.Sound := hd first (by rw [hdata]; exact List.mem_cons_self _ _)
    have hrest : ∀ e ∈ rest, e.2.Sound :=
      fun e he => hd e (by rw [hdata]; exact List.mem_cons_of_mem _ he)
    have hall : ∀ e ∈ first :: rest, e.2.Sound := fun e he => hd e (by rw [hdata]; exact he)
    simp only [List.getElem?_cons_zero, Option.bind_eq_bind, Option.some_bind, List.drop_succ_cons,
      List.drop_zero]
    by_cases hO : fb.optimisation ≠ Optimisation.None
    · have hl := hlen hO first rest hdata
      simp only [if_pos hO]
      by_cases h1 : first.1 = 1
      · simp only [if_pos h1] at hl ⊢
        rw [fillFiltered_eq v fb.filters_ rest hf hrest hl]
        simp only [Option.some_bind, List.singleton_append]
        rw [CircularBuffer.fillRaw_eq _ hfirst]
      · simp only [if_neg h1] at hl ⊢
        rw [fillFiltered_eq v fb.filters_ (first :: rest) hf hall hl]
        simp only [Option.some_bind, List.nil_append]
    · simp only [if_neg hO]
      by_cases h1 : first.1 = 1
      · simp only [if_pos h1, List.singleton_append]
        rw [CircularBuffer.fillRaw_eq _ hfirst]
      · simp only [if_neg h1, List.nil_append]

end Filterbank

/-! ## The band loop in closed form -/

namespace Filterbank

theorem bandPos_succ_opt (fb : Filterbank) (j : ℕ) (h : fb.optimisation ≠ Optimisation.None) :
    fb.bandPos (j + 1) =
      if fb.downsampling_factors.getD (j + 1) 0 ≠ fb.downsampling_factors.getD j 0 then
        fb.bandPos j + 1 else fb.bandPos j := by
  simp [bandPos, h]

theorem bandPos_none (fb : Filterbank) (h : fb.optimisation = Optimisation.None) :
    ∀ j, fb.bandPos j = 0 := by
  intro j
  induction j with
  | zero => rfl
  | succ j ih => simp [bandPos, h, ih]

theorem getD_of_lt (l : List ℤ) (j : ℕ) (hj : j < l.length) (a b : ℤ) :
    l.getD j a = l.getD j b := by
  simp [List.getD_eq_getElem?_getD, List.getElem?_eq_getElem hj]

end Filterbank

namespace Filterbank

theorem map_range_getD {α : Type} (l : List α) (d : α) :
    (List.range l.length).map (fun (j : ℕ) => l.getD j d) = l := by
  apply List.ext_getElem?
  intro i
  by_cases hi : i < l.length
  · simp [List.getElem?_map, List.getElem?_range hi, List.getD_eq_getElem?_getD,
      List.getElem?_eq_getElem hi]
  · rw [List.getElem?_eq_none (by simp; omega), List.getElem?_eq_none (by omega)]

theorem cursorAfter_zero (fb : Filterbank) (data : List (ℤ × CircularBuffer))
    (hc : fb.result_complex.length = fb.wavelets_.length)
    (hp : fb.result_power.length = fb.wavelets_.length) :
    fb.cursorAfter data 0 =
      { data_it := 0, previous_downrate := 1, result_complex := fb.result_complex,
        result_power := fb.result_power } := by
  simp only [cursorAfter, Nat.not_lt_zero, if_false, true_or, if_true]
  rw [← hc, map_range_getD, hc, ← hp, map_range_getD]

theorem bandLoop_eq (fb : Filterbank) (data : List (ℤ × CircularBuffer))
    (hc : fb.result_complex.length = fb.wavelets_.length)
    (hp : fb.result_power.length = fb.wavelets_.length)
    (hfl : fb.optimisation ≠ Optimisation.None →
      fb.downsampling_factors.length = fb.wavelets_.length)
    (hfp : fb.optimisation ≠ Optimisation.None → ∀ d ∈ fb.downsampling_factors, 1 ≤ d)
    (hvals : ∀ w ∈ fb.wavelets_, w.values.length = w.window_size)
    (hal : ∀ j, j < fb.wavelets_.length →
      ∃ e w, data[fb.bandPos j]? = some e ∧ fb.wavelets_[j]? = some w ∧ 1 ≤ e.1 ∧
        e.2.items ≠ [] ∧ e.1.toNat * w.window_size ≤ e.2.items.length) :
    ∀ m, m ≤ fb.wavelets_.length →
      (List.range m).foldlM (updateBand fb data) (fb.cursorAfter data 0) =
        some (fb.cursorAfter data m) := by
  have updateBand_eq : ∀ (fb : Filterbank) (data : List (ℤ × CircularBuffer)) (m : ℕ)
      (hm : m < fb.wavelets_.length)
      (hc : fb.result_complex.length = fb.wavelets_.length)
      (hp : fb.result_power.length = fb.wavelets_.length)
      (hfl : fb.optimisation ≠ Optimisation.None →
        fb.downsampling_factors.length = fb.wavelets_.length)
      (hfp : fb.optimisation ≠ Optimisation.None → ∀ d ∈ fb.downsampling_factors, 1 ≤ d)
      (hvals : ∀ w ∈ fb.wavelets_, w.values.length = w.window_size)
      (hal : ∃ e w, data[fb.bandPos m]? = some e ∧ fb.wavelets_[m]? = some w ∧ 1 ≤ e.1 ∧
        e.2.items ≠ [] ∧ e.1.toNat * w.window_size ≤ e.2.items.length),
      updateBand fb data (fb.cursorAfter data m) m = some (fb.cursorAfter data (m + 1)) := by
    intro fb data m hm hc hp hfl hfp hvals hal
    have set_map_range : ∀ {α : Type} (n m : ℕ) (hm : m < n) (f g : ℕ → α),
        ((List.range n).map (fun (j : ℕ) => if j < m then f j else g j)).set m (f m) =
          (List.range n).map (fun (j : ℕ) => if j < m + 1 then f j else g j) := by
      intro α n m hm f g
      apply List.ext_getElem?
      intro i
      rw [List.getElem?_set]
      by_cases hi : i < n
      · simp only [List.length_map, List.length_range, hm, if_true, List.getElem?_map,
          List.getElem?_range hi, Option.map_some']
        by_cases him : m = i
        · subst him
          simp
        · simp only [if_neg him]
          have : (i < m + 1) ↔ (i < m) := by omega
          simp only [this]
      · have h1 : ((List.range n).map (fun (j : ℕ) => if j < m then f j else g j))[i]? = none := by
          rw [List.getElem?_eq_none]; simp; omega
        have h2 : ((List.range n).map (fun (j : ℕ) => if j < m + 1 then f j else g j))[i]? = none := by
          rw [List.getElem?_eq_none]; simp; omega
        have him : ¬ m = i := by omega
        rw [if_neg him, h1, h2]
    have cursorAfter_succ_of_skip : ∀ (fb : Filterbank) (data : List (ℤ × CircularBuffer)) (m : ℕ)
        (hc : fb.result_complex.length = fb.wavelets_.length)
        (hp : fb.result_power.length = fb.wavelets_.length)
        (hs : fb.skips m = true),
        (fb.cursorAfter data (m + 1)).result_complex = (fb.cursorAfter data m).result_complex ∧
          (fb.cursorAfter data (m + 1)).result_power = (fb.cursorAfter data m).result_power := by
      intro fb data m hc hp hs
      simp only [cursorAfter]
      constructor
      · apply List.map_congr_left
        intro j _
        by_cases hj : j = m
        · subst hj
          simp [bandResult, hs]
        · have : (j < m + 1) ↔ (j < m) := by omega
          simp only [this]
      · apply List.map_congr_left
        intro j _
        by_cases hj : j = m
        · subst hj
          simp [bandPower, hs]
        · have : (j < m + 1) ↔ (j < m) := by omega
          simp only [this]
    obtain ⟨e, w, he, hw, hkey, hne, hcap⟩ := hal
    have hwmem : w ∈ fb.wavelets_ := List.mem_iff_getElem?.mpr ⟨m, hw⟩
    have hcoef := bandCoefficient_eq fb.rescale e w hne hkey hcap (hvals w hwmem)
    -- the cursor after the walk
    have hwalk : walkCursor fb (fb.cursorAfter data m) m =
        some { fb.cursorAfter data m with
          data_it := fb.bandPos m
          previous_downrate := (fb.cursorAfter data (m + 1)).previous_downrate } := by
      unfold walkCursor
      by_cases hO : fb.optimisation ≠ Optimisation.None
      · have hlen := hfl hO
        have hmf : m < fb.downsampling_factors.length := by omega
        rw [if_pos hO, List.getElem?_eq_getElem hmf]
        simp only [Option.some_bind]
        have hN : ¬ fb.optimisation = Optimisation.None := hO
        have hd1 : fb.downsampling_factors.getD m 1 = fb.downsampling_factors[m] := by
          simp [List.getD_eq_getElem?_getD, List.getElem?_eq_getElem hmf]
        have hd0 : fb.downsampling_factors.getD m 0 = fb.downsampling_factors[m] := by
          simp [List.getD_eq_getElem?_getD, List.getElem?_eq_getElem hmf]
        cases m with
        | zero =>
          simp only [cursorAfter, true_or, if_true, Nat.lt_irrefl, if_false, bandPos, zero_add,
            Nat.add_one_ne_zero, hN, or_false, Nat.add_sub_cancel, gt_iff_lt]
          by_cases h1 : fb.downsampling_factors[0] ≠ 1
          · rw [if_pos h1, hd1]
          · rw [if_neg h1]
            have h1' : fb.downsampling_factors[0] = 1 := not_not.mp h1
            rw [hd1, h1']
        | succ k =>
          have hk : k < fb.downsampling_factors.length := by omega
          have hdk1 : fb.downsampling_factors.getD k 1 = fb.downsampling_factors[k] := by
            simp [List.getD_eq_getElem?_getD, List.getElem?_eq_getElem hk]
          have hdk0 : fb.downsampling_factors.getD k 0 = fb.downsampling_factors[k] := by
            simp [List.getD_eq_getElem?_getD, List.getElem?_eq_getElem hk]
          simp only [cursorAfter, Nat.add_one_ne_zero, false_or, hN, if_false, Nat.add_sub_cancel,
            gt_iff_lt, Nat.zero_lt_succ, if_true, hdk1, hd1]
          rw [bandPos_succ_opt fb k hO, hd0, hdk0]
          by_cases h1 : fb.downsampling_factors[k + 1] ≠ fb.downsampling_factors[k]
          · rw [if_pos h1, if_pos h1]
          · rw [if_neg h1, if_neg h1]
            have h1' := not_not.mp h1
            simp [h1']
      · have hN : fb.optimisation = Optimisation.None := not_not.mp hO
        rw [if_neg hO]
        simp only [cursorAfter, hN, or_true, if_true, bandPos_none fb hN]
        simp
    have hskip : skipTest fb m = some (fb.skips m) := by
      unfold skipTest
      by_cases hA : fb.optimisation = Optimisation.Aggressive1 ∨
          fb.optimisation = Optimisation.Aggressive2
      · have hO : fb.optimisation ≠ Optimisation.None := by
          rcases hA with hA | hA <;> rw [hA] <;> decide
        have hmf : m < fb.downsampling_factors.length := by rw [hfl hO]; exact hm
        have hd1 : fb.downsampling_factors.getD m 1 = fb.downsampling_factors[m] := by
          simp [List.getD_eq_getElem?_getD, List.getElem?_eq_getElem hmf]
        have hpos : 1 ≤ fb.downsampling_factors[m] := hfp hO _ (List.getElem_mem _)
        have hnz : ¬ fb.downsampling_factors[m] = 0 := by omega
        rw [if_pos hA, List.getElem?_eq_getElem hmf]
        simp only [Option.some_bind, if_neg hnz, skips, hA, true_and, hd1]
      · rw [if_neg hA]
        simp [skips, hA]
    unfold updateBand
    rw [hw, Option.some_bind, hwalk, Option.some_bind, hskip, Option.some_bind]
    by_cases hs : fb.skips m = true
    · rw [if_pos hs]
      obtain ⟨e1, e2⟩ := cursorAfter_succ_of_skip fb data m hc hp hs
      simp only [Option.some.injEq]
      rw [show fb.cursorAfter data (m + 1) =
        { data_it := (fb.cursorAfter data (m + 1)).data_it,
          previous_downrate := (fb.cursorAfter data (m + 1)).previous_downrate,
          result_complex := (fb.cursorAfter data (m + 1)).result_complex,
          result_power := (fb.cursorAfter data (m + 1)).result_power } from rfl, e1, e2]
      simp [cursorAfter]
    · rw [if_neg hs]
      simp only
      rw [he]
      simp only [Option.some_bind, hcoef]
      have hl1 : m < (fb.cursorAfter data m).result_complex.length := by
        simp [cursorAfter, hm]
      have hl2 : m < (fb.cursorAfter data m).result_power.length := by
        simp [cursorAfter, hm]
      rw [if_pos ⟨hl1, hl2⟩]
      have hbr : fb.bandResult data m = coefficientOf fb.rescale e.1.toNat e.2 w := by
        simp [bandResult, hs, he, hw]
      have hbp : fb.bandPower data m = Complex.normSq (coefficientOf fb.rescale e.1.toNat e.2 w) := by
        simp [bandPower, hs, hbr]
      simp only [Option.some.injEq]
      simp only [cursorAfter]
      have hbp' : fb.bandPower data m = Complex.normSq (fb.bandResult data m) := by
        rw [hbp, hbr]
      rw [← hbr, set_map_range _ _ hm, ← hbp', set_map_range _ _ hm]
      simp
  intro m
  induction m with
  | zero => intro _; rfl
  | succ m ih =>
    intro hm
    rw [List.range_succ, List.foldlM_append, ih (by omega)]
    simp only [Option.bind_eq_bind, Option.some_bind, List.foldlM_cons, List.foldlM_nil]
    rw [updateBand_eq fb data m (by omega) hc hp hfl hfp hvals (hal m (by omega))]
    rfl

end Filterbank

namespace Filterbank

theorem nextData_getElem? (fb : Filterbank) (h : fb.Ready) (v : ℝ) (i : ℕ)
    (e : ℤ × CircularBuffer) (he : fb.data_[i]? = some e) :
    ∃ e', (fb.nextData v)[i]? = some e' ∧ e'.1 = e.1 ∧ e'.2.capacity = e.2.capacity ∧
      e'.2.items.length = e.2.capacity := by
  have fillFilteredData_getElem? : ∀ (v : ℝ), ∀ (fs : List (ℤ × LowpassFilter))
      (ds : List (ℤ × CircularBuffer)), (∀ e ∈ ds, e.2.Sound) → fs.length = ds.length →
        ∀ (i : ℕ) (e : ℤ × CircularBuffer), ds[i]? = some e →
          ∃ e', (fillFilteredData v fs ds)[i]? = some e' ∧ e'.1 = e.1 ∧
            e'.2.capacity = e.2.capacity ∧ e'.2.items.length = e.2.capacity := by
    intro v
    intro fs
    induction fs with
    | nil =>
      intro ds _ hlen i e he
      have : ds = [] := List.length_eq_zero.mp hlen.symm
      rw [this] at he
      simp at he
    | cons f fs ih =>
      intro ds hd hlen i e he
      cases ds with
      | nil => simp at hlen
      | cons d ds =>
        obtain ⟨kf, flt⟩ := f
        obtain ⟨kd, c⟩ := d
        have h2 : c.Sound := hd (kd, c) (List.mem_cons_self _ _)
        cases i with
        | zero =>
          simp only [List.getElem?_cons_zero, Option.some.injEq] at he
          subst he
          obtain ⟨q1, q2, _⟩ := c.fill_sound h2 (filteredValue flt c v)
          exact ⟨(kd, c.fill (filteredValue flt c v)), by simp [fillFilteredData], rfl, q1, q2⟩
        | succ i =>
          simp only [List.getElem?_cons_succ] at he
          obtain ⟨e', q0, q⟩ := ih ds (fun e he => hd e (List.mem_cons_of_mem _ he))
            (by simpa using hlen) i e he
          exact ⟨e', by simpa [fillFilteredData] using q0, q⟩
  unfold nextData
  cases hdata : fb.data_ with
  | nil => rw [hdata] at he; simp at he
  | cons first rest =>
    rw [hdata] at he
    have hsound : ∀ x ∈ first :: rest, x.2.Sound := fun x hx =>
      h.buffers_sound x (by rw [hdata]; exact hx)
    have hfirst : first.2.Sound := hsound first (List.mem_cons_self _ _)
    have hrest : ∀ x ∈ rest, x.2.Sound := fun x hx => hsound x (List.mem_cons_of_mem _ hx)
    simp only
    by_cases hO : fb.optimisation ≠ Optimisation.None
    · have hl := h.filters_length hO first rest hdata
      simp only [if_pos hO]
      by_cases h1 : first.1 = 1
      · simp only [if_pos h1] at hl ⊢
        cases i with
        | zero =>
          simp only [List.getElem?_cons_zero, Option.some.injEq] at he
          subst he
          obtain ⟨q1, q2, _⟩ := first.2.fill_sound hfirst v
          exact ⟨(first.1, first.2.fill v), by simp, rfl, q1, q2⟩
        | succ i =>
          simp only [List.getElem?_cons_succ] at he ⊢
          exact fillFilteredData_getElem? v fb.filters_ rest hrest hl i e he
      · simp only [if_neg h1] at hl ⊢
        exact fillFilteredData_getElem? v fb.filters_ (first :: rest) hsound hl i e he
    · have hN : fb.optimisation = Optimisation.None := not_not.mp hO
      obtain ⟨c, hc⟩ := h.none_single hN
      rw [hdata] at hc
      simp only [List.cons.injEq] at hc
      obtain ⟨hf1, hr⟩ := hc
      subst hr
      have h1 : first.1 = 1 := by rw [hf1]
      simp only [if_neg hO, if_pos h1]
      cases i with
      | zero =>
        simp only [List.getElem?_cons_zero, Option.some.injEq] at he
        subst he
        obtain ⟨q1, q2, _⟩ := first.2.fill_sound hfirst v
        exact ⟨(first.1, first.2.fill v), by simp, rfl, q1, q2⟩
      | succ i => simp at he

theorem nextData_length (fb : Filterbank) (v : ℝ) :
    (fb.nextData v).length = fb.data_.length := by
  have fillFilteredData_length : ∀ (v : ℝ), ∀ (fs : List (ℤ × LowpassFilter))
      (ds : List (ℤ × CircularBuffer)), (fillFilteredData v fs ds).length = ds.length := by
    intro v
    intro fs
    induction fs with
    | nil => intro ds; cases ds <;> rfl
    | cons f fs ih =>
      intro ds
      cases ds with
      | nil => rfl
      | cons d ds =>
        obtain ⟨kf, flt⟩ := f
        obtain ⟨kd, c⟩ := d
        simp [fillFilteredData, ih ds]
  unfold nextData
  cases fb.data_ with
  | nil => rfl
  | cons first rest =>
    simp only
    split_ifs <;> simp [fillFilteredData_length]

theorem nextData_keys (fb : Filterbank) (h : fb.Ready) (v : ℝ) :
    (fb.nextData v).map Prod.fst = fb.data_.map Prod.fst := by
  apply List.ext_getElem?
  intro i
  rw [List.getElem?_map, List.getElem?_map]
  by_cases hi : i < fb.data_.length
  · obtain ⟨e', q0, q1, _⟩ := fb.nextData_getElem? h v i fb.data_[i] (List.getElem?_eq_getElem hi)
    rw [q0, List.getElem?_eq_getElem hi]
    simp [q1]
  · rw [List.getElem?_eq_none (by rw [nextData_length]; omega),
      List.getElem?_eq_none (by omega)]

theorem bandPos_congr (fb fb' : Filterbank) (h1 : fb'.optimisation = fb.optimisation)
    (h2 : fb'.downsampling_factors = fb.downsampling_factors) :
    ∀ j, fb'.bandPos j = fb.bandPos j := by
  intro j
  induction j with
  | zero => rfl
  | succ j ih => simp only [bandPos, h1, h2, ih]

end Filterbank

namespace Filterbank

theorem ready_aligned_next (fb : Filterbank) (h : fb.Ready) (v : ℝ) (j : ℕ)
    (hj : j < fb.wavelets_.length) :
    ∃ e w, (fb.nextData v)[fb.bandPos j]? = some e ∧ fb.wavelets_[j]? = some w ∧
      e.1 = fb.bandFactor j ∧ 1 ≤ e.1 ∧ e.2.items ≠ [] ∧
      e.1.toNat * w.window_size ≤ e.2.items.length ∧
      e.1.toNat * w.window_size ≤ e.2.capacity := by
  obtain ⟨e, w, he, hw, hk, h1, hcap⟩ := h.aligned j hj
  obtain ⟨e', q0, q1, q2, q3⟩ := fb.nextData_getElem? h v _ e he
  have hs : e.2.Sound := h.buffers_sound e (List.mem_iff_getElem?.mpr ⟨_, he⟩)
  refine ⟨e', w, q0, hw, by rw [q1]; exact hk, by rw [q1]; exact h1, ?_, ?_, ?_⟩
  · intro hnil
    rw [hnil] at q3
    have := hs.1
    simp at q3
    omega
  · rw [q1, q3]; exact hcap
  · rw [q1, q2]; exact hcap

/-- On a configured filterbank `update` returns, and returns the closed form
`next`. -/
theorem update_eq (fb : Filterbank) (h : fb.Ready) (v : ℝ) :
    fb.update v = some (fb.next v) := by
  unfold update
  rw [fb.fillBuffers_eq v h.data_nonempty h.buffers_sound h.filters_sized
    (fun hO first rest hdata => le_of_eq (h.filters_length hO first rest hdata))]
  simp only [Option.bind_eq_bind, Option.some_bind]
  rw [← fb.cursorAfter_zero (fb.nextData v) h.result_complex_length h.result_power_length]
  rw [fb.bandLoop_eq (fb.nextData v) h.result_complex_length h.result_power_length
    h.factors_length h.factors_pos h.values_length
    (fun j hj => by
      obtain ⟨e, w, q0, q1, _, q3, q4, q5, _⟩ := fb.ready_aligned_next h v j hj
      exact ⟨e, w, q0, q1, q3, q4, q5⟩)
    fb.wavelets_.length (le_refl _)]
  simp only [Option.some_bind, Option.some.injEq]
  unfold next
  congr 1
  · simp only [cursorAfter]
    apply List.map_congr_left
    intro j hj
    rw [if_pos (List.mem_range.mp hj)]
  · simp only [cursorAfter]
    apply List.map_congr_left
    intro j hj
    rw [if_pos (List.mem_range.mp hj)]

/-- The closed form `next` of `update` keeps a configured filterbank
configured. -/
theorem next_ready (fb : Filterbank) (h : fb.Ready) (v : ℝ) : (fb.next v).Ready := by
  have nextData_getElem?_inv : ∀ (fb : Filterbank) (h : fb.Ready) (v : ℝ) (i : ℕ)
      (e' : ℤ × CircularBuffer) (he : (fb.nextData v)[i]? = some e'),
      ∃ e, fb.data_[i]? = some e ∧ e'.1 = e.1 ∧ e'.2.capacity = e.2.capacity ∧
        e'.2.items.length = e.2.capacity := by
    intro fb h v i e' he
    have hi : i < fb.data_.length := by
      have := (List.getElem?_eq_some_iff.mp he).1
      rw [nextData_length] at this
      exact this
    obtain ⟨e'', q0, q⟩ := fb.nextData_getElem? h v i fb.data_[i] (List.getElem?_eq_getElem hi)
    rw [q0] at he
    cases he
    exact ⟨_, List.getElem?_eq_getElem hi, q⟩
  have nextFilters_spec : ∀ (fb : Filterbank) (h : fb.Ready) (v : ℝ),
      (fb.nextFilters v).length = fb.filters_.length ∧ ∀ e ∈ fb.nextFilters v, e.2.Sized := by
    intro fb h v
    have fillFilteredFilters_spec : ∀ (v : ℝ), ∀ (fs : List (ℤ × LowpassFilter))
        (ds : List (ℤ × CircularBuffer)), (∀ e ∈ fs, e.2.Sized) →
          (fillFilteredFilters v fs ds).length = fs.length ∧
            ∀ e ∈ fillFilteredFilters v fs ds, e.2.Sized := by
      intro v
      intro fs
      induction fs with
      | nil => intro ds _; cases ds <;> simp [fillFilteredFilters]
      | cons f fs ih =>
        intro ds hf
        cases ds with
        | nil => exact ⟨rfl, hf⟩
        | cons d ds =>
          obtain ⟨kf, flt⟩ := f
          obtain ⟨kd, c⟩ := d
          have h1 : flt.Sized := hf (kf, flt) (List.mem_cons_self _ _)
          obtain ⟨q1, q2⟩ := ih ds (fun e he => hf e (List.mem_cons_of_mem _ he))
          refine ⟨by simp [fillFilteredFilters, q1], ?_⟩
          intro e he
          simp only [fillFilteredFilters, List.mem_cons] at he
          rcases he with he | he
          · subst he
            simp only [feedFilter]
            split_ifs
            · exact LowpassFilter.stepN_sized v _ _ (flt.step_sized h1 v)
            · exact flt.step_sized h1 v
          · exact q2 e he
    unfold nextFilters
    cases fb.data_ with
    | nil => exact ⟨rfl, h.filters_sized⟩
    | cons first rest =>
      simp only
      by_cases hO : fb.optimisation ≠ Optimisation.None
      · rw [if_pos hO]
        exact fillFilteredFilters_spec v _ _ h.filters_sized
      · rw [if_neg hO]
        exact ⟨rfl, h.filters_sized⟩
  have hbp := bandPos_congr fb (fb.next v) rfl rfl
  constructor
  · simp [next]
  · simp [next]
  · intro hnil
    have := fb.nextData_length v
    have h0 : (fb.next v).data_ = fb.nextData v := rfl
    rw [h0] at hnil
    rw [hnil] at this
    exact h.data_nonempty (List.length_eq_zero.mp this.symm)
  · intro e he
    obtain ⟨i, hi⟩ := List.mem_iff_getElem?.mp he
    obtain ⟨e0, q0, q1, q2, q3⟩ := nextData_getElem?_inv fb h v i e hi
    have hs : e0.2.Sound := h.buffers_sound e0 (List.mem_iff_getElem?.mpr ⟨_, q0⟩)
    exact ⟨by rw [q2]; exact hs.1, Or.inr (by rw [q3, q2])⟩
  · show ((fb.nextData v).map Prod.fst).Pairwise _
    rw [fb.nextData_keys h v]
    exact h.keys_sorted
  · exact (nextFilters_spec fb h v).2
  · intro hO first rest hdata
    have hO' : fb.optimisation ≠ Optimisation.None := hO
    have h0 : (fb.next v).data_ = fb.nextData v := rfl
    rw [h0] at hdata
    show (fb.nextFilters v).length = _
    rw [(nextFilters_spec fb h v).1]
    have hlen := fb.nextData_length v
    cases hd : fb.data_ with
    | nil => exact absurd hd h.data_nonempty
    | cons f0 r0 =>
      have hl := h.filters_length hO' f0 r0 hd
      rw [hl]
      have hkeys := fb.nextData_keys h v
      rw [hdata, hd] at hkeys
      simp only [List.map_cons, List.cons.injEq] at hkeys
      rw [hdata, hd] at hlen
      simp only [List.length_cons, add_left_inj] at hlen
      rw [hkeys.1]
      split_ifs <;> simp [hlen]
  · intro hN
    have hN' : fb.optimisation = Optimisation.None := hN
    obtain ⟨c, hc⟩ := h.none_single hN'
    refine ⟨c.fill v, ?_⟩
    show fb.nextData v = _
    unfold nextData
    rw [hc]
    simp [hN']
  · exact h.factors_length
  · exact h.factors_pos
  · exact h.values_length
  · intro j hj
    obtain ⟨e, w, q0, q1, q2, q3, _, _, q6⟩ := fb.ready_aligned_next h v j hj
    refine ⟨e, w, ?_, q1, q2, q3, q6⟩
    rw [hbp]
    exact q0

/-- `reset` keeps a configured filterbank configured. -/
theorem reset_ready (fb : Filterbank) (h : fb.Ready) : fb.reset.Ready := by
  have hbp := bandPos_congr fb fb.reset rfl rfl
  constructor
  · exact h.result_complex_length
  · exact h.result_power_length
  · intro hnil
    apply h.data_nonempty
    simp only [reset, List.map_eq_nil_iff] at hnil
    exact hnil
  · intro e he
    simp only [reset, List.mem_map] at he
    obtain ⟨e0, he0, rfl⟩ := he
    exact ⟨(h.buffers_sound e0 he0).1, Or.inl rfl⟩
  · simp only [reset, List.map_map]
    exact h.keys_sorted
  · exact h.filters_sized
  · intro hO first rest hdata
    cases hd : fb.data_ with
    | nil => exact absurd hd h.data_nonempty
    | cons f0 r0 =>
      have hl := h.filters_length hO f0 r0 hd
      simp only [reset, hd, List.map_cons, List.cons.injEq] at hdata
      obtain ⟨hf, hr⟩ := hdata
      show fb.filters_.length = _
      rw [hl, ← hf, ← hr]
      simp only
      split_ifs <;> simp
  · intro hN
    obtain ⟨c, hc⟩ := h.none_single hN
    exact ⟨c.clear, by simp [reset, hc]⟩
  · exact h.factors_length
  · exact h.factors_pos
  · exact h.values_length
  · intro j hj
    obtain ⟨e, w, he, hw, hk, h1, hcap⟩ := h.aligned j hj
    refine ⟨(e.1, e.2.clear), w, ?_, hw, hk, h1, hcap⟩
    rw [hbp]
    simp [reset, List.getElem?_map, he]

end Filterbank

/-! ## The maps built by `init` -/

namespace LowpassFilter

theorem convolve_length (x y : List ℂ) : (convolve x y).length = x.length + y.length - 1 := by
  unfold convolve
  simp only [List.length_map, List.length_range]
  split_ifs <;> omega

theorem poly_length (zs : List ℂ) : (poly zs).length = zs.length + 1 := by
  unfold poly
  have : ∀ (l : List ℂ) (acc : List ℂ), 1 ≤ acc.length →
      (l.foldl (fun result zero => convolve result [1, -zero]) acc).length =
        acc.length + l.length := by
    intro l
    induction l with
    | nil => intro acc _; rfl
    | cons a t ih =>
      intro acc hacc
      simp only [List.foldl_cons]
      rw [ih _ (by rw [convolve_length]; simp), convolve_length]
      simp only [List.length_cons, List.length_nil]
      omega
  rw [this zs [1] (by simp)]
  simp
  omega

theorem lowpass_init_sized (f g : LowpassFilter) (h : f.init = some g) (ho : 1 ≤ f.order) :
    g.Sized := by
  unfold init at h
  cases hc : cheby1 f.order f.rippleLevel f.cutoff with
  | none => rw [hc] at h; cases h
  | some ba =>
    rw [hc] at h
    simp only [Option.map_some', Option.some.injEq] at h
    subst h
    unfold cheby1 at hc
    split_ifs at hc
    simp only [Option.some.injEq] at hc
    subst hc
    simp only [Sized, zpk2tf, _zpkbilinear, _zpklp2lp, cheby1ap, List.length_map, poly_length,
      List.length_replicate, List.length_range]
    refine ⟨ho, ?_, trivial, trivial⟩
    exact Int.toNat_of_nonneg (by omega)

theorem installed_sized (dflt g : LowpassFilter) (v : ℝ) (h0 : create 1 4 0.05 = some dflt)
    (h : dflt.setCutoff v = some g) : g.Sized := by
  have ho : dflt.order = 4 := by
    unfold create at h0
    split_ifs at h0
    unfold init at h0
    cases hc : cheby1 4 0.05 1 with
    | none => rw [hc] at h0; cases h0
    | some ba =>
      rw [hc] at h0
      simp only [Option.map_some', Option.some.injEq] at h0
      rw [← h0]
  unfold setCutoff at h
  split_ifs at h
  exact lowpass_init_sized _ g h (by simp [ho])

end LowpassFilter

theorem mapUpdate_append_new {β : Type} (dflt : β) (f : β → β) (key : ℤ) :
    ∀ (l : List (ℤ × β)), (∀ e ∈ l, e.1 < key) → mapUpdate dflt f key l = l ++ [(key, f dflt)] := by
  intro l
  induction l with
  | nil => intro _; rfl
  | cons a t ih =>
    intro h
    obtain ⟨k, v⟩ := a
    have hk : k < key := h (k, v) (List.mem_cons_self _ _)
    have h1 : ¬ key < k := by omega
    have h2 : ¬ key = k := by omega
    simp only [mapUpdate, if_neg h1, if_neg h2, List.cons_append]
    rw [ih (fun e he => h e (List.mem_cons_of_mem _ he))]

theorem mapUpdate_last {β : Type} (dflt : β) (f : β → β) (key : ℤ) (v : β) :
    ∀ (pre : List (ℤ × β)), (∀ e ∈ pre, e.1 < key) →
      mapUpdate dflt f key (pre ++ [(key, v)]) = pre ++ [(key, f v)] := by
  intro pre
  induction pre with
  | nil =>
    intro _
    simp [mapUpdate]
  | cons a t ih =>
    intro h
    obtain ⟨k, w⟩ := a
    have hk : k < key := h (k, w) (List.mem_cons_self _ _)
    have h1 : ¬ key < k := by omega
    have h2 : ¬ key = k := by omega
    simp only [List.cons_append, mapUpdate, if_neg h1, if_neg h2]
    have := ih (fun e he => h e (List.mem_cons_of_mem _ he))
    simp only [List.append_eq] at this ⊢
    rw [this]

namespace Filterbank

theorem initBufferStep_eq (st : List (ℤ × CircularBuffer) × List (ℤ × LowpassFilter))
    (band : ℕ × ℤ) :
    ∃ flt : LowpassFilter, flt.Sized ∧
      initBufferStep st band = some
        (mapUpdate CircularBuffer.empty (fun c => (c.resize (band.1 * band.2.toNat)).clear)
          band.2 st.1,
        if band.2 > 1 ∧ mapCount band.2 st.2 = 0 then mapUpdate flt id band.2 st.2 else st.2) := by
  obtain ⟨g, hg, _⟩ := LowpassFilter.create_default_isSome
  unfold initBufferStep
  by_cases h : band.2 > 1 ∧ mapCount band.2 st.2 = 0
  · have hd : (1 : ℝ) < (band.2 : ℝ) := by exact_mod_cast h.1
    have h0 : (0 : ℝ) < 0.8 / (band.2 : ℝ) := by positivity
    have h1 : 0.8 / (band.2 : ℝ) ≤ 1 := by
      rw [div_le_one (by linarith)]; linarith
    obtain ⟨g2, hg2, _⟩ := g.setCutoff_isSome _ h0 h1
    refine ⟨g2, LowpassFilter.installed_sized g g2 _ hg hg2, ?_⟩
    rw [if_pos h, if_pos h, hg]
    simp only [Option.bind_eq_bind, Option.some_bind, hg2]
  · obtain ⟨g2, hg2, _⟩ := g.setCutoff_isSome (1 / 2) (by norm_num) (by norm_num)
    refine ⟨g2, LowpassFilter.installed_sized g g2 _ hg hg2, ?_⟩
    rw [if_neg h, if_neg h]

theorem changes_succ (ds : List ℤ) (j : ℕ) :
    changes ds (j + 1) =
      if ds.getD (j + 1) 0 ≠ ds.getD j 0 then changes ds j + 1 else changes ds j := rfl

end Filterbank

namespace Filterbank

theorem initBufferStep_inv (bands : List (ℕ × ℤ)) (m : ℕ) (hm : m < bands.length)
    (hpos : ∀ b ∈ bands, 1 ≤ b.1 ∧ 1 ≤ b.2)
    (hsorted : ∀ j, j + 1 < bands.length →
      (bands.map Prod.snd).getD j 0 ≤ (bands.map Prod.snd).getD (j + 1) 0)
    (st : List (ℤ × CircularBuffer) × List (ℤ × LowpassFilter))
    (hinv : BuffersInv bands m st) :
    ∃ st', initBufferStep st bands[m] = some st' ∧ BuffersInv bands (m + 1) st' := by
  have mapCount_eq_zero : ∀ {β : Type} (key : ℤ) (m : List (ℤ × β)) (h : ∀ e ∈ m, e.1 ≠ key),
      mapCount key m = 0 := by
    intro β key m h
    unfold mapCount
    rw [List.length_eq_zero, List.filter_eq_nil_iff]
    intro e he
    simpa using h e he
  have mapCount_pos : ∀ {β : Type} (key : ℤ) (m : List (ℤ × β)) (e : ℤ × β) (he : e ∈ m)
      (hk : e.1 = key), mapCount key m ≠ 0 := by
    intro β key m e he hk
    unfold mapCount
    intro h0
    rw [List.length_eq_zero, List.filter_eq_nil_iff] at h0
    exact absurd hk (by simpa using h0 e he)
  open woma.CircularBuffer in
    have resize_clear : ∀ (c : CircularBuffer) (n : ℕ) (h : c.items = []),
        ((c.resize n).clear).items = [] ∧ c.capacity ≤ ((c.resize n).clear).capacity ∧
          n ≤ ((c.resize n).clear).capacity := by
      intro c n h
      unfold resize clear
      rw [h]
      by_cases hn : n > 0
      · simp only [List.length_nil, hn, if_true]
        refine ⟨trivial, ?_, ?_⟩ <;> split_ifs <;> omega
      · have : n = 0 := by omega
        subst this
        simp
  have changes_le : ∀ (ds : List ℤ), ∀ i j, i ≤ j → changes ds i ≤ changes ds j := by
    intro ds
    intro i j hij
    induction j with
    | zero =>
      have : i = 0 := by omega
      subst this; exact le_refl _
    | succ j ih =>
      by_cases h : i = j + 1
      · subst h; exact le_refl _
      · have := ih (by omega)
        rw [changes_succ]
        split_ifs <;> omega
  obtain ⟨flt, hflt, hstep⟩ := initBufferStep_eq st bands[m]
  rw [hstep]
  refine ⟨_, rfl, ?_⟩
  have hb := hpos bands[m] (List.getElem_mem _)
  have hdm : (bands.map Prod.snd).getD m 0 = bands[m].2 := by
    simp [List.getD_eq_getElem?_getD, List.getElem?_eq_getElem hm]
  have hwm : (bands.map Prod.fst).getD m 0 = bands[m].1 := by
    simp [List.getD_eq_getElem?_getD, List.getElem?_eq_getElem hm]
  generalize hW : bands[m].1 = W at hb hwm ⊢
  generalize hD : bands[m].2 = d at hb hdm ⊢
  have hn1 : 1 ≤ W * d.toNat := by
    have : 1 ≤ d.toNat := by omega
    exact Nat.mul_pos (by omega) (by omega)
  have hcomm : d.toNat * W = W * d.toNat := Nat.mul_comm _ _
  rcases Nat.eq_zero_or_pos m with hm0 | hmpos
  · -- first band
    subst hm0
    obtain ⟨hd0, hf0⟩ := hinv.empty rfl
    obtain ⟨q1, q2, q3⟩ := resize_clear CircularBuffer.empty (W * d.toNat) rfl
    rw [hd0, hf0]
    have hcnt : mapCount d ([] : List (ℤ × LowpassFilter)) = 0 := rfl
    simp only [mapUpdate, hcnt, and_true]
    constructor <;> (try dsimp only)
    · simp
    · intro e he
      simp only [List.mem_singleton] at he
      subst he
      exact ⟨q1, le_trans hn1 q3, hb.2⟩
    · intro h; omega
    · intro _
      exact ⟨[], _, by rw [Nat.add_sub_cancel, hdm]; rfl, by simp [changes]⟩
    · intro j hj
      have : j = 0 := by omega
      subst this
      refine ⟨(d, (CircularBuffer.empty.resize (W * d.toNat)).clear), by simp [changes], hdm.symm, ?_⟩
      simp only [hwm, hcomm]
      exact q3
    · by_cases h1 : d > 1
      · simp [h1, mapUpdate]
      · simp [h1]
    · intro f hf
      by_cases h1 : d > 1
      · simp only [h1, if_true, mapUpdate, List.mem_singleton] at hf
        subst hf
        exact hflt
      · simp [h1] at hf
  · -- a later band
    obtain ⟨pre, c, hdata, hprelen⟩ := hinv.last hmpos
    have hks := hinv.keys_sorted
    have hm1 : m - 1 + 1 = m := by omega
    have hle : (bands.map Prod.snd).getD (m - 1) 0 ≤ d := by
      have := hsorted (m - 1) (by omega)
      rw [hm1, hdm] at this
      exact this
    generalize hD' : (bands.map Prod.snd).getD (m - 1) 0 = d' at hdata hle
    have hchg : changes (bands.map Prod.snd) m =
        if d ≠ d' then changes (bands.map Prod.snd) (m - 1) + 1
        else changes (bands.map Prod.snd) (m - 1) := by
      conv_lhs => rw [← hm1]
      rw [changes_succ, hm1, hdm, hD']
    have hprekeys : ∀ e ∈ pre, e.1 < d' := by
      intro e he
      rw [hdata, List.map_append, List.pairwise_append] at hks
      exact hks.2.2 e.1 (List.mem_map_of_mem _ he) d' (by simp)
    have hcitems : c.items = [] :=
      (hinv.buffers (d', c) (by rw [hdata]; simp)).1
    have hd'1 : 1 ≤ d' := (hinv.buffers (d', c) (by rw [hdata]; simp)).2.2
    have hpresorted : (pre.map Prod.fst).Pairwise (fun a b => a < b) := by
      rw [hdata, List.map_append, List.pairwise_append] at hks
      exact hks.1
    by_cases hdd : d = d'
    · -- same factor as the band before
      subst hdd
      obtain ⟨q1, q2, q3⟩ := resize_clear c (W * d.toNat) hcitems
      have hdata' : mapUpdate CircularBuffer.empty
          (fun c => (c.resize (W * d.toNat)).clear) d st.1 =
          pre ++ [(d, (c.resize (W * d.toNat)).clear)] := by
        rw [hdata]
        exact mapUpdate_last _ _ _ _ pre hprekeys
      have hfil : ¬ (d > 1 ∧ mapCount d st.2 = 0) := by
        rintro ⟨hd1, hcnt⟩
        have hmem : d ∈ st.2.map Prod.fst := by
          rw [hinv.filter_keys, hdata]
          simp [hd1]
        obtain ⟨f, hf, hfk⟩ := List.mem_map.mp hmem
        exact mapCount_pos d st.2 f hf hfk hcnt
      rw [hdata', if_neg hfil]
      simp only [ne_eq, not_true_eq_false, if_false] at hchg
      constructor <;> (try dsimp only)
      · rw [hdata] at hks
        simpa using hks
      · intro e he
        simp only [List.mem_append, List.mem_singleton] at he
        rcases he with he | he
        · exact hinv.buffers e (by rw [hdata]; simp [he])
        · subst he
          exact ⟨q1, le_trans hn1 q3, hd'1⟩
      · intro h; omega
      · intro _
        refine ⟨pre, (c.resize (W * d.toNat)).clear, ?_, ?_⟩
        · simp only [Nat.add_sub_cancel, hdm]
        · simp only [Nat.add_sub_cancel, hchg, hprelen]
      · intro j hj
        by_cases hjm : j = m
        · subst hjm
          refine ⟨(d, (c.resize (W * d.toNat)).clear), ?_, hdm.symm, ?_⟩
          · rw [hchg, ← hprelen]
            simp
          · simp only [hwm, hcomm]
            exact q3
        · obtain ⟨e, he, hk, hcap⟩ := hinv.aligned j (by omega)
          rw [hdata] at he
          by_cases hidx : changes (bands.map Prod.snd) j < pre.length
          · rw [List.getElem?_append_left hidx] at he
            exact ⟨e, by rw [List.getElem?_append_left hidx]; exact he, hk, hcap⟩
          · have hidx' : changes (bands.map Prod.snd) j = pre.length := by
              have := changes_le (bands.map Prod.snd) j (m - 1) (by omega)
              omega
            rw [hidx'] at he ⊢
            simp only [List.getElem?_concat_length, Option.some.injEq] at he
            subst he
            refine ⟨(d, (c.resize (W * d.toNat)).clear), by simp, hk, ?_⟩
            simp only at hcap ⊢
            omega
      · rw [hinv.filter_keys, hdata]
        simp
      · exact hinv.filters_sized
    · -- a larger factor
      have hlt : d' < d := by omega
      have hd1 : d > 1 := by omega
      have hallkeys : ∀ e ∈ st.1, e.1 < d := by
        intro e he
        rw [hdata] at he
        simp only [List.mem_append, List.mem_singleton] at he
        rcases he with he | he
        · have := hprekeys e he; omega
        · subst he; exact hlt
      obtain ⟨q1, q2, q3⟩ := resize_clear CircularBuffer.empty (W * d.toNat) rfl
      have hdata' : mapUpdate CircularBuffer.empty
          (fun c => (c.resize (W * d.toNat)).clear) d st.1 =
          st.1 ++ [(d, (CircularBuffer.empty.resize (W * d.toNat)).clear)] :=
        mapUpdate_append_new _ _ _ st.1 hallkeys
      have hfkeys : ∀ f ∈ st.2, f.1 < d := by
        intro f hf
        have hmem : f.1 ∈ st.2.map Prod.fst := List.mem_map_of_mem _ hf
        rw [hinv.filter_keys] at hmem
        obtain ⟨hmem', _⟩ := List.mem_filter.mp hmem
        obtain ⟨e, he, hek⟩ := List.mem_map.mp hmem'
        rw [← hek]
        exact hallkeys e he
      have hcnt : mapCount d st.2 = 0 :=
        mapCount_eq_zero d st.2 (fun f hf => by have := hfkeys f hf; omega)
      have hfil' : mapUpdate flt id d st.2 = st.2 ++ [(d, flt)] :=
        mapUpdate_append_new _ _ _ st.2 hfkeys
      rw [hdata', if_pos ⟨hd1, hcnt⟩, hfil']
      simp only [ne_eq, hdd, not_false_eq_true, if_true] at hchg
      have hlen : st.1.length = changes (bands.map Prod.snd) m := by
        rw [hchg, hdata, ← hprelen]
        simp
      constructor <;> (try dsimp only)
      · rw [List.map_append, List.pairwise_append]
        refine ⟨hks, by simp, ?_⟩
        intro a ha b hb'
        simp only [List.map_cons, List.map_nil, List.mem_singleton] at hb'
        subst hb'
        obtain ⟨e, he, hek⟩ := List.mem_map.mp ha
        rw [← hek]
        exact hallkeys e he
      · intro e he
        simp only [List.mem_append, List.mem_singleton] at he
        rcases he with he | he
        · exact hinv.buffers e he
        · subst he
          exact ⟨q1, le_trans hn1 q3, hb.2⟩
      · intro h; omega
      · intro _
        refine ⟨st.1, (CircularBuffer.empty.resize (W * d.toNat)).clear, ?_, ?_⟩
        · simp only [Nat.add_sub_cancel, hdm]
        · simp only [Nat.add_sub_cancel, hlen]
      · intro j hj
        by_cases hjm : j = m
        · subst hjm
          refine ⟨(d, (CircularBuffer.empty.resize (W * d.toNat)).clear), ?_, hdm.symm, ?_⟩
          · rw [← hlen]
            simp
          · simp only [hwm, hcomm]
            exact q3
        · obtain ⟨e, he, hk, hcap⟩ := hinv.aligned j (by omega)
          have hidx : changes (bands.map Prod.snd) j < st.1.length :=
            (List.getElem?_eq_some_iff.mp he).1
          exact ⟨e, by rw [List.getElem?_append_left hidx]; exact he, hk, hcap⟩
      · rw [List.map_append, List.map_append, List.filter_append, hinv.filter_keys]
        simp [hd1]
      · intro f hf
        simp only [List.mem_append, List.mem_singleton] at hf
        rcases hf with hf | hf
        · exact hinv.filters_sized f hf
        · subst hf
          exact hflt

end Filterbank

namespace Filterbank

theorem initBuffers_fold (bands : List (ℕ × ℤ))
    (hpos : ∀ b ∈ bands, 1 ≤ b.1 ∧ 1 ≤ b.2)
    (hsorted : ∀ j, j + 1 < bands.length →
      (bands.map Prod.snd).getD j 0 ≤ (bands.map Prod.snd).getD (j + 1) 0) :
    ∀ m, m ≤ bands.length →
      ∃ st, (bands.take m).foldlM initBufferStep ([], []) = some st ∧ BuffersInv bands m st := by
  intro m
  induction m with
  | zero =>
    intro _
    refine ⟨([], []), rfl, ?_⟩
    constructor <;> (try dsimp only)
    · simp
    · intro e he; cases he
    · intro _; exact ⟨rfl, rfl⟩
    · intro h; omega
    · intro j hj; omega
    · rfl
    · intro f hf; cases hf
  | succ m ih =>
    intro hm
    obtain ⟨st, hst, hinv⟩ := ih (by omega)
    have hm' : m < bands.length := by omega
    obtain ⟨st', hst', hinv'⟩ := initBufferStep_inv bands m hm' hpos hsorted st hinv
    refine ⟨st', ?_, hinv'⟩
    rw [List.take_succ, List.foldlM_append, hst, List.getElem?_eq_getElem hm']
    simp only [Option.bind_eq_bind, Option.some_bind, Option.toList_some, List.foldlM_cons,
      List.foldlM_nil]
    rw [hst']
    rfl

theorem initBuffers_inv (bands : List (ℕ × ℤ))
    (hpos : ∀ b ∈ bands, 1 ≤ b.1 ∧ 1 ≤ b.2)
    (hsorted : ∀ j, j + 1 < bands.length →
      (bands.map Prod.snd).getD j 0 ≤ (bands.map Prod.snd).getD (j + 1) 0) :
    ∃ st, bands.foldlM initBufferStep ([], []) = some st ∧ BuffersInv bands bands.length st := by
  have := initBuffers_fold bands hpos hsorted bands.length (le_refl _)
  rw [List.take_length] at this
  exact this

end Filterbank

namespace Wavelet

theorem eFoldingTime_nonneg (w : Wavelet) (h : 0 ≤ w.scale) : 0 ≤ w.eFoldingTime := by
  unfold eFoldingTime
  cases w.family
  · exact mul_nonneg (Real.sqrt_nonneg _) h
  · exact div_nonneg h (Real.sqrt_nonneg _)

end Wavelet

namespace Filterbank

theorem initWavelet_none_window_mono (fb : Filterbank) (s t : ℝ) (hs : 0 ≤ s) (hst : s ≤ t)
    (hsr : 0 ≤ fb.reference_wavelet_.samplerate) (w w' : Wavelet)
    (h : fb.initWavelet s none = some w) (h' : fb.initWavelet t none = some w') :
    w.window_size ≤ w'.window_size := by
  open woma.Wavelet in
    have setDefaultWindowsize_mono : ∀ (w w' : Wavelet) (hf : w.family = w'.family)
        (hd : w.delay = w'.delay) (hsr : w.samplerate = w'.samplerate) (h0 : 0 ≤ w.samplerate)
        (hs0 : 0 ≤ w.scale) (hs : w.scale ≤ w'.scale),
        w.setDefaultWindowsize.window_size ≤ w'.setDefaultWindowsize.window_size := by
      intro w w' hf hd hsr h0 hs0 hs
      have eFoldingTime_mono : ∀ (w w' : Wavelet) (hf : w.family = w'.family)
          (h : w.scale ≤ w'.scale), w.eFoldingTime ≤ w'.eFoldingTime := by
        intro w w' hf h
        unfold eFoldingTime
        rw [← hf]
        cases w.family
        · exact mul_le_mul_of_nonneg_left h (Real.sqrt_nonneg _)
        · exact div_le_div_of_nonneg_right h (Real.sqrt_nonneg _)
      have windowsize_mono : ∀ (a b : ℕ) (h : a ≤ b),
          (if a < 3 then 3 else a) + (if (if a < 3 then 3 else a) % 2 = 0 then 1 else 0) ≤
            (if b < 3 then 3 else b) + (if (if b < 3 then 3 else b) % 2 = 0 then 1 else 0) := by
        intro a b h
        by_cases ha : a < 3 <;> by_cases hb : b < 3 <;>
          simp only [ha, hb, if_true, if_false] <;> norm_num <;> split_ifs <;> omega
      unfold setDefaultWindowsize
      simp only [init_window_size]
      apply windowsize_mono
      unfold truncToNat
      rw [← hd, ← hsr]
      have he := eFoldingTime_mono w w' hf hs
      have he0 := eFoldingTime_nonneg w hs0
      by_cases hdel : 0 ≤ w.delay
      · apply Nat.floor_mono
        apply mul_le_mul_of_nonneg_right _ h0
        exact mul_le_mul_of_nonneg_left he (by linarith)
      · have hneg : 2 * w.delay * w.eFoldingTime * w.samplerate ≤ 0 := by
          apply mul_nonpos_of_nonpos_of_nonneg _ h0
          exact mul_nonpos_of_nonpos_of_nonneg (by linarith) he0
        rw [Nat.floor_of_nonpos hneg]
        exact Nat.zero_le _
  unfold initWavelet at h h'
  have ht : 0 ≤ t := le_trans hs hst
  simp only [Option.bind_eq_bind, Option.some_bind, Wavelet.setScale, if_neg (not_lt.mpr hs),
    if_neg (not_lt.mpr ht), Option.some.injEq] at h h'
  rw [← h, ← h']
  apply setDefaultWindowsize_mono
  · simp [Wavelet.copy]
  · simp [Wavelet.copy]
  · simp [Wavelet.copy]
  · simpa [Wavelet.copy] using hsr
  · simpa using hs
  · simpa using hst

theorem initFactors_sorted (fb : Filterbank) (hsr : 0 < fb.reference_wavelet_.samplerate)
    (hb : 0 < fb.bands_per_octave) (n : ℕ) (h : fb.optimisation ≠ Optimisation.None)
    (j : ℕ) (hj : j + 1 < n) :
    (fb.initFactors n).getD j 0 ≤ (fb.initFactors n).getD (j + 1) 0 := by
  have factorOf_antitone : ∀ (fb : Filterbank) (hsr : 0 < fb.reference_wavelet_.samplerate)
      (f g : ℝ) (hg : 0 < g) (hgf : g ≤ f), fb.factorOf f ≤ fb.factorOf g := by
    intro fb hsr f g hg hgf
    unfold factorOf
    simp only
    have hdiv : 0 < fb.reference_wavelet_.samplerate / rateDivisor fb.optimisation := by
      apply div_pos hsr
      unfold rateDivisor
      split_ifs <;> norm_num
    have hle : fb.reference_wavelet_.samplerate / rateDivisor fb.optimisation / f ≤
        fb.reference_wavelet_.samplerate / rateDivisor fb.optimisation / g :=
      div_le_div_of_nonneg_left hdiv.le hg hgf
    have := truncToInt_mono hle
    split_ifs <;> omega
  rw [List.getD_eq_getElem?_getD, List.getD_eq_getElem?_getD,
    fb.initFactors_getElem? n j (by omega) h, fb.initFactors_getElem? n (j + 1) hj h]
  simp only [Option.getD_some]
  rw [Wavelet.scale2frequency_eq_div, Wavelet.scale2frequency_eq_div _ (fb.scaleAt (j + 1))]
  apply factorOf_antitone fb hsr
  · exact div_pos (Wavelet.scale2frequency_one_pos _) (fb.scaleAt_pos hsr _)
  · exact div_le_div_of_nonneg_left (Wavelet.scale2frequency_one_pos _).le (fb.scaleAt_pos hsr _)
      (fb.scaleAt_lt hsr hb j).le

end Filterbank

namespace Filterbank

theorem initWavelets_getElem? (fb : Filterbank) (n : ℕ) (ws : List Wavelet)
    (h : fb.initWavelets (fb.initScales n) (fb.initFactors n) = some ws) (i : ℕ) (hi : i < n) :
    ∃ w, ws[i]? = some w ∧
      fb.initWavelet (fb.scaleAt i)
        (if fb.optimisation ≠ Optimisation.None then
          some (fb.factorOf (fb.reference_wavelet_.scale2frequency (fb.scaleAt i)))
        else none) = some w := by
  have hlen : (fb.initScales n).length = n := by unfold initScales; simp
  unfold initWavelets at h
  rw [hlen] at h
  by_cases ho : fb.optimisation ≠ Optimisation.None
  · rw [if_pos ho] at h ⊢
    obtain ⟨w, hw, hf⟩ := mapM_option_getElem? _ _ _ h i i (List.getElem?_range hi)
    refine ⟨w, hw, ?_⟩
    rw [fb.initScales_getElem? n i hi, fb.initFactors_getElem? n i hi ho] at hf
    simpa using hf
  · rw [if_neg ho] at h ⊢
    obtain ⟨w, hw, hf⟩ := mapM_option_getElem? _ _ _ h i i (List.getElem?_range hi)
    refine ⟨w, hw, ?_⟩
    rw [fb.initScales_getElem? n i hi] at hf
    simpa using hf

theorem scaleAt_mono (fb : Filterbank) (hsr : 0 < fb.reference_wavelet_.samplerate)
    (hb : 0 < fb.bands_per_octave) (i j : ℕ) (hij : i ≤ j) : fb.scaleAt i ≤ fb.scaleAt j := by
  induction j with
  | zero =>
    have : i = 0 := by omega
    rw [this]
  | succ k ih =>
    rcases Nat.eq_or_lt_of_le hij with h | h
    · rw [h]
    · exact le_trans (ih (by omega)) (fb.scaleAt_lt hsr hb k).le

end Filterbank

namespace Filterbank

theorem initBands_spec (fb : Filterbank) (ws : List Wavelet) (bands : List (ℕ × ℤ))
    (hsr : 0 < fb.reference_wavelet_.samplerate)
    (ho : fb.optimisation ≠ Optimisation.None)
    (hws : fb.initWavelets (fb.initScales fb.bandCount) (fb.initFactors fb.bandCount) = some ws)
    (hbands : (List.range ws.length).mapM (fun (i : ℕ) => do
        let w ← ws[i]?
        let d ← (fb.initFactors fb.bandCount)[i]?
        some (w.window_size, d)) = some bands) :
    bands.length = fb.bandCount ∧ bands.map Prod.snd = fb.initFactors fb.bandCount ∧
      (∀ i, i < fb.bandCount → ∃ w, ws[i]? = some w ∧ w.values.length = w.window_size ∧
        bands[i]? = some (w.window_size, (fb.initFactors fb.bandCount).getD i 0)) ∧
      (∀ b ∈ bands, 1 ≤ b.1 ∧ 1 ≤ b.2) := by
  have hlen : ws.length = fb.bandCount := by
    rw [fb.initWavelets_length _ _ _ hws]; simp [initScales]
  have hblen : bands.length = fb.bandCount := by
    rw [mapM_option_length _ _ _ hbands, List.length_range, hlen]
  have hflen := fb.initFactors_length fb.bandCount ho
  have hget : ∀ i, i < fb.bandCount → ∃ w, ws[i]? = some w ∧
      w.values.length = w.window_size ∧ 3 ≤ w.window_size ∧
      bands[i]? = some (w.window_size, (fb.initFactors fb.bandCount).getD i 0) := by
    intro i hi
    obtain ⟨w, hw, hf⟩ := fb.initWavelets_getElem? _ ws hws i hi
    rw [if_pos ho] at hf
    obtain ⟨w1, hw1, _, h3, hv⟩ := fb.initWavelet_isSome (fb.scaleAt i)
      (fb.scaleAt_pos hsr _).le hsr.le
      (some (fb.factorOf (fb.reference_wavelet_.scale2frequency (fb.scaleAt i))))
      (by intro d hd; cases hd; exact fb.factorOf_ge_one _)
    rw [hf] at hw1
    cases hw1
    obtain ⟨b, hb, hfb⟩ := mapM_option_getElem? _ _ _ hbands i i
      (List.getElem?_range (by rw [hlen]; exact hi))
    rw [hw, fb.initFactors_getElem? _ i hi ho] at hfb
    simp only [Option.bind_eq_bind, Option.some_bind, Option.some.injEq] at hfb
    refine ⟨w, hw, hv, h3, ?_⟩
    rw [hb, ← hfb, List.getD_eq_getElem?_getD, fb.initFactors_getElem? _ i hi ho]
    rfl
  refine ⟨hblen, ?_, ?_, ?_⟩
  · apply List.ext_getElem?
    intro i
    by_cases hi : i < fb.bandCount
    · obtain ⟨w, _, _, _, hbi⟩ := hget i hi
      rw [List.getElem?_map, hbi, List.getD_eq_getElem?_getD,
        List.getElem?_eq_getElem (by rw [hflen]; exact hi)]
      rfl
    · rw [List.getElem?_eq_none (by rw [List.length_map, hblen]; omega),
        List.getElem?_eq_none (by rw [hflen]; omega)]
  · intro i hi
    obtain ⟨w, hw, hv, _, hbi⟩ := hget i hi
    exact ⟨w, hw, hv, hbi⟩
  · intro b hb
    obtain ⟨i, hi⟩ := List.mem_iff_getElem?.mp hb
    have hi' : i < fb.bandCount := by
      rw [← hblen]; exact (List.getElem?_eq_some_iff.mp hi).1
    obtain ⟨w, _, _, h3, hbi⟩ := hget i hi'
    rw [hi] at hbi
    cases hbi
    refine ⟨by show 1 ≤ w.window_size; omega, ?_⟩
    show 1 ≤ (fb.initFactors fb.bandCount).getD i 0
    rw [List.getD_eq_getElem?_getD, fb.initFactors_getElem? _ i hi' ho]
    exact fb.factorOf_ge_one _

end Filterbank

namespace Filterbank

/-- The state `init` leaves is one of the states `update` and `reset` work on:
for a positive sample rate and number of bands per octave, whenever `init`
returns with at least one band. -/
theorem init_ready (fb fb' : Filterbank) (h : fb.init = some fb')
    (hsr : 0 < fb.reference_wavelet_.samplerate) (hb : 0 < fb.bands_per_octave)
    (hn : 0 < fb.bandCount) : fb'.Ready := by
  have init_ready_none : ∀ (fb fb' : Filterbank) (h : fb.init = some fb')
      (hsr : 0 < fb.reference_wavelet_.samplerate) (hb : 0 < fb.bands_per_octave)
      (hn : 0 < fb.bandCount) (ho : fb.optimisation = Optimisation.None), fb'.Ready := by
    intro fb fb' h hsr hb hn ho
    obtain ⟨_, _, ws, bufs, hws, hbufs, rfl⟩ := fb.init_eq_some fb' h
    have hlen : ws.length = fb.bandCount := by
      rw [fb.initWavelets_length _ _ _ hws]; simp [initScales]
    have hget : ∀ i, i < fb.bandCount → ∃ w, ws[i]? = some w ∧
        fb.initWavelet (fb.scaleAt i) none = some w := by
      intro i hi
      obtain ⟨w, hw, hf⟩ := fb.initWavelets_getElem? _ ws hws i hi
      rw [if_neg (not_not.mpr ho)] at hf
      exact ⟨w, hw, hf⟩
    obtain ⟨last, hlast, hlastf⟩ := hget (fb.bandCount - 1) (by omega)
    unfold initBuffers at hbufs
    rw [if_pos ho, hlen, hlast] at hbufs
    simp only [Option.bind_eq_bind, Option.some_bind, Option.some.injEq, mapUpdate] at hbufs
    subst hbufs
    obtain ⟨w0, hw0, hw0s, hw03, _⟩ := fb.initWavelet_isSome (fb.scaleAt (fb.bandCount - 1))
      (fb.scaleAt_pos hsr _).le hsr.le none (by intro d hd; cases hd)
    rw [hlastf] at hw0
    cases hw0
    have hcap : (CircularBuffer.empty.resize last.window_size).capacity = last.window_size := by
      unfold CircularBuffer.resize CircularBuffer.empty
      have : last.window_size > 0 := by omega
      simp [this]
    have hitems : (CircularBuffer.empty.resize last.window_size).items.length =
        last.window_size := by
      unfold CircularBuffer.resize CircularBuffer.empty
      have : last.window_size > 0 := by omega
      simp [this]
    constructor <;> (try dsimp only)
    · simp
    · simp
    · simp
    · intro e he
      simp only [List.mem_singleton] at he
      subst he
      exact ⟨by rw [hcap]; omega, Or.inr (by rw [hitems, hcap])⟩
    · simp
    · intro e he; cases he
    · intro hne; exact absurd ho hne
    · intro _; exact ⟨_, rfl⟩
    · intro hne; exact absurd ho hne
    · intro hne; exact absurd ho hne
    · intro w hw
      obtain ⟨i, hi⟩ := List.mem_iff_getElem?.mp hw
      have hi' : i < fb.bandCount := by
        rw [← hlen]; exact (List.getElem?_eq_some_iff.mp hi).1
      obtain ⟨w', hw', hf⟩ := hget i hi'
      rw [hi] at hw'
      cases hw'
      obtain ⟨w1, hw1, _, _, hv⟩ := fb.initWavelet_isSome (fb.scaleAt i)
        (fb.scaleAt_pos hsr _).le hsr.le none (by intro d hd; cases hd)
      rw [hf] at hw1
      cases hw1
      exact hv
    · intro j hj
      rw [hlen] at hj
      obtain ⟨w, hw, hf⟩ := hget j hj
      refine ⟨(1, CircularBuffer.empty.resize last.window_size), w, ?_, hw, ?_, le_refl _, ?_⟩
      · rw [bandPos_none _ (by exact ho) j]
        rfl
      · unfold bandFactor
        rw [if_pos ho]
      · show (1 : ℤ).toNat * w.window_size ≤ _
        rw [hcap]
        have := fb.initWavelet_none_window_mono (fb.scaleAt j) (fb.scaleAt (fb.bandCount - 1))
          (fb.scaleAt_pos hsr _).le (fb.scaleAt_mono hsr hb j _ (by omega)) hsr.le w last hf hlastf
        simpa using this
  have init_ready_opt : ∀ (fb fb' : Filterbank) (h : fb.init = some fb')
      (hsr : 0 < fb.reference_wavelet_.samplerate) (hb : 0 < fb.bands_per_octave)
      (hn : 0 < fb.bandCount) (ho : fb.optimisation ≠ Optimisation.None), fb'.Ready := by
    intro fb fb' h hsr hb hn ho
    have bandPos_eq_changes : ∀ (fb : Filterbank) (h : fb.optimisation ≠ Optimisation.None),
        ∀ j, fb.bandPos j = changes fb.downsampling_factors j := by
      intro fb h
      intro j
      induction j with
      | zero => rfl
      | succ k ih =>
        rw [bandPos, changes, ih]
        simp only [h, ne_eq, not_false_eq_true, true_and]
    have filter_keys_length : ∀ {β : Type} (first : ℤ × β) (rest : List (ℤ × β))
        (hs : ((first :: rest).map Prod.fst).Pairwise (fun a b => a < b)) (h1 : 1 ≤ first.1),
        (((first :: rest).map Prod.fst).filter (fun k => decide (1 < k))).length =
          (if first.1 = 1 then rest else first :: rest).length := by
      intro β first rest hs h1
      rw [List.map_cons, List.pairwise_cons] at hs
      have hrest : (rest.map Prod.fst).filter (fun k => decide (1 < k)) = rest.map Prod.fst := by
        rw [List.filter_eq_self]
        intro k hk
        have := hs.1 k hk
        simp only [decide_eq_true_eq]
        omega
      rw [List.map_cons, List.filter_cons, hrest]
      by_cases hf : first.1 = 1
      · simp [hf]
      · have : 1 < first.1 := by omega
        simp [hf, this]
    obtain ⟨_, _, ws, bufs, hws, hbufs, rfl⟩ := fb.init_eq_some fb' h
    have hlen : ws.length = fb.bandCount := by
      rw [fb.initWavelets_length _ _ _ hws]; simp [initScales]
    have hflen := fb.initFactors_length fb.bandCount ho
    unfold initBuffers at hbufs
    rw [if_neg ho] at hbufs
    cases hbands : (List.range ws.length).mapM (fun (i : ℕ) => do
          let w ← ws[i]?
          let d ← (fb.initFactors fb.bandCount)[i]?
          some (w.window_size, d)) with
    | none => rw [hbands] at hbufs; cases hbufs
    | some bands =>
      rw [hbands] at hbufs
      simp only [Option.bind_eq_bind, Option.some_bind] at hbufs
      obtain ⟨hblen, hsnd, hget, hpos⟩ := fb.initBands_spec ws bands hsr ho hws hbands
      obtain ⟨st, hst, hinv⟩ := initBuffers_inv bands hpos (by
        intro j hj
        rw [hsnd]
        exact fb.initFactors_sorted hsr hb _ ho j (by rw [← hblen]; exact hj))
      rw [hst] at hbufs
      cases hbufs
      rw [hblen] at hinv
      have halign := hinv.aligned
      simp only [hsnd] at halign
      obtain ⟨pre, c, hdata, _⟩ := hinv.last hn
      constructor <;> (try dsimp only)
      · simp
      · simp
      · rw [hdata]; simp
      · intro e he
        obtain ⟨h1, h2, _⟩ := hinv.buffers e he
        exact ⟨h2, Or.inl (by rw [h1]; rfl)⟩
      · exact hinv.keys_sorted
      · exact hinv.filters_sized
      · intro _ first rest hfr
        have hks := hinv.keys_sorted
        rw [hfr] at hks
        have h1 : 1 ≤ first.1 := (hinv.buffers first (by rw [hfr]; simp)).2.2
        rw [← filter_keys_length first rest hks h1, ← hfr, ← hinv.filter_keys, List.length_map]
      · intro hN; exact absurd hN ho
      · intro _
        rw [if_neg ho, hflen, hlen]
      · intro _ d hd
        rw [if_neg ho] at hd
        obtain ⟨i, hi⟩ := List.mem_iff_getElem?.mp hd
        have hi' : i < fb.bandCount := by
          rw [← hflen]; exact (List.getElem?_eq_some_iff.mp hi).1
        rw [fb.initFactors_getElem? _ i hi' ho] at hi
        cases hi
        exact fb.factorOf_ge_one _
      · intro w hw
        obtain ⟨i, hi⟩ := List.mem_iff_getElem?.mp hw
        have hi' : i < fb.bandCount := by
          rw [← hlen]; exact (List.getElem?_eq_some_iff.mp hi).1
        obtain ⟨w', hw', hv, _⟩ := hget i hi'
        rw [hi] at hw'
        cases hw'
        exact hv
      · intro j hj
        rw [hlen] at hj
        obtain ⟨e, he, hk, hcap⟩ := halign j hj
        obtain ⟨w, hw, _, hbj⟩ := hget j hj
        have hfst : (bands.map Prod.fst).getD j 0 = w.window_size := by
          rw [List.getD_eq_getElem?_getD, List.getElem?_map, hbj]
          rfl
        have hk1 : 1 ≤ e.1 := by
          rw [hk, List.getD_eq_getElem?_getD, fb.initFactors_getElem? _ j hj ho]
          exact fb.factorOf_ge_one _
        refine ⟨e, w, ?_, hw, ?_, hk1, ?_⟩
        · rw [bandPos_eq_changes _ (by exact ho) j]
          simp only [if_neg ho]
          exact he
        · unfold bandFactor
          simp only [if_neg ho]
          rw [hk]
          exact getD_of_lt _ j (by rw [hflen]; exact hj) 0 1
        · rw [← hfst]
          exact hcap
  by_cases ho : fb.optimisation = Optimisation.None
  · exact init_ready_none fb fb' h hsr hb hn ho
  · exact init_ready_opt fb fb' h hsr hb hn ho

end Filterbank

namespace Filterbank

theorem feed_eq (xs : List ℝ) : ∀ (fb : Filterbank), fb.Ready → fb.feed xs = some (fb.run xs) := by
  induction xs with
  | nil => intro fb _; rfl
  | cons v vs ih =>
    intro fb h
    rw [feed, fb.update_eq h v]
    simp only [Option.bind_eq_bind, Option.some_bind]
    rw [ih (fb.next v) (fb.next_ready h v)]
    rfl

theorem run_length (xs : List ℝ) : ∀ (fb : Filterbank), (fb.run xs).2.length = xs.length := by
  induction xs with
  | nil => intro fb; rfl
  | cons v vs ih => intro fb; simp [run, ih]

theorem ready_with_results (fb : Filterbank) (h : fb.Ready) (b : Bool) (rc : List ℂ)
    (rp : List ℝ) (hrc : rc.length = fb.wavelets_.length) (hrp : rp.length = fb.wavelets_.length) :
    ({ fb with rescale := b, result_complex := rc, result_power := rp } : Filterbank).Ready :=
  { result_complex_length := hrc
    result_power_length := hrp
    data_nonempty := h.data_nonempty
    buffers_sound := h.buffers_sound
    keys_sorted := h.keys_sorted
    filters_sized := h.filters_sized
    filters_length := h.filters_length
    none_single := h.none_single
    factors_length := h.factors_length
    factors_pos := h.factors_pos
    values_length := h.values_length
    aligned := fun j hj => by
      obtain ⟨e, w, q0, q⟩ := h.aligned j hj
      have hp : ({ fb with rescale := b, result_complex := rc, result_power := rp } :
          Filterbank).bandPos j = fb.bandPos j :=
        bandPos_congr fb { fb with rescale := b, result_complex := rc, result_power := rp }
          rfl rfl j
      exact ⟨e, w, by rw [hp]; exact q0, q⟩ }

theorem ready_with_rescale (fb : Filterbank) (h : fb.Ready) (b : Bool) :
    ({ fb with rescale := b } : Filterbank).Ready :=
  fb.ready_with_results h b fb.result_complex fb.result_power h.result_complex_length
    h.result_power_length

end Filterbank

theorem optimisedBank_ready (o : Optimisation) :
    ∃ fb', (optimisedBank o).init = some fb' ∧ fb'.Ready ∧ fb'.size = 20 ∧
      fb'.optimisation = o ∧ fb'.frame_index_ = 0 := by
  obtain ⟨fb', h, hsize, hopt⟩ := optimisedBank_init o
  have hv := scenarioBank_valid
  have hn : 0 < (optimisedBank o).bandCount := by
    rw [← Filterbank.init_size _ _ h, hsize]
    norm_num
  refine ⟨fb', h, (optimisedBank o).init_ready fb' h hv.samplerate_pos
    (lt_of_lt_of_le zero_lt_one hv.bands_per_octave_ge) hn, hsize, hopt, ?_⟩
  obtain ⟨_, _, ws, bufs, _, _, rfl⟩ := (optimisedBank o).init_eq_some fb' h
  rfl

/-- C5. Rescaling law: two configured filterbanks that differ only in the
`rescale` flag, started in the same state (at frame 0 when an aggressive
optimisation is selected, as after `init` or `reset`) and fed the same
samples through `update`, both return at every sample, and at every step `n`
and band `j` the two entries of `result_complex` are the same coefficient `C`
times `sqrt(d_j)`, divided by `sqrt(scale_j)` beforehand when `rescale` is set:
the entry with `rescale = true` is the entry with `rescale = false` divided by
`sqrt(scale_j)`, for the scale of the kernel of the band. -/
theorem rescaling_law (fb : Filterbank) (h : fb.Ready)
    (h0 : fb.optimisation = Optimisation.Aggressive1 ∨
      fb.optimisation = Optimisation.Aggressive2 → fb.frame_index_ = 0)
    (xs : List ℝ) :
    ∃ st rt sf rf,
      ({ fb with rescale := true } : Filterbank).feed xs = some (st, rt) ∧
      ({ fb with rescale := false } : Filterbank).feed xs = some (sf, rf) ∧
      rt.length = xs.length ∧ rf.length = xs.length ∧
      ∀ n j, n < xs.length → j < fb.size →
        ∃ (C : ℂ) (w : Wavelet), fb.wavelets_[j]? = some w ∧
          (rf.getD n []).getD j 0 =
            C * ((Real.sqrt (((fb.bandFactor j).toNat : ℕ) : ℝ) : ℝ) : ℂ) ∧
          (rt.getD n []).getD j 0 =
            C / ((Real.sqrt w.scale : ℝ) : ℂ) *
              ((Real.sqrt (((fb.bandFactor j).toNat : ℕ) : ℝ) : ℝ) : ℂ) ∧
          (rt.getD n []).getD j 0 = (rf.getD n []).getD j 0 / ((Real.sqrt w.scale : ℝ) : ℂ) := by
  open woma.Filterbank in
    have run_rescale_law : ∀ (xs : List ℝ), ∀ (B : Filterbank) (rcA : List ℂ) (rpA : List ℝ),
        B.Ready → B.rescale = false →
        (∀ j, j < B.wavelets_.length → B.skips j = true → B.RescaleLaw rcA B.result_complex j) →
        ∀ n j, n < xs.length → j < B.wavelets_.length →
          B.RescaleLaw
            ((({ B with rescale := true, result_complex := rcA, result_power := rpA } :
              Filterbank).run xs).2.getD n [])
            ((B.run xs).2.getD n []) j := by
      intro xs
      have next_rescale_law : ∀ (B : Filterbank) (rcA : List ℂ) (rpA : List ℝ) (hB : B.Ready)
          (hres : B.rescale = false)
          (v : ℝ) (j : ℕ) (hj : j < B.wavelets_.length)
          (hinv : B.skips j = true → B.RescaleLaw rcA B.result_complex j),
          B.RescaleLaw
            (({ B with rescale := true, result_complex := rcA, result_power := rpA } :
              Filterbank).next v).result_complex
            (B.next v).result_complex j := by
        intro B rcA rpA hB hres v j hj hinv
        have hgA : (({ B with rescale := true, result_complex := rcA, result_power := rpA } :
              Filterbank).next v).result_complex.getD j 0 =
            ({ B with rescale := true, result_complex := rcA, result_power := rpA } :
              Filterbank).bandResult (B.nextData v) j := by
          show ((List.range B.wavelets_.length).map _).getD j 0 = _
          rw [List.getD_eq_getElem?_getD, List.getElem?_map, List.getElem?_range hj]
          rfl
        have hgB : (B.next v).result_complex.getD j 0 = B.bandResult (B.nextData v) j := by
          show ((List.range B.wavelets_.length).map _).getD j 0 = _
          rw [List.getD_eq_getElem?_getD, List.getElem?_map, List.getElem?_range hj]
          rfl
        have hskip : ({ B with rescale := true, result_complex := rcA, result_power := rpA } :
              Filterbank).skips j = B.skips j := rfl
        have hpos : ({ B with rescale := true, result_complex := rcA, result_power := rpA } :
              Filterbank).bandPos j = B.bandPos j :=
          bandPos_congr B { B with rescale := true, result_complex := rcA, result_power := rpA }
            rfl rfl j
        obtain ⟨e, w, he, hw, hk, _⟩ := B.ready_aligned_next hB v j hj
        unfold RescaleLaw
        rw [hgA, hgB]
        unfold bandResult
        rw [hskip, hpos]
        cases hs : B.skips j with
        | true =>
          simp only [if_true]
          exact hinv hs
        | false =>
          simp only [Bool.false_eq_true, if_false]
          rw [he]
          rw [hw, hres]
          refine ⟨rawCoefficient e.1.toNat e.2 w, w, rfl, ?_, ?_⟩
          · show coefficientOf false e.1.toNat e.2 w = _
            unfold coefficientOf
            rw [← hk]
            simp
          · show coefficientOf true e.1.toNat e.2 w = _
            unfold coefficientOf
            rw [← hk]
            simp
      induction xs with
      | nil => intro B rcA rpA _ _ _ n j hn; simp at hn
      | cons v vs ih =>
        intro B rcA rpA hB hres hinv n j hn hj
        cases n with
        | zero => exact next_rescale_law B rcA rpA hB hres v j hj (hinv j hj)
        | succ n =>
          have hn' : n < vs.length := by simpa using hn
          exact ih (B.next v)
            (({ B with rescale := true, result_complex := rcA, result_power := rpA } :
              Filterbank).next v).result_complex
            (({ B with rescale := true, result_complex := rcA, result_power := rpA } :
              Filterbank).next v).result_power
            (B.next_ready hB v) hres
            (fun i hi _ => next_rescale_law B rcA rpA hB hres v i hi (hinv i hi)) n j hn' hj
  have hT := fb.ready_with_rescale h true
  have hF := fb.ready_with_rescale h false
  refine ⟨_, _, _, _, Filterbank.feed_eq xs _ hT, Filterbank.feed_eq xs _ hF,
    Filterbank.run_length xs _, Filterbank.run_length xs _, ?_⟩
  intro n j hn hj
  have hskip : ∀ i, i < fb.wavelets_.length →
      ({ fb with rescale := false } : Filterbank).skips i = true →
      ({ fb with rescale := false } : Filterbank).RescaleLaw fb.result_complex
        fb.result_complex i := by
    intro i _ hs
    have hs' : fb.skips i = true := hs
    unfold Filterbank.skips at hs'
    simp only [decide_eq_true_eq] at hs'
    rw [h0 hs'.1] at hs'
    simp at hs'
  obtain ⟨C, w, hw, hf, ht⟩ := run_rescale_law xs
    ({ fb with rescale := false } : Filterbank) fb.result_complex fb.result_power hF rfl
    hskip n j hn hj
  refine ⟨C, w, hw, hf, ht, ?_⟩
  have ht' : (((({ fb with rescale := true } : Filterbank).run xs).2.getD n []).getD j 0) =
      C / ((Real.sqrt w.scale : ℝ) : ℂ) *
        ((Real.sqrt (((fb.bandFactor j).toNat : ℕ) : ℝ) : ℝ) : ℂ) := ht
  have hf' : (((({ fb with rescale := false } : Filterbank).run xs).2.getD n []).getD j 0) =
      C * ((Real.sqrt (((fb.bandFactor j).toNat : ℕ) : ℝ) : ℝ) : ℂ) := hf
  rw [ht', hf', div_mul_eq_mul_div]

/-- Witness of C5: the filterbank of the test "Filterbank: Scales" with the
optimisation `Aggressive1`, fed the samples 1, 2, 3 right after `init`. -/
theorem rescaling_law_witness :
    ∃ fb, (optimisedBank Optimisation.Aggressive1).init = some fb ∧ fb.Ready ∧
      fb.frame_index_ = 0 ∧
      ∃ st rt sf rf,
        ({ fb with rescale := true } : Filterbank).feed [1, 2, 3] = some (st, rt) ∧
        ({ fb with rescale := false } : Filterbank).feed [1, 2, 3] = some (sf, rf) ∧
        rt.length = [(1 : ℝ), 2, 3].length ∧ rf.length = [(1 : ℝ), 2, 3].length ∧
        ∀ n j, n < [(1 : ℝ), 2, 3].length → j < fb.size →
          ∃ (C : ℂ) (w : Wavelet), fb.wavelets_[j]? = some w ∧
            (rf.getD n []).getD j 0 =
              C * ((Real.sqrt (((fb.bandFactor j).toNat : ℕ) : ℝ) : ℝ) : ℂ) ∧
            (rt.getD n []).getD j 0 =
              C / ((Real.sqrt w.scale : ℝ) : ℂ) *
                ((Real.sqrt (((fb.bandFactor j).toNat : ℕ) : ℝ) : ℝ) : ℂ) ∧
            (rt.getD n []).getD j 0 =
              (rf.getD n []).getD j 0 / ((Real.sqrt w.scale : ℝ) : ℂ) := by
  obtain ⟨fb, hinit, hready, _, _, hframe⟩ := optimisedBank_ready Optimisation.Aggressive1
  exact ⟨fb, hinit, hready, hframe, rescaling_law fb hready (fun _ => hframe) [1, 2, 3]⟩

namespace Wavelet

theorem init_recursive (w : Wavelet) (hm : w.mode = WaveletDomain.RECURSIVE) :
    w.init.values = (List.range w.window_size).map (fun (t : ℕ) => w.phi (w.wavelet_arg (t : ℤ))) ∧
    w.init.prepad_value_ = ((List.range (pad_length w).toNat).map (fun (i : ℕ) =>
      (starRingEnd ℂ) (w.phi (w.wavelet_arg (-((pad_length w).toNat : ℤ) + (i : ℤ)))))).sum ∧
    w.init.postpad_value_ = ((List.range (pad_length w).toNat).map (fun (i : ℕ) =>
      (starRingEnd ℂ) (w.phi (w.wavelet_arg ((w.window_size : ℤ) + (i : ℤ)))))).sum := by
  unfold init
  rw [hm]
  exact ⟨rfl, rfl, rfl⟩

theorem init_phi (w : Wavelet) (a : ℝ) : w.init.phi a = w.phi a := by
  unfold phi
  simp

theorem init_wavelet_arg (w : Wavelet) (t : ℤ) : w.init.wavelet_arg t = w.wavelet_arg t := by
  unfold wavelet_arg
  simp

end Wavelet

theorem plainReference_fields :
    plainReference.family = Family.Morlet ∧ plainReference.samplerate = 100 ∧
      plainReference.omega0 = 5 ∧ plainReference.mode = WaveletDomain.RECURSIVE ∧
      plainReference.delay = 0 ∧ plainReference.padding = 0 := by
  unfold plainReference
  simp [MorletWavelet.members, MorletWavelet.DEFAULT_OMEGA0]

theorem plainBank_indices : plainBank.min_index = 2 ∧ plainBank.max_index = 22 := by
  obtain ⟨hf, hsr, ho, _, _, _⟩ := plainReference_fields
  have h1 : plainBank.min_index = scenarioBank.min_index := by
    unfold Filterbank.min_index Filterbank.min_scale Filterbank.scale_0 Wavelet.frequency2scale
    simp [plainBank, scenarioBank, sampleBank, Filterbank.members, hf, hsr, ho,
      MorletWavelet.members, MorletWavelet.DEFAULT_OMEGA0]
  have h2 : plainBank.max_index = scenarioBank.max_index := by
    unfold Filterbank.max_index Filterbank.max_scale Filterbank.scale_0 Wavelet.frequency2scale
    simp [plainBank, scenarioBank, sampleBank, Filterbank.members, hf, hsr, ho,
      MorletWavelet.members, MorletWavelet.DEFAULT_OMEGA0]
  exact ⟨h1.trans scenarioBank_min_index, h2.trans scenarioBank_max_index⟩

namespace Filterbank

theorem next_result_getD (fb : Filterbank) (v : ℝ) (j : ℕ) (hj : j < fb.wavelets_.length) :
    (fb.next v).result_complex.getD j 0 = fb.bandResult (fb.nextData v) j := by
  show ((List.range fb.wavelets_.length).map _).getD j 0 = _
  rw [List.getD_eq_getElem?_getD, List.getElem?_map, List.getElem?_range hj]
  rfl

end Filterbank

theorem plainBank_init :
    ∃ fb0 w0, plainBank.init = some fb0 ∧ fb0.Ready ∧
      fb0.optimisation = Optimisation.None ∧ fb0.rescale = true ∧
      fb0.data_ = [(1, { capacity := 3, items := [0, 0, 0] })] ∧
      fb0.wavelets_[0]? = some w0 ∧ w0.window_size = 3 ∧ w0.prepad_value_ = 0 ∧
      w0.postpad_value_ = 0 ∧ w0.scale = plainBank.scaleAt 0 ∧ w0.samplerate = 100 ∧
      w0.family = Family.Morlet ∧ w0.omega0 = 5 ∧
      w0.values = [w0.phi (w0.wavelet_arg 0), w0.phi (w0.wavelet_arg 1),
        w0.phi (w0.wavelet_arg 2)] := by
  open woma.Filterbank in
    have initWavelet_plain : ∀ (fb : Filterbank) (s : ℝ) (hs : 0 ≤ s)
        (hmode : fb.reference_wavelet_.mode = WaveletDomain.RECURSIVE)
        (hd : fb.reference_wavelet_.delay = 0) (hp : fb.reference_wavelet_.padding = 0),
        ∃ w, fb.initWavelet s none = some w ∧ w.window_size = 3 ∧ w.prepad_value_ = 0 ∧
          w.postpad_value_ = 0 ∧ w.scale = s ∧
          w.samplerate = fb.reference_wavelet_.samplerate ∧
          w.family = fb.reference_wavelet_.family ∧ w.omega0 = fb.reference_wavelet_.omega0 ∧
          w.values = [w.phi (w.wavelet_arg 0), w.phi (w.wavelet_arg 1), w.phi (w.wavelet_arg 2)] := by
      intro fb s hs hmode hd hp
      unfold initWavelet
      simp only [Option.bind_eq_bind, Option.some_bind, Wavelet.setScale, if_neg (not_lt.mpr hs)]
      refine ⟨_, rfl, ?_⟩
      generalize hY : Wavelet.init { fb.reference_wavelet_.copy with scale := s } = Y
      have hYm : Y.mode = WaveletDomain.RECURSIVE := by rw [← hY]; simp [Wavelet.copy, hmode]
      have hYd : Y.delay = 0 := by rw [← hY]; simp [Wavelet.copy, hd]
      have hYp : Y.padding = 0 := by rw [← hY]; simp [Wavelet.copy, hp]
      have hYs : Y.scale = s := by rw [← hY]; simp
      have hYsr : Y.samplerate = fb.reference_wavelet_.samplerate := by
        rw [← hY]; simp [Wavelet.copy]
      have hYf : Y.family = fb.reference_wavelet_.family := by rw [← hY]; simp [Wavelet.copy]
      have hYo : Y.omega0 = fb.reference_wavelet_.omega0 := by rw [← hY]; simp [Wavelet.copy]
      have hwin : Y.setDefaultWindowsize = Wavelet.init { Y with window_size := 3 } := by
        unfold Wavelet.setDefaultWindowsize
        have h0 : truncToNat (2 * Y.delay * Y.eFoldingTime * Y.samplerate) = 0 := by
          simp [hYd, truncToNat]
        simp only [h0]
        rfl
      rw [hwin]
      generalize hX : ({ Y with window_size := 3 } : Wavelet) = X
      have hXm : X.mode = WaveletDomain.RECURSIVE := by rw [← hX]; exact hYm
      have hXw : X.window_size = 3 := by rw [← hX]
      have hXp : X.pad_length = 0 := by
        unfold Wavelet.pad_length
        have : X.padding = 0 := by rw [← hX]; exact hYp
        simp [this, truncToInt]
      obtain ⟨hv, hpre, hpost⟩ := X.init_recursive hXm
      refine ⟨by simp [hXw], ?_, ?_, ?_, ?_, ?_, ?_, ?_⟩
      · rw [hpre, hXp]; simp
      · rw [hpost, hXp]; simp
      · rw [Wavelet.init_scale, ← hX]; exact hYs
      · rw [Wavelet.init_samplerate, ← hX]; exact hYsr
      · rw [Wavelet.init_family, ← hX]; exact hYf
      · rw [Wavelet.init_omega0, ← hX]; exact hYo
      · rw [hv, hXw]
        simp only [Wavelet.init_phi, Wavelet.init_wavelet_arg]
        simp [List.range_succ]
  obtain ⟨hf, hsr, ho5, hmode, hdel, hpad⟩ := plainReference_fields
  obtain ⟨e1, e2⟩ := plainBank_indices
  have hsr' : 0 < plainBank.reference_wavelet_.samplerate := by
    show 0 < plainReference.samplerate
    rw [hsr]; norm_num
  have hbpo : plainBank.bands_per_octave = 4 := rfl
  have hopt : plainBank.optimisation = Optimisation.None := rfl
  have hcount : plainBank.bandCount = 20 := by
    unfold Filterbank.bandCount
    rw [e1, e2]
    rfl
  obtain ⟨fb0, hinit⟩ := plainBank.init_isSome hsr' (by show (0 : ℝ) < 1; norm_num)
    (by show (1 : ℝ) ≤ 30; norm_num) (by rw [hbpo]; norm_num)
    (by show Family.Morlet = plainReference.family; rw [hf])
    (by intro _; rw [e1, e2]; norm_num)
  have hready : fb0.Ready := plainBank.init_ready fb0 hinit hsr' (by rw [hbpo]; norm_num)
    (by rw [hcount]; norm_num)
  obtain ⟨_, _, ws, bufs, hws, hbufs, hfb0⟩ := plainBank.init_eq_some fb0 hinit
  have hlen : ws.length = 20 := by
    rw [plainBank.initWavelets_length _ _ _ hws]
    simp [Filterbank.initScales, hcount]
  have hplain : ∀ i, i < 20 → ∃ w, ws[i]? = some w ∧ w.window_size = 3 ∧ w.prepad_value_ = 0 ∧
      w.postpad_value_ = 0 ∧ w.scale = plainBank.scaleAt i ∧ w.samplerate = 100 ∧
      w.family = Family.Morlet ∧ w.omega0 = 5 ∧
      w.values = [w.phi (w.wavelet_arg 0), w.phi (w.wavelet_arg 1), w.phi (w.wavelet_arg 2)] := by
    intro i hi
    obtain ⟨w, hw, hfw⟩ := plainBank.initWavelets_getElem? _ ws hws i (by rw [hcount]; exact hi)
    rw [if_neg (not_not.mpr hopt)] at hfw
    obtain ⟨w', hw', q1, q2, q3, q4, q5, q6, q7, q8⟩ := initWavelet_plain plainBank
      (plainBank.scaleAt i) (plainBank.scaleAt_pos hsr' i).le hmode hdel hpad
    rw [hfw] at hw'
    cases hw'
    exact ⟨w, hw, q1, q2, q3, q4, q5.trans hsr, q6.trans hf, q7.trans ho5, q8⟩
  obtain ⟨w0, hw0, p0⟩ := hplain 0 (by norm_num)
  obtain ⟨wl, hwl, pl, _⟩ := hplain 19 (by norm_num)
  unfold Filterbank.initBuffers at hbufs
  rw [if_pos hopt, hlen] at hbufs
  have h19 : ws[20 - 1]? = some wl := hwl
  rw [h19] at hbufs
  simp only [Option.bind_eq_bind, Option.some_bind, Option.some.injEq, mapUpdate, pl] at hbufs
  refine ⟨fb0, w0, hinit, hready, ?_, ?_, ?_, ?_, p0⟩
  · rw [hfb0]; exact hopt
  · rw [hfb0]; rfl
  · rw [hfb0, ← hbufs]
    rfl
  · rw [hfb0]
    exact hw0

/-- C3 fails on the code: the filterbank `Filterbank(100, 1, 30, 4)` with the
attributes `delay` and `padding` set to 0 (no optimisation), fed the single
sample 1 right after `init`, then reset and fed the sample 1 again, returns
two different sequences of `result_complex`.  With no optimisation `init`
resizes the buffer and does not clear it, as it does in the branch of the
optimised modes: the buffer is left filled with zeros, `reset` leaves it
empty, and `update` fills an empty buffer with the sample. -/
theorem determinism_counterexample :
    ∃ fb0 fb1 r1 fb2 r2, plainBank.init = some fb0 ∧ fb0.feed [1] = some (fb1, r1) ∧
      fb1.reset.feed [1] = some (fb2, r2) ∧ r1 ≠ r2 := by
  open woma.Filterbank in
    have coefficient_fresh_ne_reset : ∀ (w : Wavelet) (v0 v1 v2 : ℂ) (hW : w.window_size = 3)
        (hpre : w.prepad_value_ = 0) (hpost : w.postpad_value_ = 0) (hv : w.values = [v0, v1, v2])
        (hs : 0 < w.scale) (h : v0 + v1 ≠ 0),
        coefficientOf true 1 { capacity := 3, items := [0, 0, 1] } w ≠
          coefficientOf true 1 { capacity := 3, items := [1, 1, 1] } w := by
      intro w v0 v1 v2 hW hpre hpost hv hs h
      have hsq : ((Real.sqrt w.scale : ℝ) : ℂ) ≠ 0 := by
        have := Real.sqrt_pos.mpr hs
        exact_mod_cast this.ne'
      intro heq
      unfold coefficientOf rawCoefficient tapSum at heq
      simp only [hpre, hpost, hv, hW, if_true, List.range_succ, List.range_zero, List.nil_append,
        List.map_append, List.map_cons, List.map_nil, List.sum_append, List.sum_cons, List.sum_nil,
        List.length_cons, List.length_nil, List.cons_append] at heq
      simp only [Nat.sub_self, Nat.zero_add, Nat.zero_mul, Nat.one_mul, Nat.mul_one, Nat.reduceAdd,
        Nat.reduceSub, Nat.reduceMul, List.getD_cons_zero, List.getD_cons_succ, Nat.cast_one,
        Real.sqrt_one, Complex.ofReal_one, Complex.ofReal_zero, mul_one, zero_mul, one_mul, zero_add,
        add_zero] at heq
      have h3 : (starRingEnd ℂ) v0 + (starRingEnd ℂ) v1 = 0 := by
        have h4 := congrArg (fun z => z * ((Real.sqrt w.scale : ℝ) : ℂ)) heq
        simp only [div_mul_cancel₀ _ hsq] at h4
        linear_combination -h4
      apply h
      have := congrArg (starRingEnd ℂ) h3
      simpa using this
  open woma.Filterbank in
    have nextData_single : ∀ (fb : Filterbank) (c : CircularBuffer) (v : ℝ)
        (ho : fb.optimisation = Optimisation.None) (hd : fb.data_ = [(1, c)]),
        fb.nextData v = [(1, c.fill v)] := by
      intro fb c v ho hd
      unfold nextData
      rw [hd]
      simp [ho]
  open woma.Filterbank in
    have bandResult_single : ∀ (fb : Filterbank) (c : CircularBuffer) (w : Wavelet)
        (ho : fb.optimisation = Optimisation.None) (hw : fb.wavelets_[0]? = some w),
        fb.bandResult [(1, c)] 0 = coefficientOf fb.rescale 1 c w := by
      intro fb c w ho hw
      unfold bandResult skips
      simp only [ho, bandPos]
      simp [hw]
  have plainBank_scaleAt_zero :  0.02 ≤ plainBank.scaleAt 0 := by
    obtain ⟨_, hsr, _⟩ := plainReference_fields
    obtain ⟨e1, _⟩ := plainBank_indices
    unfold Filterbank.scaleAt Filterbank.scale_0
    rw [e1]
    have h1 : plainBank.reference_wavelet_.samplerate = 100 := hsr
    have h2 : plainBank.bands_per_octave = 4 := rfl
    rw [h1, h2]
    have h3 : (1 : ℝ) ≤ (2 : ℝ) ^ ((((2 : ℤ) + ((0 : ℕ) : ℤ) : ℤ) : ℝ) / 4) :=
      Real.one_le_rpow (by norm_num) (by norm_num)
    nlinarith
  have plain_kernel_head : ∀ (w : Wavelet) (hW : w.window_size = 3) (hs : 0.02 ≤ w.scale)
      (hsr : w.samplerate = 100) (hf : w.family = Family.Morlet) (ho : w.omega0 = 5),
      w.phi (w.wavelet_arg 0) + w.phi (w.wavelet_arg 1) ≠ 0 := by
    intro w hW hs hsr hf ho
    open woma.MorletWavelet in
      have phi_im : ∀ (omega0 scale samplerate arg : ℝ),
          (MorletWavelet.phi omega0 scale samplerate arg).im =
            Real.exp (-0.5 * arg * arg) * Real.sin (omega0 * arg) *
              Real.sqrt (1 / (scale * samplerate)) * (Real.pi : ℝ) ^ (-0.25 : ℝ) := by
        intro omega0 scale samplerate arg
        unfold MorletWavelet.phi
        have h1 : (Complex.exp (Complex.mk 0 (1 * omega0 * arg))).im = Real.sin (omega0 * arg) := by
          rw [Complex.exp_im]
          simp
        have h2 : (Complex.exp (-(Complex.mk (0.5 * omega0 * omega0) 0))).im = 0 := by
          rw [Complex.exp_im]
          simp
        simp only [Complex.mul_im, Complex.ofReal_re, Complex.ofReal_im, Complex.sub_im, h1, h2,
          Complex.mul_re]
        ring
    intro h
    have him := congrArg Complex.im h
    have hphi : ∀ a, w.phi a = MorletWavelet.phi 5 w.scale 100 a := by
      intro a
      unfold Wavelet.phi
      rw [hf, ho, hsr]
    have ha0 : w.wavelet_arg 0 = -(1 / (w.scale * 100)) := by
      unfold Wavelet.wavelet_arg
      rw [hW, hsr]
      norm_num
      ring
    have ha1 : w.wavelet_arg 1 = 0 := by
      unfold Wavelet.wavelet_arg
      rw [hW]
      norm_num
    rw [Complex.add_im, hphi, hphi, phi_im, phi_im, ha0, ha1] at him
    simp only [mul_zero, Real.sin_zero, zero_mul, add_zero, Complex.zero_im] at him
    have hpos : 0 < w.scale * 100 := by linarith
    have ha : 0 < 1 / (w.scale * 100) := by positivity
    have ha' : 1 / (w.scale * 100) ≤ 1 / 2 := by
      rw [div_le_div_iff hpos (by norm_num)]
      linarith
    have hsin : Real.sin (5 * -(1 / (w.scale * 100))) < 0 := by
      rw [mul_neg, Real.sin_neg, neg_lt_zero]
      apply Real.sin_pos_of_pos_of_lt_pi
      · positivity
      · have := Real.pi_gt_three
        linarith
    have h1 : 0 < Real.exp (-0.5 * -(1 / (w.scale * 100)) * -(1 / (w.scale * 100))) :=
      Real.exp_pos _
    have h2 : 0 < Real.sqrt (1 / (w.scale * 100)) := Real.sqrt_pos.mpr ha
    have h3 : 0 < (Real.pi : ℝ) ^ (-0.25 : ℝ) := Real.rpow_pos_of_pos Real.pi_pos _
    have : Real.exp (-0.5 * -(1 / (w.scale * 100)) * -(1 / (w.scale * 100))) *
        Real.sin (5 * -(1 / (w.scale * 100))) * Real.sqrt (1 / (w.scale * 100)) *
        (Real.pi : ℝ) ^ (-0.25 : ℝ) < 0 := by
      apply mul_neg_of_neg_of_pos _ h3
      apply mul_neg_of_neg_of_pos _ h2
      exact mul_neg_of_pos_of_neg h1 hsin
    linarith
  obtain ⟨fb0, w0, hinit, hready, hopt, hres, hdata, hw0, pW, ppre, ppost, pscale, psr, pfam,
    pom, pvals⟩ := plainBank_init
  have hready1 : (fb0.next 1).reset.Ready :=
    Filterbank.reset_ready _ (fb0.next_ready hready 1)
  refine ⟨fb0, fb0.next 1, [(fb0.next 1).result_complex], (fb0.next 1).reset.next 1,
    [((fb0.next 1).reset.next 1).result_complex], hinit, Filterbank.feed_eq [1] fb0 hready,
    Filterbank.feed_eq [1] _ hready1, ?_⟩
  intro heq
  have hlen : 0 < fb0.wavelets_.length := (List.getElem?_eq_some_iff.mp hw0).1
  have hd1 : fb0.nextData 1 = [(1, { capacity := 3, items := [0, 0, 1] })] := by
    rw [nextData_single fb0 _ 1 hopt hdata]
    rfl
  have hd2 : (fb0.next 1).reset.data_ = [(1, { capacity := 3, items := [] })] := by
    show (fb0.nextData 1).map (fun e => (e.1, e.2.clear)) = _
    rw [hd1]
    rfl
  have hd3 : (fb0.next 1).reset.nextData 1 = [(1, { capacity := 3, items := [1, 1, 1] })] := by
    rw [nextData_single (fb0.next 1).reset _ 1 hopt hd2]
    rfl
  have hr1 : (fb0.next 1).result_complex.getD 0 0 =
      Filterbank.coefficientOf true 1 { capacity := 3, items := [0, 0, 1] } w0 := by
    rw [fb0.next_result_getD 1 0 hlen, hd1, bandResult_single fb0 _ w0 hopt hw0, hres]
  have hr2 : ((fb0.next 1).reset.next 1).result_complex.getD 0 0 =
      Filterbank.coefficientOf true 1 { capacity := 3, items := [1, 1, 1] } w0 := by
    rw [Filterbank.next_result_getD (fb0.next 1).reset 1 0 hlen, hd3,
      bandResult_single (fb0.next 1).reset _ w0 hopt hw0]
    show Filterbank.coefficientOf fb0.rescale _ _ _ = _
    rw [hres]
  have h0 : (fb0.next 1).result_complex = ((fb0.next 1).reset.next 1).result_complex := by
    simpa using heq
  rw [h0, hr2] at hr1
  exact coefficient_fresh_ne_reset w0 _ _ _ pW ppre ppost pvals
    (by rw [pscale]; have := plainBank_scaleAt_zero; linarith)
    (plain_kernel_head w0 pW (by rw [pscale]; exact plainBank_scaleAt_zero) psr pfam pom)
    hr1.symm

/-- C1 (amended). On a configured filterbank `update` returns, and for every
band `j` it computes (every band, but the bands an aggressive optimisation
skips at this frame), with `d` the factor of the band (1 when no optimisation
is selected), `W` its window size, `buf` the ring buffer keyed by `d` after the
sample has been pushed and `end` its size (at least `d * W`), the entry
`result_complex[j]` is `C_j * sqrt(d)`, `C_j` divided by `sqrt(scale_j)` before
when `rescale` is set, where
`C_j = buf[0] * prepad_j + Σ_{k < W} buf[end - (W - k) * d] * conj(values_j[k])
+ buf[end - 1] * postpad_j`: the last tap reads `buf[end - d]`. -/
theorem update_coefficient (fb : Filterbank) (h : fb.Ready) (v : ℝ) :
    ∃ fb', fb.update v = some fb' ∧
      ∀ j, j < fb.size → fb.skips j = false →
        ∃ (e : ℤ × CircularBuffer) (w : Wavelet),
          fb'.data_[fb.bandPos j]? = some e ∧ fb.wavelets_[j]? = some w ∧
          e.1 = fb.bandFactor j ∧ 1 ≤ e.1 ∧ w.values.length = w.window_size ∧
          e.1.toNat * w.window_size ≤ e.2.items.length ∧
          fb'.result_complex[j]? = some
            ((if fb.rescale then
                (((e.2.items.getD 0 0 : ℝ) : ℂ) * w.prepad_value_ +
                  ((List.range w.window_size).map (fun (k : ℕ) =>
                    ((e.2.items.getD (e.2.items.length - (w.window_size - k) * e.1.toNat) 0 :
                      ℝ) : ℂ) * (starRingEnd ℂ) (w.values.getD k 0))).sum +
                  ((e.2.items.getD (e.2.items.length - 1) 0 : ℝ) : ℂ) * w.postpad_value_) /
                  ((Real.sqrt w.scale : ℝ) : ℂ)
              else
                (((e.2.items.getD 0 0 : ℝ) : ℂ) * w.prepad_value_ +
                  ((List.range w.window_size).map (fun (k : ℕ) =>
                    ((e.2.items.getD (e.2.items.length - (w.window_size - k) * e.1.toNat) 0 :
                      ℝ) : ℂ) * (starRingEnd ℂ) (w.values.getD k 0))).sum +
                  ((e.2.items.getD (e.2.items.length - 1) 0 : ℝ) : ℂ) * w.postpad_value_)) *
              ((Real.sqrt ((e.1.toNat : ℕ) : ℝ) : ℝ) : ℂ)) := by
  open woma.Filterbank in
    have tapSum_eq : ∀ (items : List ℝ) (values : List ℂ) (d W : ℕ) (h : d * W ≤ items.length),
        tapSum items values d W =
          ((List.range W).map (fun (k : ℕ) =>
            ((items.getD (items.length - (W - k) * d) 0 : ℝ) : ℂ) *
              (starRingEnd ℂ) (values.getD k 0))).sum := by
      intro items values d W h
      unfold tapSum
      congr 1
      apply List.map_congr_left
      intro k hk
      have hk' : k < W := List.mem_range.mp hk
      have h1 : (W - k) * d + k * d = d * W := by
        rw [← Nat.add_mul, Nat.sub_add_cancel hk'.le, Nat.mul_comm]
      have h2 : items.length - d * W + k * d = items.length - (W - k) * d := by
        have : (W - k) * d ≤ d * W := by rw [← h1]; exact Nat.le_add_right _ _
        omega
      rw [h2]
  refine ⟨fb.next v, fb.update_eq h v, ?_⟩
  intro j hj hskip
  have hj : j < fb.wavelets_.length := hj
  obtain ⟨e, w, he, hw, hk, h1, _, hlen, _⟩ := fb.ready_aligned_next h v j hj
  have hvals : w.values.length = w.window_size :=
    h.values_length w (List.mem_iff_getElem?.mpr ⟨j, hw⟩)
  refine ⟨e, w, he, hw, hk, h1, hvals, hlen, ?_⟩
  have hres : (fb.next v).result_complex[j]? = some (fb.bandResult (fb.nextData v) j) := by
    show ((List.range fb.wavelets_.length).map _)[j]? = _
    rw [List.getElem?_map, List.getElem?_range hj]
    rfl
  rw [hres]
  unfold Filterbank.bandResult
  rw [hskip, he, hw]
  simp only [Bool.false_eq_true, if_false]
  unfold Filterbank.coefficientOf Filterbank.rawCoefficient
  rw [tapSum_eq _ _ _ _ hlen]

namespace LowpassFilter

theorem poly_head (zs : List ℂ) : (poly zs).getD 0 0 = 1 := by
  have convolve_head : ∀ (x y : List ℂ) (hx : x ≠ []) (hy : y ≠ []),
      (convolve x y).getD 0 0 = x.getD 0 0 * y.getD 0 0 := by
    intro x y hx hy
    have hxl : 0 < x.length := List.length_pos.mpr hx
    have hyl : 0 < y.length := List.length_pos.mpr hy
    unfold convolve
    by_cases h : y.length > x.length
    · simp only [h, if_true]
      rw [List.getD_eq_getElem?_getD, List.getElem?_map, List.getElem?_range (by omega)]
      simp only [Option.map_some', Option.getD_some]
      have h1 : (if 0 ≥ x.length - 1 then 0 - (x.length - 1) else 0) = 0 := by split_ifs <;> omega
      have h2 : (if 0 < y.length - 1 then 0 else y.length - 1) = 0 := by split_ifs <;> omega
      rw [h1, h2]
      simp [mul_comm, List.range_succ]
    · simp only [h, if_false]
      rw [List.getD_eq_getElem?_getD, List.getElem?_map, List.getElem?_range (by omega)]
      simp only [Option.map_some', Option.getD_some]
      have h1 : (if 0 ≥ y.length - 1 then 0 - (y.length - 1) else 0) = 0 := by split_ifs <;> omega
      have h2 : (if 0 < x.length - 1 then 0 else x.length - 1) = 0 := by split_ifs <;> omega
      rw [h1, h2]
      simp [List.range_succ]
  unfold poly
  have : ∀ (zs : List ℂ) (acc : List ℂ), acc ≠ [] → acc.getD 0 0 = 1 →
      (zs.foldl (fun result zero => convolve result [1, -zero]) acc).getD 0 0 = 1 := by
    intro zs
    induction zs with
    | nil => intro acc _ h; exact h
    | cons z t ih =>
      intro acc hne h
      rw [List.foldl_cons]
      apply ih
      · intro hnil
        have := congrArg List.length hnil
        rw [convolve_length] at this
        have hl : 0 < acc.length := List.length_pos.mpr hne
        simp only [List.length_cons, List.length_nil] at this
        omega
      · rw [convolve_head _ _ hne (by simp), h]
        simp
  exact this zs [1] (by simp) (by simp)

theorem prod_conj_pairs (a b : ℂ) :
    a * (b * ((starRingEnd ℂ) b * ((starRingEnd ℂ) a * 1))) =
      ((Complex.normSq a * Complex.normSq b : ℝ) : ℂ) := by
  rw [mul_one, Complex.ofReal_mul, ← Complex.mul_conj a, ← Complex.mul_conj b]
  ring

theorem sinh_mk_re (x y : ℝ) : (Complex.sinh (Complex.mk x y)).re = Real.sinh x * Real.cos y := by
  have h : Complex.mk x y = (x : ℂ) + (y : ℂ) * Complex.I := by
    apply Complex.ext <;> simp
  rw [h, Complex.sinh_add, Complex.sinh_mul_I, Complex.cosh_mul_I]
  simp [Complex.sinh_ofReal_re, Complex.cos_ofReal_re, Complex.sinh_ofReal_im,
    Complex.cos_ofReal_im, Complex.cosh_ofReal_im, Complex.sin_ofReal_im]

theorem sinh_mk_conj (x y : ℝ) :
    Complex.sinh (Complex.mk x (-y)) = (starRingEnd ℂ) (Complex.sinh (Complex.mk x y)) := by
  rw [← Complex.sinh_conj]
  congr 1

end LowpassFilter

namespace LowpassFilter

theorem installed_atRest (dflt g : LowpassFilter) (v : ℝ) (h0 : create 1 4 0.05 = some dflt)
    (h : dflt.setCutoff v = some g) (hv0 : 0 < v) (hv1 : v < 1) : g.AtRest := by
  have cheby1_four : ∀ (ripple cutoff : ℝ) (hr : 0 < ripple) (hc0 : 0 < cutoff) (hc1 : cutoff < 1),
      ∃ ba, cheby1 4 ripple cutoff = some ba ∧ ba.1.getD 0 0 ≠ 0 := by
    intro ripple cutoff hr hc0 hc1
    have cheby1ap_four : ∀ (ripple : ℝ) (hr : 0 < ripple),
        ∃ (a b : ℂ), 0 < a.re ∧ 0 < b.re ∧ 0 < (cheby1ap 4 ripple).1 ∧
          (cheby1ap 4 ripple).2 = [-a, -b, -(starRingEnd ℂ) b, -(starRingEnd ℂ) a] := by
      intro ripple hr
      have h10 : (1 : ℝ) < (10 : ℝ) ^ (0.1 * ripple) :=
        Real.one_lt_rpow (by norm_num) (by positivity)
      have heps : 0 < Real.sqrt ((10 : ℝ) ^ (0.1 * ripple) - 1) := Real.sqrt_pos.mpr (by linarith)
      have hmu : 0 < 1 / ((4 : ℤ) : ℝ) * Real.arsinh (1 / Real.sqrt ((10 : ℝ) ^ (0.1 * ripple) - 1)) := by
        apply mul_pos (by norm_num)
        exact (by
          have key : ∀ y : ℝ, 0 < y → 0 < Real.arsinh y := by
            intro y hy
            rw [Real.arsinh]
            apply Real.log_pos
            have hsq : 1 ≤ Real.sqrt (1 + y ^ 2) := by
              rw [Real.one_le_sqrt]
              nlinarith [sq_nonneg y]
            linarith
          exact key _ (by positivity))
      have hpi := Real.pi_pos
      have hc0 : 0 < Real.cos (Real.pi * 3 / 8) :=
        Real.cos_pos_of_mem_Ioo ⟨by linarith, by linarith⟩
      have hc1 : 0 < Real.cos (Real.pi / 8) :=
        Real.cos_pos_of_mem_Ioo ⟨by linarith, by linarith⟩
      have e0 : Real.pi * (((-4 + 1 + 2 * ((0 : ℕ) : ℤ) : ℤ) : ℝ)) / (2 * ((4 : ℤ) : ℝ)) =
          -(Real.pi * 3 / 8) := by push_cast; ring
      have e1 : Real.pi * (((-4 + 1 + 2 * ((1 : ℕ) : ℤ) : ℤ) : ℝ)) / (2 * ((4 : ℤ) : ℝ)) =
          -(Real.pi / 8) := by push_cast; ring
      have e2 : Real.pi * (((-4 + 1 + 2 * ((2 : ℕ) : ℤ) : ℤ) : ℝ)) / (2 * ((4 : ℤ) : ℝ)) =
          -(-(Real.pi / 8)) := by push_cast; ring
      have e3 : Real.pi * (((-4 + 1 + 2 * ((3 : ℕ) : ℤ) : ℤ) : ℝ)) / (2 * ((4 : ℤ) : ℝ)) =
          -(-(Real.pi * 3 / 8)) := by push_cast; ring
      have hl : (List.range (4 : ℤ).toNat) = [0, 1, 2, 3] := rfl
      have hmod : ((4 : ℤ) % 2 = 0) := by decide
      unfold cheby1ap
      simp only [hl, List.map_cons, List.map_nil, e0, e1, e2, e3, sinh_mk_conj, neg_neg,
        List.prod_cons, List.prod_nil, hmod, if_true]
      generalize 1 / ((4 : ℤ) : ℝ) *
        Real.arsinh (1 / Real.sqrt ((10 : ℝ) ^ (0.1 * ripple) - 1)) = mu at hmu
      have hsinh : 0 < Real.sinh mu := (by
          have key : ∀ x : ℝ, 0 < x → 0 < Real.sinh x := by
            intro x hx
            rw [Real.sinh_eq]
            have := Real.exp_lt_exp.mpr (show -x < x by linarith)
            linarith
          exact key _ hmu)
      have ha : 0 < ((starRingEnd ℂ) (Complex.sinh (Complex.mk mu (Real.pi * 3 / 8)))).re := by
        rw [Complex.conj_re, sinh_mk_re]
        exact mul_pos hsinh hc0
      have hb : 0 < ((starRingEnd ℂ) (Complex.sinh (Complex.mk mu (Real.pi / 8)))).re := by
        rw [Complex.conj_re, sinh_mk_re]
        exact mul_pos hsinh hc1
      refine ⟨(starRingEnd ℂ) (Complex.sinh (Complex.mk mu (Real.pi * 3 / 8))),
        (starRingEnd ℂ) (Complex.sinh (Complex.mk mu (Real.pi / 8))), ha, hb, ?_, ?_⟩
      · have hprod := prod_conj_pairs
          ((starRingEnd ℂ) (Complex.sinh (Complex.mk mu (Real.pi * 3 / 8))))
          ((starRingEnd ℂ) (Complex.sinh (Complex.mk mu (Real.pi / 8))))
        rw [Complex.conj_conj, Complex.conj_conj] at hprod
        rw [hprod, Complex.ofReal_re]
        apply div_pos
        · apply mul_pos
          · exact Complex.normSq_pos.mpr (fun h0 => by rw [h0] at ha; simp at ha)
          · exact Complex.normSq_pos.mpr (fun h0 => by rw [h0] at hb; simp at hb)
        · positivity
      · rw [Complex.conj_conj, Complex.conj_conj]
    have bilinear_gain : ∀ (a b : ℂ) (k w : ℝ) (ha : 0 < a.re) (hb : 0 < b.re) (hk : 0 < k)
        (hw : 0 < w),
        (_zpkbilinear (_zpklp2lp [-a, -b, -(starRingEnd ℂ) b, -(starRingEnd ℂ) a] k w).2
          (_zpklp2lp [-a, -b, -(starRingEnd ℂ) b, -(starRingEnd ℂ) a] k w).1).1 ≠ 0 := by
      intro a b k w ha hb hk hw
      unfold _zpkbilinear _zpklp2lp
      simp only [List.map_cons, List.map_nil, List.prod_cons, List.prod_nil, List.length_cons,
        List.length_nil]
      have h1 : ((4 : ℝ) : ℂ) - -(starRingEnd ℂ) b * (w : ℂ) =
          (starRingEnd ℂ) (((4 : ℝ) : ℂ) - -b * (w : ℂ)) := by
        rw [map_sub, map_mul, map_neg, Complex.conj_ofReal, Complex.conj_ofReal]
      have h2 : ((4 : ℝ) : ℂ) - -(starRingEnd ℂ) a * (w : ℂ) =
          (starRingEnd ℂ) (((4 : ℝ) : ℂ) - -a * (w : ℂ)) := by
        rw [map_sub, map_mul, map_neg, Complex.conj_ofReal, Complex.conj_ofReal]
      rw [h1, h2, prod_conj_pairs]
      have hX : 0 < Complex.normSq (((4 : ℝ) : ℂ) - -a * (w : ℂ)) := by
        apply Complex.normSq_pos.mpr
        intro h0
        have := congrArg Complex.re h0
        simp at this
        nlinarith
      have hY : 0 < Complex.normSq (((4 : ℝ) : ℂ) - -b * (w : ℂ)) := by
        apply Complex.normSq_pos.mpr
        intro h0
        have := congrArg Complex.re h0
        simp at this
        nlinarith
      have hre : ((1 : ℂ) / ((Complex.normSq (((4 : ℝ) : ℂ) - -a * (w : ℂ)) *
          Complex.normSq (((4 : ℝ) : ℂ) - -b * (w : ℂ)) : ℝ) : ℂ)).re =
          1 / (Complex.normSq (((4 : ℝ) : ℂ) - -a * (w : ℂ)) *
            Complex.normSq (((4 : ℝ) : ℂ) - -b * (w : ℂ))) := by
        rw [← Complex.ofReal_one, ← Complex.ofReal_div, Complex.ofReal_re]
      rw [hre]
      have : 0 < k * w ^ (0 + 1 + 1 + 1 + 1) *
          (1 / (Complex.normSq (((4 : ℝ) : ℂ) - -a * (w : ℂ)) *
            Complex.normSq (((4 : ℝ) : ℂ) - -b * (w : ℂ)))) := by positivity
      exact this.ne'
    unfold cheby1
    rw [if_neg (by push_neg; exact ⟨hc0, hc1.le⟩)]
    refine ⟨_, rfl, ?_⟩
    simp only [zpk2tf]
    rw [List.getD_eq_getElem?_getD, List.getElem?_map]
    have hp := poly_head (_zpkbilinear (_zpklp2lp (cheby1ap 4 ripple).2 (cheby1ap 4 ripple).1
      (4 * Real.tan (Real.pi * cutoff / 2))).2 (_zpklp2lp (cheby1ap 4 ripple).2
      (cheby1ap 4 ripple).1 (4 * Real.tan (Real.pi * cutoff / 2))).1).2.1
    rw [List.getD_eq_getElem?_getD] at hp
    cases hq : (poly (_zpkbilinear (_zpklp2lp (cheby1ap 4 ripple).2 (cheby1ap 4 ripple).1
      (4 * Real.tan (Real.pi * cutoff / 2))).2 (_zpklp2lp (cheby1ap 4 ripple).2
      (cheby1ap 4 ripple).1 (4 * Real.tan (Real.pi * cutoff / 2))).1).2.1)[0]? with
    | none =>
      rw [hq] at hp
      simp at hp
    | some c =>
      rw [hq] at hp
      simp only [Option.getD_some] at hp
      subst hp
      simp only [Option.map_some', Option.getD_some, Complex.one_re, mul_one]
      obtain ⟨a, b, ha, hb, hk, hp⟩ := cheby1ap_four ripple hr
      rw [hp]
      have hpi := Real.pi_pos
      have hw : 0 < 4 * Real.tan (Real.pi * cutoff / 2) := by
        apply mul_pos (by norm_num)
        apply Real.tan_pos_of_pos_of_lt_pi_div_two (by positivity)
        have : Real.pi * cutoff < Real.pi * 1 := mul_lt_mul_of_pos_left hc1 hpi
        linarith
      exact bilinear_gain a b _ _ ha hb hk hw
  refine ⟨installed_sized dflt g v h0 h, ?_, ?_⟩
  all_goals
    have ho : dflt.order = 4 ∧ dflt.rippleLevel = 0.05 := by
      unfold create at h0
      split_ifs at h0
      unfold init at h0
      cases hc : cheby1 4 0.05 1 with
      | none => rw [hc] at h0; cases h0
      | some ba =>
        rw [hc] at h0
        simp only [Option.map_some', Option.some.injEq] at h0
        rw [← h0]
        exact ⟨rfl, rfl⟩
    unfold setCutoff at h
    split_ifs at h
    unfold init at h
    simp only [ho.1, ho.2] at h
    obtain ⟨ba, hba, hb0⟩ := cheby1_four 0.05 v (by norm_num) hv0 hv1
    rw [hba] at h
    simp only [Option.map_some', Option.some.injEq] at h
    rw [← h]
  · intro x hx
    exact List.eq_of_mem_replicate hx
  · exact hb0

theorem atRest_step_zero (f : LowpassFilter) (h : f.AtRest) :
    (f.step 0).AtRest ∧ f.output 0 = 0 := by
  obtain ⟨hs, hz, hb⟩ := h
  have hz0 : ∀ i, f.z.getD i 0 = 0 := by
    intro i
    rw [List.getD_eq_getElem?_getD]
    cases hi : f.z[i]? with
    | none => rfl
    | some x => exact hz x (List.mem_iff_getElem?.mpr ⟨i, hi⟩)
  have hout : f.output 0 = 0 := by
    unfold output
    rw [hz0]
    ring
  refine ⟨⟨f.step_sized hs 0, ?_, hb⟩, hout⟩
  intro x hx
  show x = 0
  have hx' : x ∈ f.nextMemory 0 := hx
  unfold nextMemory at hx'
  rw [List.mem_map] at hx'
  obtain ⟨i, _, hi⟩ := hx'
  rw [← hi, hout, hz0]
  ring

end LowpassFilter

theorem mapUpdate_mem {β : Type} (dflt : β) (f : β → β) (key : ℤ) :
    ∀ (m : List (ℤ × β)) (e : ℤ × β), e ∈ mapUpdate dflt f key m →
      e ∈ m ∨ e = (key, f dflt) ∨ ∃ v, (key, v) ∈ m ∧ e = (key, f v) := by
  intro m
  induction m with
  | nil =>
    intro e he
    simp only [mapUpdate, List.mem_singleton] at he
    exact Or.inr (Or.inl he)
  | cons hd t ih =>
    intro e he
    obtain ⟨k, v⟩ := hd
    simp only [mapUpdate] at he
    split_ifs at he with h1 h2
    · rcases List.mem_cons.mp he with h | h
      · exact Or.inr (Or.inl h)
      · exact Or.inl h
    · rcases List.mem_cons.mp he with h | h
      · exact Or.inr (Or.inr ⟨v, by rw [h2]; exact List.mem_cons_self _ _, by rw [h, h2]⟩)
      · exact Or.inl (List.mem_cons_of_mem _ h)
    · rcases List.mem_cons.mp he with h | h
      · exact Or.inl (by rw [h]; exact List.mem_cons_self _ _)
      · rcases ih e h with q | q | ⟨v', q1, q2⟩
        · exact Or.inl (List.mem_cons_of_mem _ q)
        · exact Or.inr (Or.inl q)
        · exact Or.inr (Or.inr ⟨v', List.mem_cons_of_mem _ q1, q2⟩)

theorem foldlM_option_invariant {α β : Type} (f : β → α → Option β) (P : β → Prop)
    (hstep : ∀ b a b', f b a = some b' → P b → P b') :
    ∀ (l : List α) (b r : β), l.foldlM f b = some r → P b → P r := by
  intro l
  induction l with
  | nil =>
    intro b r h hb
    simp only [List.foldlM_nil] at h
    cases h
    exact hb
  | cons a t ih =>
    intro b r h hb
    rw [List.foldlM_cons] at h
    cases hfa : f b a with
    | none => rw [hfa] at h; cases h
    | some b' =>
      rw [hfa] at h
      exact ih b' r h (hstep b a b' hfa hb)

theorem optimisedBank_last_band :
    ∃ fb0 w, (optimisedBank Optimisation.Standard1).init = some fb0 ∧ fb0.Ready ∧
      fb0.optimisation = Optimisation.Standard1 ∧ fb0.rescale = true ∧
      (∀ e ∈ fb0.data_, e.2.items = []) ∧ (∀ f ∈ fb0.filters_, f.2.AtRest) ∧
      fb0.wavelets_.length = 20 ∧ 2 ≤ fb0.downsampling_factors.getD 19 1 ∧
      fb0.wavelets_[19]? = some w ∧ 0 < w.scale ∧ 0 < w.samplerate ∧ 3 ≤ w.window_size ∧
      w.values.getD (w.window_size - 1) 0 ≠ 0 := by
  open woma.Filterbank in
    have init_fresh : ∀ (fb fb' : Filterbank) (h : fb.init = some fb')
        (ho : fb.optimisation ≠ Optimisation.None),
        (∀ e ∈ fb'.data_, e.2.items = []) ∧ (∀ f ∈ fb'.filters_, f.2.AtRest) := by
      intro fb fb' h ho
      have initBufferStep_fresh : ∀ (st st' : List (ℤ × CircularBuffer) × List (ℤ × LowpassFilter))
          (band : ℕ × ℤ) (h : initBufferStep st band = some st')
          (hP : (∀ e ∈ st.1, e.2.items = []) ∧ (∀ f ∈ st.2, f.2.AtRest)),
          (∀ e ∈ st'.1, e.2.items = []) ∧ (∀ f ∈ st'.2, f.2.AtRest) := by
        intro st st' band h hP
        have hdata : ∀ e ∈ mapUpdate CircularBuffer.empty
            (fun c => (c.resize (band.1 * band.2.toNat)).clear) band.2 st.1, e.2.items = [] := by
          intro e he
          rcases mapUpdate_mem _ _ _ _ e he with q | q | ⟨v, _, q⟩
          · exact hP.1 e q
          · rw [q]; rfl
          · rw [q]; rfl
        unfold initBufferStep at h
        by_cases hc : band.2 > 1 ∧ mapCount band.2 st.2 = 0
        · rw [if_pos hc] at h
          cases hd : LowpassFilter.create 1 4 0.05 with
          | none => rw [hd] at h; cases h
          | some dflt =>
            rw [hd] at h
            simp only [Option.bind_eq_bind, Option.some_bind] at h
            cases hg : dflt.setCutoff (0.8 / (band.2 : ℝ)) with
            | none => rw [hg] at h; cases h
            | some g =>
              rw [hg] at h
              simp only [Option.some_bind, Option.some.injEq] at h
              rw [← h]
              refine ⟨hdata, ?_⟩
              intro f hf
              have hd1 : (1 : ℝ) < (band.2 : ℝ) := by exact_mod_cast hc.1
              have hrest : g.AtRest := LowpassFilter.installed_atRest dflt g _ hd hg (by positivity)
                (by rw [div_lt_one (by linarith)]; linarith)
              rcases mapUpdate_mem _ _ _ _ f hf with q | q | ⟨v, hv, q⟩
              · exact hP.2 f q
              · rw [q]; exact hrest
              · rw [q]; exact hP.2 _ hv
        · rw [if_neg hc] at h
          simp only [Option.some.injEq] at h
          rw [← h]
          exact ⟨hdata, hP.2⟩
      obtain ⟨_, _, ws, bufs, hws, hbufs, rfl⟩ := fb.init_eq_some fb' h
      unfold initBuffers at hbufs
      rw [if_neg ho] at hbufs
      cases hbands : (List.range ws.length).mapM (fun (i : ℕ) => do
            let w ← ws[i]?
            let d ← (fb.initFactors fb.bandCount)[i]?
            some (w.window_size, d)) with
      | none => rw [hbands] at hbufs; cases hbufs
      | some bands =>
        rw [hbands] at hbufs
        simp only [Option.bind_eq_bind, Option.some_bind] at hbufs
        exact foldlM_option_invariant initBufferStep
          (fun st => (∀ e ∈ st.1, e.2.items = []) ∧ (∀ f ∈ st.2, f.2.AtRest))
          (fun st band st' hstep hP => initBufferStep_fresh st st' band hstep hP)
          bands ([], []) bufs hbufs
          ⟨fun e he => (by cases he), fun f hf => (by cases hf)⟩
  open woma.MorletWavelet in
    have phi_ne_zero : ∀ (omega0 scale samplerate arg : ℝ)
        (hs : 0 < scale * samplerate) (ho : omega0 ≠ 0),
        MorletWavelet.phi omega0 scale samplerate arg ≠ 0 := by
      intro omega0 scale samplerate arg hs ho
      unfold MorletWavelet.phi
      have h1 : ((Real.exp (-0.5 * arg * arg) : ℝ) : ℂ) ≠ 0 := by
        exact_mod_cast (Real.exp_pos _).ne'
      have h2 : Complex.exp (Complex.mk 0 (1 * omega0 * arg)) -
          Complex.exp (-(Complex.mk (0.5 * omega0 * omega0) 0)) ≠ 0 := by
        intro h
        have heq := sub_eq_zero.mp h
        have habs := congrArg Complex.abs heq
        rw [Complex.abs_exp, Complex.abs_exp] at habs
        simp only [Complex.neg_re, Real.exp_zero] at habs
        have hneg : -(0.5 * omega0 * omega0) < 0 := by
          have : 0 < omega0 * omega0 := mul_self_pos.mpr ho
          linarith
        have := Real.exp_lt_one_iff.mpr hneg
        linarith
      have h3 : ((Real.sqrt (1 / (scale * samplerate)) : ℝ) : ℂ) ≠ 0 := by
        have : 0 < Real.sqrt (1 / (scale * samplerate)) := Real.sqrt_pos.mpr (by positivity)
        exact_mod_cast this.ne'
      have h4 : (((Real.pi : ℝ) ^ (-0.25 : ℝ) : ℝ) : ℂ) ≠ 0 := by
        have : 0 < (Real.pi : ℝ) ^ (-0.25 : ℝ) := Real.rpow_pos_of_pos Real.pi_pos _
        exact_mod_cast this.ne'
      exact mul_ne_zero (mul_ne_zero (mul_ne_zero h1 h2) h3) h4
  open woma.Filterbank in
    have initWavelet_some_values : ∀ (fb : Filterbank) (s : ℝ) (d : ℤ) (hs : 0 ≤ s) (hd : 1 ≤ d)
        (hsr : 0 ≤ fb.reference_wavelet_.samplerate)
        (hmode : fb.reference_wavelet_.mode = WaveletDomain.RECURSIVE),
        ∃ w, fb.initWavelet s (some d) = some w ∧ w.scale = s ∧
          w.samplerate = fb.reference_wavelet_.samplerate / (d : ℝ) ∧
          w.family = fb.reference_wavelet_.family ∧ w.omega0 = fb.reference_wavelet_.omega0 ∧
          ∀ k, k < w.window_size → w.values.getD k 0 = w.phi (w.wavelet_arg (k : ℤ)) := by
      intro fb s d hs hd hsr hmode
      have h1 : (1 : ℝ) ≤ (d : ℝ) := by exact_mod_cast hd
      have h2 : ¬ (fb.reference_wavelet_.samplerate / (d : ℝ) < 0) :=
        not_lt.mpr (div_nonneg hsr (by linarith))
      unfold initWavelet
      simp only [Option.bind_eq_bind, Option.some_bind, Wavelet.setScale, Wavelet.setSamplerate,
        if_neg (not_lt.mpr hs), if_neg h2]
      refine ⟨_, rfl, ?_⟩
      generalize hY : Wavelet.init { Wavelet.init { fb.reference_wavelet_.copy with
        samplerate := fb.reference_wavelet_.samplerate / (d : ℝ) } with scale := s } = Y
      have hYm : Y.mode = WaveletDomain.RECURSIVE := by rw [← hY]; simp [Wavelet.copy, hmode]
      have hYs : Y.scale = s := by rw [← hY]; simp
      have hYsr : Y.samplerate = fb.reference_wavelet_.samplerate / (d : ℝ) := by
        rw [← hY]; simp
      have hYf : Y.family = fb.reference_wavelet_.family := by rw [← hY]; simp [Wavelet.copy]
      have hYo : Y.omega0 = fb.reference_wavelet_.omega0 := by rw [← hY]; simp [Wavelet.copy]
      unfold Wavelet.setDefaultWindowsize
      simp only
      generalize (if truncToNat (2 * Y.delay * Y.eFoldingTime * Y.samplerate) < 3 then 3
          else truncToNat (2 * Y.delay * Y.eFoldingTime * Y.samplerate)) +
        (if (if truncToNat (2 * Y.delay * Y.eFoldingTime * Y.samplerate) < 3 then 3
          else truncToNat (2 * Y.delay * Y.eFoldingTime * Y.samplerate)) % 2 = 0 then 1 else 0) = W
      generalize hX : ({ Y with window_size := W } : Wavelet) = X
      have hXm : X.mode = WaveletDomain.RECURSIVE := by rw [← hX]; exact hYm
      obtain ⟨hv, _, _⟩ := X.init_recursive hXm
      refine ⟨?_, ?_, ?_, ?_, ?_⟩
      · rw [Wavelet.init_scale, ← hX]; exact hYs
      · rw [Wavelet.init_samplerate, ← hX]; exact hYsr
      · rw [Wavelet.init_family, ← hX]; exact hYf
      · rw [Wavelet.init_omega0, ← hX]; exact hYo
      · intro k hk
        rw [Wavelet.init_window_size] at hk
        rw [hv, Wavelet.init_phi, Wavelet.init_wavelet_arg, List.getD_eq_getElem?_getD,
          List.getElem?_map, List.getElem?_range hk]
        rfl
  have optimisedBank_last_factor : 
      2 ≤ (optimisedBank Optimisation.Standard1).factorOf
        ((optimisedBank Optimisation.Standard1).reference_wavelet_.scale2frequency
          ((optimisedBank Optimisation.Standard1).scaleAt 19)) := by
    have e1 : (optimisedBank Optimisation.Standard1).min_index = 2 := scenarioBank_min_index
    have hs : 0.64 ≤ (optimisedBank Optimisation.Standard1).scaleAt 19 := by
      unfold Filterbank.scaleAt Filterbank.scale_0
      rw [e1]
      have h1 : (optimisedBank Optimisation.Standard1).reference_wavelet_.samplerate = 100 := by
        simp [optimisedBank, scenarioBank, sampleBank, Filterbank.members, MorletWavelet.members]
      have h2 : (optimisedBank Optimisation.Standard1).bands_per_octave = 4 := rfl
      rw [h1, h2]
      have h3 : (2 : ℝ) ^ (5 : ℝ) ≤ (2 : ℝ) ^ ((((2 : ℤ) + ((19 : ℕ) : ℤ) : ℤ) : ℝ) / 4) :=
        Real.rpow_le_rpow_of_exponent_le (by norm_num) (by norm_num)
      have h4 : (2 : ℝ) ^ (5 : ℝ) = 32 := by
        rw [show (5 : ℝ) = ((5 : ℕ) : ℝ) by norm_num, Real.rpow_natCast]
        norm_num
      rw [h4] at h3
      nlinarith
    generalize (optimisedBank Optimisation.Standard1).scaleAt 19 = s at hs
    have hf : (optimisedBank Optimisation.Standard1).reference_wavelet_.scale2frequency s =
        (5 + Real.sqrt 27) / (4 * Real.pi * s) := by
      simp only [optimisedBank, scenarioBank, sampleBank, Filterbank.members,
        Wavelet.scale2frequency, Wavelet.init_family, Wavelet.init_omega0, MorletWavelet.members,
        MorletWavelet.scale2frequency, MorletWavelet.DEFAULT_OMEGA0]
      have : (2 : ℝ) + 5 * 5 = 27 := by norm_num
      rw [this]
    rw [hf]
    obtain ⟨_, hs2⟩ := sqrt_27_bounds
    have hp1 := Real.pi_gt_d2
    have hspos : 0 < s := by linarith
    have hden : 0 < 4 * Real.pi * s := by positivity
    have hnum : 0 < 5 + Real.sqrt 27 := by positivity
    have hfpos : 0 < (5 + Real.sqrt 27) / (4 * Real.pi * s) := div_pos hnum hden
    have hfle : (5 + Real.sqrt 27) / (4 * Real.pi * s) ≤ 6.25 := by
      rw [div_le_iff₀ hden]
      nlinarith
    unfold Filterbank.factorOf
    have hsr : (optimisedBank Optimisation.Standard1).reference_wavelet_.samplerate = 100 := by
      simp [optimisedBank, scenarioBank, sampleBank, Filterbank.members, MorletWavelet.members]
    have hdiv : Filterbank.rateDivisor (optimisedBank Optimisation.Standard1).optimisation = 8 := by
      simp [Filterbank.rateDivisor, optimisedBank]
    rw [hsr, hdiv]
    have hratio : (2 : ℝ) ≤ 100 / 8 / ((5 + Real.sqrt 27) / (4 * Real.pi * s)) := by
      rw [le_div_iff₀ hfpos]
      linarith
    have hmono := truncToInt_mono hratio
    have h2 : truncToInt (2 : ℝ) = 2 := by
      rw [truncToInt_of_nonneg (by norm_num)]
      exact Int.floor_eq_iff.mpr ⟨by norm_num, by norm_num⟩
    rw [h2] at hmono
    simp only
    split_ifs <;> omega
  obtain ⟨fb0, hinit, hready, hsize, hopt, _⟩ := optimisedBank_ready Optimisation.Standard1
  have hoB : (optimisedBank Optimisation.Standard1).optimisation ≠ Optimisation.None := by
    simp [optimisedBank]
  have hv := scenarioBank_valid
  have hsr : 0 < (optimisedBank Optimisation.Standard1).reference_wavelet_.samplerate :=
    hv.samplerate_pos
  obtain ⟨hf1, hf2⟩ := init_fresh (optimisedBank Optimisation.Standard1) fb0 hinit hoB
  have hcount : (optimisedBank Optimisation.Standard1).bandCount = 20 := by
    rw [← Filterbank.init_size _ _ hinit, hsize]
  obtain ⟨_, _, ws, bufs, hws, _, hfb0⟩ :=
    (optimisedBank Optimisation.Standard1).init_eq_some fb0 hinit
  have hwl : fb0.wavelets_ = ws := by rw [hfb0]
  have hfac : fb0.downsampling_factors =
      (optimisedBank Optimisation.Standard1).initFactors 20 := by
    rw [hfb0]
    simp only [hcount]
    exact if_neg hoB
  rw [hcount] at hws
  obtain ⟨w, hw, hfw⟩ :=
    (optimisedBank Optimisation.Standard1).initWavelets_getElem? 20 ws hws 19 (by norm_num)
  rw [if_pos hoB] at hfw
  have hmode : (optimisedBank Optimisation.Standard1).reference_wavelet_.mode =
      WaveletDomain.RECURSIVE := by
    simp [optimisedBank, scenarioBank, sampleBank, Filterbank.members, MorletWavelet.members]
  have hfam : (optimisedBank Optimisation.Standard1).reference_wavelet_.family =
      Family.Morlet := by
    simp [optimisedBank, scenarioBank, sampleBank, Filterbank.members, MorletWavelet.members]
  have hom : (optimisedBank Optimisation.Standard1).reference_wavelet_.omega0 = 5 := by
    simp [optimisedBank, scenarioBank, sampleBank, Filterbank.members, MorletWavelet.members,
      MorletWavelet.DEFAULT_OMEGA0]
  have hd1 := (optimisedBank Optimisation.Standard1).factorOf_ge_one
    ((optimisedBank Optimisation.Standard1).reference_wavelet_.scale2frequency
      ((optimisedBank Optimisation.Standard1).scaleAt 19))
  have hspos := (optimisedBank Optimisation.Standard1).scaleAt_pos hsr 19
  obtain ⟨w1, hw1, q1, q2, q3, q4, q5⟩ :=
    initWavelet_some_values (optimisedBank Optimisation.Standard1) _ _ hspos.le hd1 hsr.le hmode
  obtain ⟨w2, hw2, _, p3, _⟩ :=
    (optimisedBank Optimisation.Standard1).initWavelet_isSome _ hspos.le hsr.le
      (some ((optimisedBank Optimisation.Standard1).factorOf
        ((optimisedBank Optimisation.Standard1).reference_wavelet_.scale2frequency
          ((optimisedBank Optimisation.Standard1).scaleAt 19))))
      (by intro d hd; cases hd; exact hd1)
  rw [hfw] at hw1 hw2
  cases hw1
  cases hw2
  have hwsr : 0 < w.samplerate := by
    rw [q2]
    apply div_pos hsr
    have : (1 : ℝ) ≤ (((optimisedBank Optimisation.Standard1).factorOf
      ((optimisedBank Optimisation.Standard1).reference_wavelet_.scale2frequency
        ((optimisedBank Optimisation.Standard1).scaleAt 19)) : ℤ) : ℝ) := by exact_mod_cast hd1
    linarith
  have hws0 : 0 < w.scale := by rw [q1]; exact hspos
  refine ⟨fb0, w, hinit, hready, hopt, ?_, hf1, hf2, ?_, ?_, ?_, hws0, hwsr, p3, ?_⟩
  · rw [hfb0]; rfl
  · rw [← hsize]; rfl
  · rw [hfac, List.getD_eq_getElem?_getD,
      (optimisedBank Optimisation.Standard1).initFactors_getElem? 20 19 (by norm_num) hoB]
    exact optimisedBank_last_factor
  · rw [hwl]; exact hw
  · rw [q5 _ (by omega)]
    unfold Wavelet.phi
    rw [q3, hfam]
    simp only
    rw [q4, hom]
    exact phi_ne_zero _ _ _ _ (mul_pos hws0 hwsr) (by norm_num)

/-- Counterexample of C1: the filterbank of the test "Filterbank: Scales" with
the optimisation `Standard1`, fed the samples 0 and 1 right after `init`.  The
last band has a factor `d ≥ 2`; its buffer then holds zeros and, as its newest
element, the non-zero output of the anti-aliasing filter.  `update` reads the
taps `buf[end - (W - k) * d]`, all zero, whereas the stated sum reads
`buf[end - 1]` at its last tap: `result_complex[19]` is not the stated
coefficient (divided by `sqrt(scale)`, times `sqrt(d)`). -/
theorem coefficient_counterexample :
    ∃ fb0 fb2 rs e w, (optimisedBank Optimisation.Standard1).init = some fb0 ∧
      fb0.feed [0, 1] = some (fb2, rs) ∧ fb2.rescale = true ∧
      fb2.data_[fb2.bandPos 19]? = some e ∧ fb2.wavelets_[19]? = some w ∧
      e.1 = fb2.bandFactor 19 ∧ 2 ≤ e.1 ∧
      fb2.result_complex.getD 19 0 ≠
        Filterbank.statedCoefficient e.1.toNat e.2 w / ((Real.sqrt w.scale : ℝ) : ℂ) *
          ((Real.sqrt ((e.1.toNat : ℕ) : ℝ) : ℝ) : ℂ) := by
  open woma.Filterbank in
    have fresh_two_updates : ∀ (fb : Filterbank) (h : fb.Ready)
        (ho : fb.optimisation ≠ Optimisation.None)
        (hd : ∀ e ∈ fb.data_, e.2.items = []) (hf : ∀ f ∈ fb.filters_, f.2.AtRest),
        ∀ e ∈ ((fb.next 0).next 1).data_, 2 ≤ e.1 →
          ∃ x : ℝ, x ≠ 0 ∧ e.2.items = List.replicate (e.2.capacity - 1) 0 ++ [x] := by
      intro fb h ho hd hf
      have fillFiltered_one :  ∀ (fs : List (ℤ × LowpassFilter)) (ds : List (ℤ × CircularBuffer)),
          (∀ f ∈ fs, f.2.AtRest) → fs.length = ds.length →
          (∀ e ∈ ds, 1 ≤ e.2.capacity ∧ e.2.items = List.replicate e.2.capacity 0) →
          ∀ e ∈ fillFilteredData 1 fs ds, ∃ x : ℝ, x ≠ 0 ∧
            e.2.items = List.replicate (e.2.capacity - 1) 0 ++ [x] := by
        intro fs
        induction fs with
        | nil =>
          intro ds _ hl _ e he
          have : ds = [] := List.length_eq_zero.mp hl.symm
          rw [this] at he
          simp [fillFilteredData] at he
        | cons f t ih =>
          intro ds hf hl hd e he
          cases ds with
          | nil => simp at hl
          | cons d r =>
            obtain ⟨kf, flt⟩ := f
            obtain ⟨kd, c⟩ := d
            obtain ⟨_, hz, hb0⟩ := hf (kf, flt) (List.mem_cons_self _ _)
            obtain ⟨hcap, hc⟩ := hd (kd, c) (List.mem_cons_self _ _)
            have hcap : 1 ≤ c.capacity := hcap
            have hc : c.items = List.replicate c.capacity 0 := hc
            simp only [fillFilteredData, List.mem_cons] at he
            rcases he with he | he
            · rw [he]
              refine ⟨flt.b.getD 0 0, hb0, ?_⟩
              show (c.fill (filteredValue flt c 1)).items = _
              have hne : c.items.length ≠ 0 := by rw [hc, List.length_replicate]; omega
              have hz0 : flt.z.getD 0 0 = 0 := by
                rw [List.getD_eq_getElem?_getD]
                cases hi : flt.z[0]? with
                | none => rfl
                | some x => exact hz x (List.mem_iff_getElem?.mpr ⟨0, hi⟩)
              unfold filteredValue CircularBuffer.fill LowpassFilter.output
              simp only [hne, if_false, hz0, mul_one, add_zero]
              rw [hc]
              obtain ⟨n, hn⟩ : ∃ n, c.capacity = n + 1 := ⟨c.capacity - 1, by omega⟩
              rw [hn]
              simp [List.replicate_succ]
            · exact ih r (fun g hg => hf g (List.mem_cons_of_mem _ hg)) (by simpa using hl)
                (fun x hx => hd x (List.mem_cons_of_mem _ hx)) e he
      have fillFiltered_zero :  ∀ (fs : List (ℤ × LowpassFilter)) (ds : List (ℤ × CircularBuffer)),
          (∀ f ∈ fs, f.2.AtRest) → fs.length = ds.length →
          (∀ e ∈ ds, 1 ≤ e.2.capacity ∧ e.2.items = []) →
          (∀ f ∈ fillFilteredFilters 0 fs ds, f.2.AtRest) ∧
          (fillFilteredFilters 0 fs ds).length = (fillFilteredData 0 fs ds).length ∧
          (fillFilteredData 0 fs ds).map Prod.fst = ds.map Prod.fst ∧
          (∀ e ∈ fillFilteredData 0 fs ds,
            1 ≤ e.2.capacity ∧ e.2.items = List.replicate e.2.capacity 0) := by
        open woma.LowpassFilter in
          have atRest_stepN_zero :  ∀ (n : ℕ) (f : LowpassFilter), f.AtRest →
              (f.stepN 0 n).AtRest ∧ ∀ last, last = 0 → f.outputN 0 n last = 0 := by
            intro n
            induction n with
            | zero => intro f h; exact ⟨h, fun last hl => hl⟩
            | succ n ih =>
              intro f h
              obtain ⟨h1, h2⟩ := atRest_step_zero f h
              obtain ⟨q1, q2⟩ := ih (f.step 0) h1
              exact ⟨q1, fun last _ => q2 _ h2⟩
        intro fs
        induction fs with
        | nil =>
          intro ds _ hl _
          have : ds = [] := List.length_eq_zero.mp hl.symm
          rw [this]
          simp [fillFilteredFilters, fillFilteredData]
        | cons f t ih =>
          intro ds hf hl hd
          cases ds with
          | nil => simp at hl
          | cons d r =>
            obtain ⟨kf, flt⟩ := f
            obtain ⟨kd, c⟩ := d
            have hflt : flt.AtRest := hf (kf, flt) (List.mem_cons_self _ _)
            obtain ⟨hcap, hc⟩ := hd (kd, c) (List.mem_cons_self _ _)
            have hcap : 1 ≤ c.capacity := hcap
            have hc : c.items = [] := hc
            obtain ⟨q1, q2, q3, q4⟩ := ih r (fun g hg => hf g (List.mem_cons_of_mem _ hg))
              (by simpa using hl) (fun e he => hd e (List.mem_cons_of_mem _ he))
            obtain ⟨s1, s2⟩ := LowpassFilter.atRest_step_zero flt hflt
            obtain ⟨n1, n2⟩ := atRest_stepN_zero (2 * c.capacity - 1) (flt.step 0) s1
            refine ⟨fun g hg => ?_, ?_, ?_, fun e he => ?_⟩
            · simp only [fillFilteredFilters, List.mem_cons] at hg
              rcases hg with hg | hg
              · rw [hg]
                show (feedFilter flt c 0).AtRest
                unfold feedFilter
                simp only [hc, List.length_nil, if_true]
                exact n1
              · exact q1 g hg
            · simp only [fillFilteredFilters, fillFilteredData, List.length_cons, q2]
            · simp only [fillFilteredData, List.map_cons, q3]
            · simp only [fillFilteredData, List.mem_cons] at he
              rcases he with he | he
              · rw [he]
                refine ⟨hcap, ?_⟩
                show (c.fill (filteredValue flt c 0)).items = List.replicate c.capacity 0
                unfold filteredValue CircularBuffer.fill
                simp only [hc, List.length_nil, if_true]
                rw [n2 _ s2]
              · exact q4 e he
      have nextData_opt : ∀ (fb : Filterbank) (ho : fb.optimisation ≠ Optimisation.None)
          (first : ℤ × CircularBuffer) (rest : List (ℤ × CircularBuffer))
          (hdata : fb.data_ = first :: rest) (v : ℝ),
          fb.nextData v =
            (if first.1 = 1 then
              (first.1, first.2.fill v) :: fillFilteredData v fb.filters_ rest
            else fillFilteredData v fb.filters_ (first :: rest)) ∧
          fb.nextFilters v =
            fillFilteredFilters v fb.filters_ (if first.1 = 1 then rest else first :: rest) := by
        intro fb ho first rest hdata v
        unfold nextData nextFilters
        rw [hdata]
        simp [ho]
      intro e he h2
      have he' : e ∈ (fb.next 0).nextData 1 := he
      cases hdata : fb.data_ with
      | nil => exact absurd hdata h.data_nonempty
      | cons first rest =>
        have hfl := h.filters_length ho first rest hdata
        have hds : ∀ x ∈ (if first.1 = 1 then rest else first :: rest),
            1 ≤ x.2.capacity ∧ x.2.items = [] := by
          intro x hx
          have hx' : x ∈ fb.data_ := by
            rw [hdata]
            split_ifs at hx
            · exact List.mem_cons_of_mem _ hx
            · exact hx
          exact ⟨(h.buffers_sound x hx').1, hd x hx'⟩
        obtain ⟨q1, q2, q3, q4⟩ := fillFiltered_zero fb.filters_ _ hf hfl hds
        obtain ⟨n1, n2⟩ := nextData_opt fb ho first rest hdata 0
        have hA : (fb.next 0).data_ = fb.nextData 0 := rfl
        have hF : (fb.next 0).filters_ = fb.nextFilters 0 := rfl
        have hoA : (fb.next 0).optimisation ≠ Optimisation.None := ho
        by_cases h1 : first.1 = 1
        · simp only [if_pos h1] at n1 n2 q1 q2 q3 q4
          obtain ⟨m1, _⟩ := nextData_opt (fb.next 0) hoA (first.1, first.2.fill 0)
            (fillFilteredData 0 fb.filters_ rest) (by rw [hA, n1]) 1
          rw [m1, if_pos h1, hF, n2] at he'
          rcases List.mem_cons.mp he' with q | q
          · rw [q] at h2
            simp only [h1] at h2
            omega
          · exact fillFiltered_one _ _ q1 q2 q4 e q
        · simp only [if_neg h1] at n1 n2 q1 q2 q3 q4
          cases hD : fillFilteredData 0 fb.filters_ (first :: rest) with
          | nil =>
            rw [hD] at q3
            simp at q3
          | cons d1 r1 =>
            have hk : d1.1 = first.1 := by
              rw [hD] at q3
              simp only [List.map_cons, List.cons.injEq] at q3
              exact q3.1
            obtain ⟨m1, _⟩ := nextData_opt (fb.next 0) hoA d1 r1 (by rw [hA, n1, hD]) 1
            rw [m1, if_neg (by rw [hk]; exact h1), hF, n2, ← hD] at he'
            exact fillFiltered_one _ _ q1 q2 q4 e he'
  open woma.Filterbank in
    have coefficient_gap : ∀ (d W n : ℕ) (hd : 2 ≤ d) (c : CircularBuffer) (x : ℝ)
        (hitems : c.items = List.replicate n 0 ++ [x]) (hn : d * (W + 1) ≤ n + 1) (w : Wavelet)
        (hw : w.window_size = W + 1),
        statedCoefficient d c w =
          rawCoefficient d c w + (x : ℂ) * (starRingEnd ℂ) (w.values.getD W 0) := by
      intro d W n hd c x hitems hn w hw
      have getD_zeros_lt : ∀ (n i : ℕ) (x : ℝ) (h : i < n),
          (List.replicate n (0 : ℝ) ++ [x]).getD i 0 = 0 := by
        intro n i x h
        rw [List.getD_eq_getElem?_getD, List.getElem?_append_left (by simpa using h)]
        simp [List.getElem?_replicate, h]
      have getD_zeros_last : ∀ (n : ℕ) (x : ℝ),
          (List.replicate n (0 : ℝ) ++ [x]).getD n 0 = x := by
        intro n x
        rw [List.getD_eq_getElem?_getD, List.getElem?_append_right (by simp)]
        simp
      have hlen : c.items.length = n + 1 := by rw [hitems]; simp
      have hmul : d * (W + 1) = d * W + d := by ring
      have hraw : tapSum c.items w.values d (W + 1) = 0 := by
        unfold tapSum
        apply List.sum_eq_zero
        intro z hz
        obtain ⟨k, hk, rfl⟩ := List.mem_map.mp hz
        have hk' : k < W + 1 := List.mem_range.mp hk
        have hkd : k * d ≤ W * d := Nat.mul_le_mul_right _ (by omega)
        have hidx : c.items.length - d * (W + 1) + k * d < n := by
          rw [hlen]
          have : W * d = d * W := Nat.mul_comm _ _
          omega
        rw [hitems] at hidx ⊢
        rw [getD_zeros_lt _ _ _ (by simpa using hidx)]
        simp
      have hstated : ((List.range (W + 1)).map (fun (k : ℕ) =>
          ((c.items.getD (c.items.length - 1 - (W + 1 - 1 - k) * d) 0 : ℝ) : ℂ) *
            (starRingEnd ℂ) (w.values.getD k 0))).sum =
          (x : ℂ) * (starRingEnd ℂ) (w.values.getD W 0) := by
        rw [List.range_succ, List.map_append, List.sum_append]
        have h0 : ((List.range W).map (fun (k : ℕ) =>
            ((c.items.getD (c.items.length - 1 - (W + 1 - 1 - k) * d) 0 : ℝ) : ℂ) *
              (starRingEnd ℂ) (w.values.getD k 0))).sum = 0 := by
          apply List.sum_eq_zero
          intro z hz
          obtain ⟨k, hk, rfl⟩ := List.mem_map.mp hz
          have hk' : k < W := List.mem_range.mp hk
          have hpos : d ≤ (W + 1 - 1 - k) * d := by
            have : 1 ≤ W + 1 - 1 - k := by omega
            calc d = 1 * d := (Nat.one_mul d).symm
              _ ≤ (W + 1 - 1 - k) * d := Nat.mul_le_mul_right _ this
          have hidx : c.items.length - 1 - (W + 1 - 1 - k) * d < n := by
            rw [hlen]
            have hle : (W + 1 - 1 - k) * d ≤ W * d := Nat.mul_le_mul_right _ (by omega)
            have : W * d = d * W := Nat.mul_comm _ _
            omega
          rw [hitems] at hidx ⊢
          rw [getD_zeros_lt _ _ _ (by simpa using hidx)]
          simp
        rw [h0]
        simp only [List.map_cons, List.map_nil, List.sum_cons, List.sum_nil, zero_add, add_zero]
        have hidx : c.items.length - 1 - (W + 1 - 1 - W) * d = n := by
          rw [hlen]
          simp
        rw [hidx, hitems, getD_zeros_last]
      unfold statedCoefficient rawCoefficient
      rw [hw, hraw, hstated]
      ring
  obtain ⟨fb0, w, hinit, hready, hopt, hres, hf1, hf2, hlen20, hfac, hw, hws0, hwsr, hW3, hval⟩ :=
    optimisedBank_last_band
  have hoN : fb0.optimisation ≠ Optimisation.None := by rw [hopt]; simp
  have hreadyA := fb0.next_ready hready 0
  have hj : 19 < (fb0.next 0).wavelets_.length := by
    show 19 < fb0.wavelets_.length
    rw [hlen20]; norm_num
  obtain ⟨e, w', he, hw', hk, h1, hne, hlen, _⟩ :=
    Filterbank.ready_aligned_next (fb0.next 0) hreadyA 1 19 hj
  have hww : w' = w := by
    have : (fb0.next 0).wavelets_[19]? = some w := hw
    rw [this] at hw'
    cases hw'
    rfl
  subst hww
  have hkd : e.1 = fb0.downsampling_factors.getD 19 1 := by
    rw [hk]
    unfold Filterbank.bandFactor
    exact if_neg hoN
  have he2 : 2 ≤ e.1 := by rw [hkd]; exact hfac
  have hmem : e ∈ ((fb0.next 0).next 1).data_ := List.mem_iff_getElem?.mpr ⟨_, he⟩
  obtain ⟨x, hx, hitems⟩ := fresh_two_updates fb0 hready hoN hf1 hf2 e hmem he2
  have hpos : ((fb0.next 0).next 1).bandPos 19 = (fb0.next 0).bandPos 19 :=
    Filterbank.bandPos_congr (fb0.next 0) ((fb0.next 0).next 1) rfl rfl 19
  refine ⟨fb0, (fb0.next 0).next 1, [(fb0.next 0).result_complex,
    ((fb0.next 0).next 1).result_complex], e, w', hinit, Filterbank.feed_eq [0, 1] fb0 hready,
    hres, (by rw [hpos]; exact he), hw, hk, he2, ?_⟩
  have hskip : (fb0.next 0).skips 19 = false := by
    unfold Filterbank.skips
    have : (fb0.next 0).optimisation = Optimisation.Standard1 := hopt
    simp [this]
  have hresult : ((fb0.next 0).next 1).result_complex.getD 19 0 =
      Filterbank.coefficientOf true e.1.toNat e.2 w' := by
    rw [Filterbank.next_result_getD (fb0.next 0) 1 19 hj]
    unfold Filterbank.bandResult
    rw [hskip, he]
    have hw2 : (fb0.next 0).wavelets_[19]? = some w' := hw
    rw [hw2]
    have hr2 : (fb0.next 0).rescale = true := hres
    rw [hr2]
    simp
  rw [hresult]
  obtain ⟨W, hW⟩ : ∃ W, w'.window_size = W + 1 := ⟨w'.window_size - 1, by omega⟩
  have hd2 : 2 ≤ e.1.toNat := by omega
  have hilen : e.2.items.length = e.2.capacity - 1 + 1 := by rw [hitems]; simp
  have hgap := coefficient_gap e.1.toNat W (e.2.capacity - 1) hd2 e.2 x hitems
    (by rw [← hW, ← hilen]; exact hlen) w' hW
  rw [hgap]
  unfold Filterbank.coefficientOf
  simp only [if_true]
  have hsq : ((Real.sqrt w'.scale : ℝ) : ℂ) ≠ 0 := by
    have := Real.sqrt_pos.mpr hws0
    exact_mod_cast this.ne'
  have hsd : ((Real.sqrt ((e.1.toNat : ℕ) : ℝ) : ℝ) : ℂ) ≠ 0 := by
    have h0 : (0 : ℝ) < ((e.1.toNat : ℕ) : ℝ) := by
      have : 0 < e.1.toNat := by omega
      exact_mod_cast this
    have := Real.sqrt_pos.mpr h0
    exact_mod_cast this.ne'
  have hg : (x : ℂ) * (starRingEnd ℂ) (w'.values.getD W 0) ≠ 0 := by
    apply mul_ne_zero
    · exact_mod_cast hx
    · have hval' : w'.values.getD W 0 ≠ 0 := by
        have : w'.window_size - 1 = W := by omega
        rw [this] at hval
        exact hval
      simpa using hval'
  intro heq
  have h3 := mul_right_cancel₀ hsd heq
  have h4 := congrArg (fun z => z * ((Real.sqrt w'.scale : ℝ) : ℂ)) h3
  simp only [div_mul_cancel₀ _ hsq] at h4
  apply hg
  linear_combination -h4

/-- Witness of C1 (amended): the filterbank of the test "Filterbank: Scales"
with the optimisation `Standard1`, fed the sample 1 right after `init`. -/
theorem update_coefficient_witness :
    ∃ fb, (optimisedBank Optimisation.Standard1).init = some fb ∧ fb.Ready ∧ fb.size = 20 ∧
      ∃ fb', fb.update 1 = some fb' ∧
        ∀ j, j < fb.size → fb.skips j = false →
          ∃ (e : ℤ × CircularBuffer) (w : Wavelet),
            fb'.data_[fb.bandPos j]? = some e ∧ fb.wavelets_[j]? = some w ∧
            e.1 = fb.bandFactor j ∧ 1 ≤ e.1 ∧ w.values.length = w.window_size ∧
            e.1.toNat * w.window_size ≤ e.2.items.length ∧
            fb'.result_complex[j]? = some
              ((if fb.rescale then
                  (((e.2.items.getD 0 0 : ℝ) : ℂ) * w.prepad_value_ +
                    ((List.range w.window_size).map (fun (k : ℕ) =>
                      ((e.2.items.getD (e.2.items.length - (w.window_size - k) * e.1.toNat) 0 :
                        ℝ) : ℂ) * (starRingEnd ℂ) (w.values.getD k 0))).sum +
                    ((e.2.items.getD (e.2.items.length - 1) 0 : ℝ) : ℂ) * w.postpad_value_) /
                    ((Real.sqrt w.scale : ℝ) : ℂ)
                else
                  (((e.2.items.getD 0 0 : ℝ) : ℂ) * w.prepad_value_ +
                    ((List.range w.window_size).map (fun (k : ℕ) =>
                      ((e.2.items.getD (e.2.items.length - (w.window_size - k) * e.1.toNat) 0 :
                        ℝ) : ℂ) * (starRingEnd ℂ) (w.values.getD k 0))).sum +
                    ((e.2.items.getD (e.2.items.length - 1) 0 : ℝ) : ℂ) * w.postpad_value_)) *
                ((Real.sqrt ((e.1.toNat : ℕ) : ℝ) : ℝ) : ℂ)) := by
  obtain ⟨fb, hinit, hready, hsize, _, _⟩ := optimisedBank_ready Optimisation.Standard1
  exact ⟨fb, hinit, hready, hsize, update_coefficient fb hready 1⟩

theorem list_sum_range_eq (f : ℕ → ℂ) (n : ℕ) :
    ((List.range n).map f).sum = ∑ i in Finset.range n, f i := by
  induction n with
  | zero => simp
  | succ n ih => rw [List.range_succ, List.map_append, List.sum_append, ih, Finset.sum_range_succ]; simp

/-- C11. Kernel values in recursive mode.  After an attribute change (which
runs `init`) on a kernel in recursive mode whose padding, scale and sample
rate are not negative (the limits of these attributes), `values` has length
`window_size = W`, `values[t] = phi((t - ⌊W/2⌋) / (scale * sample_rate))` for
every `t < W`, `prepad` is the sum of `conj(phi((t - ⌊W/2⌋) / (scale *
sample_rate)))` over `t = -P .. -1` and `postpad` the same sum over
`t = W .. W + P - 1`, with `P = ⌊padding * e_folding_time * sample_rate⌋`.  For
the Morlet kernel of sample rate 100 (scale 2/100) with the window size set to
8, `values[t] = phi((t - 4) / 2)` and `values[4]` is the real number
`π^(-1/4) * (1 - e^(-12.5)) / √2`. -/
theorem recursive_kernel_values :
    (∀ w : Wavelet, w.mode = WaveletDomain.RECURSIVE → 0 ≤ w.padding → 0 ≤ w.scale →
      0 ≤ w.samplerate →
      w.init.values.length = w.window_size ∧
      (∀ t : ℕ, t < w.window_size →
        w.init.values[t]? = some (w.init.phi
          (((t : ℝ) - (((w.window_size / 2 : ℕ) : ℕ) : ℝ)) / (w.scale * w.samplerate)))) ∧
      w.init.prepad_value_ =
        ∑ i in Finset.range ⌊w.padding * w.eFoldingTime * w.samplerate⌋₊,
          (starRingEnd ℂ) (w.init.phi
            ((-((⌊w.padding * w.eFoldingTime * w.samplerate⌋₊ : ℕ) : ℝ) + (i : ℝ) -
              (((w.window_size / 2 : ℕ) : ℕ) : ℝ)) / (w.scale * w.samplerate))) ∧
      w.init.postpad_value_ =
        ∑ i in Finset.range ⌊w.padding * w.eFoldingTime * w.samplerate⌋₊,
          (starRingEnd ℂ) (w.init.phi
            (((w.window_size : ℝ) + (i : ℝ) - (((w.window_size / 2 : ℕ) : ℕ) : ℝ)) /
              (w.scale * w.samplerate)))) ∧
    (∃ w8, morletEight = some w8 ∧ w8.mode = WaveletDomain.RECURSIVE ∧ w8.values.length = 8 ∧
      (∀ t : ℕ, t < 8 → w8.values[t]? =
        some (MorletWavelet.phi 5 (2 / 100) 100 (((t : ℝ) - 4) / 2))) ∧
      w8.values[4]? = some
        (((Real.pi : ℝ) ^ (-(1 / 4) : ℝ) * (1 - Real.exp (-12.5)) / Real.sqrt 2 : ℝ) : ℂ)) := by
  open woma.MorletWavelet in
    have phi_zero : ∀ (omega0 scale samplerate : ℝ),
        MorletWavelet.phi omega0 scale samplerate 0 =
          (((1 - Real.exp (-(0.5 * omega0 * omega0))) * Real.sqrt (1 / (scale * samplerate)) *
            (Real.pi : ℝ) ^ (-0.25 : ℝ) : ℝ) : ℂ) := by
      intro omega0 scale samplerate
      unfold MorletWavelet.phi
      have h1 : Complex.exp (Complex.mk 0 (1 * omega0 * 0)) = 1 := by
        have : Complex.mk 0 (1 * omega0 * 0) = 0 := by
          apply Complex.ext <;> simp
        rw [this, Complex.exp_zero]
      have h2 : Complex.exp (-(Complex.mk (0.5 * omega0 * omega0) 0)) =
          ((Real.exp (-(0.5 * omega0 * omega0)) : ℝ) : ℂ) := by
        have : -(Complex.mk (0.5 * omega0 * omega0) 0) = ((-(0.5 * omega0 * omega0) : ℝ) : ℂ) := by
          apply Complex.ext <;> simp
        rw [this, Complex.ofReal_exp]
      rw [h1, h2]
      simp only [mul_zero, Real.exp_zero]
      push_cast
      ring
  have hgen : ∀ w : Wavelet, w.mode = WaveletDomain.RECURSIVE → 0 ≤ w.padding → 0 ≤ w.scale →
      0 ≤ w.samplerate →
      w.init.values.length = w.window_size ∧
      (∀ t : ℕ, t < w.window_size →
        w.init.values[t]? = some (w.init.phi
          (((t : ℝ) - (((w.window_size / 2 : ℕ) : ℕ) : ℝ)) / (w.scale * w.samplerate)))) ∧
      w.init.prepad_value_ =
        ∑ i in Finset.range ⌊w.padding * w.eFoldingTime * w.samplerate⌋₊,
          (starRingEnd ℂ) (w.init.phi
            ((-((⌊w.padding * w.eFoldingTime * w.samplerate⌋₊ : ℕ) : ℝ) + (i : ℝ) -
              (((w.window_size / 2 : ℕ) : ℕ) : ℝ)) / (w.scale * w.samplerate))) ∧
      w.init.postpad_value_ =
        ∑ i in Finset.range ⌊w.padding * w.eFoldingTime * w.samplerate⌋₊,
          (starRingEnd ℂ) (w.init.phi
            (((w.window_size : ℝ) + (i : ℝ) - (((w.window_size / 2 : ℕ) : ℕ) : ℝ)) /
              (w.scale * w.samplerate))) := by
    intro w hm hp hs hsr
    obtain ⟨hv, hpre, hpost⟩ := w.init_recursive hm
    have hx : 0 ≤ w.padding * w.eFoldingTime * w.samplerate :=
      mul_nonneg (mul_nonneg hp (w.eFoldingTime_nonneg hs)) hsr
    have hP : (Wavelet.pad_length w).toNat = ⌊w.padding * w.eFoldingTime * w.samplerate⌋₊ := by
      unfold Wavelet.pad_length
      rw [truncToInt_of_nonneg hx]
      rfl
    refine ⟨by simp, ?_, ?_, ?_⟩
    · intro t ht
      rw [hv, List.getElem?_map, List.getElem?_range ht, Wavelet.init_phi]
      simp [Wavelet.wavelet_arg]
    · rw [hpre, hP, list_sum_range_eq]
      apply Finset.sum_congr rfl
      intro i _
      rw [Wavelet.init_phi]
      congr 2
      simp [Wavelet.wavelet_arg]
    · rw [hpost, hP, list_sum_range_eq]
      apply Finset.sum_congr rfl
      intro i _
      rw [Wavelet.init_phi]
      congr 2
      simp [Wavelet.wavelet_arg]
  refine ⟨hgen, ?_⟩
  have hcreate : MorletWavelet.create 100 = some (Wavelet.init (MorletWavelet.members 100)) := by
    unfold MorletWavelet.create
    rw [if_neg (by norm_num)]
  have height : morletEight =
      some (Wavelet.init { Wavelet.init (MorletWavelet.members 100) with window_size := 8 }) := by
    unfold morletEight
    rw [hcreate]
    simp [Wavelet.setWindowsize]
  generalize hX : ({ Wavelet.init (MorletWavelet.members 100) with window_size := 8 } :
    Wavelet) = X at height
  have hXm : X.mode = WaveletDomain.RECURSIVE := by
    rw [← hX]; simp [MorletWavelet.members]
  have hXw : X.window_size = 8 := by rw [← hX]
  have hXs : X.scale = 2 / 100 := by rw [← hX]; simp [MorletWavelet.members]
  have hXsr : X.samplerate = 100 := by rw [← hX]; simp [MorletWavelet.members]
  have hXp : X.padding = 1 := by
    rw [← hX]; simp [MorletWavelet.members, Wavelet.DEFAULT_PADDING]
  have hXphi : ∀ a, X.init.phi a = MorletWavelet.phi 5 (2 / 100) 100 a := by
    intro a
    rw [Wavelet.init_phi]
    unfold Wavelet.phi
    rw [← hX]
    simp [MorletWavelet.members, MorletWavelet.DEFAULT_OMEGA0]
  obtain ⟨q1, q2, _, _⟩ := hgen X hXm (by rw [hXp]; norm_num) (by rw [hXs]; norm_num)
    (by rw [hXsr]; norm_num)
  have hvals : ∀ t : ℕ, t < 8 → X.init.values[t]? =
      some (MorletWavelet.phi 5 (2 / 100) 100 (((t : ℝ) - 4) / 2)) := by
    intro t ht
    rw [q2 t (by rw [hXw]; exact ht), hXphi, hXw, hXs, hXsr]
    norm_num
  refine ⟨X.init, height, by simp [hXm], by rw [q1, hXw], hvals, ?_⟩
  rw [hvals 4 (by norm_num)]
  have h0 : (((4 : ℕ) : ℝ) - 4) / 2 = 0 := by norm_num
  rw [h0, phi_zero]
  congr 2
  have h1 : Real.sqrt (1 / (2 / 100 * 100 : ℝ)) = 1 / Real.sqrt 2 := by
    rw [show (2 / 100 * 100 : ℝ) = 2 by norm_num, Real.sqrt_div (by norm_num), Real.sqrt_one]
  have h2 : (-(0.5 * 5 * 5) : ℝ) = -12.5 := by norm_num
  have h3 : (-0.25 : ℝ) = -(1 / 4) := by norm_num
  rw [h1, h2, h3]
  ring

/-- Witness of C11: the members of a Morlet kernel of sample rate 100 when its
constructor reaches `init` (recursive mode, padding 1, scale 2/100). -/
theorem recursive_kernel_values_witness :
    (MorletWavelet.members 100).mode = WaveletDomain.RECURSIVE ∧
      (0 : ℝ) ≤ (MorletWavelet.members 100).padding ∧
      (MorletWavelet.members 100).init.values.length = (MorletWavelet.members 100).window_size :=
  ⟨rfl, by simp [MorletWavelet.members, Wavelet.DEFAULT_PADDING],
    (recursive_kernel_values.1 (MorletWavelet.members 100) rfl
      (by simp [MorletWavelet.members, Wavelet.DEFAULT_PADDING])
      (by simp [MorletWavelet.members]; norm_num)
      (by simp [MorletWavelet.members])).1⟩

/-- C12. Default window size: for every kernel with `delay ≥ 0`, `scale > 0`
and `sample_rate > 0`, after `setDefaultWindowsize` the window size `W` is
`m = max(3, ⌊2 * delay * e_folding_time * sample_rate⌋)`, plus 1 when `m` is
even; `W` is odd, `W ≥ 3`, and `values` has been recomputed to length `W`. -/
theorem default_window_size (w : Wavelet) (hd : 0 ≤ w.delay) (hs : 0 < w.scale)
    (hsr : 0 < w.samplerate) :
    0 ≤ 2 * w.delay * w.eFoldingTime * w.samplerate ∧
    ((⌊2 * w.delay * w.eFoldingTime * w.samplerate⌋₊ : ℕ) : ℤ) =
      ⌊2 * w.delay * w.eFoldingTime * w.samplerate⌋ ∧
    w.setDefaultWindowsize.window_size =
      max 3 ⌊2 * w.delay * w.eFoldingTime * w.samplerate⌋₊ +
        (if max 3 ⌊2 * w.delay * w.eFoldingTime * w.samplerate⌋₊ % 2 = 0 then 1 else 0) ∧
    w.setDefaultWindowsize.window_size % 2 = 1 ∧ 3 ≤ w.setDefaultWindowsize.window_size ∧
    w.setDefaultWindowsize.values.length = w.setDefaultWindowsize.window_size := by
  have hx : 0 ≤ 2 * w.delay * w.eFoldingTime * w.samplerate :=
    mul_nonneg (mul_nonneg (mul_nonneg (by norm_num) hd) (w.eFoldingTime_nonneg hs.le)) hsr.le
  obtain ⟨h3, hodd⟩ := w.setDefaultWindowsize_window_size
  refine ⟨hx, Int.natCast_floor_eq_floor hx, ?_, hodd, h3, by simp⟩
  unfold Wavelet.setDefaultWindowsize truncToNat
  simp only [Wavelet.init_window_size]
  have hmax : ∀ m : ℕ, (if m < 3 then 3 else m) = max 3 m := by
    intro m
    by_cases h : m < 3
    · rw [if_pos h, max_eq_left (by omega)]
    · rw [if_neg h, max_eq_right (by omega)]
  rw [hmax]

/-- Witness of C12: the Morlet kernel of sample rate 100 as constructed (delay
1.5, scale 2/100). -/
theorem default_window_size_witness :
    (0 : ℝ) ≤ (Wavelet.init (MorletWavelet.members 100)).delay ∧
      (Wavelet.init (MorletWavelet.members 100)).setDefaultWindowsize.window_size % 2 = 1 ∧
      3 ≤ (Wavelet.init (MorletWavelet.members 100)).setDefaultWindowsize.window_size :=
  ⟨by simp [MorletWavelet.members, Wavelet.DEFAULT_DELAY]; norm_num,
    (default_window_size (Wavelet.init (MorletWavelet.members 100))
      (by simp [MorletWavelet.members, Wavelet.DEFAULT_DELAY]; norm_num)
      (by simp [MorletWavelet.members])
      (by simp [MorletWavelet.members])).2.2.2.1,
    (default_window_size (Wavelet.init (MorletWavelet.members 100))
      (by simp [MorletWavelet.members, Wavelet.DEFAULT_DELAY]; norm_num)
      (by simp [MorletWavelet.members])
      (by simp [MorletWavelet.members])).2.2.2.2.1⟩

/-- C14. Attribute rejection: for an attribute of an ordered type with the
limits `[min, max]` and a value `v < min` or `v > max`, `set(v, silently)`
throws `domain_error`, whatever the flag `silently`, and leaves the attribute
(value, limits, flag `changed`) and the parent as they were: the parent is not
notified, whatever its `onAttributeChange` does. -/
theorem attribute_rejection {α σ : Type} [LT α] [DecidableRel (fun (a b : α) => a < b)]
    (a : Attribute α) (v : α) (silently : Bool)
    (notify : Attribute α → σ → Outcome (Attribute α × σ)) (parent : σ)
    (h : v < a.limit_min ∨ v > a.limit_max) :
    a.set checkLimits v silently notify parent = Outcome.thrown Failure.domain_error (a, parent) := by
  unfold Attribute.set checkLimits
  rw [if_pos h]

/-- Witness of C14: the value 5 on an attribute of value 30 and limits
`[10, 50]`, with a parent that counts its notifications: the count stays 0. -/
theorem attribute_rejection_witness :
    ((5 : ℕ) < sampleAttribute.limit_min ∨ (5 : ℕ) > sampleAttribute.limit_max) ∧
      sampleAttribute.set checkLimits 5 false Attribute.countingParent 0 =
        Outcome.thrown Failure.domain_error (sampleAttribute, 0) :=
  ⟨by decide, attribute_rejection sampleAttribute 5 false Attribute.countingParent 0 (by decide)⟩

/-- C15. Attribute acceptance: for an attribute of a linearly ordered type with
the limits `[min, max]` and a value `min ≤ v ≤ max`, `set(v, silently)` stores
`v` and raises the flag `changed`, then hands the attribute in that state to
the `onAttributeChange` of the parent, once, when `silently` is false and a
parent is attached, and returns without a call otherwise; `get` on the
attribute as stored returns `v`.  With a parent that counts its notifications
the call returns normally, `get` returns `v`, and the count is raised by one
exactly when `silently` is false and a parent is attached. -/
theorem attribute_acceptance {α σ : Type} [LinearOrder α] (a : Attribute α) (v : α)
    (silently : Bool) (notify : Attribute α → σ → Outcome (Attribute α × σ)) (parent : σ)
    (h1 : a.limit_min ≤ v) (h2 : v ≤ a.limit_max) :
    a.set checkLimits v silently notify parent =
      (if silently = false ∧ a.has_parent = true then
        notify { a with value := v, changed := true } parent
      else Outcome.ok ({ a with value := v, changed := true }, parent)) ∧
    ({ a with value := v, changed := true } : Attribute α).get = v ∧
    ({ a with value := v, changed := true } : Attribute α).changed = true ∧
    ∀ calls : ℕ, a.set checkLimits v silently Attribute.countingParent calls =
      Outcome.ok ({ a with value := v, changed := true },
        if silently = false ∧ a.has_parent = true then calls + 1 else calls) := by
  have hc : ¬ (v < a.limit_min ∨ v > a.limit_max) := by
    push_neg
    exact ⟨h1, h2⟩
  have hset : ∀ (τ : Type) (n : Attribute α → τ → Outcome (Attribute α × τ)) (p : τ),
      a.set checkLimits v silently n p =
        (if silently = false ∧ a.has_parent = true then
          n { a with value := v, changed := true } p
        else Outcome.ok ({ a with value := v, changed := true }, p)) := by
    intro τ n p
    unfold Attribute.set checkLimits
    rw [if_neg hc]
    cases silently <;> cases a.has_parent <;> simp
  refine ⟨hset σ notify parent, rfl, rfl, ?_⟩
  intro calls
  rw [hset ℕ Attribute.countingParent calls]
  split_ifs <;> rfl

/-- Witness of C15: the value 40 on the attribute of value 30 and limits
`[10, 50]`, not silently, with the counting parent: one notification. -/
theorem attribute_acceptance_witness :
    sampleAttribute.limit_min ≤ 40 ∧ 40 ≤ sampleAttribute.limit_max ∧
      sampleAttribute.set checkLimits 40 false Attribute.countingParent 0 =
        Outcome.ok ({ sampleAttribute with value := 40, changed := true }, 1) :=
  ⟨by decide, by decide,
    ((attribute_acceptance sampleAttribute 40 false
      (Attribute.countingParent : Attribute ℕ → ℕ → Outcome (Attribute ℕ × ℕ)) 0
      (by decide) (by decide)).2.2.2 0)⟩

namespace FilterbankObject

theorem setMember_rejected {α : Type} (check : α → α → α → Option Failure)
    (obj : FilterbankObject) (current lo hi value : α) (store : Filterbank → α → Filterbank)
    (is_family : Bool) (e : Failure) (h : check value lo hi = some e) :
    setMember check obj current lo hi value store is_family = Outcome.thrown e obj := by
  unfold setMember Attribute.set
  simp only [h]

theorem setMember_accepted {α : Type} (check : α → α → α → Option Failure)
    (obj : FilterbankObject) (current lo hi value : α) (store : Filterbank → α → Filterbank)
    (is_family : Bool) (h : check value lo hi = none) :
    setMember check obj current lo hi value store is_family =
      onAttributeChange { obj with members := store obj.members value } is_family := by
  unfold setMember Attribute.set
  simp only [h, Bool.not_false, Bool.true_and, if_true]
  cases onAttributeChange { obj with members := store obj.members value } is_family <;> rfl

theorem onAttributeChange_plain (obj : FilterbankObject) :
    onAttributeChange obj false =
      if obj.members.reference_wavelet_.samplerate = 0 then Outcome.undefined
      else
        match Filterbank.init obj.members with
        | some m => Outcome.ok { obj with members := m }
        | none => Outcome.undefined := by
  unfold onAttributeChange
  simp only [Bool.false_eq_true, if_false]

theorem onAttributeChange_family (obj : FilterbankObject)
    (hsr : 0 < obj.members.reference_wavelet_.samplerate) :
    ∃ w, w.family = obj.members.family ∧
      w.samplerate = obj.members.reference_wavelet_.samplerate ∧
      onAttributeChange obj true =
        match Filterbank.init { obj.members with reference_wavelet_ := w } with
        | some m => Outcome.ok { obj with members := m }
        | none => Outcome.undefined := by
  have hc : ¬ (obj.members.reference_wavelet_.samplerate < 0 ∨
      obj.members.reference_wavelet_.samplerate = 0) := by
    push_neg
    exact ⟨hsr.le, hsr.ne'⟩
  unfold onAttributeChange
  simp only [if_true]
  cases hf : obj.members.family with
  | Morlet =>
    refine ⟨Wavelet.init (MorletWavelet.members obj.members.reference_wavelet_.samplerate),
      by simp [MorletWavelet.members], by simp [MorletWavelet.members], ?_⟩
    simp only [MorletWavelet.create, if_neg hc]
    rw [if_neg (by simp [MorletWavelet.members]; exact hsr.ne')]
  | Paul =>
    refine ⟨Wavelet.init (PaulWavelet.members obj.members.reference_wavelet_.samplerate),
      by simp [PaulWavelet.members], by simp [PaulWavelet.members], ?_⟩
    simp only [PaulWavelet.create, if_neg hc]
    rw [if_neg (by simp [PaulWavelet.members]; exact hsr.ne')]

end FilterbankObject

namespace FilterbankObject

theorem onAttributeChange_plain_ok (obj o1 : FilterbankObject)
    (h : onAttributeChange obj false = Outcome.ok o1) :
    obj.members.reference_wavelet_.samplerate ≠ 0 ∧
      ∃ m, Filterbank.init obj.members = some m ∧ o1 = { obj with members := m } := by
  rw [onAttributeChange_plain] at h
  by_cases hz : obj.members.reference_wavelet_.samplerate = 0
  · rw [if_pos hz] at h; cases h
  · rw [if_neg hz] at h
    cases hi : Filterbank.init obj.members with
    | none => rw [hi] at h; cases h
    | some m =>
      rw [hi] at h
      simp only [Outcome.ok.injEq] at h
      exact ⟨hz, m, rfl, h.symm⟩

theorem onAttributeChange_plain_thrown (obj o1 : FilterbankObject) (e : Failure)
    (h : onAttributeChange obj false = Outcome.thrown e o1) : False := by
  rw [onAttributeChange_plain] at h
  by_cases hz : obj.members.reference_wavelet_.samplerate = 0
  · rw [if_pos hz] at h; cases h
  · rw [if_neg hz] at h
    cases hi : Filterbank.init obj.members with
    | none => rw [hi] at h; cases h
    | some m => rw [hi] at h; cases h

theorem onAttributeChange_family_thrown (obj o1 : FilterbankObject) (e : Failure)
    (hsr : 0 < obj.members.reference_wavelet_.samplerate)
    (h : onAttributeChange obj true = Outcome.thrown e o1) : False := by
  obtain ⟨w, hf, hs, heq⟩ := onAttributeChange_family obj hsr
  rw [heq] at h
  cases hi : Filterbank.init { obj.members with reference_wavelet_ := w } with
  | none => rw [hi] at h; cases h
  | some m => rw [hi] at h; cases h

/-- The attribute values and the reference wavelet are what `init` found. -/
theorem init_keeps_attributes (fb fb1 : Filterbank) (h : fb.init = some fb1) :
    fb1.frequency_min = fb.frequency_min ∧ fb1.frequency_max = fb.frequency_max ∧
      fb1.bands_per_octave = fb.bands_per_octave ∧ fb1.optimisation = fb.optimisation ∧
      fb1.family = fb.family ∧ fb1.rescale = fb.rescale ∧
      fb1.reference_wavelet_ = fb.reference_wavelet_ := by
  obtain ⟨_, _, ws, bufs, _, _, rfl⟩ := fb.init_eq_some fb1 h
  exact ⟨rfl, rfl, rfl, rfl, rfl, rfl, rfl⟩

theorem consistent_after_init (m m1 : Filterbank) (lo hi top : ℝ) (hinit : m.init = some m1)
    (h1 : 1e-12 ≤ m.frequency_min) (h2 : m.frequency_min ≤ m.frequency_max)
    (h3 : 0 < m.reference_wavelet_.samplerate) (h4 : 1 ≤ m.bands_per_octave)
    (h5 : m.family = m.reference_wavelet_.family) (hhi : hi = m.frequency_max)
    (hlo : lo = m.frequency_min) :
    Consistent { members := m1, frequency_min_limit_max := hi, frequency_max_limit_min := lo,
                 frequency_max_limit_max := top } := by
  obtain ⟨e1, e2, e3, _, e5, _, e7⟩ := init_keeps_attributes m m1 hinit
  constructor
  · show hi = m1.frequency_max
    rw [e2, hhi]
  · show lo = m1.frequency_min
    rw [e1, hlo]
  · show 1e-12 ≤ m1.frequency_min
    rw [e1]; exact h1
  · show m1.frequency_min ≤ m1.frequency_max
    rw [e1, e2]; exact h2
  · show 0 < m1.reference_wavelet_.samplerate
    rw [e7]; exact h3
  · show 1 ≤ m1.bands_per_octave
    rw [e3]; exact h4
  · show m1.family = m1.reference_wavelet_.family
    rw [e5, e7]; exact h5
  · intro hsize
    have hsize : 0 < m1.size := hsize
    rw [Filterbank.init_size m m1 hinit] at hsize
    exact Filterbank.init_ready m m1 hinit h3 (by linarith) hsize

end FilterbankObject

namespace Wavelet

theorem setAttribute_internal_of_base (w : Wavelet) (name : String) (v : AnyValue)
    (hn : name = "samplerate" ∨ name = "scale" ∨ name = "window_size" ∨ name = "mode" ∨
      name = "delay" ∨ name = "padding") :
    w.setAttribute_internal name v = w.setAttribute_base name v := by
  unfold setAttribute_internal
  have hne : ∀ s, w.setAttribute_base name v ≠ Outcome.thrown Failure.out_of_range s := by
    intro s hs
    unfold setAttribute_base at hs
    rcases hn with h | h | h | h | h | h <;> subst h <;> cases v <;>
      simp at hs <;> (try split_ifs at hs) <;> (try cases hs)
  cases hb : w.setAttribute_base name v with
  | ok s => rfl
  | undefined => rfl
  | thrown e s =>
    cases e
    · rfl
    · exact absurd hb (hne s)
    · rfl
    · rfl
    · rfl

theorem setAttribute_internal_of_other (w : Wavelet) (name : String) (v : AnyValue)
    (h1 : name ≠ "samplerate") (h2 : name ≠ "scale") (h3 : name ≠ "window_size")
    (h4 : name ≠ "mode") (h5 : name ≠ "delay") (h6 : name ≠ "padding") :
    w.setAttribute_internal name v = w.setAttribute_family name v := by
  unfold setAttribute_internal setAttribute_base
  simp only [if_neg h1, if_neg h2, if_neg h3, if_neg h4, if_neg h5, if_neg h6]

end Wavelet

namespace Wavelet

theorem setAttribute_wavelet_ok (w w1 : Wavelet) (name : String) (v : AnyValue)
    (h : w.setAttribute_internal name v = Outcome.ok w1) :
    w1.family = w.family ∧
      (name = "samplerate" → ∃ x, v = AnyValue.float x ∧ 0 ≤ x ∧ w1.samplerate = x) ∧
      (name ≠ "samplerate" → w1.samplerate = w.samplerate) ∧
      (name ≠ "order" → w1.getAttribute_internal name = Except.ok v) := by
  have setAttribute_base_ok : ∀ (w w1 : Wavelet) (name : String) (v : AnyValue)
      (h : w.setAttribute_base name v = Outcome.ok w1),
      w1.family = w.family ∧
        (name = "samplerate" → ∃ x, v = AnyValue.float x ∧ 0 ≤ x ∧ w1.samplerate = x) ∧
        (name ≠ "samplerate" → w1.samplerate = w.samplerate) ∧
        w1.getAttribute_internal name = Except.ok v := by
    intro w w1 name v h
    unfold setAttribute_base at h
    by_cases n1 : name = "samplerate"
    · subst n1
      cases v <;> simp at h
      rename_i x
      split_ifs at h with hx
      simp only [Outcome.ok.injEq] at h
      subst h
      simp [getAttribute_internal, not_lt.mp hx]
    rw [if_neg n1] at h
    by_cases n2 : name = "scale"
    · subst n2
      cases v <;> simp at h
      split_ifs at h with hx
      simp only [Outcome.ok.injEq] at h
      subst h
      simp [getAttribute_internal]
    rw [if_neg n2] at h
    by_cases n3 : name = "window_size"
    · subst n3
      cases v <;> simp at h
      split_ifs at h with hx
      simp only [Outcome.ok.injEq] at h
      subst h
      simp [getAttribute_internal]
    rw [if_neg n3] at h
    by_cases n4 : name = "mode"
    · subst n4
      cases v <;> simp at h
      subst h
      simp [getAttribute_internal]
    rw [if_neg n4] at h
    by_cases n5 : name = "delay"
    · subst n5
      cases v <;> simp at h
      split_ifs at h with hx
      simp only [Outcome.ok.injEq] at h
      subst h
      simp [getAttribute_internal]
    rw [if_neg n5] at h
    by_cases n6 : name = "padding"
    · subst n6
      cases v <;> simp at h
      split_ifs at h with hx
      simp only [Outcome.ok.injEq] at h
      subst h
      simp [getAttribute_internal]
    rw [if_neg n6] at h
    cases h
  have setAttribute_family_ok : ∀ (w w1 : Wavelet) (name : String) (v : AnyValue)
      (h1 : name ≠ "samplerate") (h2 : name ≠ "scale") (h3 : name ≠ "window_size")
      (h4 : name ≠ "mode") (h5 : name ≠ "delay") (h6 : name ≠ "padding")
      (h : w.setAttribute_family name v = Outcome.ok w1),
      w1.family = w.family ∧ w1.samplerate = w.samplerate ∧
        (name ≠ "order" → w1.getAttribute_internal name = Except.ok v) := by
    intro w w1 name v h1 h2 h3 h4 h5 h6 h
    unfold setAttribute_family at h
    cases hf : w.family with
    | Morlet =>
      rw [hf] at h
      simp only at h
      by_cases n : name = "omega0"
      · subst n
        cases v <;> simp at h
        split_ifs at h with hx
        simp only [Outcome.ok.injEq] at h
        subst h
        simp [getAttribute_internal, hf]
      · rw [if_neg n] at h
        cases h
    | Paul =>
      rw [hf] at h
      simp only at h
      by_cases n : name = "order"
      · subst n
        cases v <;> simp at h
        split_ifs at h
        simp only [Outcome.ok.injEq] at h
        subst h
        simp [hf]
      · rw [if_neg n] at h
        cases h
  by_cases hn : name = "samplerate" ∨ name = "scale" ∨ name = "window_size" ∨ name = "mode" ∨
      name = "delay" ∨ name = "padding"
  · rw [setAttribute_internal_of_base w name v hn] at h
    obtain ⟨q1, q2, q3, q4⟩ := setAttribute_base_ok w w1 name v h
    exact ⟨q1, q2, q3, fun _ => q4⟩
  · push_neg at hn
    obtain ⟨h1, h2, h3, h4, h5, h6⟩ := hn
    rw [setAttribute_internal_of_other w name v h1 h2 h3 h4 h5 h6] at h
    obtain ⟨q1, q2, q3⟩ := setAttribute_family_ok w w1 name v h1 h2 h3 h4 h5 h6 h
    exact ⟨q1, fun hs => absurd hs h1, fun _ => q2, q3⟩

end Wavelet

namespace FilterbankObject

theorem setAttribute_frequency_min (obj : FilterbankObject) (x : ℝ) :
    obj.setAttribute_internal "frequency_min" (AnyValue.float x) =
      if x < 1e-12 ∨ x > obj.frequency_min_limit_max then
        Outcome.thrown Failure.domain_error obj
      else
        match onAttributeChange
            { obj with members := { obj.members with frequency_min := x } } false with
        | Outcome.ok o => Outcome.ok { o with frequency_max_limit_min := o.members.frequency_min }
        | r => r := by
  unfold setAttribute_internal
  rw [if_pos rfl]
  simp only
  by_cases hc : x < 1e-12 ∨ x > obj.frequency_min_limit_max
  · rw [if_pos hc, setMember_rejected checkLimits obj _ _ _ x _ false Failure.domain_error
      (by unfold checkLimits; rw [if_pos hc])]
  · rw [if_neg hc, setMember_accepted checkLimits obj _ _ _ x _ false
      (by unfold checkLimits; rw [if_neg hc])]

theorem setAttribute_frequency_max (obj : FilterbankObject) (x : ℝ) :
    obj.setAttribute_internal "frequency_max" (AnyValue.float x) =
      if x < obj.frequency_max_limit_min ∨ x > obj.frequency_max_limit_max then
        Outcome.thrown Failure.domain_error obj
      else
        match onAttributeChange
            { obj with members := { obj.members with frequency_max := x } } false with
        | Outcome.ok o => Outcome.ok { o with frequency_min_limit_max := o.members.frequency_max }
        | r => r := by
  unfold setAttribute_internal
  rw [if_neg (by decide), if_pos rfl]
  simp only
  by_cases hc : x < obj.frequency_max_limit_min ∨ x > obj.frequency_max_limit_max
  · rw [if_pos hc, setMember_rejected checkLimits obj _ _ _ x _ false Failure.domain_error
      (by unfold checkLimits; rw [if_pos hc])]
  · rw [if_neg hc, setMember_accepted checkLimits obj _ _ _ x _ false
      (by unfold checkLimits; rw [if_neg hc])]

theorem setAttribute_bands_per_octave (obj : FilterbankObject) (x : ℝ) :
    obj.setAttribute_internal "bands_per_octave" (AnyValue.float x) =
      if x < 1 ∨ x > FLT_MAX then Outcome.thrown Failure.domain_error obj
      else
        onAttributeChange
          { obj with members := { obj.members with bands_per_octave := x } } false := by
  unfold setAttribute_internal
  rw [if_neg (by decide), if_neg (by decide), if_pos rfl]
  simp only
  by_cases hc : x < 1 ∨ x > FLT_MAX
  · rw [if_pos hc, setMember_rejected checkLimits obj _ _ _ x _ false Failure.domain_error
      (by unfold checkLimits; rw [if_pos hc])]
  · rw [if_neg hc, setMember_accepted checkLimits obj _ _ _ x _ false
      (by unfold checkLimits; rw [if_neg hc])]

theorem setAttribute_family (obj : FilterbankObject) (f : Family) :
    obj.setAttribute_internal "family" (AnyValue.family f) =
      onAttributeChange { obj with members := { obj.members with family := f } } true := by
  have checkLimits_family : ∀ (f : Family),
      checkLimits f.rank Family.Morlet.rank Family.Paul.rank = none := by
    intro f
    cases f <;> decide
  unfold setAttribute_internal
  rw [if_neg (by decide), if_neg (by decide), if_neg (by decide), if_pos rfl]
  simp only
  rw [setMember_accepted _ obj _ _ _ f _ true (checkLimits_family f)]

theorem setAttribute_optimisation (obj : FilterbankObject) (o : Optimisation) :
    obj.setAttribute_internal "optimisation" (AnyValue.optimisation o) =
      onAttributeChange { obj with members := { obj.members with optimisation := o } }
        false := by
  have checkLimits_optimisation : ∀ (o : Optimisation),
      checkLimits o.rank Optimisation.None.rank Optimisation.Aggressive2.rank = none := by
    intro o
    cases o <;> decide
  unfold setAttribute_internal
  rw [if_neg (by decide), if_neg (by decide), if_neg (by decide), if_neg (by decide),
    if_pos rfl]
  simp only
  rw [setMember_accepted _ obj _ _ _ o _ false (checkLimits_optimisation o)]

theorem setAttribute_rescale (obj : FilterbankObject) (b : Bool) :
    obj.setAttribute_internal "rescale" (AnyValue.bool b) =
      onAttributeChange { obj with members := { obj.members with rescale := b } } false := by
  unfold setAttribute_internal
  rw [if_neg (by decide), if_neg (by decide), if_neg (by decide), if_neg (by decide),
    if_neg (by decide), if_pos rfl]
  simp only
  rw [setMember_accepted checkLimitsBool obj _ _ _ b _ false rfl]

theorem setAttribute_reference (obj : FilterbankObject) (name : String) (v : AnyValue)
    (h1 : name ≠ "frequency_min") (h2 : name ≠ "frequency_max")
    (h3 : name ≠ "bands_per_octave") (h4 : name ≠ "family") (h5 : name ≠ "optimisation")
    (h6 : name ≠ "rescale") (h7 : name ≠ "scale") (h8 : name ≠ "window_size") :
    obj.setAttribute_internal name v =
      match obj.members.reference_wavelet_.setAttribute_internal name v with
      | Outcome.ok w =>
        if name = "samplerate" then
          match v with
          | AnyValue.float x =>
            onAttributeChange
              { obj with
                members := { obj.members with reference_wavelet_ := w }
                frequency_max_limit_max := x / 2 } false
          | _ =>
            Outcome.thrown Failure.bad_any_cast
              { obj with members := { obj.members with reference_wavelet_ := w } }
        else
          onAttributeChange { obj with members := { obj.members with reference_wavelet_ := w } }
            false
      | Outcome.thrown e _ => Outcome.thrown e obj
      | Outcome.undefined => Outcome.undefined := by
  unfold setAttribute_internal
  rw [if_neg h1, if_neg h2, if_neg h3, if_neg h4, if_neg h5, if_neg h6, if_pos ⟨h7, h8⟩]

theorem setAttribute_wrong_kind (obj : FilterbankObject) (name : String) (v : AnyValue)
    (h : (name = "frequency_min" ∨ name = "frequency_max" ∨ name = "bands_per_octave") ∧
        v.kind ≠ AnyKind.float ∨
      name = "family" ∧ v.kind ≠ AnyKind.family ∨
      name = "optimisation" ∧ v.kind ≠ AnyKind.optimisation ∨
      name = "rescale" ∧ v.kind ≠ AnyKind.bool) :
    obj.setAttribute_internal name v = Outcome.thrown Failure.bad_any_cast obj := by
  unfold setAttribute_internal
  rcases h with ⟨h | h | h, hk⟩ | ⟨h, hk⟩ | ⟨h, hk⟩ | ⟨h, hk⟩ <;> subst h <;> cases v <;>
    first
    | exact absurd rfl hk
    | simp

end FilterbankObject

theorem AnyValue.kind_eq_float (v : AnyValue) (h : v.kind = AnyKind.float) :
    ∃ x, v = AnyValue.float x := by
  cases v <;> first | exact ⟨_, rfl⟩ | cases h

theorem AnyValue.kind_eq_family (v : AnyValue) (h : v.kind = AnyKind.family) :
    ∃ f, v = AnyValue.family f := by
  cases v <;> first | exact ⟨_, rfl⟩ | cases h

theorem AnyValue.kind_eq_optimisation (v : AnyValue) (h : v.kind = AnyKind.optimisation) :
    ∃ o, v = AnyValue.optimisation o := by
  cases v <;> first | exact ⟨_, rfl⟩ | cases h

theorem AnyValue.kind_eq_bool (v : AnyValue) (h : v.kind = AnyKind.bool) :
    ∃ b, v = AnyValue.bool b := by
  cases v <;> first | exact ⟨_, rfl⟩ | cases h

namespace FilterbankObject

/-- A call of `setAttribute` that throws leaves the object as it was, on an
object with a positive sample rate. -/
theorem setAttribute_thrown_eq (obj o1 : FilterbankObject) (name : String)
    (v : AnyValue) (e : Failure) (hsr : 0 < obj.members.reference_wavelet_.samplerate)
    (h : obj.setAttribute name v = Outcome.thrown e o1) : o1 = obj := by
  have setAttribute_internal_thrown : ∀ (obj o1 : FilterbankObject) (name : String)
      (v : AnyValue) (e : Failure) (hsr : 0 < obj.members.reference_wavelet_.samplerate)
      (h : obj.setAttribute_internal name v = Outcome.thrown e o1), o1 = obj := by
    intro obj o1 name v e hsr h
    by_cases n1 : name = "frequency_min"
    · subst n1
      by_cases hk : v.kind = AnyKind.float
      · obtain ⟨x, rfl⟩ := v.kind_eq_float hk
        rw [setAttribute_frequency_min] at h
        split_ifs at h with hc
        · cases h; rfl
        · generalize hr : onAttributeChange _ false = r at h
          cases r with
          | ok s => cases h
          | thrown e1 s => exact (onAttributeChange_plain_thrown _ _ _ hr).elim
          | undefined => cases h
      · rw [setAttribute_wrong_kind obj _ v (Or.inl ⟨Or.inl rfl, hk⟩)] at h
        cases h; rfl
    by_cases n2 : name = "frequency_max"
    · subst n2
      by_cases hk : v.kind = AnyKind.float
      · obtain ⟨x, rfl⟩ := v.kind_eq_float hk
        rw [setAttribute_frequency_max] at h
        split_ifs at h with hc
        · cases h; rfl
        · generalize hr : onAttributeChange _ false = r at h
          cases r with
          | ok s => cases h
          | thrown e1 s => exact (onAttributeChange_plain_thrown _ _ _ hr).elim
          | undefined => cases h
      · rw [setAttribute_wrong_kind obj _ v (Or.inl ⟨Or.inr (Or.inl rfl), hk⟩)] at h
        cases h; rfl
    by_cases n3 : name = "bands_per_octave"
    · subst n3
      by_cases hk : v.kind = AnyKind.float
      · obtain ⟨x, rfl⟩ := v.kind_eq_float hk
        rw [setAttribute_bands_per_octave] at h
        split_ifs at h with hc
        · cases h; rfl
        · exact (onAttributeChange_plain_thrown _ _ _ h).elim
      · rw [setAttribute_wrong_kind obj _ v (Or.inl ⟨Or.inr (Or.inr rfl), hk⟩)] at h
        cases h; rfl
    by_cases n4 : name = "family"
    · subst n4
      by_cases hk : v.kind = AnyKind.family
      · obtain ⟨f, rfl⟩ := v.kind_eq_family hk
        rw [setAttribute_family] at h
        exact (onAttributeChange_family_thrown _ _ _ (by exact hsr) h).elim
      · rw [setAttribute_wrong_kind obj _ v (Or.inr (Or.inl ⟨rfl, hk⟩))] at h
        cases h; rfl
    by_cases n5 : name = "optimisation"
    · subst n5
      by_cases hk : v.kind = AnyKind.optimisation
      · obtain ⟨o, rfl⟩ := v.kind_eq_optimisation hk
        rw [setAttribute_optimisation] at h
        exact (onAttributeChange_plain_thrown _ _ _ h).elim
      · rw [setAttribute_wrong_kind obj _ v (Or.inr (Or.inr (Or.inl ⟨rfl, hk⟩)))] at h
        cases h; rfl
    by_cases n6 : name = "rescale"
    · subst n6
      by_cases hk : v.kind = AnyKind.bool
      · obtain ⟨b, rfl⟩ := v.kind_eq_bool hk
        rw [setAttribute_rescale] at h
        exact (onAttributeChange_plain_thrown _ _ _ h).elim
      · rw [setAttribute_wrong_kind obj _ v (Or.inr (Or.inr (Or.inr ⟨rfl, hk⟩)))] at h
        cases h; rfl
    by_cases n78 : name ≠ "scale" ∧ name ≠ "window_size"
    · rw [setAttribute_reference obj name v n1 n2 n3 n4 n5 n6 n78.1 n78.2] at h
      cases hw : obj.members.reference_wavelet_.setAttribute_internal name v with
      | ok w =>
        rw [hw] at h
        simp only at h
        obtain ⟨_, q2, _, _⟩ := Wavelet.setAttribute_wavelet_ok _ _ _ _ hw
        by_cases ns : name = "samplerate"
        · obtain ⟨x, rfl, _, _⟩ := q2 ns
          rw [if_pos ns] at h
          exact (onAttributeChange_plain_thrown _ _ _ h).elim
        · rw [if_neg ns] at h
          exact (onAttributeChange_plain_thrown _ _ _ h).elim
      | thrown e1 s =>
        rw [hw] at h
        cases h; rfl
      | undefined =>
        rw [hw] at h
        cases h
    · unfold setAttribute_internal at h
      rw [if_neg n1, if_neg n2, if_neg n3, if_neg n4, if_neg n5, if_neg n6, if_neg n78] at h
      cases h; rfl
  unfold setAttribute at h
  cases hi : obj.setAttribute_internal name v with
  | ok s => rw [hi] at h; cases h
  | undefined => rw [hi] at h; cases h
  | thrown e1 s =>
    have hs := setAttribute_internal_thrown obj s name v e1 hsr hi
    rw [hi] at h
    cases e1 <;> simp only at h <;> cases h <;> exact hs

theorem setAttribute_ok_iff (obj o1 : FilterbankObject) (name : String) (v : AnyValue) :
    obj.setAttribute name v = Outcome.ok o1 ↔
      obj.setAttribute_internal name v = Outcome.ok o1 := by
  unfold setAttribute
  cases hi : obj.setAttribute_internal name v with
  | ok s => simp
  | undefined => simp
  | thrown e1 s => cases e1 <;> simp

end FilterbankObject

namespace FilterbankObject

theorem setAttribute_internal_ok (obj o1 : FilterbankObject) (name : String) (v : AnyValue)
    (h : obj.setAttribute_internal name v = Outcome.ok o1) :
    (name ≠ "order" → o1.getAttribute_internal name = Except.ok v) ∧
      (Consistent obj → Consistent o1) := by
  have onAttributeChange_ok : ∀ (obj o1 : FilterbankObject) (b : Bool)
      (h : onAttributeChange obj b = Outcome.ok o1),
      ∃ w m, (b = false → w = obj.members.reference_wavelet_) ∧
        (b = true → w.family = obj.members.family ∧
          w.samplerate = obj.members.reference_wavelet_.samplerate) ∧
        w.samplerate ≠ 0 ∧
        Filterbank.init { obj.members with reference_wavelet_ := w } = some m ∧
        o1 = { obj with members := m } := by
    intro obj o1 b h
    have onAttributeChange_family_ok : ∀ (obj o1 : FilterbankObject)
        (hsr : 0 < obj.members.reference_wavelet_.samplerate)
        (h : onAttributeChange obj true = Outcome.ok o1),
        ∃ w m, w.family = obj.members.family ∧
          w.samplerate = obj.members.reference_wavelet_.samplerate ∧
          Filterbank.init { obj.members with reference_wavelet_ := w } = some m ∧
          o1 = { obj with members := m } := by
      intro obj o1 hsr h
      obtain ⟨w, hf, hs, heq⟩ := onAttributeChange_family obj hsr
      rw [heq] at h
      cases hi : Filterbank.init { obj.members with reference_wavelet_ := w } with
      | none => rw [hi] at h; cases h
      | some m =>
        rw [hi] at h
        simp only [Outcome.ok.injEq] at h
        exact ⟨w, m, hf, hs, hi, h.symm⟩
    cases b with
    | false =>
      obtain ⟨hz, m, hm, ho⟩ := onAttributeChange_plain_ok obj o1 h
      exact ⟨obj.members.reference_wavelet_, m, fun _ => rfl, fun hb => (by cases hb), hz, hm, ho⟩
    | true =>
      by_cases hsr : 0 < obj.members.reference_wavelet_.samplerate
      · obtain ⟨w, m, q1, q2, q3, q4⟩ := onAttributeChange_family_ok obj o1 hsr h
        exact ⟨w, m, fun hb => (by cases hb), fun _ => ⟨q1, q2⟩, (by rw [q2]; exact hsr.ne'), q3, q4⟩
      · exfalso
        have hc : obj.members.reference_wavelet_.samplerate < 0 ∨
            obj.members.reference_wavelet_.samplerate = 0 := by
          rcases lt_or_eq_of_le (not_lt.mp hsr) with h1 | h1
          · exact Or.inl h1
          · exact Or.inr h1
        unfold onAttributeChange at h
        simp only [if_true, MorletWavelet.create, PaulWavelet.create, if_pos hc] at h
        cases hf : obj.members.family <;> rw [hf] at h <;> cases h
  by_cases n1 : name = "frequency_min"
  · subst n1
    by_cases hk : v.kind = AnyKind.float
    · obtain ⟨x, rfl⟩ := v.kind_eq_float hk
      rw [setAttribute_frequency_min] at h
      split_ifs at h with hc
      generalize hr : onAttributeChange _ false = r at h
      cases r with
      | thrown e1 s => cases h
      | undefined => cases h
      | ok s =>
        simp only [Outcome.ok.injEq] at h
        subst h
        obtain ⟨w, m, q1, _, q3, q4, rfl⟩ := onAttributeChange_ok _ _ _ hr
        have hw := q1 rfl
        subst hw
        obtain ⟨e1, e2, e3, e4, e5, e6, e7⟩ := init_keeps_attributes _ _ q4
        push_neg at hc
        constructor
        · intro _
          simp only [getAttribute_internal, if_true]
          rw [e1]
        · intro hcons
          refine consistent_after_init _ m _ _ _ q4 ?_ ?_ ?_ ?_ ?_ ?_ ?_
          · exact hc.1
          · exact le_trans hc.2 (le_of_eq hcons.limit_max_eq)
          · exact hcons.samplerate_pos
          · exact hcons.bands_per_octave_ge
          · exact hcons.family_eq
          · exact hcons.limit_max_eq
          · exact e1
    · rw [setAttribute_wrong_kind obj _ v (Or.inl ⟨Or.inl rfl, hk⟩)] at h
      cases h
  by_cases n2 : name = "frequency_max"
  · subst n2
    by_cases hk : v.kind = AnyKind.float
    · obtain ⟨x, rfl⟩ := v.kind_eq_float hk
      rw [setAttribute_frequency_max] at h
      split_ifs at h with hc
      generalize hr : onAttributeChange _ false = r at h
      cases r with
      | thrown e1 s => cases h
      | undefined => cases h
      | ok s =>
        simp only [Outcome.ok.injEq] at h
        subst h
        obtain ⟨w, m, q1, _, q3, q4, rfl⟩ := onAttributeChange_ok _ _ _ hr
        have hw := q1 rfl
        subst hw
        obtain ⟨e1, e2, e3, e4, e5, e6, e7⟩ := init_keeps_attributes _ _ q4
        push_neg at hc
        constructor
        · intro _
          unfold getAttribute_internal
          rw [if_neg (by decide), if_pos rfl, e2]
        · intro hcons
          refine consistent_after_init _ m _ _ _ q4 ?_ ?_ ?_ ?_ ?_ ?_ ?_
          · exact hcons.frequency_min_ge
          · exact le_trans (le_of_eq hcons.limit_min_eq.symm) hc.1
          · exact hcons.samplerate_pos
          · exact hcons.bands_per_octave_ge
          · exact hcons.family_eq
          · exact e2
          · exact hcons.limit_min_eq
    · rw [setAttribute_wrong_kind obj _ v (Or.inl ⟨Or.inr (Or.inl rfl), hk⟩)] at h
      cases h
  by_cases n3 : name = "bands_per_octave"
  · subst n3
    by_cases hk : v.kind = AnyKind.float
    · obtain ⟨x, rfl⟩ := v.kind_eq_float hk
      rw [setAttribute_bands_per_octave] at h
      split_ifs at h with hc
      obtain ⟨w, m, q1, _, q3, q4, rfl⟩ := onAttributeChange_ok _ _ _ h
      have hw := q1 rfl
      subst hw
      obtain ⟨e1, e2, e3, e4, e5, e6, e7⟩ := init_keeps_attributes _ _ q4
      push_neg at hc
      constructor
      · intro _
        unfold getAttribute_internal
        rw [if_neg (by decide), if_neg (by decide), if_pos rfl, e3]
      · intro hcons
        refine consistent_after_init _ m _ _ _ q4 ?_ ?_ ?_ ?_ ?_ ?_ ?_
        · exact hcons.frequency_min_ge
        · exact hcons.min_le_max
        · exact hcons.samplerate_pos
        · exact hc.1
        · exact hcons.family_eq
        · exact hcons.limit_max_eq
        · exact hcons.limit_min_eq
    · rw [setAttribute_wrong_kind obj _ v (Or.inl ⟨Or.inr (Or.inr rfl), hk⟩)] at h
      cases h
  by_cases n4 : name = "family"
  · subst n4
    by_cases hk : v.kind = AnyKind.family
    · obtain ⟨f, rfl⟩ := v.kind_eq_family hk
      rw [setAttribute_family] at h
      obtain ⟨w, m, _, q2, q3, q4, rfl⟩ := onAttributeChange_ok _ _ _ h
      obtain ⟨p1, p2⟩ := q2 rfl
      obtain ⟨e1, e2, e3, e4, e5, e6, e7⟩ := init_keeps_attributes _ _ q4
      constructor
      · intro _
        unfold getAttribute_internal
        rw [if_neg (by decide), if_neg (by decide), if_neg (by decide), if_neg (by decide),
          if_pos rfl, e5]
      · intro hcons
        refine consistent_after_init _ m _ _ _ q4 ?_ ?_ ?_ ?_ ?_ ?_ ?_
        · exact hcons.frequency_min_ge
        · exact hcons.min_le_max
        · show 0 < w.samplerate
          rw [p2]
          exact hcons.samplerate_pos
        · exact hcons.bands_per_octave_ge
        · exact p1.symm
        · exact hcons.limit_max_eq
        · exact hcons.limit_min_eq
    · rw [setAttribute_wrong_kind obj _ v (Or.inr (Or.inl ⟨rfl, hk⟩))] at h
      cases h
  by_cases n5 : name = "optimisation"
  · subst n5
    by_cases hk : v.kind = AnyKind.optimisation
    · obtain ⟨o, rfl⟩ := v.kind_eq_optimisation hk
      rw [setAttribute_optimisation] at h
      obtain ⟨w, m, q1, _, q3, q4, rfl⟩ := onAttributeChange_ok _ _ _ h
      have hw := q1 rfl
      subst hw
      obtain ⟨e1, e2, e3, e4, e5, e6, e7⟩ := init_keeps_attributes _ _ q4
      constructor
      · intro _
        unfold getAttribute_internal
        rw [if_neg (by decide), if_neg (by decide), if_neg (by decide), if_pos rfl, e4]
      · intro hcons
        refine consistent_after_init _ m _ _ _ q4 ?_ ?_ ?_ ?_ ?_ ?_ ?_
        · exact hcons.frequency_min_ge
        · exact hcons.min_le_max
        · exact hcons.samplerate_pos
        · exact hcons.bands_per_octave_ge
        · exact hcons.family_eq
        · exact hcons.limit_max_eq
        · exact hcons.limit_min_eq
    · rw [setAttribute_wrong_kind obj _ v (Or.inr (Or.inr (Or.inl ⟨rfl, hk⟩)))] at h
      cases h
  by_cases n6 : name = "rescale"
  · subst n6
    by_cases hk : v.kind = AnyKind.bool
    · obtain ⟨b, rfl⟩ := v.kind_eq_bool hk
      rw [setAttribute_rescale] at h
      obtain ⟨w, m, q1, _, q3, q4, rfl⟩ := onAttributeChange_ok _ _ _ h
      have hw := q1 rfl
      subst hw
      obtain ⟨e1, e2, e3, e4, e5, e6, e7⟩ := init_keeps_attributes _ _ q4
      constructor
      · intro _
        unfold getAttribute_internal
        rw [if_neg (by decide), if_neg (by decide), if_neg (by decide), if_neg (by decide),
          if_neg (by decide), if_pos rfl, e6]
      · intro hcons
        refine consistent_after_init _ m _ _ _ q4 ?_ ?_ ?_ ?_ ?_ ?_ ?_
        · exact hcons.frequency_min_ge
        · exact hcons.min_le_max
        · exact hcons.samplerate_pos
        · exact hcons.bands_per_octave_ge
        · exact hcons.family_eq
        · exact hcons.limit_max_eq
        · exact hcons.limit_min_eq
    · rw [setAttribute_wrong_kind obj _ v (Or.inr (Or.inr (Or.inr ⟨rfl, hk⟩)))] at h
      cases h
  by_cases n78 : name ≠ "scale" ∧ name ≠ "window_size"
  · rw [setAttribute_reference obj name v n1 n2 n3 n4 n5 n6 n78.1 n78.2] at h
    cases hw : obj.members.reference_wavelet_.setAttribute_internal name v with
    | thrown e1 s => rw [hw] at h; cases h
    | undefined => rw [hw] at h; cases h
    | ok w =>
      rw [hw] at h
      simp only at h
      obtain ⟨p1, p2, p3, p4⟩ := Wavelet.setAttribute_wavelet_ok _ _ _ _ hw
      have hget : ∀ (m : Filterbank) (a b c : ℝ), m.reference_wavelet_ = w →
          name ≠ "order" →
          getAttribute_internal
            { members := m, frequency_min_limit_max := a, frequency_max_limit_min := b,
              frequency_max_limit_max := c } name = Except.ok v := by
        intro m a b c hm hno
        unfold getAttribute_internal
        rw [if_neg n1, if_neg n2, if_neg n3, if_neg n5, if_neg n4, if_neg n6, if_pos n78]
        show m.reference_wavelet_.getAttribute_internal name = _
        rw [hm]
        exact p4 hno
      by_cases ns : name = "samplerate"
      · obtain ⟨x, rfl, hx0, hxs⟩ := p2 ns
        rw [if_pos ns] at h
        simp only at h
        obtain ⟨w1, m, q1, _, q3, q4, rfl⟩ := onAttributeChange_ok _ _ _ h
        have hw1 := q1 rfl
        subst hw1
        obtain ⟨e1, e2, e3, e4, e5, e6, e7⟩ := init_keeps_attributes _ _ q4
        refine ⟨fun hno => hget m _ _ _ e7 hno, fun hcons => ?_⟩
        refine consistent_after_init _ m _ _ _ q4 ?_ ?_ ?_ ?_ ?_ ?_ ?_
        · exact hcons.frequency_min_ge
        · exact hcons.min_le_max
        · exact lt_of_le_of_ne (by rw [hxs]; exact hx0) (Ne.symm q3)
        · exact hcons.bands_per_octave_ge
        · exact hcons.family_eq.trans p1.symm
        · exact hcons.limit_max_eq
        · exact hcons.limit_min_eq
      · rw [if_neg ns] at h
        obtain ⟨w1, m, q1, _, q3, q4, rfl⟩ := onAttributeChange_ok _ _ _ h
        have hw1 := q1 rfl
        subst hw1
        obtain ⟨e1, e2, e3, e4, e5, e6, e7⟩ := init_keeps_attributes _ _ q4
        refine ⟨fun hno => hget m _ _ _ e7 hno, fun hcons => ?_⟩
        refine consistent_after_init _ m _ _ _ q4 ?_ ?_ ?_ ?_ ?_ ?_ ?_
        · exact hcons.frequency_min_ge
        · exact hcons.min_le_max
        · show 0 < w1.samplerate
          rw [p3 ns]
          exact hcons.samplerate_pos
        · exact hcons.bands_per_octave_ge
        · exact hcons.family_eq.trans p1.symm
        · exact hcons.limit_max_eq
        · exact hcons.limit_min_eq
  · unfold setAttribute_internal at h
    rw [if_neg n1, if_neg n2, if_neg n3, if_neg n4, if_neg n5, if_neg n6, if_neg n78] at h
    cases h

end FilterbankObject

namespace FilterbankObject

theorem construct_built (samplerate_ frequency_min_ frequency_max_ bands_per_octave_ : ℝ)
    (obj : FilterbankObject)
    (h : construct samplerate_ frequency_min_ frequency_max_ bands_per_octave_ =
      Construction.built obj) :
    1e-12 ≤ frequency_min_ ∧ frequency_min_ ≤ frequency_max_ ∧
      frequency_max_ ≤ samplerate_ / 2 ∧ 1 ≤ bands_per_octave_ ∧
      bands_per_octave_ ≤ FLT_MAX ∧
      ∃ m, Filterbank.init (Filterbank.members frequency_min_ frequency_max_ bands_per_octave_
          Family.Morlet (Wavelet.init (MorletWavelet.members samplerate_))) = some m ∧
        obj = { members := m, frequency_min_limit_max := frequency_max_,
                frequency_max_limit_min := frequency_min_,
                frequency_max_limit_max := samplerate_ / 2 } := by
  have checkLimits_cases : ∀ (x lo hi : ℝ),
      (checkLimits x lo hi = some Failure.domain_error ∧ (x < lo ∨ hi < x)) ∨
        (checkLimits x lo hi = none ∧ lo ≤ x ∧ x ≤ hi) := by
    intro x lo hi
    unfold checkLimits
    by_cases h : x < lo ∨ x > hi
    · left
      rw [if_pos h]
      exact ⟨rfl, h⟩
    · right
      rw [if_neg h]
      push_neg at h
      exact ⟨rfl, h⟩
  unfold construct at h
  rcases checkLimits_cases frequency_min_ 1e-12 frequency_max_ with ⟨c1, _⟩ | ⟨c1, a1, a2⟩
  · rw [c1] at h; cases h
  rw [c1] at h
  simp only at h
  rcases checkLimits_cases frequency_max_ frequency_min_ (samplerate_ / 2) with
    ⟨c2, _⟩ | ⟨c2, _, a3⟩
  · rw [c2] at h; cases h
  rw [c2] at h
  simp only at h
  rcases checkLimits_cases bands_per_octave_ 1 FLT_MAX with ⟨c3, _⟩ | ⟨c3, a4, a5⟩
  · rw [c3] at h; cases h
  rw [c3] at h
  simp only at h
  have hsr : ¬ (samplerate_ < 0 ∨ samplerate_ = 0) := by
    have : (0 : ℝ) < 1e-12 := by norm_num
    push_neg
    constructor <;> [linarith; (intro h0; linarith)]
  simp only [MorletWavelet.create, if_neg hsr] at h
  cases hi : Filterbank.init (Filterbank.members frequency_min_ frequency_max_
      bands_per_octave_ Family.Morlet (Wavelet.init (MorletWavelet.members samplerate_))) with
  | none => rw [hi] at h; cases h
  | some m =>
    rw [hi] at h
    simp only [Construction.built.injEq] at h
    exact ⟨a1, a2, a3, a4, a5, m, rfl, h.symm⟩

theorem construct_consistent (samplerate_ frequency_min_ frequency_max_ bands_per_octave_ : ℝ)
    (obj : FilterbankObject)
    (h : construct samplerate_ frequency_min_ frequency_max_ bands_per_octave_ =
      Construction.built obj) : Consistent obj := by
  obtain ⟨a1, a2, a3, a4, a5, m, hm, rfl⟩ := construct_built _ _ _ _ _ h
  have hpos : (0 : ℝ) < 1e-12 := by norm_num
  refine consistent_after_init _ m _ _ _ hm a1 a2 ?_ a4 ?_ rfl rfl
  · show 0 < (Wavelet.init (MorletWavelet.members samplerate_)).samplerate
    rw [Wavelet.init_samplerate]
    show 0 < samplerate_
    linarith
  · show Family.Morlet = (Wavelet.init (MorletWavelet.members samplerate_)).family
    rw [Wavelet.init_family]
    rfl

theorem reset_consistent (obj : FilterbankObject) (h : Consistent obj) :
    Consistent obj.reset :=
  { limit_max_eq := h.limit_max_eq
    limit_min_eq := h.limit_min_eq
    frequency_min_ge := h.frequency_min_ge
    min_le_max := h.min_le_max
    samplerate_pos := h.samplerate_pos
    bands_per_octave_ge := h.bands_per_octave_ge
    family_eq := h.family_eq
    ready := fun hs => Filterbank.reset_ready obj.members (h.ready hs) }

theorem update_consistent (obj obj1 : FilterbankObject) (v : ℝ) (h : Consistent obj)
    (hu : obj.update v = Outcome.ok obj1) : Consistent obj1 := by
  have update_keeps_attributes : ∀ (fb fb1 : Filterbank) (v : ℝ) (h : fb.update v = some fb1),
      fb1.frequency_min = fb.frequency_min ∧ fb1.frequency_max = fb.frequency_max ∧
        fb1.bands_per_octave = fb.bands_per_octave ∧ fb1.family = fb.family ∧
        fb1.reference_wavelet_ = fb.reference_wavelet_ ∧ fb1.wavelets_ = fb.wavelets_ := by
    intro fb fb1 v h
    unfold Filterbank.update at h
    simp only [Option.bind_eq_bind, Option.bind_eq_some] at h
    obtain ⟨filled, _, cur, _, h⟩ := h
    simp only [Option.some.injEq] at h
    subst h
    exact ⟨rfl, rfl, rfl, rfl, rfl, rfl⟩
  unfold update at hu
  cases hm : obj.members.update v with
  | none => rw [hm] at hu; cases hu
  | some m =>
    rw [hm] at hu
    simp only [Outcome.ok.injEq] at hu
    subst hu
    obtain ⟨e1, e2, e3, e4, e5, e6⟩ := update_keeps_attributes _ _ _ hm
    constructor
    · show obj.frequency_min_limit_max = m.frequency_max
      rw [e2]; exact h.limit_max_eq
    · show obj.frequency_max_limit_min = m.frequency_min
      rw [e1]; exact h.limit_min_eq
    · show 1e-12 ≤ m.frequency_min
      rw [e1]; exact h.frequency_min_ge
    · show m.frequency_min ≤ m.frequency_max
      rw [e1, e2]; exact h.min_le_max
    · show 0 < m.reference_wavelet_.samplerate
      rw [e5]; exact h.samplerate_pos
    · show 1 ≤ m.bands_per_octave
      rw [e3]; exact h.bands_per_octave_ge
    · show m.family = m.reference_wavelet_.family
      rw [e4, e5]; exact h.family_eq
    · intro hs
      have hs : 0 < m.wavelets_.length := hs
      rw [e6] at hs
      have hr := h.ready hs
      rw [Filterbank.update_eq obj.members hr v] at hm
      simp only [Option.some.injEq] at hm
      rw [← hm]
      exact Filterbank.next_ready obj.members hr v

/-- Every state of a filterbank object reached from a constructor call through
`setAttribute`, `reset` and `update` is consistent. -/
theorem reachable_consistent (obj : FilterbankObject) (h : Reachable obj) : Consistent obj := by
  induction h with
  | construct sr fmin fmax bpo obj h => exact construct_consistent sr fmin fmax bpo obj h
  | setAttribute obj obj1 name v _ hs ih =>
    exact (setAttribute_internal_ok obj obj1 name v
      ((setAttribute_ok_iff obj obj1 name v).mp hs)).2 ih
  | thrown obj obj1 name v e _ hs ih =>
    rw [setAttribute_thrown_eq obj obj1 name v e ih.samplerate_pos hs]
    exact ih
  | reset obj _ ih => exact reset_consistent obj ih
  | update obj obj1 v _ hu ih => exact update_consistent obj obj1 v ih hu

end FilterbankObject

namespace FilterbankObject

theorem checkLimits_none_of_mem (x lo hi : ℝ) (h1 : lo ≤ x) (h2 : x ≤ hi) :
    checkLimits x lo hi = none := by
  unfold checkLimits
  rw [if_neg]
  push_neg
  exact ⟨h1, h2⟩

theorem checkLimits_some_of_not_mem (x lo hi : ℝ) (h : x < lo ∨ hi < x) :
    checkLimits x lo hi = some Failure.domain_error := by
  unfold checkLimits
  rw [if_pos h]

theorem FLT_MAX_large : (100000 : ℝ) ≤ FLT_MAX := by
  unfold FLT_MAX
  norm_num

theorem scenario_construct :
    ∃ obj, construct 100 1 30 4 = Construction.built obj ∧ obj.members.size = 20 ∧
      scenarioBank.init = some obj.members ∧ obj.frequency_min_limit_max = 30 ∧
      obj.frequency_max_limit_min = 1 ∧ obj.frequency_max_limit_max = 100 / 2 := by
  have construct_of_init : ∀ (sr fmin fmax bpo : ℝ) (m : Filterbank)
      (h1 : 1e-12 ≤ fmin) (h2 : fmin ≤ fmax) (h3 : fmax ≤ sr / 2) (h4 : 1 ≤ bpo)
      (h5 : bpo ≤ FLT_MAX)
      (hm : Filterbank.init (Filterbank.members fmin fmax bpo Family.Morlet
        (Wavelet.init (MorletWavelet.members sr))) = some m),
      construct sr fmin fmax bpo =
        Construction.built
          { members := m, frequency_min_limit_max := fmax, frequency_max_limit_min := fmin,
            frequency_max_limit_max := sr / 2 } := by
    intro sr fmin fmax bpo m h1 h2 h3 h4 h5 hm
    have hsr : ¬ (sr < 0 ∨ sr = 0) := by
      have : (0 : ℝ) < 1e-12 := by norm_num
      push_neg
      constructor <;> [linarith; (intro h0; linarith)]
    unfold construct
    rw [checkLimits_none_of_mem _ _ _ h1 h2, checkLimits_none_of_mem _ _ _ h2 h3,
      checkLimits_none_of_mem _ _ _ h4 h5]
    simp only [MorletWavelet.create, if_neg hsr]
    rw [hm]
  obtain ⟨m, hm, hsize⟩ := scenarioBank_init
  refine ⟨_, construct_of_init 100 1 30 4 m (by norm_num) (by norm_num) (by norm_num)
    (by norm_num) (le_trans (by norm_num) FLT_MAX_large) hm, hsize, hm, rfl, rfl, rfl⟩

end FilterbankObject

/-- C13. `update` produces no error on a configured filterbank: in every state
with at least one band reached from a constructor call through `setAttribute`
(whether it returns or throws), `reset` and `update`, and for every input
value, `update` returns (no index of a buffer, a vector or a kernel leaves its
bounds: such an access is undefined behaviour in the model), and at the inner
product of band `j` the buffer read, of key the factor `d_j ≥ 1`, is not empty
and holds at least `d_j * W_j` samples, so that the start index
`size - d_j * W_j` does not wrap around, the kernel has `W_j` values, and the
data loop sums exactly `W_j` taps: the coefficient is the closed form
`coefficientOf`, a sum over `k < W_j`. -/
theorem update_in_bounds (obj : FilterbankObject) (h : obj.Reachable)
    (hb : 0 < obj.members.size) (v : ℝ) :
    ∃ obj1, obj.update v = Outcome.ok obj1 ∧ obj1.Reachable ∧
      obj1.members.size = obj.members.size ∧
      ∀ j, j < obj.members.size →
        ∃ (e : ℤ × CircularBuffer) (w : Wavelet),
          obj1.members.data_[obj.members.bandPos j]? = some e ∧
          obj.members.wavelets_[j]? = some w ∧ e.1 = obj.members.bandFactor j ∧ 1 ≤ e.1 ∧
          e.2.items ≠ [] ∧ e.1.toNat * w.window_size ≤ e.2.items.length ∧
          w.values.length = w.window_size ∧
          Filterbank.bandCoefficient obj.members.rescale e w =
            some (Filterbank.coefficientOf obj.members.rescale e.1.toNat e.2 w) := by
  have hr := (FilterbankObject.reachable_consistent obj h).ready hb
  have hu : obj.update v = Outcome.ok { obj with members := obj.members.next v } := by
    unfold FilterbankObject.update
    rw [Filterbank.update_eq obj.members hr v]
  refine ⟨_, hu, FilterbankObject.Reachable.update obj _ v h hu, rfl, ?_⟩
  intro j hj
  obtain ⟨e, w, q0, q1, q2, q3, q4, q5, _⟩ := obj.members.ready_aligned_next hr v j hj
  have hv : w.values.length = w.window_size :=
    hr.values_length w (List.mem_iff_getElem?.mpr ⟨j, q1⟩)
  exact ⟨e, w, q0, q1, q2, q3, q4, q5, hv, Filterbank.bandCoefficient_eq _ e w q4 q3 q5 hv⟩

theorem update_in_bounds_witness :
    ∃ obj, FilterbankObject.construct 100 1 30 4 = Construction.built obj ∧
      obj.members.size = 20 ∧
      ∃ obj1, obj.update 1 = Outcome.ok obj1 ∧ obj1.members.size = 20 ∧
        ∃ obj2, obj1.reset.update 2 = Outcome.ok obj2 ∧ obj2.members.size = 20 := by
  obtain ⟨obj, hc, hsize, _⟩ := FilterbankObject.scenario_construct
  have hreach := FilterbankObject.Reachable.construct 100 1 30 4 obj hc
  obtain ⟨obj1, h1, hr1, hs1, _⟩ := update_in_bounds obj hreach (by rw [hsize]; norm_num) 1
  obtain ⟨obj2, h2, _, hs2, _⟩ := update_in_bounds obj1.reset
    (FilterbankObject.Reachable.reset obj1 hr1)
    (by show 0 < obj1.members.size; rw [hs1, hsize]; norm_num) 2
  exact ⟨obj, hc, hsize, obj1, h1, by rw [hs1, hsize], obj2, h2, by
    rw [hs2]; show obj1.members.size = 20; rw [hs1, hsize]⟩

namespace Filterbank

/-- The two ratios of `init` for a Morlet reference wavelet with `omega0 = 5`. -/
theorem morlet_scale_ratios (fb : Filterbank)
    (hf : fb.reference_wavelet_.family = Family.Morlet) (ho : fb.reference_wavelet_.omega0 = 5)
    (hsr : fb.reference_wavelet_.samplerate ≠ 0) (hmin : fb.frequency_min ≠ 0)
    (hmax : fb.frequency_max ≠ 0) :
    fb.min_scale / fb.scale_0 =
        (5 + Real.sqrt 27) * fb.reference_wavelet_.samplerate /
          (8 * Real.pi * fb.frequency_max) ∧
      fb.max_scale / fb.scale_0 =
        (5 + Real.sqrt 27) * fb.reference_wavelet_.samplerate /
          (8 * Real.pi * fb.frequency_min) := by
  have h27 : (2 : ℝ) + 5 * 5 = 27 := by norm_num
  have hpi := Real.pi_ne_zero
  unfold min_scale max_scale scale_0 Wavelet.frequency2scale
  rw [hf]
  simp only [MorletWavelet.frequency2scale]
  rw [ho, h27]
  constructor
  · field_simp
    ring
  · field_simp
    ring

theorem ratio_bounds (sr f lo hi : ℝ) (hf : 0 < f)
    (h1 : lo * (8 * 3.15 * f) ≤ 10.19 * sr) (h2 : 10.2 * sr ≤ hi * (8 * 3.14 * f))
    (hsr : 0 ≤ sr) (hlo : 0 ≤ lo) (hhi : 0 ≤ hi) :
    lo ≤ (5 + Real.sqrt 27) * sr / (8 * Real.pi * f) ∧
      (5 + Real.sqrt 27) * sr / (8 * Real.pi * f) ≤ hi := by
  obtain ⟨hs1, hs2⟩ := sqrt_27_bounds
  have hp1 := Real.pi_gt_d2
  have hp2 := Real.pi_lt_d2
  have hpos : (0 : ℝ) < 8 * Real.pi * f := by positivity
  constructor
  · rw [le_div_iff₀ hpos]
    have a1 : lo * (8 * Real.pi * f) ≤ lo * (8 * 3.15 * f) := by
      apply mul_le_mul_of_nonneg_left _ hlo
      nlinarith
    have a2 : 10.19 * sr ≤ (5 + Real.sqrt 27) * sr := by
      apply mul_le_mul_of_nonneg_right _ hsr
      linarith
    linarith
  · rw [div_le_iff₀ hpos]
    have a1 : hi * (8 * 3.14 * f) ≤ hi * (8 * Real.pi * f) := by
      apply mul_le_mul_of_nonneg_left _ hhi
      nlinarith
    have a2 : (5 + Real.sqrt 27) * sr ≤ 10.2 * sr := by
      apply mul_le_mul_of_nonneg_right _ hsr
      linarith
    linarith

/-- The index `1 + long(log2(r) * n)` for a ratio `r` with `2^k ≤ r^n < 2^(k+1)`. -/
theorem index_of_pow_bounds (r lo hi b : ℝ) (n k : ℕ) (hb : b = (n : ℝ)) (hlo : 0 < lo)
    (h1 : lo ≤ r) (h2 : r ≤ hi) (h3 : (2 : ℝ) ^ k ≤ lo ^ n) (h4 : hi ^ n < (2 : ℝ) ^ (k + 1)) :
    1 + truncToInt (Real.logb 2 r * b) = 1 + (k : ℤ) := by
  have hr : 0 < r := lt_of_lt_of_le hlo h1
  have a1 : (2 : ℝ) ^ k ≤ r ^ n := le_trans h3 (pow_le_pow_left₀ hlo.le h1 n)
  have a2 : r ^ n < (2 : ℝ) ^ (k + 1) := lt_of_le_of_lt (pow_le_pow_left₀ hr.le h2 n) h4
  obtain ⟨ha, hb'⟩ := logb_two_mul_natCast_mem hr a1 a2
  rw [hb, truncToInt_eq_of_mem_Ico (by positivity) ha hb']

/-- The index `1 + long(log2(r) * n)` for a ratio `r` with
`2^(-(k+1)) < r^n < 2^(-k)`: the conversion rounds toward zero. -/
theorem index_of_pow_bounds_neg (r lo hi b : ℝ) (n k : ℕ) (hb : b = (n : ℝ)) (hlo : 0 < lo)
    (h1 : lo ≤ r) (h2 : r ≤ hi) (h3 : 1 / (2 : ℝ) ^ (k + 1) < lo ^ n)
    (h4 : hi ^ n < 1 / (2 : ℝ) ^ k) :
    1 + truncToInt (Real.logb 2 r * b) = 1 - (k : ℤ) := by
  have hr : 0 < r := lt_of_lt_of_le hlo h1
  have a1 : 1 / (2 : ℝ) ^ (k + 1) < r ^ n := lt_of_lt_of_le h3 (pow_le_pow_left₀ hlo.le h1 n)
  have a2 : r ^ n < 1 / (2 : ℝ) ^ k := lt_of_le_of_lt (pow_le_pow_left₀ hr.le h2 n) h4
  obtain ⟨ha, hb'⟩ := logb_two_mul_natCast_neg_mem hr a1 a2
  rw [hb, (truncToInt_eq_of_mem_Ioo_neg ha hb').1]
  ring

end Filterbank

namespace FilterbankObject

/-- The handler of an attribute change returns whenever `init` does. -/
theorem onAttributeChange_plain_isOk (obj : FilterbankObject)
    (hsr : 0 < obj.members.reference_wavelet_.samplerate) (h0 : 0 < obj.members.frequency_min)
    (hle : obj.members.frequency_min ≤ obj.members.frequency_max)
    (hb : 0 ≤ obj.members.bands_per_octave)
    (hfam : obj.members.family = obj.members.reference_wavelet_.family)
    (hne : obj.members.optimisation = Optimisation.None →
      obj.members.min_index < obj.members.max_index) :
    ∃ m, Filterbank.init obj.members = some m ∧
      onAttributeChange obj false = Outcome.ok { obj with members := m } := by
  obtain ⟨m, hm⟩ := obj.members.init_isSome hsr h0 hle hb hfam hne
  refine ⟨m, hm, ?_⟩
  rw [onAttributeChange_plain, if_neg hsr.ne', hm]

theorem setAttribute_of_internal (obj : FilterbankObject) (name : String) (v : AnyValue)
    (r : Outcome FilterbankObject) (h : obj.setAttribute_internal name v = r)
    (hr : ∀ s, r ≠ Outcome.thrown Failure.bad_any_cast s) : obj.setAttribute name v = r := by
  unfold setAttribute
  rw [h]
  cases r with
  | ok s => rfl
  | undefined => rfl
  | thrown e s =>
    cases e
    · rfl
    · rfl
    · rfl
    · exact absurd rfl (hr s)
    · rfl

theorem scenario_object_fields (obj : FilterbankObject)
    (h : scenarioBank.init = some obj.members) :
    obj.members.frequency_min = 1 ∧ obj.members.frequency_max = 30 ∧
      obj.members.bands_per_octave = 4 ∧ obj.members.optimisation = Optimisation.None ∧
      obj.members.family = Family.Morlet ∧
      obj.members.reference_wavelet_ = Wavelet.init (MorletWavelet.members 100) := by
  obtain ⟨e1, e2, e3, e4, e5, _, e7⟩ := init_keeps_attributes _ _ h
  exact ⟨e1, e2, e3, e4, e5, e7⟩

end FilterbankObject

/-- C16. Coupled bounds: in every state reached from a constructor call through
`setAttribute` (and `reset`, `update`), `0 < frequency_min ≤ frequency_max`;
when `setAttribute("frequency_min", v)` returns, `frequency_min` is `v`, the
lower limit of `frequency_max` is `v` and `frequency_max` is unchanged, so that
`setAttribute("frequency_max", w)` with `w < v` throws `domain_error` and
leaves the object, `frequency_max` included, as it was; and symmetrically
`setAttribute("frequency_min", v)` with `v` above the current `frequency_max`
throws `domain_error` and leaves the object as it was. -/
theorem coupled_bounds (obj : FilterbankObject) (h : obj.Reachable) :
    0 < obj.members.frequency_min ∧ obj.members.frequency_min ≤ obj.members.frequency_max ∧
      (∀ (v : ℝ) (obj1 : FilterbankObject),
        obj.setAttribute "frequency_min" (AnyValue.float v) = Outcome.ok obj1 →
          obj1.members.frequency_min = v ∧ obj1.frequency_max_limit_min = v ∧
            obj1.members.frequency_max = obj.members.frequency_max ∧
            ∀ (w : ℝ), w < v →
              obj1.setAttribute "frequency_max" (AnyValue.float w) =
                Outcome.thrown Failure.domain_error obj1) ∧
      ∀ (v : ℝ), obj.members.frequency_max < v →
        obj.setAttribute "frequency_min" (AnyValue.float v) =
          Outcome.thrown Failure.domain_error obj := by
  have hc := FilterbankObject.reachable_consistent obj h
  have hpos : (0 : ℝ) < 1e-12 := by norm_num
  refine ⟨lt_of_lt_of_le hpos hc.frequency_min_ge, hc.min_le_max, ?_, ?_⟩
  · intro v obj1 hs
    have hi := (FilterbankObject.setAttribute_ok_iff obj obj1 _ _).mp hs
    have hc1 := (FilterbankObject.setAttribute_internal_ok obj obj1 _ _ hi).2 hc
    have hget := (FilterbankObject.setAttribute_internal_ok obj obj1 _ _ hi).1 (by decide)
    have hv : obj1.members.frequency_min = v := by
      unfold FilterbankObject.getAttribute_internal at hget
      rw [if_pos rfl] at hget
      simpa using hget
    have hmax : obj1.members.frequency_max = obj.members.frequency_max := by
      rw [FilterbankObject.setAttribute_frequency_min] at hi
      split_ifs at hi with hcond
      generalize hr : FilterbankObject.onAttributeChange _ false = r at hi
      cases r with
      | thrown e1 s => cases hi
      | undefined => cases hi
      | ok s =>
        simp only [Outcome.ok.injEq] at hi
        subst hi
        obtain ⟨_, m, hm, rfl⟩ := FilterbankObject.onAttributeChange_plain_ok _ _ hr
        exact (FilterbankObject.init_keeps_attributes _ _ hm).2.1
    refine ⟨hv, by rw [hc1.limit_min_eq, hv], hmax, ?_⟩
    intro w hw
    apply FilterbankObject.setAttribute_of_internal
    · rw [FilterbankObject.setAttribute_frequency_max, if_pos]
      left
      rw [hc1.limit_min_eq, hv]
      exact hw
    · intro s hs'
      cases hs'
  · intro v hv
    apply FilterbankObject.setAttribute_of_internal
    · rw [FilterbankObject.setAttribute_frequency_min, if_pos]
      right
      rw [hc.limit_max_eq]
      exact hv
    · intro s hs'
      cases hs'

namespace FilterbankObject

theorem scenario_reference :
    (Wavelet.init (MorletWavelet.members 100)).family = Family.Morlet ∧
      (Wavelet.init (MorletWavelet.members 100)).omega0 = 5 ∧
      (Wavelet.init (MorletWavelet.members 100)).samplerate = 100 := by
  refine ⟨?_, ?_, ?_⟩
  · rw [Wavelet.init_family]; rfl
  · rw [Wavelet.init_omega0]; rfl
  · rw [Wavelet.init_samplerate]; rfl

/-- On the filterbank of the test, `setAttribute("frequency_min", 10.f)`
returns. -/
theorem scenario_set_frequency_min (obj : FilterbankObject)
    (h : scenarioBank.init = some obj.members) (hl : obj.frequency_min_limit_max = 30) :
    ∃ obj1, obj.setAttribute "frequency_min" (AnyValue.float 10) = Outcome.ok obj1 := by
  open woma.Filterbank in
    have indices_100_10_30 : ∀ (fb : Filterbank)
        (hf : fb.reference_wavelet_.family = Family.Morlet) (ho : fb.reference_wavelet_.omega0 = 5)
        (hsr : fb.reference_wavelet_.samplerate = 100) (hmin : fb.frequency_min = 10)
        (hmax : fb.frequency_max = 30) (hb : fb.bands_per_octave = 4),
        fb.min_index = 2 ∧ fb.max_index = 9 := by
      intro fb hf ho hsr hmin hmax hb
      obtain ⟨r1, r2⟩ := fb.morlet_scale_ratios hf ho (by rw [hsr]; norm_num)
        (by rw [hmin]; norm_num) (by rw [hmax]; norm_num)
      have hb4 : fb.bands_per_octave = ((4 : ℕ) : ℝ) := by rw [hb]; norm_num
      unfold min_index max_index
      rw [r1, r2, hsr, hmin, hmax]
      constructor
      · obtain ⟨a1, a2⟩ := ratio_bounds 100 30 1.34 1.36 (by norm_num) (by norm_num) (by norm_num)
          (by norm_num) (by norm_num) (by norm_num)
        rw [index_of_pow_bounds _ 1.34 1.36 _ 4 1 hb4 (by norm_num) a1 a2 (by norm_num)
          (by norm_num)]
        norm_num
      · obtain ⟨a1, a2⟩ := ratio_bounds 100 10 4.04 4.07 (by norm_num) (by norm_num) (by norm_num)
          (by norm_num) (by norm_num) (by norm_num)
        rw [index_of_pow_bounds _ 4.04 4.07 _ 4 8 hb4 (by norm_num) a1 a2 (by norm_num)
          (by norm_num)]
        norm_num
  obtain ⟨f1, f2, f3, f4, f5, f6⟩ := scenario_object_fields obj h
  obtain ⟨w1, w2, w3⟩ := scenario_reference
  have hidx := indices_100_10_30 { obj.members with frequency_min := 10 }
    (by show obj.members.reference_wavelet_.family = _; rw [f6]; exact w1)
    (by show obj.members.reference_wavelet_.omega0 = _; rw [f6]; exact w2)
    (by show obj.members.reference_wavelet_.samplerate = _; rw [f6]; exact w3)
    rfl f2 f3
  obtain ⟨m, hm, hok⟩ := onAttributeChange_plain_isOk
    { obj with members := { obj.members with frequency_min := 10 } }
    (by show 0 < obj.members.reference_wavelet_.samplerate; rw [f6, w3]; norm_num)
    (by show (0 : ℝ) < 10; norm_num)
    (by show (10 : ℝ) ≤ obj.members.frequency_max; rw [f2]; norm_num)
    (by show 0 ≤ obj.members.bands_per_octave; rw [f3]; norm_num)
    (by show obj.members.family = obj.members.reference_wavelet_.family; rw [f5, f6, w1])
    (by intro _; rw [hidx.1, hidx.2]; norm_num)
  have hint : ∃ o, obj.setAttribute_internal "frequency_min" (AnyValue.float 10) =
      Outcome.ok o := by
    rw [setAttribute_frequency_min, if_neg (by rw [hl]; norm_num), hok]
    exact ⟨_, rfl⟩
  obtain ⟨o, ho⟩ := hint
  exact ⟨o, (setAttribute_ok_iff obj o _ _).mpr ho⟩

end FilterbankObject

theorem coupled_bounds_witness :
    ∃ obj obj1, FilterbankObject.construct 100 1 30 4 = Construction.built obj ∧
      obj.setAttribute "frequency_min" (AnyValue.float 10) = Outcome.ok obj1 ∧
      obj1.frequency_max_limit_min = 10 ∧
      obj1.setAttribute "frequency_max" (AnyValue.float 5) =
        Outcome.thrown Failure.domain_error obj1 ∧
      obj1.members.frequency_max = 30 ∧
      obj.setAttribute "frequency_min" (AnyValue.float 31) =
        Outcome.thrown Failure.domain_error obj := by
  obtain ⟨obj, hc, _, hinit, hl, _⟩ := FilterbankObject.scenario_construct
  obtain ⟨obj1, h1⟩ := FilterbankObject.scenario_set_frequency_min obj hinit hl
  have hmax : obj.members.frequency_max = 30 :=
    (FilterbankObject.scenario_object_fields obj hinit).2.1
  obtain ⟨_, _, q1, q2⟩ :=
    coupled_bounds obj (FilterbankObject.Reachable.construct 100 1 30 4 obj hc)
  obtain ⟨_, p2, p3, p4⟩ := q1 10 obj1 h1
  exact ⟨obj, obj1, hc, h1, p2, p4 5 (by norm_num), by rw [p3, hmax],
    q2 31 (by rw [hmax]; norm_num)⟩

namespace FilterbankObject

theorem wavelet_set_samplerate (w : Wavelet) (x : ℝ) (hx : 0 ≤ x) :
    w.setAttribute_internal "samplerate" (AnyValue.float x) =
      Outcome.ok (Wavelet.init { w with samplerate := x }) := by
  rw [Wavelet.setAttribute_internal_of_base _ _ _ (Or.inl rfl)]
  unfold Wavelet.setAttribute_base
  rw [if_pos rfl]
  simp only
  rw [if_neg (not_lt.mpr hx)]

end FilterbankObject

/-- C17. The Nyquist bound is lost by a change of the sample rate:
`Filterbank(100, 1, 30, 4)` is constructed, `setAttribute("samplerate", 40.f)`
returns and leaves the sample rate 40, the upper limit of `frequency_max` at
`40 / 2 = 20` and `frequency_max = 30`, above half the sample rate, with the
19 bands `init` enumerates for these values; whereas the constructor refuses a
maximum frequency above half the sample rate with `domain_error`
(`Filterbank(100, 1, 60, 4)`). -/
theorem nyquist_bound_lost :
    ∃ obj obj1, FilterbankObject.construct 100 1 30 4 = Construction.built obj ∧
      obj.setAttribute "samplerate" (AnyValue.float 40) = Outcome.ok obj1 ∧
      obj1.members.reference_wavelet_.samplerate = 40 ∧
      obj1.frequency_max_limit_max = 40 / 2 ∧ obj1.members.frequency_max = 30 ∧
      obj1.members.size = 19 ∧
      ¬ (obj1.members.frequency_max ≤ obj1.members.reference_wavelet_.samplerate / 2) ∧
      FilterbankObject.construct 100 1 60 4 = Construction.failed Failure.domain_error := by
  open woma.FilterbankObject in
    have scenario_set_samplerate : ∀ (obj : FilterbankObject)
        (h : scenarioBank.init = some obj.members),
        ∃ obj1, obj.setAttribute "samplerate" (AnyValue.float 40) = Outcome.ok obj1 ∧
          obj1.members.reference_wavelet_.samplerate = 40 ∧
          obj1.frequency_max_limit_max = 40 / 2 ∧ obj1.members.frequency_max = 30 ∧
          obj1.members.size = 19 := by
      intro obj h
      open woma.Filterbank in
        have indices_40_1_30 : ∀ (fb : Filterbank)
            (hf : fb.reference_wavelet_.family = Family.Morlet) (ho : fb.reference_wavelet_.omega0 = 5)
            (hsr : fb.reference_wavelet_.samplerate = 40) (hmin : fb.frequency_min = 1)
            (hmax : fb.frequency_max = 30) (hb : fb.bands_per_octave = 4),
            fb.min_index = -2 ∧ fb.max_index = 17 := by
          intro fb hf ho hsr hmin hmax hb
          obtain ⟨r1, r2⟩ := fb.morlet_scale_ratios hf ho (by rw [hsr]; norm_num)
            (by rw [hmin]; norm_num) (by rw [hmax]; norm_num)
          have hb4 : fb.bands_per_octave = ((4 : ℕ) : ℝ) := by rw [hb]; norm_num
          unfold min_index max_index
          rw [r1, r2, hsr, hmin, hmax]
          constructor
          · obtain ⟨a1, a2⟩ := ratio_bounds 40 30 0.539 0.542 (by norm_num) (by norm_num)
              (by norm_num) (by norm_num) (by norm_num) (by norm_num)
            rw [index_of_pow_bounds_neg _ 0.539 0.542 _ 4 3 hb4 (by norm_num) a1 a2 (by norm_num)
              (by norm_num)]
            norm_num
          · obtain ⟨a1, a2⟩ := ratio_bounds 40 1 16.17 16.25 (by norm_num) (by norm_num)
              (by norm_num) (by norm_num) (by norm_num) (by norm_num)
            rw [index_of_pow_bounds _ 16.17 16.25 _ 4 16 hb4 (by norm_num) a1 a2 (by norm_num)
              (by norm_num)]
            norm_num
      obtain ⟨f1, f2, f3, f4, f5, f6⟩ := scenario_object_fields obj h
      obtain ⟨w1, w2, w3⟩ := scenario_reference
      have hset := wavelet_set_samplerate obj.members.reference_wavelet_ 40 (by norm_num)
      generalize hw : Wavelet.init { obj.members.reference_wavelet_ with samplerate := 40 } = w
        at hset
      have g1 : w.family = Family.Morlet := by
        rw [← hw, Wavelet.init_family]
        show obj.members.reference_wavelet_.family = _
        rw [f6]; exact w1
      have g2 : w.omega0 = 5 := by
        rw [← hw, Wavelet.init_omega0]
        show obj.members.reference_wavelet_.omega0 = _
        rw [f6]; exact w2
      have g3 : w.samplerate = 40 := by
        rw [← hw, Wavelet.init_samplerate]
      have hidx := indices_40_1_30 { obj.members with reference_wavelet_ := w }
        g1 g2 g3 f1 f2 f3
      obtain ⟨m, hm, hok⟩ := onAttributeChange_plain_isOk
        { obj with
          members := { obj.members with reference_wavelet_ := w }
          frequency_max_limit_max := 40 / 2 }
        (by show 0 < w.samplerate; rw [g3]; norm_num)
        (by show 0 < obj.members.frequency_min; rw [f1]; norm_num)
        (by show obj.members.frequency_min ≤ obj.members.frequency_max; rw [f1, f2]; norm_num)
        (by show 0 ≤ obj.members.bands_per_octave; rw [f3]; norm_num)
        (by show obj.members.family = w.family; rw [f5, g1])
        (by intro _; rw [hidx.1, hidx.2]; norm_num)
      have hint : obj.setAttribute_internal "samplerate" (AnyValue.float 40) =
          Outcome.ok
            { members := m, frequency_min_limit_max := obj.frequency_min_limit_max,
              frequency_max_limit_min := obj.frequency_max_limit_min,
              frequency_max_limit_max := 40 / 2 } := by
        rw [setAttribute_reference obj _ _ (by decide) (by decide) (by decide) (by decide)
          (by decide) (by decide) (by decide) (by decide), hset]
        simp only [if_true]
        exact hok
      obtain ⟨e1, e2, e3, e4, e5, e6, e7⟩ := init_keeps_attributes _ _ hm
      refine ⟨_, (setAttribute_ok_iff obj _ _ _).mpr hint, ?_, rfl, ?_, ?_⟩
      · show m.reference_wavelet_.samplerate = 40
        rw [e7]; exact g3
      · show m.frequency_max = 30
        rw [e2]; exact f2
      · show m.size = 19
        rw [Filterbank.init_size _ _ hm]
        unfold Filterbank.bandCount
        rw [hidx.1, hidx.2]
        rfl
  obtain ⟨obj, hc, _, hinit, _⟩ := FilterbankObject.scenario_construct
  obtain ⟨obj1, h1, h2, h3, h4, h5⟩ := scenario_set_samplerate obj hinit
  refine ⟨obj, obj1, hc, h1, h2, h3, h4, h5, by rw [h2, h4]; norm_num, ?_⟩
  unfold FilterbankObject.construct
  rw [FilterbankObject.checkLimits_none_of_mem _ _ _ (by norm_num) (by norm_num),
    FilterbankObject.checkLimits_some_of_not_mem _ _ _ (Or.inr (by norm_num))]

/-- C18. Setter atomicity: in every state of a filterbank (reached from a
constructor call through `setAttribute`, `reset` and `update`), a call of
`setAttribute` that throws, whatever the exception (a value outside the limits,
a name that is unknown or not shared, a value of another type), leaves the
object as it was: the attribute values and limits, the reference wavelet, the
scales, frequencies, factors, kernels, buffers, filters, results and the frame
counter are those before the call. -/
theorem setter_atomicity (obj obj1 : FilterbankObject) (name : String) (v : AnyValue)
    (e : Failure) (h : obj.Reachable)
    (hs : obj.setAttribute name v = Outcome.thrown e obj1) : obj1 = obj :=
  FilterbankObject.setAttribute_thrown_eq obj obj1 name v e
    (FilterbankObject.reachable_consistent obj h).samplerate_pos hs

theorem setter_atomicity_witness :
    ∃ obj, FilterbankObject.construct 100 1 30 4 = Construction.built obj ∧
      obj.setAttribute "frequency_max" (AnyValue.float 60) =
        Outcome.thrown Failure.domain_error obj ∧
      obj.setAttribute "frequency_max" (AnyValue.size_t 20) =
        Outcome.thrown Failure.runtime_error obj ∧
      obj.setAttribute "window_size" (AnyValue.size_t 20) =
        Outcome.thrown Failure.runtime_error obj := by
  obtain ⟨obj, hc, _, hinit, _, _, hl⟩ := FilterbankObject.scenario_construct
  have hreach := FilterbankObject.Reachable.construct 100 1 30 4 obj hc
  have h1 : ∃ o, obj.setAttribute "frequency_max" (AnyValue.float 60) =
      Outcome.thrown Failure.domain_error o := by
    refine ⟨obj, FilterbankObject.setAttribute_of_internal obj _ _ _ ?_
      (by intro s hs; cases hs)⟩
    rw [FilterbankObject.setAttribute_frequency_max, if_pos (Or.inr (by rw [hl]; norm_num))]
  have h2 : ∃ o, obj.setAttribute "frequency_max" (AnyValue.size_t 20) =
      Outcome.thrown Failure.runtime_error o := by
    refine ⟨obj, ?_⟩
    unfold FilterbankObject.setAttribute
    rw [FilterbankObject.setAttribute_wrong_kind obj _ _
      (Or.inl ⟨Or.inr (Or.inl rfl), by decide⟩)]
  have h3 : ∃ o, obj.setAttribute "window_size" (AnyValue.size_t 20) =
      Outcome.thrown Failure.runtime_error o := by
    refine ⟨obj, ?_⟩
    unfold FilterbankObject.setAttribute FilterbankObject.setAttribute_internal
    simp
  obtain ⟨o1, g1⟩ := h1
  obtain ⟨o2, g2⟩ := h2
  obtain ⟨o3, g3⟩ := h3
  have e1 := setter_atomicity obj o1 _ _ _ hreach g1
  have e2 := setter_atomicity obj o2 _ _ _ hreach g2
  have e3 := setter_atomicity obj o3 _ _ _ hreach g3
  rw [e1] at g1
  rw [e2] at g2
  rw [e3] at g3
  exact ⟨obj, hc, g1, g2, g3⟩

namespace FilterbankObject

/-- On the filterbank of the test, `setAttribute("samplerate", 200.f)`
returns. -/
theorem scenario_set_samplerate_200 (obj : FilterbankObject)
    (h : scenarioBank.init = some obj.members) :
    ∃ obj1, obj.setAttribute "samplerate" (AnyValue.float 200) = Outcome.ok obj1 := by
  open woma.Filterbank in
    have indices_200_1_30 : ∀ (fb : Filterbank)
        (hf : fb.reference_wavelet_.family = Family.Morlet) (ho : fb.reference_wavelet_.omega0 = 5)
        (hsr : fb.reference_wavelet_.samplerate = 200) (hmin : fb.frequency_min = 1)
        (hmax : fb.frequency_max = 30) (hb : fb.bands_per_octave = 4),
        fb.min_index = 6 ∧ fb.max_index = 26 := by
      intro fb hf ho hsr hmin hmax hb
      obtain ⟨r1, r2⟩ := fb.morlet_scale_ratios hf ho (by rw [hsr]; norm_num)
        (by rw [hmin]; norm_num) (by rw [hmax]; norm_num)
      have hb4 : fb.bands_per_octave = ((4 : ℕ) : ℝ) := by rw [hb]; norm_num
      unfold min_index max_index
      rw [r1, r2, hsr, hmin, hmax]
      constructor
      · obtain ⟨a1, a2⟩ := ratio_bounds 200 30 2.69 2.71 (by norm_num) (by norm_num)
          (by norm_num) (by norm_num) (by norm_num) (by norm_num)
        rw [index_of_pow_bounds _ 2.69 2.71 _ 4 5 hb4 (by norm_num) a1 a2 (by norm_num)
          (by norm_num)]
        norm_num
      · obtain ⟨a1, a2⟩ := ratio_bounds 200 1 80.8 81.3 (by norm_num) (by norm_num)
          (by norm_num) (by norm_num) (by norm_num) (by norm_num)
        rw [index_of_pow_bounds _ 80.8 81.3 _ 4 25 hb4 (by norm_num) a1 a2 (by norm_num)
          (by norm_num)]
        norm_num
  obtain ⟨f1, f2, f3, f4, f5, f6⟩ := scenario_object_fields obj h
  obtain ⟨w1, w2, w3⟩ := scenario_reference
  have hset := wavelet_set_samplerate obj.members.reference_wavelet_ 200 (by norm_num)
  generalize hw : Wavelet.init { obj.members.reference_wavelet_ with samplerate := 200 } = w
    at hset
  have g1 : w.family = Family.Morlet := by
    rw [← hw, Wavelet.init_family]
    show obj.members.reference_wavelet_.family = _
    rw [f6]; exact w1
  have g2 : w.omega0 = 5 := by
    rw [← hw, Wavelet.init_omega0]
    show obj.members.reference_wavelet_.omega0 = _
    rw [f6]; exact w2
  have g3 : w.samplerate = 200 := by
    rw [← hw, Wavelet.init_samplerate]
  have hidx := indices_200_1_30 { obj.members with reference_wavelet_ := w }
    g1 g2 g3 f1 f2 f3
  obtain ⟨m, hm, hok⟩ := onAttributeChange_plain_isOk
    { obj with
      members := { obj.members with reference_wavelet_ := w }
      frequency_max_limit_max := 200 / 2 }
    (by show 0 < w.samplerate; rw [g3]; norm_num)
    (by show 0 < obj.members.frequency_min; rw [f1]; norm_num)
    (by show obj.members.frequency_min ≤ obj.members.frequency_max; rw [f1, f2]; norm_num)
    (by show 0 ≤ obj.members.bands_per_octave; rw [f3]; norm_num)
    (by show obj.members.family = w.family; rw [f5, g1])
    (by intro _; rw [hidx.1, hidx.2]; norm_num)
  have hint : obj.setAttribute_internal "samplerate" (AnyValue.float 200) =
      Outcome.ok
        { members := m, frequency_min_limit_max := obj.frequency_min_limit_max,
          frequency_max_limit_min := obj.frequency_max_limit_min,
          frequency_max_limit_max := 200 / 2 } := by
    rw [setAttribute_reference obj _ _ (by decide) (by decide) (by decide) (by decide)
      (by decide) (by decide) (by decide) (by decide), hset]
    simp only [if_true]
    exact hok
  exact ⟨_, (setAttribute_ok_iff obj _ _ _).mpr hint⟩

theorem getAttribute_of_internal (obj : FilterbankObject) (name : String) (v : AnyValue)
    (h : obj.getAttribute_internal name = Except.ok v) :
    obj.getAttribute name v.kind = Except.ok v := by
  unfold getAttribute
  rw [h]
  simp

end FilterbankObject

/-- C19. Set/get round trip: on every filterbank object and for each of the
attributes `samplerate`, `frequency_min`, `frequency_max`, `bands_per_octave`,
`delay`, `padding`, `omega0`, `family`, `optimisation` and `rescale`, when
`setAttribute(name, v)` returns, `getAttribute<T>(name)` with `T` the type of
`v` returns `v`. -/
theorem set_get_round_trip (obj obj1 : FilterbankObject) (name : String) (v : AnyValue)
    (hn : name ∈ ["samplerate", "frequency_min", "frequency_max", "bands_per_octave", "delay",
      "padding", "omega0", "family", "optimisation", "rescale"])
    (h : obj.setAttribute name v = Outcome.ok obj1) :
    obj1.getAttribute name v.kind = Except.ok v := by
  have hno : name ≠ "order" := by
    intro he
    rw [he] at hn
    revert hn
    decide
  exact FilterbankObject.getAttribute_of_internal obj1 name v
    ((FilterbankObject.setAttribute_internal_ok obj obj1 name v
      ((FilterbankObject.setAttribute_ok_iff obj obj1 name v).mp h)).1 hno)

theorem set_get_round_trip_witness :
    ∃ obj obj1 obj2, FilterbankObject.construct 100 1 30 4 = Construction.built obj ∧
      obj.setAttribute "samplerate" (AnyValue.float 200) = Outcome.ok obj1 ∧
      obj1.getAttribute "samplerate" AnyKind.float = Except.ok (AnyValue.float 200) ∧
      obj.setAttribute "frequency_min" (AnyValue.float 10) = Outcome.ok obj2 ∧
      obj2.getAttribute "frequency_min" AnyKind.float = Except.ok (AnyValue.float 10) := by
  obtain ⟨obj, hc, _, hinit, hl, _⟩ := FilterbankObject.scenario_construct
  obtain ⟨obj1, h1⟩ := FilterbankObject.scenario_set_samplerate_200 obj hinit
  obtain ⟨obj2, h2⟩ := FilterbankObject.scenario_set_frequency_min obj hinit hl
  exact ⟨obj, obj1, obj2, hc, h1,
    set_get_round_trip obj obj1 "samplerate" (AnyValue.float 200) (by decide) h1, h2,
    set_get_round_trip obj obj2 "frequency_min" (AnyValue.float 10) (by decide) h2⟩

namespace FilterbankObject

theorem not_shared_attribute (obj : FilterbankObject) (name : String)
    (hn : name = "window_size" ∨ name = "scale") :
    (∀ (T : AnyKind), obj.getAttribute name T = Except.error Failure.runtime_error) ∧
      ∀ (v : AnyValue), obj.setAttribute name v = Outcome.thrown Failure.runtime_error obj := by
  constructor
  · intro T
    unfold getAttribute getAttribute_internal
    rcases hn with h | h <;> subst h <;> simp
  · intro v
    unfold setAttribute setAttribute_internal
    rcases hn with h | h <;> subst h <;> simp

theorem unknown_name (obj : FilterbankObject) (name : String)
    (hn : name ∉ ["frequency_min", "frequency_max", "bands_per_octave", "family",
      "optimisation", "rescale", "scale", "window_size", "samplerate", "mode", "delay",
      "padding"])
    (hm : obj.members.reference_wavelet_.family = Family.Morlet → name ≠ "omega0")
    (hp : obj.members.reference_wavelet_.family = Family.Paul → name ≠ "order") :
    (∀ (T : AnyKind), obj.getAttribute name T = Except.error Failure.out_of_range) ∧
      ∀ (v : AnyValue), obj.setAttribute name v = Outcome.thrown Failure.out_of_range obj := by
  simp only [List.mem_cons, List.mem_singleton, List.mem_nil_iff, or_false, not_or] at hn
  obtain ⟨n1, n2, n3, n4, n5, n6, n7, n8, n9, n10, n11, n12⟩ := hn
  have hget : obj.members.reference_wavelet_.getAttribute_internal name =
      Except.error Failure.out_of_range := by
    unfold Wavelet.getAttribute_internal
    rw [if_neg n9, if_neg n7, if_neg n8, if_neg n10, if_neg n11, if_neg n12]
    cases hf : obj.members.reference_wavelet_.family with
    | Morlet => simp only; rw [if_neg (hm hf)]
    | Paul => simp only; rw [if_neg (hp hf)]
  have hset : ∀ v, obj.members.reference_wavelet_.setAttribute_internal name v =
      Outcome.thrown Failure.out_of_range obj.members.reference_wavelet_ := by
    intro v
    rw [Wavelet.setAttribute_internal_of_other _ _ _ n9 n7 n8 n10 n11 n12]
    unfold Wavelet.setAttribute_family
    cases hf : obj.members.reference_wavelet_.family with
    | Morlet => simp only; rw [if_neg (hm hf)]
    | Paul => simp only; rw [if_neg (hp hf)]
  constructor
  · intro T
    unfold getAttribute getAttribute_internal
    rw [if_neg n1, if_neg n2, if_neg n3, if_neg n5, if_neg n4, if_neg n6, if_pos ⟨n7, n8⟩,
      hget]
  · intro v
    apply setAttribute_of_internal
    · rw [setAttribute_reference obj name v n1 n2 n3 n4 n5 n6 n7 n8, hset v]
    · intro s hs
      cases hs

theorem get_omega0 (obj : FilterbankObject)
    (hf : obj.members.reference_wavelet_.family = Family.Morlet) :
    obj.getAttribute "omega0" AnyKind.float =
      Except.ok (AnyValue.float obj.members.reference_wavelet_.omega0) := by
  apply getAttribute_of_internal obj "omega0" (AnyValue.float _)
  unfold getAttribute_internal Wavelet.getAttribute_internal
  rw [hf]
  simp

end FilterbankObject

/-- C20. Unknown attribute: on every filterbank object, `getAttribute` and
`setAttribute` with the name `window_size` or `scale` throw (`runtime_error`),
the latter leaving the object as it was; with a name that is neither an
attribute of the filterbank nor one of the reference wavelet of its family
(`order` with a Morlet wavelet, `omega0` with a Paul wavelet, an unrecognised
string) both throw `out_of_range`, `setAttribute` leaving the object as it
was; and `getAttribute<float>("omega0")` with a Morlet reference wavelet
returns the value of `omega0`. -/
theorem unknown_attribute (obj : FilterbankObject) :
    (∀ (name : String), name = "window_size" ∨ name = "scale" →
      (∀ (T : AnyKind), obj.getAttribute name T = Except.error Failure.runtime_error) ∧
        ∀ (v : AnyValue),
          obj.setAttribute name v = Outcome.thrown Failure.runtime_error obj) ∧
      (∀ (name : String),
        name ∉ ["frequency_min", "frequency_max", "bands_per_octave", "family",
          "optimisation", "rescale", "scale", "window_size", "samplerate", "mode", "delay",
          "padding"] →
        (obj.members.reference_wavelet_.family = Family.Morlet → name ≠ "omega0") →
        (obj.members.reference_wavelet_.family = Family.Paul → name ≠ "order") →
        (∀ (T : AnyKind), obj.getAttribute name T = Except.error Failure.out_of_range) ∧
          ∀ (v : AnyValue),
            obj.setAttribute name v = Outcome.thrown Failure.out_of_range obj) ∧
      (obj.members.reference_wavelet_.family = Family.Morlet →
        obj.getAttribute "omega0" AnyKind.float =
          Except.ok (AnyValue.float obj.members.reference_wavelet_.omega0)) :=
  ⟨fun name hn => FilterbankObject.not_shared_attribute obj name hn,
    fun name hn hm hp => FilterbankObject.unknown_name obj name hn hm hp,
    fun hf => FilterbankObject.get_omega0 obj hf⟩

theorem unknown_attribute_witness :
    ∃ obj, FilterbankObject.construct 100 1 30 4 = Construction.built obj ∧
      obj.getAttribute "window_size" AnyKind.size_t = Except.error Failure.runtime_error ∧
      obj.setAttribute "scale" (AnyValue.double 1) =
        Outcome.thrown Failure.runtime_error obj ∧
      obj.getAttribute "order" AnyKind.unsigned = Except.error Failure.out_of_range ∧
      obj.setAttribute "order" (AnyValue.float 3) =
        Outcome.thrown Failure.out_of_range obj ∧
      obj.getAttribute "cutoff" AnyKind.float = Except.error Failure.out_of_range ∧
      obj.getAttribute "omega0" AnyKind.float = Except.ok (AnyValue.float 5) := by
  obtain ⟨obj, hc, _, hinit, _⟩ := FilterbankObject.scenario_construct
  obtain ⟨_, _, _, _, _, f6⟩ := FilterbankObject.scenario_object_fields obj hinit
  obtain ⟨w1, w2, _⟩ := FilterbankObject.scenario_reference
  have hf : obj.members.reference_wavelet_.family = Family.Morlet := by rw [f6]; exact w1
  have ho : obj.members.reference_wavelet_.omega0 = 5 := by rw [f6]; exact w2
  have hP : ¬ obj.members.reference_wavelet_.family = Family.Paul := by rw [hf]; decide
  obtain ⟨q1, q2, q3⟩ := unknown_attribute obj
  have a := q2 "order" (by decide) (fun _ => by decide) (fun h => absurd h hP)
  have b := q2 "cutoff" (by decide) (fun _ => by decide) (fun _ => by decide)
  have c := q3 hf
  rw [ho] at c
  exact ⟨obj, hc, (q1 "window_size" (Or.inl rfl)).1 _, (q1 "scale" (Or.inr rfl)).2 _,
    a.1 _, a.2 _, b.1 _, c⟩

namespace Filterbank

theorem paul_indices_100_1_30 (fb : Filterbank)
    (hf : fb.reference_wavelet_.family = Family.Paul) (ho : fb.reference_wavelet_.order = 2)
    (hsr : fb.reference_wavelet_.samplerate = 100) (hmin : fb.frequency_min = 1)
    (hmax : fb.frequency_max = 30) (hb : fb.bands_per_octave = 4) :
    fb.min_index = -1 ∧ fb.max_index = 18 := by
  have paul_scale_ratios : ∀ (fb : Filterbank)
      (hf : fb.reference_wavelet_.family = Family.Paul) (ho : fb.reference_wavelet_.order = 2)
      (hsr : fb.reference_wavelet_.samplerate ≠ 0) (hmin : fb.frequency_min ≠ 0)
      (hmax : fb.frequency_max ≠ 0),
      fb.min_scale / fb.scale_0 =
          5 * fb.reference_wavelet_.samplerate / (8 * Real.pi * fb.frequency_max) ∧
        fb.max_scale / fb.scale_0 =
          5 * fb.reference_wavelet_.samplerate / (8 * Real.pi * fb.frequency_min) := by
    intro fb hf ho hsr hmin hmax
    have hpi := Real.pi_ne_zero
    have h5 : (((2 * 2 + 1) % 2 ^ 32 : ℕ) : ℝ) = 5 := by norm_num
    unfold min_scale max_scale scale_0 Wavelet.frequency2scale
    rw [hf]
    simp only [PaulWavelet.frequency2scale]
    rw [ho, h5]
    constructor
    · field_simp
      ring
    · field_simp
      ring
  have paul_ratio_bounds : ∀ (sr f lo hi : ℝ) (hf : 0 < f)
      (h1 : lo * (8 * 3.15 * f) ≤ 5 * sr) (h2 : 5 * sr ≤ hi * (8 * 3.14 * f))
      (hlo : 0 ≤ lo) (hhi : 0 ≤ hi),
      lo ≤ 5 * sr / (8 * Real.pi * f) ∧ 5 * sr / (8 * Real.pi * f) ≤ hi := by
    intro sr f lo hi hf h1 h2 hlo hhi
    have hp1 := Real.pi_gt_d2
    have hp2 := Real.pi_lt_d2
    have hpos : (0 : ℝ) < 8 * Real.pi * f := by positivity
    constructor
    · rw [le_div_iff₀ hpos]
      have a1 : lo * (8 * Real.pi * f) ≤ lo * (8 * 3.15 * f) := by
        apply mul_le_mul_of_nonneg_left _ hlo
        nlinarith
      linarith
    · rw [div_le_iff₀ hpos]
      have a1 : hi * (8 * 3.14 * f) ≤ hi * (8 * Real.pi * f) := by
        apply mul_le_mul_of_nonneg_left _ hhi
        nlinarith
      linarith
  obtain ⟨r1, r2⟩ := paul_scale_ratios fb hf ho (by rw [hsr]; norm_num)
    (by rw [hmin]; norm_num) (by rw [hmax]; norm_num)
  have hb4 : fb.bands_per_octave = ((4 : ℕ) : ℝ) := by rw [hb]; norm_num
  unfold min_index max_index
  rw [r1, r2, hsr, hmin, hmax]
  constructor
  · obtain ⟨a1, a2⟩ := paul_ratio_bounds 100 30 0.66 0.665 (by norm_num) (by norm_num)
      (by norm_num) (by norm_num) (by norm_num)
    rw [index_of_pow_bounds_neg _ 0.66 0.665 _ 4 2 hb4 (by norm_num) a1 a2 (by norm_num)
      (by norm_num)]
    norm_num
  · obtain ⟨a1, a2⟩ := paul_ratio_bounds 100 1 19.8 19.95 (by norm_num) (by norm_num)
      (by norm_num) (by norm_num) (by norm_num)
    rw [index_of_pow_bounds _ 19.8 19.95 _ 4 17 hb4 (by norm_num) a1 a2 (by norm_num)
      (by norm_num)]
    norm_num

end Filterbank

namespace FilterbankObject

theorem onAttributeChange_paul (obj : FilterbankObject)
    (hf : obj.members.family = Family.Paul)
    (hsr : 0 < obj.members.reference_wavelet_.samplerate) :
    onAttributeChange obj true =
      match Filterbank.init { obj.members with
          reference_wavelet_ :=
            Wavelet.init (PaulWavelet.members obj.members.reference_wavelet_.samplerate) } with
      | some m => Outcome.ok { obj with members := m }
      | none => Outcome.undefined := by
  have hc : ¬ (obj.members.reference_wavelet_.samplerate < 0 ∨
      obj.members.reference_wavelet_.samplerate = 0) := by
    push_neg
    exact ⟨hsr.le, hsr.ne'⟩
  unfold onAttributeChange
  simp only [if_true, hf, PaulWavelet.create, if_neg hc]
  rw [if_neg (by simp [PaulWavelet.members]; exact hsr.ne')]

end FilterbankObject

namespace FilterbankObject

theorem wavelet_set_order (w : Wavelet) (hf : w.family = Family.Paul) (v : AnyValue) :
    w.setAttribute_internal "order" v =
      match v with
      | AnyValue.float x =>
        if x ≤ -1 ∨ (2 : ℝ) ^ 32 ≤ x then Outcome.undefined
        else if truncToNat x < 1 then Outcome.thrown Failure.domain_error w
        else Outcome.ok (Wavelet.init { w with order := truncToNat x })
      | _ => Outcome.thrown Failure.bad_any_cast w := by
  rw [Wavelet.setAttribute_internal_of_other _ _ _ (by decide) (by decide) (by decide)
    (by decide) (by decide) (by decide)]
  unfold Wavelet.setAttribute_family
  rw [hf]
  simp only [if_true]

end FilterbankObject

/-- C21. The setter of `order` does not accept the type the getter returns:
on the Paul filterbank obtained from `Filterbank(100, 1, 30, 4)` by
`setAttribute("family", Family::Paul)`, `getAttribute<unsigned int>("order")`
returns the default order 2, and `setAttribute("order", m)` with an
`unsigned int` value `m` throws `runtime_error` for every `m` and leaves the
object as it was, because `PaulWavelet::setAttribute_internal` casts the value
to `float`; the reference wavelet accepts the `float` value 3 and then reports
the order 3 as an `unsigned int`, and the `float` value 0 is refused with
`domain_error`. -/
theorem order_setter_kind :
    ∃ obj obj1, FilterbankObject.construct 100 1 30 4 = Construction.built obj ∧
      obj.setAttribute "family" (AnyValue.family Family.Paul) = Outcome.ok obj1 ∧
      obj1.members.family = Family.Paul ∧
      obj1.getAttribute "order" AnyKind.unsigned = Except.ok (AnyValue.unsigned 2) ∧
      (∀ (m : ℕ), obj1.setAttribute "order" (AnyValue.unsigned m) =
        Outcome.thrown Failure.runtime_error obj1) ∧
      (∃ w1, obj1.members.reference_wavelet_.setAttribute_internal "order"
          (AnyValue.float 3) = Outcome.ok w1 ∧
        w1.getAttribute_internal "order" = Except.ok (AnyValue.unsigned 3)) ∧
      obj1.setAttribute "order" (AnyValue.float 0) =
        Outcome.thrown Failure.domain_error obj1 := by
  open woma.FilterbankObject in
    have scenario_set_paul : ∀ (obj : FilterbankObject)
        (h : scenarioBank.init = some obj.members),
        ∃ obj1, obj.setAttribute "family" (AnyValue.family Family.Paul) = Outcome.ok obj1 ∧
          obj1.members.family = Family.Paul ∧
          obj1.members.reference_wavelet_ = Wavelet.init (PaulWavelet.members 100) ∧
          obj1.members.size = 19 := by
      intro obj h
      obtain ⟨f1, f2, f3, f4, f5, f6⟩ := scenario_object_fields obj h
      obtain ⟨w1, w2, w3⟩ := scenario_reference
      have hsr : obj.members.reference_wavelet_.samplerate = 100 := by rw [f6]; exact w3
      have hidx := Filterbank.paul_indices_100_1_30
        { obj.members with
          family := Family.Paul
          reference_wavelet_ := Wavelet.init (PaulWavelet.members 100) }
        (by simp [PaulWavelet.members]) (by simp [PaulWavelet.members, PaulWavelet.DEFAULT_ORDER])
        (by simp [PaulWavelet.members]) f1 f2 f3
      obtain ⟨m, hm⟩ := Filterbank.init_isSome
        { obj.members with
          family := Family.Paul
          reference_wavelet_ := Wavelet.init (PaulWavelet.members 100) }
        (by simp [PaulWavelet.members])
        (by show 0 < obj.members.frequency_min; rw [f1]; norm_num)
        (by show obj.members.frequency_min ≤ obj.members.frequency_max; rw [f1, f2]; norm_num)
        (by show 0 ≤ obj.members.bands_per_octave; rw [f3]; norm_num)
        (by simp [PaulWavelet.members])
        (by intro _; rw [hidx.1, hidx.2]; norm_num)
      have hint : obj.setAttribute_internal "family" (AnyValue.family Family.Paul) =
          Outcome.ok
            { members := m, frequency_min_limit_max := obj.frequency_min_limit_max,
              frequency_max_limit_min := obj.frequency_max_limit_min,
              frequency_max_limit_max := obj.frequency_max_limit_max } := by
        rw [setAttribute_family, onAttributeChange_paul _ rfl (by
          show 0 < obj.members.reference_wavelet_.samplerate
          rw [hsr]; norm_num)]
        show (match Filterbank.init { obj.members with
            family := Family.Paul
            reference_wavelet_ :=
              Wavelet.init (PaulWavelet.members obj.members.reference_wavelet_.samplerate) } with
          | some m => Outcome.ok _
          | none => Outcome.undefined) = _
        rw [hsr, hm]
      obtain ⟨e1, e2, e3, e4, e5, e6, e7⟩ := init_keeps_attributes _ _ hm
      refine ⟨_, (setAttribute_ok_iff obj _ _ _).mpr hint, e5, e7, ?_⟩
      show m.size = 19
      rw [Filterbank.init_size _ _ hm]
      unfold Filterbank.bandCount
      rw [hidx.1, hidx.2]
      rfl
  open woma.FilterbankObject in
    have set_order_wrong_kind : ∀ (obj : FilterbankObject)
        (hf : obj.members.reference_wavelet_.family = Family.Paul) (v : AnyValue)
        (hk : v.kind ≠ AnyKind.float),
        obj.setAttribute "order" v = Outcome.thrown Failure.runtime_error obj := by
      intro obj hf v hk
      have hw : obj.members.reference_wavelet_.setAttribute_internal "order" v =
          Outcome.thrown Failure.bad_any_cast obj.members.reference_wavelet_ := by
        rw [wavelet_set_order _ hf]
        cases v <;> first | rfl | exact absurd rfl hk
      unfold setAttribute
      rw [setAttribute_reference obj _ _ (by decide) (by decide) (by decide) (by decide)
        (by decide) (by decide) (by decide) (by decide), hw]
  open woma.FilterbankObject in
    have set_order_zero : ∀ (obj : FilterbankObject)
        (hf : obj.members.reference_wavelet_.family = Family.Paul),
        obj.setAttribute "order" (AnyValue.float 0) = Outcome.thrown Failure.domain_error obj := by
      intro obj hf
      have hw : obj.members.reference_wavelet_.setAttribute_internal "order" (AnyValue.float 0) =
          Outcome.thrown Failure.domain_error obj.members.reference_wavelet_ := by
        rw [wavelet_set_order _ hf]
        simp only
        rw [if_neg (by norm_num), if_pos (by simp [truncToNat])]
      unfold setAttribute
      rw [setAttribute_reference obj _ _ (by decide) (by decide) (by decide) (by decide)
        (by decide) (by decide) (by decide) (by decide), hw]
  open woma.FilterbankObject in
    have get_order : ∀ (obj : FilterbankObject)
        (hf : obj.members.reference_wavelet_.family = Family.Paul),
        obj.getAttribute "order" AnyKind.unsigned =
          Except.ok (AnyValue.unsigned obj.members.reference_wavelet_.order) := by
      intro obj hf
      apply getAttribute_of_internal obj "order" (AnyValue.unsigned _)
      unfold getAttribute_internal Wavelet.getAttribute_internal
      rw [hf]
      simp
  open woma.FilterbankObject in
    have wavelet_set_order_three : ∀ (w : Wavelet) (hf : w.family = Family.Paul),
        ∃ w1, w.setAttribute_internal "order" (AnyValue.float 3) = Outcome.ok w1 ∧
          w1.getAttribute_internal "order" = Except.ok (AnyValue.unsigned 3) := by
      intro w hf
      have h3 : truncToNat (3 : ℝ) = 3 := by
        unfold truncToNat
        exact Nat.floor_ofNat 3
      refine ⟨Wavelet.init { w with order := 3 }, ?_, ?_⟩
      · rw [wavelet_set_order _ hf]
        simp only
        rw [if_neg (by norm_num), h3, if_neg (by norm_num)]
      · unfold Wavelet.getAttribute_internal
        simp [hf]
  obtain ⟨obj, hc, _, hinit, _⟩ := FilterbankObject.scenario_construct
  obtain ⟨obj1, h1, h2, h3, _⟩ := scenario_set_paul obj hinit
  have hf : obj1.members.reference_wavelet_.family = Family.Paul := by
    rw [h3, Wavelet.init_family]; rfl
  have ho : obj1.members.reference_wavelet_.order = 2 := by
    rw [h3, Wavelet.init_order]; rfl
  have hg := get_order obj1 hf
  rw [ho] at hg
  exact ⟨obj, obj1, hc, h1, h2, hg,
    fun m => set_order_wrong_kind obj1 hf _ (fun hk => by cases hk),
    wavelet_set_order_three _ hf, set_order_zero obj1 hf⟩

/-- C22. The lower limits of `bands_per_octave` and of the sample rate are not
strict: on `Filterbank(100, 1, 30, 4)`, `setAttribute("bands_per_octave", 1.f)`
returns and leaves `bands_per_octave = 1` (with 5 bands), and the value `0.f`
for `samplerate` passes the limit check of the attribute of the reference
wavelet, after which `init` divides by the sample rate (undefined behaviour in
the model, not an exception); a value below the limit is refused with
`domain_error`: `0.5f` for `bands_per_octave`, `-1.f` for `samplerate`; and the
constructor refuses the sample rate 0 (`Filterbank(0, 1, 30, 4)`). -/
theorem lower_limits_not_strict :
    ∃ obj obj1, FilterbankObject.construct 100 1 30 4 = Construction.built obj ∧
      obj.setAttribute "bands_per_octave" (AnyValue.float 1) = Outcome.ok obj1 ∧
      obj1.members.bands_per_octave = 1 ∧ obj1.members.size = 5 ∧
      (∃ w, obj.members.reference_wavelet_.setAttribute_internal "samplerate"
          (AnyValue.float 0) = Outcome.ok w ∧ w.samplerate = 0) ∧
      obj.setAttribute "samplerate" (AnyValue.float 0) = Outcome.undefined ∧
      obj.setAttribute "bands_per_octave" (AnyValue.float 0.5) =
        Outcome.thrown Failure.domain_error obj ∧
      obj.setAttribute "samplerate" (AnyValue.float (-1)) =
        Outcome.thrown Failure.domain_error obj ∧
      FilterbankObject.construct 0 1 30 4 = Construction.failed Failure.domain_error := by
  open woma.FilterbankObject in
    have scenario_set_bands_one : ∀ (obj : FilterbankObject)
        (h : scenarioBank.init = some obj.members),
        ∃ obj1, obj.setAttribute "bands_per_octave" (AnyValue.float 1) = Outcome.ok obj1 ∧
          obj1.members.bands_per_octave = 1 ∧ obj1.members.size = 5 := by
      intro obj h
      open woma.Filterbank in
        have indices_100_1_30_one : ∀ (fb : Filterbank)
            (hf : fb.reference_wavelet_.family = Family.Morlet) (ho : fb.reference_wavelet_.omega0 = 5)
            (hsr : fb.reference_wavelet_.samplerate = 100) (hmin : fb.frequency_min = 1)
            (hmax : fb.frequency_max = 30) (hb : fb.bands_per_octave = 1),
            fb.min_index = 1 ∧ fb.max_index = 6 := by
          intro fb hf ho hsr hmin hmax hb
          obtain ⟨r1, r2⟩ := fb.morlet_scale_ratios hf ho (by rw [hsr]; norm_num)
            (by rw [hmin]; norm_num) (by rw [hmax]; norm_num)
          have hb1 : fb.bands_per_octave = ((1 : ℕ) : ℝ) := by rw [hb]; norm_num
          unfold min_index max_index
          rw [r1, r2, hsr, hmin, hmax]
          constructor
          · obtain ⟨a1, a2⟩ := ratio_bounds 100 30 1.34 1.36 (by norm_num) (by norm_num) (by norm_num)
              (by norm_num) (by norm_num) (by norm_num)
            rw [index_of_pow_bounds _ 1.34 1.36 _ 1 0 hb1 (by norm_num) a1 a2 (by norm_num)
              (by norm_num)]
            norm_num
          · obtain ⟨a1, a2⟩ := ratio_bounds 100 1 40.4 40.7 (by norm_num) (by norm_num) (by norm_num)
              (by norm_num) (by norm_num) (by norm_num)
            rw [index_of_pow_bounds _ 40.4 40.7 _ 1 5 hb1 (by norm_num) a1 a2 (by norm_num)
              (by norm_num)]
            norm_num
      obtain ⟨f1, f2, f3, f4, f5, f6⟩ := scenario_object_fields obj h
      obtain ⟨w1, w2, w3⟩ := scenario_reference
      have hidx := indices_100_1_30_one { obj.members with bands_per_octave := 1 }
        (by show obj.members.reference_wavelet_.family = _; rw [f6]; exact w1)
        (by show obj.members.reference_wavelet_.omega0 = _; rw [f6]; exact w2)
        (by show obj.members.reference_wavelet_.samplerate = _; rw [f6]; exact w3)
        f1 f2 rfl
      obtain ⟨m, hm, hok⟩ := onAttributeChange_plain_isOk
        { obj with members := { obj.members with bands_per_octave := 1 } }
        (by show 0 < obj.members.reference_wavelet_.samplerate; rw [f6, w3]; norm_num)
        (by show 0 < obj.members.frequency_min; rw [f1]; norm_num)
        (by show obj.members.frequency_min ≤ obj.members.frequency_max; rw [f1, f2]; norm_num)
        (by show (0 : ℝ) ≤ 1; norm_num)
        (by show obj.members.family = obj.members.reference_wavelet_.family; rw [f5, f6, w1])
        (by intro _; rw [hidx.1, hidx.2]; norm_num)
      have hint : obj.setAttribute_internal "bands_per_octave" (AnyValue.float 1) =
          Outcome.ok
            { members := m, frequency_min_limit_max := obj.frequency_min_limit_max,
              frequency_max_limit_min := obj.frequency_max_limit_min,
              frequency_max_limit_max := obj.frequency_max_limit_max } := by
        rw [setAttribute_bands_per_octave,
          if_neg (by have := FLT_MAX_large; push_neg; constructor <;> linarith)]
        exact hok
      obtain ⟨e1, e2, e3, e4, e5, e6, e7⟩ := init_keeps_attributes _ _ hm
      refine ⟨_, (setAttribute_ok_iff obj _ _ _).mpr hint, e3, ?_⟩
      show m.size = 5
      rw [Filterbank.init_size _ _ hm]
      unfold Filterbank.bandCount
      rw [hidx.1, hidx.2]
      rfl
  open woma.FilterbankObject in
    have set_samplerate_zero : ∀ (obj : FilterbankObject),
        (∃ w, obj.members.reference_wavelet_.setAttribute_internal "samplerate"
            (AnyValue.float 0) = Outcome.ok w ∧ w.samplerate = 0) ∧
          obj.setAttribute "samplerate" (AnyValue.float 0) = Outcome.undefined := by
      intro obj
      have hset := wavelet_set_samplerate obj.members.reference_wavelet_ 0 (le_refl _)
      refine ⟨⟨_, hset, by simp⟩, ?_⟩
      apply setAttribute_of_internal
      · rw [setAttribute_reference obj _ _ (by decide) (by decide) (by decide) (by decide)
          (by decide) (by decide) (by decide) (by decide), hset]
        simp only [if_true]
        rw [onAttributeChange_plain, if_pos (by simp)]
      · intro s hs
        cases hs
  open woma.FilterbankObject in
    have set_samplerate_negative : ∀ (obj : FilterbankObject) (x : ℝ) (hx : x < 0),
        obj.setAttribute "samplerate" (AnyValue.float x) =
          Outcome.thrown Failure.domain_error obj := by
      intro obj x hx
      have hw : obj.members.reference_wavelet_.setAttribute_internal "samplerate"
          (AnyValue.float x) = Outcome.thrown Failure.domain_error obj.members.reference_wavelet_ := by
        rw [Wavelet.setAttribute_internal_of_base _ _ _ (Or.inl rfl)]
        unfold Wavelet.setAttribute_base
        rw [if_pos rfl]
        simp only
        rw [if_pos hx]
      apply setAttribute_of_internal
      · rw [setAttribute_reference obj _ _ (by decide) (by decide) (by decide) (by decide)
          (by decide) (by decide) (by decide) (by decide), hw]
      · intro s hs
        cases hs
  open woma.FilterbankObject in
    have set_bands_below_one : ∀ (obj : FilterbankObject) (x : ℝ) (hx : x < 1),
        obj.setAttribute "bands_per_octave" (AnyValue.float x) =
          Outcome.thrown Failure.domain_error obj := by
      intro obj x hx
      apply setAttribute_of_internal
      · rw [setAttribute_bands_per_octave, if_pos (Or.inl hx)]
      · intro s hs
        cases hs
  obtain ⟨obj, hc, _, hinit, _⟩ := FilterbankObject.scenario_construct
  obtain ⟨obj1, h1, h2, h3⟩ := scenario_set_bands_one obj hinit
  obtain ⟨h4, h5⟩ := set_samplerate_zero obj
  refine ⟨obj, obj1, hc, h1, h2, h3, h4, h5,
    set_bands_below_one obj 0.5 (by norm_num),
    set_samplerate_negative obj (-1) (by norm_num), ?_⟩
  unfold FilterbankObject.construct
  rw [FilterbankObject.checkLimits_none_of_mem _ _ _ (by norm_num) (by norm_num),
    FilterbankObject.checkLimits_some_of_not_mem _ _ _ (Or.inr (by norm_num))]

namespace LowpassFilter

theorem checkLimits_int_none (x lo hi : ℤ) (h1 : lo ≤ x) (h2 : x ≤ hi) :
    checkLimits x lo hi = none := by
  unfold checkLimits
  rw [if_neg]
  push_neg
  exact ⟨h1, h2⟩

theorem construct_out_of_limits (cutoff : ℝ) (order : ℤ) (ripple : ℝ)
    (h : cutoff < 0 ∨ 1 < cutoff) :
    construct cutoff order ripple = Construction.failed Failure.domain_error := by
  unfold construct
  rw [FilterbankObject.checkLimits_some_of_not_mem _ _ _ h]

end LowpassFilter

/-- C23, as stated, fails on the code: the constructor `LowpassFilter(2, 4, 0.05)`
throws the `domain_error` of the limit check of the attribute `cutoff`, not the
`invalid_argument` of `cheby1`, which is not reached. -/
theorem cutoff_bounds_counterexample :
    LowpassFilter.construct 2 4 0.05 = Construction.failed Failure.domain_error ∧
      LowpassFilter.construct 2 4 0.05 ≠ Construction.failed Failure.invalid_argument := by
  have h := LowpassFilter.construct_out_of_limits 2 4 0.05 (Or.inr (by norm_num))
  refine ⟨h, ?_⟩
  rw [h]
  intro hc
  cases hc

/-- C23, amended. Chebyshev cutoff bounds: for an order in `[1, INT_MAX]` the
constructor of `LowpassFilter` throws `domain_error` for every cutoff below 0
and every cutoff above 1 (the limit check of the attribute), throws
`invalid_argument` for the cutoff 0 (the check of `cheby1`), and returns for
every cutoff in `(0, 1]` a filter with the three values given, `order + 1`
coefficients in `b` and in `a` and a memory of `order` entries. -/
theorem cutoff_bounds (cutoff : ℝ) (order : ℤ) (ripple : ℝ) (ho : 1 ≤ order)
    (hi : order ≤ INT_MAX) :
    (cutoff < 0 ∨ 1 < cutoff →
      LowpassFilter.construct cutoff order ripple =
        Construction.failed Failure.domain_error) ∧
      (cutoff = 0 →
        LowpassFilter.construct cutoff order ripple =
          Construction.failed Failure.invalid_argument) ∧
      (0 < cutoff → cutoff ≤ 1 →
        ∃ f, LowpassFilter.construct cutoff order ripple = Construction.built f ∧
          f.cutoff = cutoff ∧ f.order = order ∧ f.rippleLevel = ripple ∧
          (f.z.length : ℤ) = order ∧ (f.b.length : ℤ) = order + 1 ∧
          (f.a.length : ℤ) = order + 1) := by
  open woma.LowpassFilter in
    have construct_zero : ∀ (order : ℤ) (ripple : ℝ) (ho : 1 ≤ order) (hi : order ≤ INT_MAX),
        construct 0 order ripple = Construction.failed Failure.invalid_argument := by
      intro order ripple ho hi
      unfold construct
      rw [FilterbankObject.checkLimits_none_of_mem _ _ _ (le_refl _) (by norm_num),
        checkLimits_int_none _ _ _ ho hi]
      simp only [init, cheby1, le_refl, true_or, if_true, Option.map_none']
  open woma.LowpassFilter in
    have construct_accepted : ∀ (cutoff : ℝ) (order : ℤ) (ripple : ℝ) (ho : 1 ≤ order)
        (hi : order ≤ INT_MAX) (h0 : 0 < cutoff) (h1 : cutoff ≤ 1),
        ∃ f, construct cutoff order ripple = Construction.built f ∧ f.cutoff = cutoff ∧
          f.order = order ∧ f.rippleLevel = ripple ∧ f.Sized := by
      intro cutoff order ripple ho hi h0 h1
      obtain ⟨g, hg, q1, _, q3, q4⟩ := lowpass_init_isSome
        { cutoff := cutoff, order := order, rippleLevel := ripple, b := [], a := [], z := [] } h0 h1
      refine ⟨g, ?_, q3, q1, q4, lowpass_init_sized _ g hg ho⟩
      unfold construct
      rw [FilterbankObject.checkLimits_none_of_mem _ _ _ h0.le h1,
        checkLimits_int_none _ _ _ ho hi, hg]
  refine ⟨fun h => LowpassFilter.construct_out_of_limits cutoff order ripple h, ?_, ?_⟩
  · intro h
    rw [h]
    exact construct_zero order ripple ho hi
  · intro h0 h1
    obtain ⟨f, hf, q1, q2, q3, _, s2, s3, s4⟩ :=
      construct_accepted cutoff order ripple ho hi h0 h1
    rw [q2] at s2
    refine ⟨f, hf, q1, q2, q3, s2, ?_, ?_⟩
    · rw [s3]; push_cast; rw [s2]
    · rw [s4]; push_cast; rw [s2]

theorem cutoff_bounds_witness :
    (∃ f, LowpassFilter.construct 0.5 4 0.05 = Construction.built f ∧
        (f.b.length : ℤ) = 4 + 1 ∧ (f.a.length : ℤ) = 4 + 1) ∧
      LowpassFilter.construct 0 4 0.05 = Construction.failed Failure.invalid_argument ∧
      LowpassFilter.construct (-1) 4 0.05 = Construction.failed Failure.domain_error := by
  have ho : (1 : ℤ) ≤ 4 := by norm_num
  have hi : (4 : ℤ) ≤ INT_MAX := by unfold INT_MAX; norm_num
  obtain ⟨f, hf, _, _, _, _, hb, ha⟩ :=
    (cutoff_bounds 0.5 4 0.05 ho hi).2.2 (by norm_num) (by norm_num)
  exact ⟨⟨f, hf, hb, ha⟩, (cutoff_bounds 0 4 0.05 ho hi).2.1 rfl,
    (cutoff_bounds (-1) 4 0.05 ho hi).1 (Or.inl (by norm_num))⟩

namespace Filterbank

theorem next_results_getElem? (fb : Filterbank) (v : ℝ) (j : ℕ) (hj : j < fb.wavelets_.length) :
    (fb.next v).result_complex[j]? = some (fb.bandResult (fb.nextData v) j) ∧
      (fb.next v).result_power[j]? = some (fb.bandPower (fb.nextData v) j) := by
  constructor
  · show ((List.range fb.wavelets_.length).map _)[j]? = _
    rw [List.getElem?_map, List.getElem?_range hj]
    rfl
  · show ((List.range fb.wavelets_.length).map _)[j]? = _
    rw [List.getElem?_map, List.getElem?_range hj]
    rfl

end Filterbank

/-- C24. Aggressive skipping: on a configured filterbank `update` returns and
raises `frame_index_` by one; for every band `j`, when the optimisation is
`Aggressive1` or `Aggressive2` and `frame_index_ % downsampling_factors[j]` is
not 0 at the call, `result_complex[j]` and `result_power[j]` are after the call
what they were before; when the remainder is 0 (as at `frame_index_ = 0`, the
value `init` and `reset` leave), and in the three other modes at every call,
the band is computed anew: `result_complex[j]` is the coefficient of the band
on the buffer of its factor and `result_power[j]` its squared modulus. -/
theorem aggressive_skipping (fb : Filterbank) (h : fb.Ready) (v : ℝ) :
    ∃ fb', fb.update v = some fb' ∧ fb'.frame_index_ = fb.frame_index_ + 1 ∧
      fb.reset.frame_index_ = 0 ∧
      ∀ j, j < fb.size →
        ((fb.optimisation = Optimisation.Aggressive1 ∨
            fb.optimisation = Optimisation.Aggressive2) →
          Int.tmod fb.frame_index_ (fb.downsampling_factors.getD j 1) ≠ 0 →
          fb'.result_complex[j]? = fb.result_complex[j]? ∧
            fb'.result_power[j]? = fb.result_power[j]?) ∧
        (fb.optimisation = Optimisation.None ∨ fb.optimisation = Optimisation.Standard1 ∨
            fb.optimisation = Optimisation.Standard2 ∨ fb.frame_index_ = 0 ∨
            Int.tmod fb.frame_index_ (fb.downsampling_factors.getD j 1) = 0 →
          ∃ (e : ℤ × CircularBuffer) (w : Wavelet),
            fb'.data_[fb.bandPos j]? = some e ∧ fb.wavelets_[j]? = some w ∧
            e.1 = fb.bandFactor j ∧
            fb'.result_complex[j]? =
              some (Filterbank.coefficientOf fb.rescale e.1.toNat e.2 w) ∧
            fb'.result_power[j]? =
              some (Complex.normSq (Filterbank.coefficientOf fb.rescale e.1.toNat e.2 w))) := by
  open woma.Filterbank in
    have next_skipped : ∀ (fb : Filterbank) (h : fb.Ready) (v : ℝ) (j : ℕ)
        (hj : j < fb.wavelets_.length) (hs : fb.skips j = true),
        (fb.next v).result_complex[j]? = fb.result_complex[j]? ∧
          (fb.next v).result_power[j]? = fb.result_power[j]? := by
      intro fb h v j hj hs
      obtain ⟨h1, h2⟩ := fb.next_results_getElem? v j hj
      have hc : j < fb.result_complex.length := by rw [h.result_complex_length]; exact hj
      have hp : j < fb.result_power.length := by rw [h.result_power_length]; exact hj
      rw [h1, h2]
      unfold bandResult bandPower
      rw [hs]
      simp only [if_true]
      rw [List.getD_eq_getElem?_getD, List.getD_eq_getElem?_getD, List.getElem?_eq_getElem hc,
        List.getElem?_eq_getElem hp]
      exact ⟨rfl, rfl⟩
  open woma.Filterbank in
    have next_computed : ∀ (fb : Filterbank) (h : fb.Ready) (v : ℝ) (j : ℕ)
        (hj : j < fb.wavelets_.length) (hs : fb.skips j = false),
        ∃ (e : ℤ × CircularBuffer) (w : Wavelet),
          (fb.next v).data_[fb.bandPos j]? = some e ∧ fb.wavelets_[j]? = some w ∧
          e.1 = fb.bandFactor j ∧
          (fb.next v).result_complex[j]? = some (coefficientOf fb.rescale e.1.toNat e.2 w) ∧
          (fb.next v).result_power[j]? =
            some (Complex.normSq (coefficientOf fb.rescale e.1.toNat e.2 w)) := by
      intro fb h v j hj hs
      obtain ⟨h1, h2⟩ := fb.next_results_getElem? v j hj
      obtain ⟨e, w, he, hw, hk, _, _, _, _⟩ := fb.ready_aligned_next h v j hj
      refine ⟨e, w, he, hw, hk, ?_, ?_⟩
      · rw [h1]
        unfold bandResult
        rw [hs, he, hw]
        simp only [Bool.false_eq_true, if_false]
      · rw [h2]
        unfold bandPower bandResult
        rw [hs, he, hw]
        simp only [Bool.false_eq_true, if_false]
  refine ⟨fb.next v, fb.update_eq h v, rfl, rfl, ?_⟩
  intro j hj
  have hj : j < fb.wavelets_.length := hj
  constructor
  · intro ha hm
    apply next_skipped fb h v j hj
    unfold Filterbank.skips
    exact decide_eq_true ⟨ha, hm⟩
  · intro hc
    apply next_computed fb h v j hj
    unfold Filterbank.skips
    apply decide_eq_false
    rintro ⟨ha, hm⟩
    rcases hc with hc | hc | hc | hc | hc
    · rw [hc] at ha; rcases ha with ha | ha <;> cases ha
    · rw [hc] at ha; rcases ha with ha | ha <;> cases ha
    · rw [hc] at ha; rcases ha with ha | ha <;> cases ha
    · rw [hc] at hm; exact hm (Int.zero_tmod _)
    · exact hm hc

theorem aggressive_skipping_witness :
    ∃ fb fb', (optimisedBank Optimisation.Aggressive1).init = some fb ∧ fb.Ready ∧
      fb.frame_index_ = 0 ∧ fb.update 1 = some fb' ∧ fb'.frame_index_ = 1 ∧
      ∃ (e : ℤ × CircularBuffer) (w : Wavelet),
        fb'.data_[fb.bandPos 19]? = some e ∧ fb.wavelets_[19]? = some w ∧
        fb'.result_complex[19]? =
          some (Filterbank.coefficientOf fb.rescale e.1.toNat e.2 w) := by
  obtain ⟨fb, hinit, hready, hsize, _, hframe⟩ := optimisedBank_ready Optimisation.Aggressive1
  obtain ⟨fb', hu, hf, _, hall⟩ := aggressive_skipping fb hready 1
  obtain ⟨e, w, h1, h2, _, h3, _⟩ :=
    (hall 19 (by rw [hsize]; norm_num)).2 (Or.inr (Or.inr (Or.inr (Or.inl hframe))))
  exact ⟨fb, fb', hinit, hready, hframe, hu, by rw [hf, hframe]; norm_num, e, w, h1, h2, h3⟩

namespace Filterbank

/-- The kernel of a band as the wavelet loop of `init` leaves it: the scale
given, the sample rate of the reference wavelet, divided by the factor when
there is one, and the other attributes of the reference wavelet. -/
theorem initWavelet_fields (fb : Filterbank) (s : ℝ) (factor : Option ℤ) (w : Wavelet)
    (h : fb.initWavelet s factor = some w) :
    w.scale = s ∧ w.delay = fb.reference_wavelet_.delay ∧
      w.padding = fb.reference_wavelet_.padding ∧ w.mode = fb.reference_wavelet_.mode ∧
      w.omega0 = fb.reference_wavelet_.omega0 ∧ w.order = fb.reference_wavelet_.order ∧
      w.family = fb.reference_wavelet_.family ∧
      (factor = none → w.samplerate = fb.reference_wavelet_.samplerate) ∧
      (∀ d, factor = some d → w.samplerate = fb.reference_wavelet_.samplerate / (d : ℝ)) ∧
      3 ≤ w.window_size ∧ w.values.length = w.window_size := by
  unfold initWavelet at h
  cases factor with
  | none =>
    simp only [Option.bind_eq_bind, Option.some_bind, Wavelet.setScale] at h
    by_cases hs : s < 0
    · rw [if_pos hs] at h
      cases h
    rw [if_neg hs] at h
    simp only [Option.some_bind, Option.some.injEq] at h
    subst h
    refine ⟨?_, ?_, ?_, ?_, ?_, ?_, ?_, ?_, ?_,
      (Wavelet.setDefaultWindowsize_window_size _).1, by simp⟩
    · simp [Wavelet.setDefaultWindowsize]
    · simp [Wavelet.setDefaultWindowsize, Wavelet.copy]
    · simp [Wavelet.setDefaultWindowsize, Wavelet.copy]
    · simp [Wavelet.setDefaultWindowsize, Wavelet.copy]
    · simp [Wavelet.setDefaultWindowsize, Wavelet.copy]
    · simp [Wavelet.setDefaultWindowsize, Wavelet.copy]
    · simp [Wavelet.setDefaultWindowsize, Wavelet.copy]
    · intro _
      simp [Wavelet.setDefaultWindowsize, Wavelet.copy]
    · intro d hd
      cases hd
  | some d =>
    simp only [Option.bind_eq_bind, Option.some_bind, Wavelet.setScale,
      Wavelet.setSamplerate] at h
    by_cases hr : fb.reference_wavelet_.samplerate / (d : ℝ) < 0
    · rw [if_pos hr] at h
      cases h
    rw [if_neg hr] at h
    simp only [Option.some_bind] at h
    by_cases hs : s < 0
    · rw [if_pos hs] at h
      cases h
    rw [if_neg hs] at h
    simp only [Option.some_bind, Option.some.injEq] at h
    subst h
    refine ⟨?_, ?_, ?_, ?_, ?_, ?_, ?_, ?_, ?_,
      (Wavelet.setDefaultWindowsize_window_size _).1, by simp⟩
    · simp [Wavelet.setDefaultWindowsize]
    · simp [Wavelet.setDefaultWindowsize, Wavelet.copy]
    · simp [Wavelet.setDefaultWindowsize, Wavelet.copy]
    · simp [Wavelet.setDefaultWindowsize, Wavelet.copy]
    · simp [Wavelet.setDefaultWindowsize, Wavelet.copy]
    · simp [Wavelet.setDefaultWindowsize, Wavelet.copy]
    · simp [Wavelet.setDefaultWindowsize, Wavelet.copy]
    · intro hn
      cases hn
    · intro d1 hd
      simp only [Option.some.injEq] at hd
      subst hd
      simp [Wavelet.setDefaultWindowsize, Wavelet.copy]

end Filterbank

namespace Filterbank

/-- Band `j` after `init`: its kernel, scale and factor. -/
theorem init_band (fb fb1 : Filterbank) (h : fb.init = some fb1) (j : ℕ) (hj : j < fb1.size) :
    j < fb.bandCount ∧ fb1.reference_wavelet_ = fb.reference_wavelet_ ∧
      fb1.optimisation = fb.optimisation ∧
      ∃ w, fb1.wavelets_[j]? = some w ∧ fb1.scales[j]? = some (fb.scaleAt j) ∧
        fb.initWavelet (fb.scaleAt j)
          (if fb.optimisation ≠ Optimisation.None then
            some (fb.factorOf (fb.reference_wavelet_.scale2frequency (fb.scaleAt j)))
          else none) = some w ∧
        (fb.optimisation ≠ Optimisation.None →
          fb1.downsampling_factors[j]? =
            some (fb.factorOf (fb.reference_wavelet_.scale2frequency (fb.scaleAt j)))) := by
  have hsize := fb.init_size fb1 h
  rw [hsize] at hj
  obtain ⟨_, _, ws, bufs, hws, _, rfl⟩ := fb.init_eq_some fb1 h
  obtain ⟨w, hw, hf⟩ := fb.initWavelets_getElem? _ ws hws j hj
  refine ⟨hj, rfl, rfl, w, hw, fb.initScales_getElem? _ j hj, hf, ?_⟩
  intro ho
  show (if fb.optimisation = Optimisation.None then [] else fb.initFactors fb.bandCount)[j]? = _
  rw [if_neg ho]
  exact fb.initFactors_getElem? _ j hj ho

end Filterbank

/-- C26. After every `init`, the kernel of band `j` has the scale `scales[j]`
and the delay, padding, mode, `omega0`, `order` and family of the reference
wavelet; its sample rate is the sample rate of the reference wavelet when no
optimisation is selected, and that sample rate divided by
`downsampling_factors[j]` otherwise.  So, with no optimisation, every kernel
reports through `getAttribute("samplerate")` the sample rate `r` of the
reference wavelet, as after `setAttribute("samplerate", r)`. -/
theorem kernels_share_parameters (fb fb1 : Filterbank) (h : fb.init = some fb1) :
    (∀ j, j < fb1.size →
      ∃ w, fb1.wavelets_[j]? = some w ∧ fb1.scales[j]? = some w.scale ∧
        w.delay = fb1.reference_wavelet_.delay ∧
        w.padding = fb1.reference_wavelet_.padding ∧ w.mode = fb1.reference_wavelet_.mode ∧
        w.omega0 = fb1.reference_wavelet_.omega0 ∧ w.order = fb1.reference_wavelet_.order ∧
        w.family = fb1.reference_wavelet_.family ∧
        (fb1.optimisation = Optimisation.None →
          w.samplerate = fb1.reference_wavelet_.samplerate) ∧
        (fb1.optimisation ≠ Optimisation.None →
          ∃ d, fb1.downsampling_factors[j]? = some d ∧
            w.samplerate = fb1.reference_wavelet_.samplerate / (d : ℝ))) ∧
      (fb1.optimisation = Optimisation.None →
        ∀ w ∈ fb1.wavelets_,
          w.getAttribute_internal "samplerate" =
            Except.ok (AnyValue.float fb.reference_wavelet_.samplerate)) := by
  have hall : ∀ j, j < fb1.size →
      ∃ w, fb1.wavelets_[j]? = some w ∧ fb1.scales[j]? = some w.scale ∧
        w.delay = fb1.reference_wavelet_.delay ∧
        w.padding = fb1.reference_wavelet_.padding ∧ w.mode = fb1.reference_wavelet_.mode ∧
        w.omega0 = fb1.reference_wavelet_.omega0 ∧ w.order = fb1.reference_wavelet_.order ∧
        w.family = fb1.reference_wavelet_.family ∧
        (fb1.optimisation = Optimisation.None →
          w.samplerate = fb1.reference_wavelet_.samplerate) ∧
        (fb1.optimisation ≠ Optimisation.None →
          ∃ d, fb1.downsampling_factors[j]? = some d ∧
            w.samplerate = fb1.reference_wavelet_.samplerate / (d : ℝ)) := by
    intro j hj
    obtain ⟨_, hr, ho, w, hw, hs, hwi, hd⟩ := fb.init_band fb1 h j hj
    obtain ⟨q1, q2, q3, q4, q5, q6, q7, q8, q9, _, _⟩ := fb.initWavelet_fields _ _ w hwi
    rw [hr, ho]
    refine ⟨w, hw, by rw [hs, q1], q2, q3, q4, q5, q6, q7, ?_, ?_⟩
    · intro hn
      exact q8 (by rw [if_neg (not_not.mpr hn)])
    · intro hn
      exact ⟨_, hd hn, q9 _ (by rw [if_pos hn])⟩
  refine ⟨hall, ?_⟩
  intro hn w hw
  obtain ⟨j, hj⟩ := List.mem_iff_getElem?.mp hw
  have hjlt : j < fb1.size := by
    by_contra hge
    rw [List.getElem?_eq_none (by unfold Filterbank.size at hge; omega)] at hj
    cases hj
  obtain ⟨w1, hw1, _, _, _, _, _, _, _, hsr, _⟩ := hall j hjlt
  rw [hj] at hw1
  simp only [Option.some.injEq] at hw1
  subst hw1
  unfold Wavelet.getAttribute_internal
  rw [if_pos rfl, hsr hn, (fb.init_band fb1 h j hjlt).2.1]

theorem kernels_share_parameters_witness :
    ∃ obj obj1, FilterbankObject.construct 100 1 30 4 = Construction.built obj ∧
      obj.setAttribute "samplerate" (AnyValue.float 200) = Outcome.ok obj1 ∧
      ∀ w ∈ obj1.members.wavelets_,
        w.getAttribute_internal "samplerate" = Except.ok (AnyValue.float 200) := by
  open woma.FilterbankObject in
    have setAttribute_samplerate_ok : ∀ (obj obj1 : FilterbankObject) (r : ℝ)
        (h : obj.setAttribute "samplerate" (AnyValue.float r) = Outcome.ok obj1),
        ∃ m, Filterbank.init m = some obj1.members ∧ m.reference_wavelet_.samplerate = r ∧
          m.optimisation = obj.members.optimisation := by
      intro obj obj1 r h
      have hi := (setAttribute_ok_iff obj obj1 _ _).mp h
      rw [setAttribute_reference obj _ _ (by decide) (by decide) (by decide) (by decide)
        (by decide) (by decide) (by decide) (by decide)] at hi
      cases hw : obj.members.reference_wavelet_.setAttribute_internal "samplerate"
          (AnyValue.float r) with
      | thrown e s => rw [hw] at hi; cases hi
      | undefined => rw [hw] at hi; cases hi
      | ok w =>
        rw [hw] at hi
        simp only [if_true] at hi
        obtain ⟨_, p2, _, _⟩ := Wavelet.setAttribute_wavelet_ok _ _ _ _ hw
        obtain ⟨x, hx, _, hxs⟩ := p2 rfl
        simp only [AnyValue.float.injEq] at hx
        subst hx
        obtain ⟨_, m, hm, rfl⟩ := onAttributeChange_plain_ok _ _ hi
        exact ⟨_, hm, hxs, rfl⟩
  obtain ⟨obj, hc, _, hinit, _⟩ := FilterbankObject.scenario_construct
  obtain ⟨obj1, h1⟩ := FilterbankObject.scenario_set_samplerate_200 obj hinit
  obtain ⟨m, hm, hr, ho⟩ := setAttribute_samplerate_ok obj obj1 200 h1
  have hopt : obj1.members.optimisation = Optimisation.None := by
    rw [(FilterbankObject.init_keeps_attributes _ _ hm).2.2.2.1, ho]
    exact (FilterbankObject.scenario_object_fields obj hinit).2.2.2.1
  have hk := (kernels_share_parameters m obj1.members hm).2 hopt
  rw [hr] at hk
  exact ⟨obj, obj1, hc, h1, hk⟩

namespace Filterbank

/-- The entries of `delaysInSamples` after `init`, for a positive sample rate
and a delay that is not negative. -/
theorem init_delays (fb fb1 : Filterbank) (h : fb.init = some fb1)
    (hsr : 0 < fb.reference_wavelet_.samplerate) (hd : 0 ≤ fb.reference_wavelet_.delay) :
    ∃ ds, fb1.delaysInSamples = some ds ∧ ds.length = fb1.size ∧
      ∀ j, j < fb1.size →
        ∃ w, fb1.wavelets_[j]? = some w ∧
          (fb1.optimisation = Optimisation.None →
            ds[j]? = some ⌊w.delay * w.eFoldingTime * fb1.reference_wavelet_.samplerate⌋) ∧
          (fb1.optimisation ≠ Optimisation.None →
            ∃ d, fb1.downsampling_factors[j]? = some d ∧ 1 ≤ d ∧
              ds[j]? = some (⌊w.delay * w.eFoldingTime * fb1.reference_wavelet_.samplerate⌋ +
                (if d > 1 then d else 0))) := by
  have delaysInSamples_spec : ∀ (fb : Filterbank)
      (hlen : fb.optimisation ≠ Optimisation.None →
        fb.downsampling_factors.length = fb.wavelets_.length),
      ∃ ds, fb.delaysInSamples = some ds ∧ ds.length = fb.size ∧
        ∀ (j : ℕ) (w : Wavelet), fb.wavelets_[j]? = some w →
          (fb.optimisation = Optimisation.None →
            ds[j]? = some (truncToInt
              (w.delay * w.eFoldingTime * fb.reference_wavelet_.samplerate))) ∧
          (fb.optimisation ≠ Optimisation.None →
            ∃ d, fb.downsampling_factors[j]? = some d ∧
              ds[j]? = some (truncToInt
                (w.delay * w.eFoldingTime * fb.reference_wavelet_.samplerate +
                  (((if d > 1 then d else 0 : ℤ)) : ℝ)))) := by
    intro fb hlen
    have hsome : ∃ ds, fb.delaysInSamples = some ds := by
      unfold delaysInSamples
      apply mapM_option_isSome
      intro i hi
      have hi : i < fb.wavelets_.length := List.mem_range.mp hi
      rw [List.getElem?_eq_getElem hi]
      simp only [Option.bind_eq_bind, Option.some_bind]
      by_cases ho : fb.optimisation ≠ Optimisation.None
      · rw [if_pos ho, List.getElem?_eq_getElem (by rw [hlen ho]; exact hi)]
        exact ⟨_, rfl⟩
      · rw [if_neg ho]
        exact ⟨_, rfl⟩
    obtain ⟨ds, hds⟩ := hsome
    refine ⟨ds, hds, ?_, ?_⟩
    · unfold delaysInSamples at hds
      rw [mapM_option_length _ _ _ hds, List.length_range]
      rfl
    · intro j w hw
      have hj : j < fb.wavelets_.length := by
        by_contra hge
        rw [List.getElem?_eq_none (by omega)] at hw
        cases hw
      unfold delaysInSamples at hds
      obtain ⟨y, hy, hf⟩ := mapM_option_getElem? _ _ _ hds j j (List.getElem?_range hj)
      rw [hw] at hf
      simp only [Option.bind_eq_bind, Option.some_bind] at hf
      constructor
      · intro ho
        rw [if_neg (not_not.mpr ho)] at hf
        rw [hy, ← hf]
      · intro ho
        rw [if_pos ho, List.getElem?_eq_getElem (by rw [hlen ho]; exact hj)] at hf
        simp only [Option.some_bind] at hf
        refine ⟨_, List.getElem?_eq_getElem (by rw [hlen ho]; exact hj), ?_⟩
        rw [hy, ← hf]
  have truncToInt_add_factor : ∀ (x : ℝ) (hx : 0 ≤ x) (d : ℤ) (hd : 0 ≤ d),
      truncToInt (x + (d : ℝ)) = ⌊x⌋ + d := by
    intro x hx d hd
    have hd' : (0 : ℝ) ≤ (d : ℝ) := by exact_mod_cast hd
    rw [truncToInt_of_nonneg (by linarith), Int.floor_add_int]
  have init_factors_length : ∀ (fb fb1 : Filterbank) (h : fb.init = some fb1)
      (ho : fb1.optimisation ≠ Optimisation.None),
      fb1.downsampling_factors.length = fb1.wavelets_.length := by
    intro fb fb1 h ho
    obtain ⟨_, _, ws, bufs, hws, _, rfl⟩ := fb.init_eq_some fb1 h
    have ho : fb.optimisation ≠ Optimisation.None := ho
    show (if fb.optimisation = Optimisation.None then [] else fb.initFactors fb.bandCount).length =
      ws.length
    rw [if_neg ho, fb.initFactors_length _ ho, fb.initWavelets_length _ _ _ hws]
    simp [initScales]
  obtain ⟨ds, hds, hlen, hall⟩ := delaysInSamples_spec fb1 (init_factors_length fb fb1 h)
  refine ⟨ds, hds, hlen, ?_⟩
  intro j hj
  obtain ⟨_, hr, ho, w, hw, _, hwi, hf⟩ := fb.init_band fb1 h j hj
  obtain ⟨q1, q2, _, _, _, _, _, _, _, _, _⟩ := fb.initWavelet_fields _ _ w hwi
  have hx : 0 ≤ w.delay * w.eFoldingTime * fb1.reference_wavelet_.samplerate := by
    rw [hr, q2]
    apply mul_nonneg (mul_nonneg hd _) hsr.le
    apply Wavelet.eFoldingTime_nonneg
    rw [q1]
    exact (fb.scaleAt_pos hsr j).le
  obtain ⟨a1, a2⟩ := hall j w hw
  refine ⟨w, hw, ?_, ?_⟩
  · intro hn
    rw [a1 hn, truncToInt_of_nonneg hx]
  · intro hn
    obtain ⟨d, hd1, hd2⟩ := a2 hn
    have hfd := hf (by rw [← ho]; exact hn)
    rw [hfd] at hd1
    simp only [Option.some.injEq] at hd1
    have h1 : 1 ≤ d := by
      rw [← hd1]
      exact fb.factorOf_ge_one _
    refine ⟨d, by rw [hfd, hd1], h1, ?_⟩
    rw [hd2, truncToInt_add_factor _ hx _ (by split_ifs <;> omega)]

end Filterbank

/-- C25, as stated, fails on the code: on `Filterbank(100, 1, 30, 4)` with the
optimisation `Standard1`, the last band has a factor of at least 2, which
`delaysInSamples` adds to the product, so that its entry is not
`⌊delay * eFoldingTime * samplerate⌋`. -/
theorem delays_counterexample :
    ∃ fb ds w, (optimisedBank Optimisation.Standard1).init = some fb ∧
      fb.delaysInSamples = some ds ∧ fb.wavelets_[19]? = some w ∧
      ds[19]? ≠ some ⌊w.delay * w.eFoldingTime * fb.reference_wavelet_.samplerate⌋ := by
  obtain ⟨fb, w, hinit, _, hopt, _, _, _, hlen, hfac, hw, _⟩ := optimisedBank_last_band
  have hv := scenarioBank_valid
  obtain ⟨ds, hds, _, hall⟩ := (optimisedBank Optimisation.Standard1).init_delays fb hinit
    hv.samplerate_pos
    (by simp [optimisedBank, scenarioBank, sampleBank, Filterbank.members,
      MorletWavelet.members, Wavelet.DEFAULT_DELAY]; norm_num)
  obtain ⟨w1, hw1, _, hd⟩ := hall 19 (by unfold Filterbank.size; rw [hlen]; norm_num)
  rw [hw] at hw1
  simp only [Option.some.injEq] at hw1
  subst hw1
  obtain ⟨d, hd1, _, hd2⟩ := hd (by rw [hopt]; decide)
  have hd19 : fb.downsampling_factors.getD 19 1 = d := by
    rw [List.getD_eq_getElem?_getD, hd1]
    rfl
  rw [hd19] at hfac
  refine ⟨fb, ds, w, hinit, hds, hw, ?_⟩
  rw [hd2, if_pos (by omega)]
  intro hc
  simp only [Option.some.injEq] at hc
  omega

/-- C25, amended. After `init` on a configuration with a positive sample rate
and a delay that is not negative, `delaysInSamples` returns a vector of length
`size()`; with `x_j = delay_j * eFoldingTime_j * samplerate` (the delay and the
e-folding time of the kernel of band `j`, the sample rate of the reference
wavelet) its entry `j` is `⌊x_j⌋` when no optimisation is selected, and
`⌊x_j⌋ + downsampling_factors[j]` when an optimisation is selected and the
factor exceeds 1 (`⌊x_j⌋` when the factor is 1); `update` does not change the
vector returned. -/
theorem delays_in_samples (fb fb1 : Filterbank) (h : fb.init = some fb1)
    (hsr : 0 < fb.reference_wavelet_.samplerate) (hd : 0 ≤ fb.reference_wavelet_.delay) :
    ∃ ds, fb1.delaysInSamples = some ds ∧ ds.length = fb1.size ∧
      (∀ j, j < fb1.size →
        ∃ w, fb1.wavelets_[j]? = some w ∧
          (fb1.optimisation = Optimisation.None →
            ds[j]? = some ⌊w.delay * w.eFoldingTime * fb1.reference_wavelet_.samplerate⌋) ∧
          (fb1.optimisation ≠ Optimisation.None →
            ∃ d, fb1.downsampling_factors[j]? = some d ∧ 1 ≤ d ∧
              ds[j]? = some (⌊w.delay * w.eFoldingTime * fb1.reference_wavelet_.samplerate⌋ +
                (if d > 1 then d else 0)))) ∧
      ∀ (v : ℝ) (fb2 : Filterbank), fb1.update v = some fb2 →
        fb2.delaysInSamples = some ds := by
  open woma.Filterbank in
    have update_keeps_delays : ∀ (fb fb1 : Filterbank) (v : ℝ) (h : fb.update v = some fb1),
        fb1.delaysInSamples = fb.delaysInSamples := by
      intro fb fb1 v h
      unfold update at h
      simp only [Option.bind_eq_bind, Option.bind_eq_some] at h
      obtain ⟨filled, _, cur, _, h⟩ := h
      simp only [Option.some.injEq] at h
      subst h
      rfl
  obtain ⟨ds, hds, hlen, hall⟩ := fb.init_delays fb1 h hsr hd
  refine ⟨ds, hds, hlen, hall, ?_⟩
  intro v fb2 hu
  rw [update_keeps_delays fb1 fb2 v hu, hds]

theorem delays_in_samples_witness :
    ∃ fb ds, scenarioBank.init = some fb ∧ fb.size = 20 ∧
      fb.delaysInSamples = some ds ∧ ds.length = 20 ∧
      ∃ w, fb.wavelets_[0]? = some w ∧
        ds[0]? = some ⌊w.delay * w.eFoldingTime * fb.reference_wavelet_.samplerate⌋ := by
  obtain ⟨fb, hinit, hsize⟩ := scenarioBank_init
  have hv := scenarioBank_valid
  obtain ⟨ds, hds, hlen, hall, _⟩ := delays_in_samples scenarioBank fb hinit hv.samplerate_pos
    (by simp [scenarioBank, sampleBank, Filterbank.members, MorletWavelet.members,
      Wavelet.DEFAULT_DELAY]; norm_num)
  obtain ⟨w, hw, h0, _⟩ := hall 0 (by rw [hsize]; norm_num)
  have hopt : fb.optimisation = Optimisation.None :=
    (FilterbankObject.init_keeps_attributes _ _ hinit).2.2.2.1
  exact ⟨fb, ds, hinit, hsize, hds, by rw [hlen, hsize], w, hw, h0 hopt⟩

namespace Filterbank

/-- The band enumeration of `init` depends only on the two frequencies, the
number of bands per octave and the reference wavelet. -/
theorem enumeration_congr (fb fb1 : Filterbank) (h1 : fb1.frequency_min = fb.frequency_min)
    (h2 : fb1.frequency_max = fb.frequency_max)
    (h3 : fb1.bands_per_octave = fb.bands_per_octave)
    (h4 : fb1.reference_wavelet_ = fb.reference_wavelet_) :
    fb1.min_index = fb.min_index ∧ fb1.max_index = fb.max_index ∧
      fb1.bandCount = fb.bandCount ∧ ∀ n, fb1.initScales n = fb.initScales n := by
  have e1 : fb1.min_index = fb.min_index := by
    unfold min_index min_scale scale_0
    rw [h2, h3, h4]
  have e2 : fb1.max_index = fb.max_index := by
    unfold max_index max_scale scale_0
    rw [h1, h3, h4]
  refine ⟨e1, e2, by unfold bandCount; rw [e1, e2], ?_⟩
  intro n
  unfold initScales
  apply List.map_congr_left
  intro i _
  unfold scaleAt scale_0
  rw [e1, h3, h4]

theorem init_size_int (fb fb1 : Filterbank) (h : fb.init = some fb1) :
    (fb1.size : ℤ) = fb.max_index - fb.min_index := by
  rw [fb.init_size fb1 h]
  exact fb.bandCount_cast (fb.init_eq_some fb1 h).1

end Filterbank

/-- C27, amended. Band count and bands per octave: after `init` with `b` bands
per octave and `s` bands, `init` with `b / 2` bands per octave (all else
unchanged) gives `h` bands with `s - 2 * h` in `{-1, 0, 1, 2}`, and in
`{-1, 0, 1}` when `min_index ≥ 1` (no band below the scale `2 / samplerate`):
`h` is then `s / 2` rounded down or up; `init` with `b` bands per octave again
gives the `s` bands and the scales of the first `init`. -/
theorem band_count_halving (fb fb1 fb2 fb3 : Filterbank) (h1 : fb.init = some fb1)
    (h2 : Filterbank.init { fb1 with bands_per_octave := fb1.bands_per_octave / 2 } = some fb2)
    (h3 : Filterbank.init { fb2 with bands_per_octave := fb1.bands_per_octave } = some fb3) :
    -1 ≤ (fb1.size : ℤ) - 2 * (fb2.size : ℤ) ∧ (fb1.size : ℤ) - 2 * (fb2.size : ℤ) ≤ 2 ∧
      (1 ≤ fb.min_index → (fb1.size : ℤ) - 2 * (fb2.size : ℤ) ≤ 1) ∧
      fb3.size = fb1.size ∧ fb3.scales = fb1.scales := by
  have truncToInt_half_difference : ∀ (a c : ℝ) (h : truncToInt c ≤ truncToInt a),
      -1 ≤ (truncToInt a - truncToInt c) - 2 * (truncToInt (a / 2) - truncToInt (c / 2)) ∧
        (truncToInt a - truncToInt c) - 2 * (truncToInt (a / 2) - truncToInt (c / 2)) ≤ 2 ∧
        (0 ≤ truncToInt c →
          (truncToInt a - truncToInt c) - 2 * (truncToInt (a / 2) - truncToInt (c / 2)) ≤ 1) := by
    intro a c h
    have truncToInt_half : ∀ (x : ℝ),
        (0 ≤ truncToInt x →
          0 ≤ truncToInt x - 2 * truncToInt (x / 2) ∧
            truncToInt x - 2 * truncToInt (x / 2) ≤ 1) ∧
          (truncToInt x ≤ 0 →
            -1 ≤ truncToInt x - 2 * truncToInt (x / 2) ∧
              truncToInt x - 2 * truncToInt (x / 2) ≤ 0) := by
      intro x
      by_cases hx : 0 ≤ x
      · have hx2 : 0 ≤ x / 2 := by linarith
        rw [truncToInt_of_nonneg hx, truncToInt_of_nonneg hx2]
        have h1 : ((⌊x / 2⌋ : ℤ) : ℝ) ≤ x / 2 := Int.floor_le _
        have h2 : x / 2 < ((⌊x / 2⌋ : ℤ) : ℝ) + 1 := Int.lt_floor_add_one _
        have h3 : 2 * ⌊x / 2⌋ ≤ ⌊x⌋ := by
          rw [Int.le_floor]
          push_cast
          linarith
        have h4 : ⌊x⌋ < 2 * ⌊x / 2⌋ + 2 := by
          rw [Int.floor_lt]
          push_cast
          linarith
        have h5 : 0 ≤ ⌊x⌋ := Int.floor_nonneg.mpr hx
        constructor
        · intro _
          omega
        · intro h0
          omega
      · push_neg at hx
        have hx2 : x / 2 < 0 := by linarith
        rw [truncToInt_of_neg hx, truncToInt_of_neg hx2]
        have h1 : x / 2 ≤ ((⌈x / 2⌉ : ℤ) : ℝ) := Int.le_ceil _
        have h2 : ((⌈x / 2⌉ : ℤ) : ℝ) < x / 2 + 1 := Int.ceil_lt_add_one _
        have h3 : ⌈x⌉ ≤ 2 * ⌈x / 2⌉ := by
          rw [Int.ceil_le]
          push_cast
          linarith
        have h4 : 2 * ⌈x / 2⌉ - 2 < ⌈x⌉ := by
          rw [Int.lt_ceil]
          push_cast
          linarith
        have h5 : ⌈x⌉ ≤ 0 := by
          rw [Int.ceil_le]
          exact_mod_cast hx.le
        constructor
        · intro h0
          omega
        · intro _
          omega
    obtain ⟨a1, a2⟩ := truncToInt_half a
    obtain ⟨c1, c2⟩ := truncToInt_half c
    refine ⟨?_, ?_, ?_⟩
    · by_cases hc : 0 ≤ truncToInt c
      · have := a1 (by omega)
        have := c1 hc
        omega
      · have := c2 (by omega)
        by_cases ha : 0 ≤ truncToInt a
        · have := a1 ha
          omega
        · have := a2 (by omega)
          omega
    · by_cases hc : 0 ≤ truncToInt c
      · have := a1 (by omega)
        have := c1 hc
        omega
      · have := c2 (by omega)
        by_cases ha : 0 ≤ truncToInt a
        · have := a1 ha
          omega
        · have := a2 (by omega)
          omega
    · intro hc
      have := a1 (by omega)
      have := c1 hc
      omega
  open woma.Filterbank in
    have halved_indices : ∀ (fb : Filterbank) (b : ℝ),
        ({ fb with bands_per_octave := b / 2 } : Filterbank).min_index =
            1 + truncToInt (Real.logb 2 (fb.min_scale / fb.scale_0) * b / 2) ∧
          ({ fb with bands_per_octave := b / 2 } : Filterbank).max_index =
            1 + truncToInt (Real.logb 2 (fb.max_scale / fb.scale_0) * b / 2) := by
      intro fb b
      constructor
      · show 1 + truncToInt (Real.logb 2 (fb.min_scale / fb.scale_0) * (b / 2)) = _
        rw [mul_div_assoc]
      · show 1 + truncToInt (Real.logb 2 (fb.max_scale / fb.scale_0) * (b / 2)) = _
        rw [mul_div_assoc]
  open woma.Filterbank in
    have init_scales : ∀ (fb fb1 : Filterbank) (h : fb.init = some fb1),
        fb1.scales = fb.initScales fb.bandCount := by
      intro fb fb1 h
      obtain ⟨_, _, ws, bufs, _, _, rfl⟩ := fb.init_eq_some fb1 h
      rfl
  obtain ⟨a1, a2, a3, _, _, _, a7⟩ := FilterbankObject.init_keeps_attributes _ _ h1
  obtain ⟨b1, b2, b3, _, _, _, b7⟩ := FilterbankObject.init_keeps_attributes _ _ h2
  -- the halved configuration
  obtain ⟨c1, c2, _, _⟩ := Filterbank.enumeration_congr
    ({ fb with bands_per_octave := fb.bands_per_octave / 2 } : Filterbank)
    ({ fb1 with bands_per_octave := fb1.bands_per_octave / 2 } : Filterbank)
    a1 a2 (by show fb1.bands_per_octave / 2 = fb.bands_per_octave / 2; rw [a3]) a7
  obtain ⟨d1, d2⟩ := halved_indices fb fb.bands_per_octave
  have hs1 := Filterbank.init_size_int fb fb1 h1
  have hs2 := Filterbank.init_size_int _ fb2 h2
  rw [c1, c2, d1, d2] at hs2
  have hle := (Filterbank.init_eq_some fb fb1 h1).1
  unfold Filterbank.min_index Filterbank.max_index at hs1 hle
  obtain ⟨t1, t2, t3⟩ := truncToInt_half_difference
    (Real.logb 2 (fb.max_scale / fb.scale_0) * fb.bands_per_octave)
    (Real.logb 2 (fb.min_scale / fb.scale_0) * fb.bands_per_octave) (by omega)
  -- the restored configuration
  obtain ⟨e1, e2, e3, e4⟩ := Filterbank.enumeration_congr fb
    ({ fb2 with bands_per_octave := fb1.bands_per_octave } : Filterbank)
    (by show fb2.frequency_min = _; rw [b1]; exact a1)
    (by show fb2.frequency_max = _; rw [b2]; exact a2)
    a3
    (by show fb2.reference_wavelet_ = _; rw [b7]; exact a7)
  refine ⟨by omega, by omega, ?_, ?_, ?_⟩
  · intro hmin
    unfold Filterbank.min_index at hmin
    have := t3 (by omega)
    omega
  · rw [Filterbank.init_size _ fb3 h3, e3, Filterbank.init_size fb fb1 h1]
  · rw [init_scales _ fb3 h3, e3, e4, init_scales fb fb1 h1]

namespace Filterbank

/-- The two indices of `init` for a Morlet reference wavelet with `omega0 = 5`,
from rational bounds on the two ratios and their powers. -/
theorem morlet_indices_of_bounds (fb : Filterbank)
    (hf : fb.reference_wavelet_.family = Family.Morlet) (ho : fb.reference_wavelet_.omega0 = 5)
    (sr fmin fmax lo1 hi1 lo2 hi2 : ℝ) (n k1 k2 : ℕ)
    (hsr : fb.reference_wavelet_.samplerate = sr) (hmin : fb.frequency_min = fmin)
    (hmax : fb.frequency_max = fmax) (hb : fb.bands_per_octave = (n : ℝ))
    (p1 : 0 < sr) (p2 : 0 < fmin) (p3 : 0 < fmax) (p4 : 0 < lo1) (p5 : 0 < lo2)
    (a1 : lo1 * (8 * 3.15 * fmax) ≤ 10.19 * sr) (a2 : 10.2 * sr ≤ hi1 * (8 * 3.14 * fmax))
    (a3 : (2 : ℝ) ^ k1 ≤ lo1 ^ n) (a4 : hi1 ^ n < (2 : ℝ) ^ (k1 + 1))
    (b1 : lo2 * (8 * 3.15 * fmin) ≤ 10.19 * sr) (b2 : 10.2 * sr ≤ hi2 * (8 * 3.14 * fmin))
    (b3 : (2 : ℝ) ^ k2 ≤ lo2 ^ n) (b4 : hi2 ^ n < (2 : ℝ) ^ (k2 + 1)) :
    fb.min_index = 1 + (k1 : ℤ) ∧ fb.max_index = 1 + (k2 : ℤ) := by
  obtain ⟨r1, r2⟩ := fb.morlet_scale_ratios hf ho (by rw [hsr]; exact p1.ne')
    (by rw [hmin]; exact p2.ne') (by rw [hmax]; exact p3.ne')
  have hhi1 : 0 ≤ hi1 := by
    by_contra hneg
    push_neg at hneg
    have : hi1 * (8 * 3.14 * fmax) < 0 := mul_neg_of_neg_of_pos hneg (by positivity)
    nlinarith
  have hhi2 : 0 ≤ hi2 := by
    by_contra hneg
    push_neg at hneg
    have : hi2 * (8 * 3.14 * fmin) < 0 := mul_neg_of_neg_of_pos hneg (by positivity)
    nlinarith
  unfold min_index max_index
  rw [r1, r2, hsr, hmin, hmax]
  constructor
  · obtain ⟨c1, c2⟩ := ratio_bounds sr fmax lo1 hi1 p3 a1 a2 p1.le p4.le hhi1
    exact index_of_pow_bounds _ lo1 hi1 _ n k1 hb p4 c1 c2 a3 a4
  · obtain ⟨c1, c2⟩ := ratio_bounds sr fmin lo2 hi2 p2 b1 b2 p1.le p5.le hhi2
    exact index_of_pow_bounds _ lo2 hi2 _ n k2 hb p5 c1 c2 b3 b4

end Filterbank

/-- A Morlet filterbank at sample rate `sr` when its constructor reaches
`init`, and the fields the band enumeration reads. -/
theorem morlet_members_fields (sr fmin fmax bpo : ℝ) :
    (Filterbank.members fmin fmax bpo Family.Morlet
        (Wavelet.init (MorletWavelet.members sr))).reference_wavelet_.family = Family.Morlet ∧
      (Filterbank.members fmin fmax bpo Family.Morlet
        (Wavelet.init (MorletWavelet.members sr))).reference_wavelet_.omega0 = 5 ∧
      (Filterbank.members fmin fmax bpo Family.Morlet
        (Wavelet.init (MorletWavelet.members sr))).reference_wavelet_.samplerate = sr := by
  refine ⟨?_, ?_, ?_⟩
  · show (Wavelet.init (MorletWavelet.members sr)).family = _
    rw [Wavelet.init_family]; rfl
  · show (Wavelet.init (MorletWavelet.members sr)).omega0 = _
    rw [Wavelet.init_omega0]; rfl
  · show (Wavelet.init (MorletWavelet.members sr)).samplerate = _
    rw [Wavelet.init_samplerate]; rfl

namespace Filterbank

/-- The scenario of the band count: `init` with 4 bands per octave, with 2,
and with 4 again, on a configuration whose indices are known for both
values. -/
theorem halve_then_restore (fb : Filterbank) (hsr : 0 < fb.reference_wavelet_.samplerate)
    (h0 : 0 < fb.frequency_min) (hle : fb.frequency_min ≤ fb.frequency_max)
    (hfam : fb.family = fb.reference_wavelet_.family) (hb : fb.bands_per_octave = 4)
    (i k i2 k2 : ℤ) (hmin : fb.min_index = i) (hmax : fb.max_index = k)
    (hmin2 : ({ fb with bands_per_octave := 2 } : Filterbank).min_index = i2)
    (hmax2 : ({ fb with bands_per_octave := 2 } : Filterbank).max_index = k2)
    (hlt : i < k) (hlt2 : i2 < k2) :
    ∃ fb1 fb2 fb3, fb.init = some fb1 ∧
      Filterbank.init { fb1 with bands_per_octave := fb1.bands_per_octave / 2 } = some fb2 ∧
      Filterbank.init { fb2 with bands_per_octave := fb1.bands_per_octave } = some fb3 ∧
      (fb1.size : ℤ) = k - i ∧ (fb2.size : ℤ) = k2 - i2 := by
  have init_of_indices : ∀ (fb : Filterbank) (hsr : 0 < fb.reference_wavelet_.samplerate)
      (h0 : 0 < fb.frequency_min) (hle : fb.frequency_min ≤ fb.frequency_max)
      (hb : 0 ≤ fb.bands_per_octave) (hfam : fb.family = fb.reference_wavelet_.family)
      (i k : ℤ) (hmin : fb.min_index = i) (hmax : fb.max_index = k) (hlt : i < k),
      ∃ fb1, fb.init = some fb1 ∧ (fb1.size : ℤ) = k - i := by
    intro fb hsr h0 hle hb hfam i k hmin hmax hlt
    obtain ⟨fb1, h⟩ := fb.init_isSome hsr h0 hle hb hfam (by intro _; rw [hmin, hmax]; exact hlt)
    refine ⟨fb1, h, ?_⟩
    rw [fb.init_size_int fb1 h, hmin, hmax]
  obtain ⟨fb1, h1, s1⟩ := init_of_indices fb hsr h0 hle (by rw [hb]; norm_num) hfam i k
    hmin hmax hlt
  obtain ⟨a1, a2, a3, _, a5, _, a7⟩ := FilterbankObject.init_keeps_attributes _ _ h1
  have hhalf : fb1.bands_per_octave / 2 = 2 := by rw [a3, hb]; norm_num
  obtain ⟨c1, c2, _, _⟩ := enumeration_congr
    ({ fb with bands_per_octave := 2 } : Filterbank)
    ({ fb1 with bands_per_octave := fb1.bands_per_octave / 2 } : Filterbank)
    a1 a2 hhalf a7
  obtain ⟨fb2, h2, s2⟩ := init_of_indices
    ({ fb1 with bands_per_octave := fb1.bands_per_octave / 2 } : Filterbank)
    (by show 0 < fb1.reference_wavelet_.samplerate; rw [a7]; exact hsr)
    (by show 0 < fb1.frequency_min; rw [a1]; exact h0)
    (by show fb1.frequency_min ≤ fb1.frequency_max; rw [a1, a2]; exact hle)
    (by show 0 ≤ fb1.bands_per_octave / 2; rw [hhalf]; norm_num)
    (by show fb1.family = fb1.reference_wavelet_.family; rw [a5, a7]; exact hfam)
    i2 k2 (by rw [c1]; exact hmin2) (by rw [c2]; exact hmax2) hlt2
  obtain ⟨b1, b2, _, _, b5, _, b7⟩ := FilterbankObject.init_keeps_attributes _ _ h2
  obtain ⟨d1, d2, _, _⟩ := enumeration_congr fb
    ({ fb2 with bands_per_octave := fb1.bands_per_octave } : Filterbank)
    (by show fb2.frequency_min = _; rw [b1]; exact a1)
    (by show fb2.frequency_max = _; rw [b2]; exact a2)
    a3
    (by show fb2.reference_wavelet_ = _; rw [b7]; exact a7)
  obtain ⟨fb3, h3, _⟩ := init_of_indices
    ({ fb2 with bands_per_octave := fb1.bands_per_octave } : Filterbank)
    (by show 0 < fb2.reference_wavelet_.samplerate; rw [b7]; show 0 < fb1.reference_wavelet_.samplerate; rw [a7]; exact hsr)
    (by show 0 < fb2.frequency_min; rw [b1]; show 0 < fb1.frequency_min; rw [a1]; exact h0)
    (by
      show fb2.frequency_min ≤ fb2.frequency_max
      rw [b1, b2]
      show fb1.frequency_min ≤ fb1.frequency_max
      rw [a1, a2]; exact hle)
    (by show 0 ≤ fb1.bands_per_octave; rw [a3, hb]; norm_num)
    (by
      show fb2.family = fb2.reference_wavelet_.family
      rw [b5, b7]
      show fb1.family = fb1.reference_wavelet_.family
      rw [a5, a7]; exact hfam)
    i k (by rw [d1]; exact hmin) (by rw [d2]; exact hmax) hlt
  exact ⟨fb1, fb2, fb3, h1, h2, h3, s1, s2⟩

end Filterbank

/-- C27, as stated, fails on the code: `Filterbank(100, 0.875, 30, 4)` has 21
bands, and 11, not `21 / 2 = 10`, with 2 bands per octave. -/
theorem band_count_halving_counterexample :
    ∃ fb1 fb2, (sampleBank 0.875 30 4).init = some fb1 ∧
      Filterbank.init { fb1 with bands_per_octave := fb1.bands_per_octave / 2 } = some fb2 ∧
      fb1.size = 21 ∧ fb2.size = 11 ∧ fb2.size ≠ fb1.size / 2 := by
  obtain ⟨q1, q2, q3⟩ := morlet_members_fields 100 0.875 30 4
  have i4 := Filterbank.morlet_indices_of_bounds (sampleBank 0.875 30 4) q1 q2
    100 0.875 30 1.34 1.36 46.2 46.5 4 1 22 q3 rfl rfl (by show (4 : ℝ) = ((4 : ℕ) : ℝ); norm_num)
    (by norm_num) (by norm_num) (by norm_num) (by norm_num) (by norm_num)
    (by norm_num) (by norm_num) (by norm_num) (by norm_num)
    (by norm_num) (by norm_num) (by norm_num) (by norm_num)
  have i2 := Filterbank.morlet_indices_of_bounds
    ({ sampleBank 0.875 30 4 with bands_per_octave := 2 } : Filterbank) q1 q2
    100 0.875 30 1.34 1.36 46.2 46.5 2 0 11 q3 rfl rfl (by show (2 : ℝ) = ((2 : ℕ) : ℝ); norm_num)
    (by norm_num) (by norm_num) (by norm_num) (by norm_num) (by norm_num)
    (by norm_num) (by norm_num) (by norm_num) (by norm_num)
    (by norm_num) (by norm_num) (by norm_num) (by norm_num)
  obtain ⟨fb1, fb2, _, h1, h2, _, s1, s2⟩ := Filterbank.halve_then_restore
    (sampleBank 0.875 30 4)
    (by
      have h : (sampleBank 0.875 30 4).reference_wavelet_.samplerate = 100 := q3
      rw [h]; norm_num)
    (by show (0 : ℝ) < 0.875; norm_num)
    (by show (0.875 : ℝ) ≤ 30; norm_num)
    (by
      have h : (sampleBank 0.875 30 4).reference_wavelet_.family = Family.Morlet := q1
      rw [h]; rfl)
    rfl
    _ _ _ _ i4.1 i4.2 i2.1 i2.2 (by norm_num) (by norm_num)
  have e1 : fb1.size = 21 := by omega
  have e2 : fb2.size = 11 := by omega
  exact ⟨fb1, fb2, h1, h2, e1, e2, by rw [e1, e2]; norm_num⟩

theorem band_count_halving_witness :
    ∃ fb1 fb2 fb3,
      (Filterbank.members 1 30 4 Family.Morlet
        (Wavelet.init (MorletWavelet.members 200))).init = some fb1 ∧
      Filterbank.init { fb1 with bands_per_octave := fb1.bands_per_octave / 2 } = some fb2 ∧
      Filterbank.init { fb2 with bands_per_octave := fb1.bands_per_octave } = some fb3 ∧
      fb1.size = 20 ∧ fb2.size = 10 ∧ fb3.size = 20 ∧ fb3.scales = fb1.scales := by
  obtain ⟨q1, q2, q3⟩ := morlet_members_fields 200 1 30 4
  have i4 := Filterbank.morlet_indices_of_bounds
    (Filterbank.members 1 30 4 Family.Morlet (Wavelet.init (MorletWavelet.members 200))) q1 q2
    200 1 30 2.69 2.71 80.8 81.3 4 5 25 q3 rfl rfl (by show (4 : ℝ) = ((4 : ℕ) : ℝ); norm_num)
    (by norm_num) (by norm_num) (by norm_num) (by norm_num) (by norm_num)
    (by norm_num) (by norm_num) (by norm_num) (by norm_num)
    (by norm_num) (by norm_num) (by norm_num) (by norm_num)
  have i2 := Filterbank.morlet_indices_of_bounds
    ({ Filterbank.members 1 30 4 Family.Morlet (Wavelet.init (MorletWavelet.members 200)) with
        bands_per_octave := 2 } : Filterbank) q1 q2
    200 1 30 2.69 2.71 80.8 81.3 2 2 12 q3 rfl rfl (by show (2 : ℝ) = ((2 : ℕ) : ℝ); norm_num)
    (by norm_num) (by norm_num) (by norm_num) (by norm_num) (by norm_num)
    (by norm_num) (by norm_num) (by norm_num) (by norm_num)
    (by norm_num) (by norm_num) (by norm_num) (by norm_num)
  obtain ⟨fb1, fb2, fb3, h1, h2, h3, s1, s2⟩ := Filterbank.halve_then_restore
    (Filterbank.members 1 30 4 Family.Morlet (Wavelet.init (MorletWavelet.members 200)))
    (by rw [q3]; norm_num) (by show (0 : ℝ) < 1; norm_num)
    (by show (1 : ℝ) ≤ 30; norm_num) (by rw [q1]; rfl) rfl
    _ _ _ _ i4.1 i4.2 i2.1 i2.2 (by norm_num) (by norm_num)
  obtain ⟨_, _, _, r1, r2⟩ := band_count_halving _ fb1 fb2 fb3 h1 h2 h3
  have e1 : fb1.size = 20 := by omega
  have e2 : fb2.size = 10 := by omega
  exact ⟨fb1, fb2, fb3, h1, h2, h3, e1, e2, by rw [r1, e1], r2⟩

/-- C28. Construction defaults: for every sample rate `r > 0` the constructor
of the Morlet wavelet returns a wavelet with `scale = 2 / r`, `samplerate = r`
and the recursive mode; and every filterbank object the constructor
`Filterbank(r, fmin, fmax, bpo)` builds reports through `getAttribute` the
values `samplerate = r`, `frequency_min = fmin`, `frequency_max = fmax`,
`bands_per_octave = bpo`, and the defaults `family = Morlet`,
`mode = RECURSIVE`, `delay = 1.5` and `omega0 = 5`. -/
theorem construction_defaults (r fmin fmax bpo : ℝ) :
    (0 < r → ∃ w, MorletWavelet.create r = some w ∧ w.scale = 2 / r ∧ w.samplerate = r ∧
      w.mode = WaveletDomain.RECURSIVE) ∧
    ∀ (obj : FilterbankObject),
      FilterbankObject.construct r fmin fmax bpo = Construction.built obj →
      obj.getAttribute "samplerate" AnyKind.float = Except.ok (AnyValue.float r) ∧
        obj.getAttribute "frequency_min" AnyKind.float = Except.ok (AnyValue.float fmin) ∧
        obj.getAttribute "frequency_max" AnyKind.float = Except.ok (AnyValue.float fmax) ∧
        obj.getAttribute "bands_per_octave" AnyKind.float = Except.ok (AnyValue.float bpo) ∧
        obj.getAttribute "family" AnyKind.family =
          Except.ok (AnyValue.family Family.Morlet) ∧
        obj.getAttribute "mode" AnyKind.mode =
          Except.ok (AnyValue.mode WaveletDomain.RECURSIVE) ∧
        obj.getAttribute "delay" AnyKind.float = Except.ok (AnyValue.float 1.5) ∧
        obj.getAttribute "omega0" AnyKind.float = Except.ok (AnyValue.float 5) := by
  open woma.FilterbankObject in
    have construct_reports : ∀ (r fmin fmax bpo : ℝ) (obj : FilterbankObject)
        (h : construct r fmin fmax bpo = Construction.built obj),
        obj.getAttribute "samplerate" AnyKind.float = Except.ok (AnyValue.float r) ∧
          obj.getAttribute "frequency_min" AnyKind.float = Except.ok (AnyValue.float fmin) ∧
          obj.getAttribute "frequency_max" AnyKind.float = Except.ok (AnyValue.float fmax) ∧
          obj.getAttribute "bands_per_octave" AnyKind.float = Except.ok (AnyValue.float bpo) ∧
          obj.getAttribute "family" AnyKind.family = Except.ok (AnyValue.family Family.Morlet) ∧
          obj.getAttribute "mode" AnyKind.mode =
            Except.ok (AnyValue.mode WaveletDomain.RECURSIVE) ∧
          obj.getAttribute "delay" AnyKind.float = Except.ok (AnyValue.float 1.5) ∧
          obj.getAttribute "omega0" AnyKind.float = Except.ok (AnyValue.float 5) := by
      intro r fmin fmax bpo obj h
      obtain ⟨_, _, _, _, _, m, hm, rfl⟩ := construct_built r fmin fmax bpo obj h
      obtain ⟨a1, a2, a3, _, a5, _, a7⟩ := init_keeps_attributes _ _ hm
      have e1 : m.frequency_min = fmin := a1
      have e2 : m.frequency_max = fmax := a2
      have e3 : m.bands_per_octave = bpo := a3
      have e5 : m.family = Family.Morlet := a5
      have e7 : m.reference_wavelet_ = Wavelet.init (MorletWavelet.members r) := a7
      have w1 : m.reference_wavelet_.samplerate = r := by rw [e7, Wavelet.init_samplerate]; rfl
      have w2 : m.reference_wavelet_.mode = WaveletDomain.RECURSIVE := by
        rw [e7, Wavelet.init_mode]; rfl
      have w3 : m.reference_wavelet_.delay = 1.5 := by rw [e7, Wavelet.init_delay]; rfl
      have w4 : m.reference_wavelet_.omega0 = 5 := by rw [e7, Wavelet.init_omega0]; rfl
      have w5 : m.reference_wavelet_.family = Family.Morlet := by
        rw [e7, Wavelet.init_family]; rfl
      refine ⟨?_, ?_, ?_, ?_, ?_, ?_, ?_, ?_⟩
      · apply getAttribute_of_internal _ "samplerate" (AnyValue.float r)
        unfold getAttribute_internal Wavelet.getAttribute_internal
        simp [w1]
      · apply getAttribute_of_internal _ "frequency_min" (AnyValue.float fmin)
        unfold getAttribute_internal
        simp [e1]
      · apply getAttribute_of_internal _ "frequency_max" (AnyValue.float fmax)
        unfold getAttribute_internal
        simp [e2]
      · apply getAttribute_of_internal _ "bands_per_octave" (AnyValue.float bpo)
        unfold getAttribute_internal
        simp [e3]
      · apply getAttribute_of_internal _ "family" (AnyValue.family Family.Morlet)
        unfold getAttribute_internal
        simp [e5]
      · apply getAttribute_of_internal _ "mode" (AnyValue.mode WaveletDomain.RECURSIVE)
        unfold getAttribute_internal Wavelet.getAttribute_internal
        simp [w2]
      · apply getAttribute_of_internal _ "delay" (AnyValue.float 1.5)
        unfold getAttribute_internal Wavelet.getAttribute_internal
        simp [w3]
      · apply getAttribute_of_internal _ "omega0" (AnyValue.float 5)
        unfold getAttribute_internal Wavelet.getAttribute_internal
        rw [w5]
        simp [w4]
  constructor
  · intro hr
    refine ⟨Wavelet.init (MorletWavelet.members r), ?_, ?_, ?_, ?_⟩
    · unfold MorletWavelet.create
      rw [if_neg]
      push_neg
      exact ⟨le_of_lt hr, ne_of_gt hr⟩
    · rw [Wavelet.init_scale]; rfl
    · rw [Wavelet.init_samplerate]; rfl
    · rw [Wavelet.init_mode]; rfl
  · intro obj h
    exact construct_reports r fmin fmax bpo obj h

theorem construction_defaults_witness :
    (0 : ℝ) < 100 ∧
    (∃ w, MorletWavelet.create 100 = some w ∧ w.scale = 2 / 100 ∧ w.samplerate = 100 ∧
      w.mode = WaveletDomain.RECURSIVE) ∧
    ∃ obj, FilterbankObject.construct 100 1 30 4 = Construction.built obj ∧
      obj.getAttribute "samplerate" AnyKind.float = Except.ok (AnyValue.float 100) ∧
      obj.getAttribute "frequency_min" AnyKind.float = Except.ok (AnyValue.float 1) ∧
      obj.getAttribute "frequency_max" AnyKind.float = Except.ok (AnyValue.float 30) ∧
      obj.getAttribute "bands_per_octave" AnyKind.float = Except.ok (AnyValue.float 4) ∧
      obj.getAttribute "family" AnyKind.family = Except.ok (AnyValue.family Family.Morlet) ∧
      obj.getAttribute "mode" AnyKind.mode =
        Except.ok (AnyValue.mode WaveletDomain.RECURSIVE) ∧
      obj.getAttribute "delay" AnyKind.float = Except.ok (AnyValue.float 1.5) ∧
      obj.getAttribute "omega0" AnyKind.float = Except.ok (AnyValue.float 5) := by
  obtain ⟨obj, h, _⟩ := FilterbankObject.scenario_construct
  exact ⟨by norm_num, (construction_defaults 100 1 30 4).1 (by norm_num), obj, h,
    (construction_defaults 100 1 30 4).2 obj h⟩

/-- The normalisation `sqrt(1 / x)` of the source is `x ^ (-1/2)`. -/
theorem sqrt_one_div_eq_rpow (x : ℝ) : Real.sqrt (1 / x) = x ^ (-(1 / 2) : ℝ) := by
  rcases le_or_lt 0 x with hx | hx
  · rw [Real.rpow_neg hx, Real.sqrt_eq_rpow, one_div, Real.inv_rpow hx]
  · rw [Real.sqrt_eq_zero_of_nonpos (le_of_lt (one_div_neg.mpr hx)), Real.rpow_def_of_neg hx]
    have : Real.cos (-(1 / 2) * Real.pi) = 0 := by
      rw [show -(1 / 2) * Real.pi = -(Real.pi / 2) by ring, Real.cos_neg, Real.cos_pi_div_two]
    rw [this, mul_zero]

namespace PaulWavelet

/-- With `unsigned int` factorials that did not wrap, `phi` is the stated
formula. -/
theorem phi_eq_statedPhi (m : ℕ) (scale samplerate arg : ℝ)
    (h1 : factorial m = Nat.factorial m)
    (h2 : factorial ((2 * m) % 2 ^ 32) = Nat.factorial (2 * m))
    (h3 : toInt32 (m + 1) = (m : ℤ) + 1) :
    phi m scale samplerate arg = statedPhi m scale samplerate arg := by
  have hc : Complex.mk 1 (-arg) = 1 - Complex.I * (arg : ℂ) := by
    apply Complex.ext <;> simp
  unfold phi statedPhi
  simp only
  rw [h1, h2, h3, hc, sqrt_one_div_eq_rpow]

theorem factorial_14 : factorial ((2 * 7) % 2 ^ 32) = 1278945280 := by
  decide

theorem factorial_7 : factorial 7 = 5040 := by
  decide

end PaulWavelet

/-- C29 fails on the code at order 7: `factorial(14)`, computed in
`unsigned int`, is `14! mod 2^32 = 1278945280` and not `14! = 87178291200`,
and `phi(0)` of the Paul wavelet of order 7 (scale `2 / 100`, sample rate 100)
differs from the stated formula; for the orders 1 to 6 and all arguments the
two agree. -/
theorem paul_factorial_wraps :
    PaulWavelet.factorial 14 = 1278945280 ∧ Nat.factorial 14 = 87178291200 ∧
      PaulWavelet.phi 7 (2 / 100) 100 0 ≠ PaulWavelet.statedPhi 7 (2 / 100) 100 0 ∧
      ∀ (m : Fin 6) (scale samplerate arg : ℝ),
        PaulWavelet.phi (m.val + 1) scale samplerate arg =
          PaulWavelet.statedPhi (m.val + 1) scale samplerate arg := by
  refine ⟨by decide, by decide, ?_, ?_⟩
  · intro h
    unfold PaulWavelet.phi PaulWavelet.statedPhi at h
    simp only at h
    rw [PaulWavelet.factorial_14, PaulWavelet.factorial_7, sqrt_one_div_eq_rpow] at h
    have hc : Complex.mk 1 (-(0 : ℝ)) = 1 := by
      apply Complex.ext <;> simp
    have hd : (1 : ℂ) - Complex.I * ((0 : ℝ) : ℂ) = 1 := by simp
    rw [hc, hd, one_zpow, one_zpow, mul_one, mul_one] at h
    have hn : ((((2 : ℝ) / 100 * 100) ^ (-(1 / 2) : ℝ) : ℝ) : ℂ) ≠ 0 := by
      have : (0 : ℝ) < ((2 : ℝ) / 100 * 100) ^ (-(1 / 2) : ℝ) :=
        Real.rpow_pos_of_pos (by norm_num) _
      exact_mod_cast ne_of_gt this
    have h := mul_right_cancel₀ hn h
    have hA : (2 * Complex.I) ^ 7 * (((5040 : ℕ) : ℂ)) ≠ 0 := by
      apply mul_ne_zero
      · exact pow_ne_zero _ (mul_ne_zero two_ne_zero Complex.I_ne_zero)
      · norm_num
    have f7 : ((Nat.factorial 7 : ℕ) : ℂ) = ((5040 : ℕ) : ℂ) := by
      rw [show Nat.factorial 7 = 5040 by decide]
    rw [f7] at h
    have p1 : (0 : ℝ) < Real.sqrt (Real.pi * ((1278945280 : ℕ) : ℝ)) :=
      Real.sqrt_pos.mpr (mul_pos Real.pi_pos (by norm_num))
    have p2 : (0 : ℝ) < Real.sqrt (Real.pi * ((Nat.factorial (2 * 7) : ℕ) : ℝ)) :=
      Real.sqrt_pos.mpr (mul_pos Real.pi_pos (by exact_mod_cast Nat.factorial_pos _))
    have n1 : ((Real.sqrt (Real.pi * ((1278945280 : ℕ) : ℝ)) : ℝ) : ℂ) ≠ 0 := by
      exact_mod_cast ne_of_gt p1
    have n2 : ((Real.sqrt (Real.pi * ((Nat.factorial (2 * 7) : ℕ) : ℝ)) : ℝ) : ℂ) ≠ 0 := by
      exact_mod_cast ne_of_gt p2
    rw [div_eq_div_iff n1 n2] at h
    have h := mul_left_cancel₀ hA h
    have h : Real.sqrt (Real.pi * ((Nat.factorial (2 * 7) : ℕ) : ℝ)) =
        Real.sqrt (Real.pi * ((1278945280 : ℕ) : ℝ)) := by exact_mod_cast h
    rw [Real.sqrt_inj (le_of_lt (mul_pos Real.pi_pos (by exact_mod_cast Nat.factorial_pos _)))
      (le_of_lt (mul_pos Real.pi_pos (by norm_num)))] at h
    have h := mul_left_cancel₀ (ne_of_gt Real.pi_pos) h
    have h : Nat.factorial (2 * 7) = 1278945280 := by exact_mod_cast h
    revert h
    decide
  · intro m scale samplerate arg
    apply PaulWavelet.phi_eq_statedPhi
    · revert m; decide
    · revert m; decide
    · have : ∀ (k : Fin 6), PaulWavelet.toInt32 (k.val + 1 + 1) = ((k.val + 1 + 1 : ℕ) : ℤ) := by
        decide
      rw [this m]; push_cast; ring

/-- At the end of the buffer loop of `init` the keys of `data_` are exactly
the factors of the bands. -/
theorem BuffersInv.key_iff (bands : List (ℕ × ℤ))
    (st : List (ℤ × CircularBuffer) × List (ℤ × LowpassFilter))
    (h : BuffersInv bands bands.length st) (k : ℤ) :
    k ∈ st.1.map Prod.fst ↔ k ∈ bands.map Prod.snd := by
  have changes_surj : ∀ (ds : List ℤ), ∀ (j p : ℕ), p ≤ changes ds j →
      ∃ i, i ≤ j ∧ changes ds i = p := by
    intro ds
    intro j
    induction j with
    | zero =>
      intro p hp
      have h0 : changes ds 0 = 0 := rfl
      exact ⟨0, le_refl _, by rw [h0] at hp ⊢; omega⟩
    | succ k ih =>
      intro p hp
      rw [Filterbank.changes_succ] at hp
      by_cases hc : ds.getD (k + 1) 0 ≠ ds.getD k 0
      · rw [if_pos hc] at hp
        rcases Nat.eq_or_lt_of_le hp with he | hl
        · exact ⟨k + 1, le_refl _, by rw [Filterbank.changes_succ, if_pos hc, he]⟩
        · obtain ⟨i, hi, hq⟩ := ih p (by omega)
          exact ⟨i, by omega, hq⟩
      · rw [if_neg hc] at hp
        obtain ⟨i, hi, hq⟩ := ih p hp
        exact ⟨i, by omega, hq⟩
  have hlen : (bands.map Prod.snd).length = bands.length := List.length_map _ _
  constructor
  · intro hk
    obtain ⟨p, hp⟩ := List.mem_iff_getElem?.mp hk
    rw [List.getElem?_map] at hp
    cases hst : st.1[p]? with
    | none => rw [hst] at hp; cases hp
    | some e0 =>
      rw [hst] at hp
      have hp : e0.1 = k := Option.some.inj hp
      have hpl : p < st.1.length := (List.getElem?_eq_some_iff.mp hst).1
      have hm : 0 < bands.length := by
        rcases Nat.eq_zero_or_pos bands.length with h0 | h0
        · rw [(h.empty h0).1] at hpl
          simp at hpl
        · exact h0
      obtain ⟨pre, c, hdata, hpre⟩ := h.last hm
      have hple : p ≤ changes (bands.map Prod.snd) (bands.length - 1) := by
        rw [hdata, List.length_append, hpre] at hpl
        simp at hpl
        omega
      obtain ⟨i, hi, hq⟩ := changes_surj _ _ p hple
      obtain ⟨e, he, hkey, _⟩ := h.aligned i (by omega)
      rw [hq, hst] at he
      cases he
      rw [← hp, hkey, List.getD_eq_getElem?_getD,
        List.getElem?_eq_getElem (show i < (bands.map Prod.snd).length by rw [hlen]; omega)]
      exact List.getElem_mem _
  · intro hk
    obtain ⟨j, hj⟩ := List.mem_iff_getElem?.mp hk
    have hjl : j < bands.length := by
      rw [← hlen]; exact (List.getElem?_eq_some_iff.mp hj).1
    obtain ⟨e, he, hkey, _⟩ := h.aligned j hjl
    rw [List.getD_eq_getElem?_getD, hj] at hkey
    simp only [Option.getD_some] at hkey
    rw [← hkey]
    exact List.mem_map_of_mem _ (List.mem_iff_getElem?.mpr ⟨_, he⟩)

namespace Filterbank

/-- The keys above 1 of a map with increasing keys, the first one at least 1,
are all its keys but a first key 1. -/
theorem filter_keys_rest {β : Type} (first : ℤ × β) (rest : List (ℤ × β))
    (hs : ((first :: rest).map Prod.fst).Pairwise (fun a b => a < b)) (h1 : 1 ≤ first.1) :
    ((first :: rest).map Prod.fst).filter (fun k => decide (1 < k)) =
      (if first.1 = 1 then rest else first :: rest).map Prod.fst := by
  rw [List.map_cons, List.pairwise_cons] at hs
  have hrest : (rest.map Prod.fst).filter (fun k => decide (1 < k)) = rest.map Prod.fst := by
    rw [List.filter_eq_self]
    intro k hk
    have := hs.1 k hk
    simp only [decide_eq_true_eq]
    omega
  rw [List.map_cons, List.filter_cons, hrest]
  by_cases hf : first.1 = 1
  · simp [hf]
  · have : 1 < first.1 := by omega
    simp [hf, this]

/-- The state of the two maps `init` leaves with an optimisation selected. -/
theorem init_buffersInv (fb fb1 : Filterbank) (h : fb.init = some fb1)
    (hsr : 0 < fb.reference_wavelet_.samplerate) (hb : 0 < fb.bands_per_octave)
    (ho : fb.optimisation ≠ Optimisation.None) :
    fb1.optimisation = fb.optimisation ∧
      fb1.downsampling_factors.length = fb1.wavelets_.length ∧
      (∀ j, j + 1 < fb1.wavelets_.length →
        fb1.downsampling_factors.getD j 0 ≤ fb1.downsampling_factors.getD (j + 1) 0) ∧
      ∃ bands, bands.map Prod.snd = fb1.downsampling_factors ∧
        BuffersInv bands bands.length (fb1.data_, fb1.filters_) := by
  obtain ⟨_, _, ws, bufs, hws, hbufs, rfl⟩ := fb.init_eq_some fb1 h
  have hlen : ws.length = fb.bandCount := by
    rw [fb.initWavelets_length _ _ _ hws]; simp [initScales]
  have hflen := fb.initFactors_length fb.bandCount ho
  unfold initBuffers at hbufs
  rw [if_neg ho] at hbufs
  cases hbands : (List.range ws.length).mapM (fun (i : ℕ) => do
        let w ← ws[i]?
        let d ← (fb.initFactors fb.bandCount)[i]?
        some (w.window_size, d)) with
  | none => rw [hbands] at hbufs; cases hbufs
  | some bands =>
    rw [hbands] at hbufs
    simp only [Option.bind_eq_bind, Option.some_bind] at hbufs
    obtain ⟨hblen, hsnd, _, hpos⟩ := fb.initBands_spec ws bands hsr ho hws hbands
    obtain ⟨st, hst, hinv⟩ := initBuffers_inv bands hpos (by
      intro j hj
      rw [hsnd]
      exact fb.initFactors_sorted hsr hb _ ho j (by rw [← hblen]; exact hj))
    rw [hst] at hbufs
    cases hbufs
    dsimp only
    rw [if_neg ho]
    refine ⟨rfl, by rw [hflen, hlen], ?_, bands, hsnd, hinv⟩
    intro j hj
    exact fb.initFactors_sorted hsr hb _ ho j (by rw [← hlen]; exact hj)

/-- Feeding samples changes neither the keys of the two maps nor the factors,
and keeps the filterbank configured. -/
theorem run_keys (xs : List ℝ) : ∀ (fb : Filterbank), fb.Ready →
    (fb.run xs).1.Ready ∧ (fb.run xs).1.data_.map Prod.fst = fb.data_.map Prod.fst ∧
      (fb.run xs).1.filters_.map Prod.fst = fb.filters_.map Prod.fst ∧
      (fb.run xs).1.downsampling_factors = fb.downsampling_factors ∧
      (fb.run xs).1.optimisation = fb.optimisation ∧
      (fb.run xs).1.wavelets_ = fb.wavelets_ := by
  have nextFilters_keys : ∀ (fb : Filterbank) (v : ℝ),
      (fb.nextFilters v).map Prod.fst = fb.filters_.map Prod.fst := by
    intro fb v
    have fillFilteredFilters_keys : ∀ (v : ℝ), ∀ (fs : List (ℤ × LowpassFilter))
        (ds : List (ℤ × CircularBuffer)),
        (fillFilteredFilters v fs ds).map Prod.fst = fs.map Prod.fst := by
      intro v
      intro fs
      induction fs with
      | nil => intro ds; cases ds <;> rfl
      | cons f fs ih =>
        intro ds
        cases ds with
        | nil => rfl
        | cons d ds =>
          obtain ⟨kf, flt⟩ := f
          obtain ⟨kd, c⟩ := d
          simp only [fillFilteredFilters, List.map_cons, ih ds]
    unfold nextFilters
    cases fb.data_ with
    | nil => rfl
    | cons first rest =>
      simp only
      by_cases hO : fb.optimisation ≠ Optimisation.None
      · rw [if_pos hO]
        exact fillFilteredFilters_keys v _ _
      · rw [if_neg hO]
  induction xs with
  | nil => intro fb h; exact ⟨h, rfl, rfl, rfl, rfl, rfl⟩
  | cons v vs ih =>
    intro fb h
    obtain ⟨r1, r2, r3, r4, r5, r6⟩ := ih (fb.next v) (fb.next_ready h v)
    refine ⟨r1, ?_, ?_, ?_, ?_, ?_⟩
    · show ((fb.next v).run vs).1.data_.map Prod.fst = _
      rw [r2]
      exact fb.nextData_keys h v
    · show ((fb.next v).run vs).1.filters_.map Prod.fst = _
      rw [r3]
      exact nextFilters_keys fb v
    · show ((fb.next v).run vs).1.downsampling_factors = _
      rw [r4]; rfl
    · show ((fb.next v).run vs).1.optimisation = _
      rw [r5]; rfl
    · show ((fb.next v).run vs).1.wavelets_ = _
      rw [r6]; rfl

end Filterbank

/-- C30. Buffer selection. After `init` with an optimisation selected (on a
positive sample rate and number of bands per octave): `downsampling_factors`
has one entry per band and is non-decreasing in the band index; the keys of
the map `data_` increase strictly and are exactly the factors in use; the keys
of the map `filters_` increase strictly and are exactly the factors in use
above 1.  Consequently, with at least one band, in the state after `init` and
in every state `update` reaches from it (`feed` returns on every sequence of
samples, and keeps the factors and the keys of both maps), for every input
value and band `j`: the fill phase of `update` returns and, after the rounds
of the bands before `j`, the walk of the iterator of the band loop (moved on
each time the factor differs from the one of the band before) leaves it on the
buffer keyed by `downsampling_factors[j]`; and the filter loop of the fill
phase, which walks the filters in step with the buffers after a first buffer
of key 1, meets at every step a filter and a buffer of the same key. -/
theorem buffer_selection (fb fb1 : Filterbank) (h : fb.init = some fb1)
    (hsr : 0 < fb.reference_wavelet_.samplerate) (hb : 0 < fb.bands_per_octave)
    (ho : fb.optimisation ≠ Optimisation.None) :
    fb1.downsampling_factors.length = fb1.size ∧
    (∀ j, j + 1 < fb1.size →
      fb1.downsampling_factors.getD j 0 ≤ fb1.downsampling_factors.getD (j + 1) 0) ∧
    (fb1.data_.map Prod.fst).Pairwise (fun a b => a < b) ∧
    (∀ k, k ∈ fb1.data_.map Prod.fst ↔ k ∈ fb1.downsampling_factors) ∧
    (fb1.filters_.map Prod.fst).Pairwise (fun a b => a < b) ∧
    (∀ k, k ∈ fb1.filters_.map Prod.fst ↔ k ∈ fb1.downsampling_factors ∧ 1 < k) ∧
    (0 < fb1.size → ∀ (xs : List ℝ), ∃ fb2 outs, fb1.feed xs = some (fb2, outs) ∧
      fb2.downsampling_factors = fb1.downsampling_factors ∧
      fb2.data_.map Prod.fst = fb1.data_.map Prod.fst ∧
      fb2.filters_.map Prod.fst = fb1.filters_.map Prod.fst ∧
      (∀ (v : ℝ) (j : ℕ), j < fb1.size →
        ∃ filled cur cur1 e, fb2.fillBuffers v = some filled ∧
          (List.range j).foldlM (Filterbank.updateBand fb2 filled.2)
            { data_it := 0, previous_downrate := 1,
              result_complex := fb2.result_complex, result_power := fb2.result_power } =
            some cur ∧
          Filterbank.walkCursor fb2 cur j = some cur1 ∧ filled.2[cur1.data_it]? = some e ∧
          e.1 = fb2.downsampling_factors.getD j 0) ∧
      ∃ first, fb2.data_[0]? = some first ∧
        fb2.filters_.map Prod.fst =
          (if first.1 = 1 then fb2.data_.drop 1 else fb2.data_).map Prod.fst) := by
  open woma.Filterbank in
    have band_loop_buffer : ∀ (fb : Filterbank) (h : fb.Ready) (v : ℝ) (j : ℕ)
        (hj : j < fb.wavelets_.length),
        ∃ filled cur cur1 e, fb.fillBuffers v = some filled ∧
          (List.range j).foldlM (updateBand fb filled.2)
            { data_it := 0, previous_downrate := 1,
              result_complex := fb.result_complex, result_power := fb.result_power } = some cur ∧
          walkCursor fb cur j = some cur1 ∧ filled.2[cur1.data_it]? = some e ∧
          e.1 = fb.bandFactor j := by
      intro fb h v j hj
      have walkCursor_cursorAfter : ∀ (fb : Filterbank) (data : List (ℤ × CircularBuffer)) (m : ℕ)
          (hm : m < fb.wavelets_.length)
          (hfl : fb.optimisation ≠ Optimisation.None →
            fb.downsampling_factors.length = fb.wavelets_.length),
          walkCursor fb (fb.cursorAfter data m) m =
            some { fb.cursorAfter data m with
              data_it := fb.bandPos m
              previous_downrate := (fb.cursorAfter data (m + 1)).previous_downrate } := by
        intro fb data m hm hfl
        unfold walkCursor
        by_cases hO : fb.optimisation ≠ Optimisation.None
        · have hlen := hfl hO
          have hmf : m < fb.downsampling_factors.length := by omega
          rw [if_pos hO, List.getElem?_eq_getElem hmf]
          simp only [Option.some_bind]
          have hN : ¬ fb.optimisation = Optimisation.None := hO
          have hd1 : fb.downsampling_factors.getD m 1 = fb.downsampling_factors[m] := by
            simp [List.getD_eq_getElem?_getD, List.getElem?_eq_getElem hmf]
          have hd0 : fb.downsampling_factors.getD m 0 = fb.downsampling_factors[m] := by
            simp [List.getD_eq_getElem?_getD, List.getElem?_eq_getElem hmf]
          cases m with
          | zero =>
            simp only [cursorAfter, true_or, if_true, Nat.lt_irrefl, if_false, bandPos, zero_add,
              Nat.add_one_ne_zero, hN, or_false, Nat.add_sub_cancel, gt_iff_lt]
            by_cases h1 : fb.downsampling_factors[0] ≠ 1
            · rw [if_pos h1, hd1]
            · rw [if_neg h1]
              have h1' : fb.downsampling_factors[0] = 1 := not_not.mp h1
              rw [hd1, h1']
          | succ k =>
            have hk : k < fb.downsampling_factors.length := by omega
            have hdk1 : fb.downsampling_factors.getD k 1 = fb.downsampling_factors[k] := by
              simp [List.getD_eq_getElem?_getD, List.getElem?_eq_getElem hk]
            have hdk0 : fb.downsampling_factors.getD k 0 = fb.downsampling_factors[k] := by
              simp [List.getD_eq_getElem?_getD, List.getElem?_eq_getElem hk]
            simp only [cursorAfter, Nat.add_one_ne_zero, false_or, hN, if_false, Nat.add_sub_cancel,
              gt_iff_lt, Nat.zero_lt_succ, if_true, hdk1, hd1]
            rw [bandPos_succ_opt fb k hO, hd0, hdk0]
            by_cases h1 : fb.downsampling_factors[k + 1] ≠ fb.downsampling_factors[k]
            · rw [if_pos h1, if_pos h1]
            · rw [if_neg h1, if_neg h1]
              have h1' := not_not.mp h1
              simp [h1']
        · have hN : fb.optimisation = Optimisation.None := not_not.mp hO
          rw [if_neg hO]
          simp only [cursorAfter, hN, or_true, if_true, bandPos_none fb hN]
          simp
      have hfill := fb.fillBuffers_eq v h.data_nonempty h.buffers_sound h.filters_sized
        (fun hO first rest hdata => le_of_eq (h.filters_length hO first rest hdata))
      have hloop := fb.bandLoop_eq (fb.nextData v) h.result_complex_length h.result_power_length
        h.factors_length h.factors_pos h.values_length
        (fun i hi => by
          obtain ⟨e, w, q0, q1, _, q3, q4, q5, _⟩ := fb.ready_aligned_next h v i hi
          exact ⟨e, w, q0, q1, q3, q4, q5⟩)
        j (le_of_lt hj)
      rw [fb.cursorAfter_zero (fb.nextData v) h.result_complex_length h.result_power_length]
        at hloop
      obtain ⟨e, w, q0, _, q2, _⟩ := fb.ready_aligned_next h v j hj
      exact ⟨_, _, _, e, hfill, hloop,
        walkCursor_cursorAfter fb (fb.nextData v) j hj h.factors_length, q0, q2⟩
  open woma.Filterbank in
    have fill_pairing : ∀ (data : List (ℤ × CircularBuffer)) (filters : List (ℤ × LowpassFilter))
        (hne : data ≠ []) (hs : (data.map Prod.fst).Pairwise (fun a b => a < b))
        (h1 : ∀ k ∈ data.map Prod.fst, 1 ≤ k)
        (hf : filters.map Prod.fst = (data.map Prod.fst).filter (fun k => decide (1 < k))),
        ∃ first, data[0]? = some first ∧
          filters.map Prod.fst = (if first.1 = 1 then data.drop 1 else data).map Prod.fst := by
      intro data filters hne hs h1 hf
      cases data with
      | nil => exact absurd rfl hne
      | cons first rest =>
        refine ⟨first, by simp, ?_⟩
        rw [hf, filter_keys_rest first rest hs (h1 _ (by simp))]
        simp
  obtain ⟨hopt, hflen, hsorted, bands, hsnd, hinv⟩ := fb.init_buffersInv fb1 h hsr hb ho
  have ho1 : fb1.optimisation ≠ Optimisation.None := by rw [hopt]; exact ho
  have hkeys : ∀ k, k ∈ fb1.data_.map Prod.fst ↔ k ∈ fb1.downsampling_factors := by
    intro k
    rw [← hsnd]
    exact BuffersInv.key_iff bands (fb1.data_, fb1.filters_) hinv k
  have hfk : fb1.filters_.map Prod.fst =
      (fb1.data_.map Prod.fst).filter (fun k => decide (1 < k)) := hinv.filter_keys
  have hge : ∀ k ∈ fb1.data_.map Prod.fst, 1 ≤ k := by
    intro k hk
    obtain ⟨e, he, rfl⟩ := List.mem_map.mp hk
    exact (hinv.buffers e he).2.2
  refine ⟨hflen, hsorted, hinv.keys_sorted, hkeys, ?_, ?_, ?_⟩
  · rw [hfk]
    exact List.Pairwise.sublist (List.filter_sublist _) hinv.keys_sorted
  · intro k
    rw [hfk, List.mem_filter, hkeys k]
    simp
  · intro hn xs
    have hready : fb1.Ready :=
      fb.init_ready fb1 h hsr hb (by rw [← fb.init_size fb1 h]; exact hn)
    obtain ⟨r1, r2, r3, r4, r5, r6⟩ := Filterbank.run_keys xs fb1 hready
    refine ⟨(fb1.run xs).1, (fb1.run xs).2, Filterbank.feed_eq xs fb1 hready, r4, r2, r3, ?_, ?_⟩
    · intro v j hj
      have hj2 : j < (fb1.run xs).1.wavelets_.length := by rw [r6]; exact hj
      obtain ⟨filled, cur, cur1, e, q1, q2, q3, q4, q5⟩ :=
        band_loop_buffer (fb1.run xs).1 r1 v j hj2
      refine ⟨filled, cur, cur1, e, q1, q2, q3, q4, ?_⟩
      rw [q5]
      unfold Filterbank.bandFactor
      rw [if_neg (by rw [r5]; exact ho1)]
      exact Filterbank.getD_of_lt _ j (by rw [r4, hflen]; exact hj) 1 0
    · apply fill_pairing _ _ r1.data_nonempty r1.keys_sorted
      · rw [r2]; exact hge
      · rw [r3, r2]; exact hfk

theorem buffer_selection_witness :
    ∃ fb1, (optimisedBank Optimisation.Standard1).init = some fb1 ∧ fb1.size = 20 ∧
      fb1.downsampling_factors.length = 20 ∧
      (∀ k, k ∈ fb1.data_.map Prod.fst ↔ k ∈ fb1.downsampling_factors) ∧
      (∀ k, k ∈ fb1.filters_.map Prod.fst ↔ k ∈ fb1.downsampling_factors ∧ 1 < k) ∧
      ∃ first, fb1.data_[0]? = some first ∧
        fb1.filters_.map Prod.fst =
          (if first.1 = 1 then fb1.data_.drop 1 else fb1.data_).map Prod.fst := by
  obtain ⟨fb1, h1, hsize, _⟩ := optimisedBank_init Optimisation.Standard1
  have hsr : 0 < (optimisedBank Optimisation.Standard1).reference_wavelet_.samplerate := by
    have h100 : (optimisedBank Optimisation.Standard1).reference_wavelet_.samplerate = 100 := by
      simp [optimisedBank, scenarioBank, sampleBank, Filterbank.members, MorletWavelet.members]
    rw [h100]; norm_num
  have hb : 0 < (optimisedBank Optimisation.Standard1).bands_per_octave := by
    show (0 : ℝ) < 4
    norm_num
  obtain ⟨a1, _, _, a4, _, a6, a7⟩ := buffer_selection
    (optimisedBank Optimisation.Standard1) fb1 h1 hsr hb (by show Optimisation.Standard1 ≠ _; decide)
  obtain ⟨fb2, outs, hfeed, _, _, _, _, hpair⟩ := a7 (by rw [hsize]; norm_num) []
  have e2 : fb2 = fb1 := by
    have : some (fb1, ([] : List (List ℂ))) = some (fb2, outs) := hfeed
    cases this
    rfl
  rw [e2] at hpair
  exact ⟨fb1, h1, hsize, by rw [a1, hsize], a4, a6, hpair⟩

namespace Filterbank

/-- With no band and no optimisation selected `init` reads
`wavelets_[wavelets_.size() - 1]` in an empty vector. -/
theorem init_none_of_no_band (fb : Filterbank) (hn : fb.bandCount = 0)
    (ho : fb.optimisation = Optimisation.None) : fb.init = none := by
  cases h : fb.init with
  | none => rfl
  | some fb1 =>
    obtain ⟨_, _, ws, bufs, hws, hbufs, _⟩ := fb.init_eq_some fb1 h
    have hlen : ws.length = 0 := by
      rw [fb.initWavelets_length _ _ _ hws, ← hn]; simp [initScales]
    have hnil : ws = [] := List.length_eq_zero.mp hlen
    unfold initBuffers at hbufs
    rw [if_pos ho, hnil] at hbufs
    simp at hbufs

end Filterbank

/-- C36 fails on the code: `frequency_min = frequency_max` is accepted by the
limits of the two attributes and enumerates no band.  The constructor call
`Filterbank(100, 10, 10, 4)` passes the three limit checks and reaches `init`,
which reads `wavelets_[wavelets_.size() - 1]` in an empty vector (undefined
behaviour); and on the filterbank of the test, `Filterbank(100, 1, 30, 4)`,
after `setAttribute("optimisation", Standard1)` the call
`setAttribute("frequency_min", 30.f)` returns with no band and an empty map
`data_`, and the next `update` dereferences `data_.begin()`. -/
theorem empty_filterbank :
    (sampleBank 10 10 4).bandCount = 0 ∧
      FilterbankObject.construct 100 10 10 4 = Construction.undefined ∧
      ∃ obj obj1 obj2, FilterbankObject.construct 100 1 30 4 = Construction.built obj ∧
        obj.setAttribute "optimisation" (AnyValue.optimisation Optimisation.Standard1) =
          Outcome.ok obj1 ∧
        obj1.setAttribute "frequency_min" (AnyValue.float 30) = Outcome.ok obj2 ∧
        obj2.members.size = 0 ∧ obj2.members.data_ = [] ∧
        ∀ (v : ℝ), obj2.update v = Outcome.undefined := by
  open woma.Filterbank in
    have bandCount_of_equal : ∀ (fb : Filterbank) (hf : fb.frequency_min = fb.frequency_max),
        fb.min_index = fb.max_index ∧ fb.bandCount = 0 := by
      intro fb hf
      have h : fb.min_index = fb.max_index := by
        unfold min_index max_index min_scale max_scale
        rw [hf]
      refine ⟨h, ?_⟩
      unfold bandCount
      rw [h]
      simp
  open woma.Filterbank in
    have update_none_of_no_band : ∀ (fb fb1 : Filterbank) (h : fb.init = some fb1)
        (hn : fb.bandCount = 0) (ho : fb.optimisation ≠ Optimisation.None) (v : ℝ),
        fb1.size = 0 ∧ fb1.data_ = [] ∧ fb1.update v = none := by
      intro fb fb1 h hn ho v
      obtain ⟨_, _, ws, bufs, hws, hbufs, rfl⟩ := fb.init_eq_some fb1 h
      have hlen : ws.length = 0 := by
        rw [fb.initWavelets_length _ _ _ hws, ← hn]; simp [initScales]
      have hnil : ws = [] := List.length_eq_zero.mp hlen
      unfold initBuffers at hbufs
      rw [if_neg ho, hnil] at hbufs
      change some (([] : List (ℤ × CircularBuffer)), ([] : List (ℤ × LowpassFilter))) = some bufs
        at hbufs
      have hd : bufs.1 = [] := by cases hbufs; rfl
      refine ⟨hlen, hd, ?_⟩
      unfold update fillBuffers
      simp [hd]
  refine ⟨(bandCount_of_equal _ rfl).2, ?_, ?_⟩
  · have hnone : Filterbank.init (Filterbank.members 10 10 4 Family.Morlet
        (Wavelet.init (MorletWavelet.members 100))) = none :=
      Filterbank.init_none_of_no_band _ (bandCount_of_equal _ rfl).2 rfl
    have hsr : ¬ ((100 : ℝ) < 0 ∨ (100 : ℝ) = 0) := by norm_num
    unfold FilterbankObject.construct
    rw [FilterbankObject.checkLimits_none_of_mem _ _ _ (by norm_num) (by norm_num),
      FilterbankObject.checkLimits_none_of_mem _ _ _ (by norm_num) (by norm_num),
      FilterbankObject.checkLimits_none_of_mem _ _ _ (by norm_num)
        (le_trans (by norm_num) FilterbankObject.FLT_MAX_large)]
    simp only [MorletWavelet.create, if_neg hsr]
    rw [hnone]
  · obtain ⟨obj, hb, _, hinit, hl1, _, _⟩ := FilterbankObject.scenario_construct
    obtain ⟨f1, f2, f3, f4, f5, f6⟩ := FilterbankObject.scenario_object_fields obj hinit
    obtain ⟨w1, w2, w3⟩ := FilterbankObject.scenario_reference
    -- the optimisation is selected
    obtain ⟨m1, hm1, hok1⟩ := FilterbankObject.onAttributeChange_plain_isOk
      { obj with members := { obj.members with optimisation := Optimisation.Standard1 } }
      (by show 0 < obj.members.reference_wavelet_.samplerate; rw [f6, w3]; norm_num)
      (by show 0 < obj.members.frequency_min; rw [f1]; norm_num)
      (by show obj.members.frequency_min ≤ obj.members.frequency_max; rw [f1, f2]; norm_num)
      (by show 0 ≤ obj.members.bands_per_octave; rw [f3]; norm_num)
      (by show obj.members.family = obj.members.reference_wavelet_.family; rw [f5, f6, w1])
      (by intro hO; cases hO)
    have hs1 : obj.setAttribute "optimisation" (AnyValue.optimisation Optimisation.Standard1) =
        Outcome.ok { obj with members := m1 } := by
      rw [FilterbankObject.setAttribute_ok_iff, FilterbankObject.setAttribute_optimisation]
      exact hok1
    obtain ⟨a1, a2, a3, a4, a5, _, a7⟩ := FilterbankObject.init_keeps_attributes _ _ hm1
    have g2 : m1.frequency_max = 30 := by rw [a2]; exact f2
    have g3 : m1.bands_per_octave = 4 := by rw [a3]; exact f3
    have g4 : m1.optimisation = Optimisation.Standard1 := a4
    have g5 : m1.family = Family.Morlet := by rw [a5]; exact f5
    have g7 : m1.reference_wavelet_ = Wavelet.init (MorletWavelet.members 100) := by
      rw [a7]; exact f6
    -- the minimum frequency is raised to the maximum frequency
    obtain ⟨m2, hm2, hok2⟩ := FilterbankObject.onAttributeChange_plain_isOk
      { ({ obj with members := m1 } : FilterbankObject) with
        members := { m1 with frequency_min := 30 } }
      (by show 0 < m1.reference_wavelet_.samplerate; rw [g7, w3]; norm_num)
      (by show (0 : ℝ) < 30; norm_num)
      (by show (30 : ℝ) ≤ m1.frequency_max; rw [g2])
      (by show 0 ≤ m1.bands_per_octave; rw [g3]; norm_num)
      (by show m1.family = m1.reference_wavelet_.family; rw [g5, g7, w1])
      (by intro hO; rw [show ({ m1 with frequency_min := 30 } : Filterbank).optimisation =
        m1.optimisation from rfl, g4] at hO; cases hO)
    have hs2 : ({ obj with members := m1 } : FilterbankObject).setAttribute "frequency_min"
        (AnyValue.float 30) =
        Outcome.ok { ({ ({ obj with members := m1 } : FilterbankObject) with
          members := m2 } : FilterbankObject) with frequency_max_limit_min := m2.frequency_min } := by
      rw [FilterbankObject.setAttribute_ok_iff, FilterbankObject.setAttribute_frequency_min,
        if_neg (by
          show ¬ ((30 : ℝ) < 1e-12 ∨ (30 : ℝ) > obj.frequency_min_limit_max)
          rw [hl1]; norm_num)]
      rw [hok2]
    have hcount : ({ m1 with frequency_min := 30 } : Filterbank).bandCount = 0 :=
      (bandCount_of_equal _ (by show (30 : ℝ) = m1.frequency_max; rw [g2])).2
    have hup := fun (v : ℝ) => update_none_of_no_band _ m2 hm2 hcount
      (by show m1.optimisation ≠ _; rw [g4]; decide) v
    refine ⟨obj, _, _, hb, hs1, hs2, (hup 0).1, (hup 0).2.1, ?_⟩
    intro v
    unfold FilterbankObject.update
    show (match m2.update v with
      | some m => Outcome.ok _
      | none => Outcome.undefined) = _
    rw [(hup v).2.2]

/-- C40 fails on the code: on the filterbank of the test,
`Filterbank(100, 1, 30, 4)`, after `setAttribute("delay", 2.f)` (which returns,
and `getAttribute<float>("delay")` is then 2) the call
`setAttribute("family", Family::Paul)` returns with a Paul reference wavelet at
the same sample rate, 100, whose delay is the default 1.5 and not 2: the new
reference wavelet is constructed from the sample rate alone. -/
theorem family_change_resets_delay :
    ∃ obj obj1 obj2, FilterbankObject.construct 100 1 30 4 = Construction.built obj ∧
      obj.setAttribute "delay" (AnyValue.float 2) = Outcome.ok obj1 ∧
      obj1.getAttribute "delay" AnyKind.float = Except.ok (AnyValue.float 2) ∧
      obj1.setAttribute "family" (AnyValue.family Family.Paul) = Outcome.ok obj2 ∧
      obj2.members.reference_wavelet_.family = Family.Paul ∧
      obj2.members.reference_wavelet_.samplerate = 100 ∧
      obj2.getAttribute "delay" AnyKind.float = Except.ok (AnyValue.float 1.5) ∧
      obj2.members.reference_wavelet_.delay ≠ obj1.members.reference_wavelet_.delay := by
  open woma.FilterbankObject in
    have get_delay : ∀ (obj : FilterbankObject),
        obj.getAttribute "delay" AnyKind.float =
          Except.ok (AnyValue.float obj.members.reference_wavelet_.delay) := by
      intro obj
      apply getAttribute_of_internal obj "delay" (AnyValue.float _)
      unfold getAttribute_internal Wavelet.getAttribute_internal
      simp
  open woma.FilterbankObject in
    have scenario_set_delay : ∀ (obj : FilterbankObject)
        (h : scenarioBank.init = some obj.members),
        ∃ obj1, obj.setAttribute "delay" (AnyValue.float 2) = Outcome.ok obj1 ∧
          obj1.members.reference_wavelet_ =
            Wavelet.init { Wavelet.init (MorletWavelet.members 100) with delay := 2 } ∧
          obj1.members.frequency_min = 1 ∧ obj1.members.frequency_max = 30 ∧
          obj1.members.bands_per_octave = 4 := by
      intro obj h
      obtain ⟨f1, f2, f3, f4, f5, f6⟩ := scenario_object_fields obj h
      obtain ⟨w1, w2, w3⟩ := scenario_reference
      have hset : obj.members.reference_wavelet_.setAttribute_internal "delay" (AnyValue.float 2) =
          Outcome.ok (Wavelet.init { obj.members.reference_wavelet_ with delay := 2 }) := by
        rw [Wavelet.setAttribute_internal_of_base _ _ _ (by simp)]
        unfold Wavelet.setAttribute_base
        rw [if_neg (by decide), if_neg (by decide), if_neg (by decide), if_neg (by decide),
          if_pos rfl]
        simp only
        rw [if_neg (by norm_num)]
      generalize hw : Wavelet.init { obj.members.reference_wavelet_ with delay := 2 } = w at hset
      have g1 : w.family = Family.Morlet := by
        rw [← hw, Wavelet.init_family]
        show obj.members.reference_wavelet_.family = _
        rw [f6]; exact w1
      have g2 : w.omega0 = 5 := by
        rw [← hw, Wavelet.init_omega0]
        show obj.members.reference_wavelet_.omega0 = _
        rw [f6]; exact w2
      have g3 : w.samplerate = 100 := by
        rw [← hw, Wavelet.init_samplerate]
        show obj.members.reference_wavelet_.samplerate = _
        rw [f6]; exact w3
      have hidx := Filterbank.morlet_indices_of_bounds
        { obj.members with reference_wavelet_ := w } g1 g2
        100 1 30 1.34 1.36 40.4 40.7 4 1 21 g3 f1 f2
        (by show obj.members.bands_per_octave = _; rw [f3]; norm_num)
        (by norm_num) (by norm_num) (by norm_num) (by norm_num) (by norm_num)
        (by norm_num) (by norm_num) (by norm_num) (by norm_num)
        (by norm_num) (by norm_num) (by norm_num) (by norm_num)
      obtain ⟨m, hm, hok⟩ := onAttributeChange_plain_isOk
        { obj with members := { obj.members with reference_wavelet_ := w } }
        (by show 0 < w.samplerate; rw [g3]; norm_num)
        (by show 0 < obj.members.frequency_min; rw [f1]; norm_num)
        (by show obj.members.frequency_min ≤ obj.members.frequency_max; rw [f1, f2]; norm_num)
        (by show 0 ≤ obj.members.bands_per_octave; rw [f3]; norm_num)
        (by show obj.members.family = w.family; rw [f5, g1])
        (by intro _; rw [hidx.1, hidx.2]; norm_num)
      have hint : obj.setAttribute_internal "delay" (AnyValue.float 2) =
          Outcome.ok { obj with members := m } := by
        rw [setAttribute_reference obj "delay" _ (by decide) (by decide) (by decide) (by decide)
          (by decide) (by decide) (by decide) (by decide), hset]
        simp only
        rw [if_neg (by decide)]
        exact hok
      obtain ⟨e1, e2, e3, _, _, _, e7⟩ := init_keeps_attributes _ _ hm
      refine ⟨_, (setAttribute_ok_iff obj _ _ _).mpr hint, ?_, ?_, ?_, ?_⟩
      · show m.reference_wavelet_ = _
        rw [e7]
        show w = _
        rw [← hw, f6]
      · show m.frequency_min = 1
        rw [e1]; exact f1
      · show m.frequency_max = 30
        rw [e2]; exact f2
      · show m.bands_per_octave = 4
        rw [e3]; exact f3
  open woma.FilterbankObject in
    have set_paul_reference : ∀ (obj : FilterbankObject)
        (hsr : obj.members.reference_wavelet_.samplerate = 100)
        (f1 : obj.members.frequency_min = 1) (f2 : obj.members.frequency_max = 30)
        (f3 : obj.members.bands_per_octave = 4),
        ∃ obj1, obj.setAttribute "family" (AnyValue.family Family.Paul) = Outcome.ok obj1 ∧
          obj1.members.family = Family.Paul ∧
          obj1.members.reference_wavelet_ = Wavelet.init (PaulWavelet.members 100) := by
      intro obj hsr f1 f2 f3
      have hidx := Filterbank.paul_indices_100_1_30
        { obj.members with
          family := Family.Paul
          reference_wavelet_ := Wavelet.init (PaulWavelet.members 100) }
        (by simp [PaulWavelet.members]) (by simp [PaulWavelet.members, PaulWavelet.DEFAULT_ORDER])
        (by simp [PaulWavelet.members]) f1 f2 f3
      obtain ⟨m, hm⟩ := Filterbank.init_isSome
        { obj.members with
          family := Family.Paul
          reference_wavelet_ := Wavelet.init (PaulWavelet.members 100) }
        (by simp [PaulWavelet.members])
        (by show 0 < obj.members.frequency_min; rw [f1]; norm_num)
        (by show obj.members.frequency_min ≤ obj.members.frequency_max; rw [f1, f2]; norm_num)
        (by show 0 ≤ obj.members.bands_per_octave; rw [f3]; norm_num)
        (by simp [PaulWavelet.members])
        (by intro _; rw [hidx.1, hidx.2]; norm_num)
      have hint : obj.setAttribute_internal "family" (AnyValue.family Family.Paul) =
          Outcome.ok
            { members := m, frequency_min_limit_max := obj.frequency_min_limit_max,
              frequency_max_limit_min := obj.frequency_max_limit_min,
              frequency_max_limit_max := obj.frequency_max_limit_max } := by
        rw [setAttribute_family, onAttributeChange_paul _ rfl (by
          show 0 < obj.members.reference_wavelet_.samplerate
          rw [hsr]; norm_num)]
        show (match Filterbank.init { obj.members with
            family := Family.Paul
            reference_wavelet_ :=
              Wavelet.init (PaulWavelet.members obj.members.reference_wavelet_.samplerate) } with
          | some m => Outcome.ok _
          | none => Outcome.undefined) = _
        rw [hsr, hm]
      obtain ⟨_, _, _, _, e5, _, e7⟩ := init_keeps_attributes _ _ hm
      exact ⟨_, (setAttribute_ok_iff obj _ _ _).mpr hint, e5, e7⟩
  obtain ⟨obj, hb, _, hinit, _, _, _⟩ := FilterbankObject.scenario_construct
  obtain ⟨obj1, hs1, r1, a1, a2, a3⟩ := scenario_set_delay obj hinit
  have d1 : obj1.members.reference_wavelet_.delay = 2 := by
    rw [r1, Wavelet.init_delay]
  have s1 : obj1.members.reference_wavelet_.samplerate = 100 := by
    rw [r1, Wavelet.init_samplerate]
    show (Wavelet.init (MorletWavelet.members 100)).samplerate = 100
    rw [Wavelet.init_samplerate]; rfl
  obtain ⟨obj2, hs2, _, r2⟩ := set_paul_reference obj1 s1 a1 a2 a3
  have d2 : obj2.members.reference_wavelet_.delay = 1.5 := by
    rw [r2, Wavelet.init_delay]; rfl
  refine ⟨obj, obj1, obj2, hb, hs1, ?_, hs2, ?_, ?_, ?_, ?_⟩
  · rw [get_delay, d1]
  · rw [r2, Wavelet.init_family]; rfl
  · rw [r2, Wavelet.init_samplerate]; rfl
  · rw [get_delay, d2]
  · rw [d1, d2]; norm_num

/-- C32. Priming of the buffer of rate 1. The statement of `update` on this
buffer (`fillRaw`), on a buffer of capacity at least 1, keeps the capacity;
on an empty buffer it leaves the buffer full, `capacity` elements all equal to
the value; on a buffer that holds elements it appends the value as the newest
element, after dropping the oldest element when the buffer was full, the other
elements keeping their order.  And on a configured filterbank whose first
buffer `c` has the key 1, `update(v)` returns and its first buffer is then the
key 1 with that statement applied to `c`. -/
theorem rate_one_priming (fb : Filterbank) (h : fb.Ready) (c : CircularBuffer) (v : ℝ)
    (h1 : fb.data_[0]? = some (1, c)) :
    (∃ fb1, fb.update v = some fb1 ∧ fb1.data_[0]? = some (1, Filterbank.fillRaw c v)) ∧
    1 ≤ c.capacity ∧ c.items.length ≤ c.capacity ∧
    (Filterbank.fillRaw c v).capacity = c.capacity ∧
    (c.items = [] →
      (Filterbank.fillRaw c v).items = List.replicate c.capacity v ∧
        (Filterbank.fillRaw c v).size = (Filterbank.fillRaw c v).capacity ∧
        ∀ x ∈ (Filterbank.fillRaw c v).items, x = v) ∧
    (c.items ≠ [] →
      (Filterbank.fillRaw c v).items =
        (if c.items.length < c.capacity then c.items else c.items.drop 1) ++ [v]) ∧
    ∀ (b : CircularBuffer) (x : ℝ), 1 ≤ b.capacity →
      (b.items = [] → (Filterbank.fillRaw b x).items = List.replicate b.capacity x) ∧
      (b.items ≠ [] → (Filterbank.fillRaw b x).items =
        (if b.items.length < b.capacity then b.items else b.items.drop 1) ++ [x]) := by
  open woma.Filterbank in
    have fillRaw_empty : ∀ (c : CircularBuffer) (v : ℝ) (hc : 1 ≤ c.capacity) (he : c.items = []),
        (fillRaw c v).capacity = c.capacity ∧
          (fillRaw c v).items = List.replicate c.capacity v := by
      intro c v hc he
      unfold fillRaw
      have hs : ¬ c.size > 0 := by unfold CircularBuffer.size; rw [he]; simp
      rw [if_neg hs]
      refine ⟨CircularBuffer.push_back_n_capacity v _ c, ?_⟩
      rw [CircularBuffer.push_back_n_replicate v _ c 0 hc (Nat.zero_le _) (by rw [he]; rfl)]
      congr 1
      omega
  open woma.Filterbank in
    have fillRaw_nonempty : ∀ (c : CircularBuffer) (v : ℝ) (hc : 1 ≤ c.capacity)
        (hne : c.items ≠ []),
        (fillRaw c v).capacity = c.capacity ∧
          (fillRaw c v).items =
            (if c.items.length < c.capacity then c.items else c.items.drop 1) ++ [v] := by
      intro c v hc hne
      unfold fillRaw
      have hs : c.size > 0 := by
        unfold CircularBuffer.size
        exact List.length_pos.mpr hne
      rw [if_pos hs]
      unfold CircularBuffer.push_back
      rw [if_neg (by omega)]
      by_cases hl : c.items.length < c.capacity
      · rw [if_pos hl, if_pos hl]
        exact ⟨rfl, rfl⟩
      · rw [if_neg hl, if_neg hl]
        exact ⟨rfl, rfl⟩
  open woma.Filterbank in
    have update_rate_one : ∀ (fb : Filterbank) (h : fb.Ready) (c : CircularBuffer) (v : ℝ)
        (h1 : fb.data_[0]? = some (1, c)),
        ∃ fb1, fb.update v = some fb1 ∧ fb1.data_[0]? = some (1, fillRaw c v) := by
      intro fb h c v h1
      refine ⟨fb.next v, fb.update_eq h v, ?_⟩
      have hs : c.Sound := h.buffers_sound (1, c) (List.mem_iff_getElem?.mpr ⟨0, h1⟩)
      show (fb.nextData v)[0]? = _
      unfold nextData
      cases hd : fb.data_ with
      | nil => rw [hd] at h1; cases h1
      | cons first rest =>
        rw [hd] at h1
        have hf : first = (1, c) := by
          have : some first = some (1, c) := by simpa using h1
          exact Option.some.inj this
        subst hf
        simp only [if_true]
        rw [CircularBuffer.fillRaw_eq c hs v]
        simp
  have hs : c.Sound := h.buffers_sound (1, c) (List.mem_iff_getElem?.mpr ⟨0, h1⟩)
  refine ⟨update_rate_one fb h c v h1, hs.1, ?_, ?_, ?_, ?_, ?_⟩
  · rcases hs.2 with h0 | h0 <;> omega
  · by_cases he : c.items = []
    · exact (fillRaw_empty c v hs.1 he).1
    · exact (fillRaw_nonempty c v hs.1 he).1
  · intro he
    obtain ⟨e1, e2⟩ := fillRaw_empty c v hs.1 he
    refine ⟨e2, ?_, ?_⟩
    · unfold CircularBuffer.size
      rw [e1, e2, List.length_replicate]
    · intro x hx
      rw [e2] at hx
      exact List.eq_of_mem_replicate hx
  · intro hne
    exact (fillRaw_nonempty c v hs.1 hne).2
  · intro b x hb
    exact ⟨fun he => (fillRaw_empty b x hb he).2,
      fun hne => (fillRaw_nonempty b x hb hne).2⟩

theorem rate_one_priming_witness :
    ∃ fb c fb1, scenarioBank.init = some fb ∧ fb.data_[0]? = some (1, c) ∧
      fb.update 1 = some fb1 ∧ fb1.data_[0]? = some (1, Filterbank.fillRaw c 1) ∧
      (Filterbank.fillRaw c 1).capacity = c.capacity := by
  obtain ⟨fb, hinit, hsize⟩ := scenarioBank_init
  have hv : scenarioBank.Valid :=
    sampleBank_valid 1 30 4 (by norm_num) (by norm_num) (by norm_num) (by norm_num)
  have hn : 0 < scenarioBank.bandCount := by
    rw [← Filterbank.init_size _ _ hinit, hsize]; norm_num
  have hready : fb.Ready := scenarioBank.init_ready fb hinit hv.samplerate_pos
    (lt_of_lt_of_le zero_lt_one hv.bands_per_octave_ge) hn
  have hopt : fb.optimisation = Optimisation.None :=
    (FilterbankObject.init_keeps_attributes _ _ hinit).2.2.2.1
  obtain ⟨c, hc⟩ := hready.none_single hopt
  have h1 : fb.data_[0]? = some (1, c) := by rw [hc]; rfl
  obtain ⟨⟨fb1, hu, hd⟩, _, _, hcap, _⟩ := rate_one_priming fb hready c 1 h1
  exact ⟨fb, c, fb1, hinit, h1, hu, hd, hcap⟩

namespace Filterbank

/-- The capacities of the buffers `init` leaves with an optimisation selected:
the capacity of the buffer of rate `r` is `window_size * r` for one of the bands
of factor `r`, and at least `window_size * r` for every band of factor `r`. -/
theorem init_capacity_opt (fb fb1 : Filterbank) (h : fb.init = some fb1)
    (hsr : 0 < fb.reference_wavelet_.samplerate) (hb : 0 < fb.bands_per_octave)
    (ho : fb.optimisation ≠ Optimisation.None) :
    ∀ e ∈ fb1.data_,
      (∃ (i : ℕ) (w : Wavelet), fb1.wavelets_[i]? = some w ∧ fb1.downsampling_factors[i]? = some e.1 ∧
        e.2.capacity = w.window_size * e.1.toNat) ∧
      ∀ (j : ℕ) (w : Wavelet), fb1.wavelets_[j]? = some w → fb1.downsampling_factors[j]? = some e.1 →
        w.window_size * e.1.toNat ≤ e.2.capacity := by
  have initBuffers_capacity : ∀ (bands : List (ℕ × ℤ))
      (hpos : ∀ b ∈ bands, 1 ≤ b.1 ∧ 1 ≤ b.2)
      (hsorted : ∀ j, j + 1 < bands.length →
        (bands.map Prod.snd).getD j 0 ≤ (bands.map Prod.snd).getD (j + 1) 0),
      ∀ m, m ≤ bands.length →
        ∃ st, (bands.take m).foldlM initBufferStep ([], []) = some st ∧ BuffersInv bands m st ∧
          ∀ e ∈ st.1,
            (∃ i b, i < m ∧ bands[i]? = some b ∧ b.2 = e.1 ∧
              e.2.capacity = b.1 * e.1.toNat) ∧
            ∀ i b, i < m → bands[i]? = some b → b.2 = e.1 → b.1 * e.1.toNat ≤ e.2.capacity := by
    intro bands hpos hsorted
    have initBufferStep_capacity : ∀ (bands : List (ℕ × ℤ)) (m : ℕ) (hm : m < bands.length)
        (hpos : ∀ b ∈ bands, 1 ≤ b.1 ∧ 1 ≤ b.2)
        (hsorted : ∀ j, j + 1 < bands.length →
          (bands.map Prod.snd).getD j 0 ≤ (bands.map Prod.snd).getD (j + 1) 0)
        (st st1 : List (ℤ × CircularBuffer) × List (ℤ × LowpassFilter))
        (hinv : BuffersInv bands m st)
        (hcap : ∀ e ∈ st.1,
          (∃ i b, i < m ∧ bands[i]? = some b ∧ b.2 = e.1 ∧ e.2.capacity = b.1 * e.1.toNat) ∧
          ∀ i b, i < m → bands[i]? = some b → b.2 = e.1 → b.1 * e.1.toNat ≤ e.2.capacity)
        (hstep1 : initBufferStep st bands[m] = some st1),
        ∀ e ∈ st1.1,
          (∃ i b, i < m + 1 ∧ bands[i]? = some b ∧ b.2 = e.1 ∧ e.2.capacity = b.1 * e.1.toNat) ∧
          ∀ i b, i < m + 1 → bands[i]? = some b → b.2 = e.1 → b.1 * e.1.toNat ≤ e.2.capacity := by
      intro bands m hm hpos hsorted st st1 hinv hcap hstep1
      open woma.CircularBuffer in
        have resize_clear_capacity : ∀ (c : CircularBuffer) (n : ℕ) (h : c.items = []) (hn : 1 ≤ n),
            ((c.resize n).clear).capacity = max n c.capacity := by
          intro c n h hn
          unfold resize clear
          rw [h]
          have hn0 : n > ([] : List ℝ).length := by simpa using hn
          rw [if_pos hn0]
          simp only
          by_cases hc : n > c.capacity
          · rw [if_pos hc]; omega
          · rw [if_neg hc]; omega
      obtain ⟨flt, hflt, hstep⟩ := initBufferStep_eq st bands[m]
      rw [hstep] at hstep1
      have hst1 : st1.1 = mapUpdate CircularBuffer.empty
          (fun c => (c.resize (bands[m].1 * bands[m].2.toNat)).clear) bands[m].2 st.1 := by
        cases hstep1; rfl
      rw [hst1]
      have hbm : bands[m]? = some bands[m] := List.getElem?_eq_getElem hm
      have hb := hpos bands[m] (List.getElem_mem _)
      have hdm : (bands.map Prod.snd).getD m 0 = bands[m].2 := by
        simp [List.getD_eq_getElem?_getD, List.getElem?_eq_getElem hm]
      generalize hBM : bands[m] = bm at hb hdm hbm ⊢
      obtain ⟨W, d⟩ := bm
      simp only at hb hdm ⊢
      have hn1 : 1 ≤ W * d.toNat := by
        have : 1 ≤ d.toNat := by omega
        exact Nat.mul_pos (by omega) (by omega)
      -- an entry that is not touched by the round
      have hold : ∀ e ∈ st.1, e.1 < d →
          (∃ i b, i < m + 1 ∧ bands[i]? = some b ∧ b.2 = e.1 ∧ e.2.capacity = b.1 * e.1.toNat) ∧
          ∀ i b, i < m + 1 → bands[i]? = some b → b.2 = e.1 → b.1 * e.1.toNat ≤ e.2.capacity := by
        intro e he hlt
        obtain ⟨⟨i, b, hi, hbi, hk, hc⟩, hall⟩ := hcap e he
        refine ⟨⟨i, b, by omega, hbi, hk, hc⟩, ?_⟩
        intro j b' hj hbj hk'
        rcases Nat.lt_succ_iff_lt_or_eq.mp hj with hjm | hjm
        · exact hall j b' hjm hbj hk'
        · subst hjm
          rw [hbm] at hbj
          cases hbj
          simp only at hk'
          omega
      rcases Nat.eq_zero_or_pos m with hm0 | hmpos
      · -- first band
        subst hm0
        obtain ⟨hd0, _⟩ := hinv.empty rfl
        rw [hd0]
        intro e he
        simp only [mapUpdate, List.mem_singleton] at he
        subst he
        have hc := resize_clear_capacity CircularBuffer.empty (W * d.toNat) rfl hn1
        have hc0 : CircularBuffer.empty.capacity = 0 := rfl
        rw [hc0, Nat.max_zero] at hc
        refine ⟨⟨0, (W, d), by omega, hbm, rfl, hc⟩, ?_⟩
        intro i b hi hbi hk
        have : i = 0 := by omega
        subst this
        rw [hbm] at hbi
        cases hbi
        rw [hc]
      · obtain ⟨pre, c, hdata, hprelen⟩ := hinv.last hmpos
        have hks := hinv.keys_sorted
        have hm1 : m - 1 + 1 = m := by omega
        have hle : (bands.map Prod.snd).getD (m - 1) 0 ≤ d := by
          have := hsorted (m - 1) (by omega)
          rw [hm1, hdm] at this
          exact this
        generalize hD' : (bands.map Prod.snd).getD (m - 1) 0 = d' at hdata hle
        have hprekeys : ∀ e ∈ pre, e.1 < d' := by
          intro e he
          rw [hdata, List.map_append, List.pairwise_append] at hks
          exact hks.2.2 e.1 (List.mem_map_of_mem _ he) d' (by simp)
        have hcitems : c.items = [] :=
          (hinv.buffers (d', c) (by rw [hdata]; simp)).1
        by_cases hdd : d = d'
        · -- same factor as the band before
          subst hdd
          have hc := resize_clear_capacity c (W * d.toNat) hcitems hn1
          have hdata' : mapUpdate CircularBuffer.empty
              (fun c => (c.resize (W * d.toNat)).clear) d st.1 =
              pre ++ [(d, (c.resize (W * d.toNat)).clear)] := by
            rw [hdata]
            exact mapUpdate_last _ _ _ _ pre hprekeys
          rw [hdata']
          intro e he
          simp only [List.mem_append, List.mem_singleton] at he
          rcases he with he | he
          · exact hold e (by rw [hdata]; simp [he]) (hprekeys e he)
          · subst he
            obtain ⟨⟨i, b, hi, hbi, hk, hcc⟩, hall⟩ := hcap (d, c) (by rw [hdata]; simp)
            simp only at hk hcc hall ⊢
            refine ⟨?_, ?_⟩
            · by_cases hgt : c.capacity < W * d.toNat
              · refine ⟨m, (W, d), by omega, hbm, rfl, ?_⟩
                rw [hc]; simp only; omega
              · refine ⟨i, b, by omega, hbi, hk, ?_⟩
                rw [hc, ← hcc]; omega
            · intro j b' hj hbj hk'
              rcases Nat.lt_succ_iff_lt_or_eq.mp hj with hjm | hjm
              · have := hall j b' hjm hbj hk'
                rw [hc]; omega
              · subst hjm
                rw [hbm] at hbj
                cases hbj
                rw [hc]; simp only; omega
        · -- a larger factor
          have hlt : d' < d := by omega
          have hallkeys : ∀ e ∈ st.1, e.1 < d := by
            intro e he
            rw [hdata] at he
            simp only [List.mem_append, List.mem_singleton] at he
            rcases he with he | he
            · have := hprekeys e he; omega
            · subst he; exact hlt
          have hc := resize_clear_capacity CircularBuffer.empty (W * d.toNat) rfl hn1
          have hc0 : CircularBuffer.empty.capacity = 0 := rfl
          rw [hc0, Nat.max_zero] at hc
          have hdata' : mapUpdate CircularBuffer.empty
              (fun c => (c.resize (W * d.toNat)).clear) d st.1 =
              st.1 ++ [(d, (CircularBuffer.empty.resize (W * d.toNat)).clear)] :=
            mapUpdate_append_new _ _ _ st.1 hallkeys
          rw [hdata']
          intro e he
          simp only [List.mem_append, List.mem_singleton] at he
          rcases he with he | he
          · exact hold e he (hallkeys e he)
          · subst he
            simp only
            refine ⟨⟨m, (W, d), by omega, hbm, rfl, hc⟩, ?_⟩
            intro j b' hj hbj hk'
            rcases Nat.lt_succ_iff_lt_or_eq.mp hj with hjm | hjm
            · -- an earlier band has a smaller factor
              obtain ⟨e, he, hk, _⟩ := hinv.aligned j hjm
              have hlt' := hallkeys e (List.mem_iff_getElem?.mpr ⟨_, he⟩)
              rw [hk, List.getD_eq_getElem?_getD, List.getElem?_map, hbj] at hlt'
              simp only [Option.map_some', Option.getD_some] at hlt'
              omega
            · subst hjm
              rw [hbm] at hbj
              cases hbj
              rw [hc]
    intro m
    induction m with
    | zero =>
      intro _
      obtain ⟨st, hst, hinv⟩ := initBuffers_fold bands hpos hsorted 0 (Nat.zero_le _)
      refine ⟨st, hst, hinv, ?_⟩
      intro e he
      rw [(hinv.empty rfl).1] at he
      cases he
    | succ m ih =>
      intro hm
      obtain ⟨st, hst, hinv, hcap⟩ := ih (by omega)
      have hm' : m < bands.length := by omega
      obtain ⟨st', hst', hinv'⟩ := initBufferStep_inv bands m hm' hpos hsorted st hinv
      refine ⟨st', ?_, hinv', initBufferStep_capacity bands m hm' hpos hsorted st st' hinv hcap hst'⟩
      rw [List.take_succ, List.foldlM_append, hst, List.getElem?_eq_getElem hm']
      simp only [Option.bind_eq_bind, Option.some_bind, Option.toList_some, List.foldlM_cons,
        List.foldlM_nil]
      rw [hst']
      rfl
  obtain ⟨_, _, ws, bufs, hws, hbufs, rfl⟩ := fb.init_eq_some fb1 h
  have hlen : ws.length = fb.bandCount := by
    rw [fb.initWavelets_length _ _ _ hws]; simp [initScales]
  have hflen := fb.initFactors_length fb.bandCount ho
  unfold initBuffers at hbufs
  rw [if_neg ho] at hbufs
  cases hbands : (List.range ws.length).mapM (fun (i : ℕ) => do
        let w ← ws[i]?
        let d ← (fb.initFactors fb.bandCount)[i]?
        some (w.window_size, d)) with
  | none => rw [hbands] at hbufs; cases hbufs
  | some bands =>
    rw [hbands] at hbufs
    simp only [Option.bind_eq_bind, Option.some_bind] at hbufs
    obtain ⟨hblen, hsnd, hget, hpos⟩ := fb.initBands_spec ws bands hsr ho hws hbands
    obtain ⟨st, hst, _, hcap⟩ := initBuffers_capacity bands hpos (by
      intro j hj
      rw [hsnd]
      exact fb.initFactors_sorted hsr hb _ ho j (by rw [← hblen]; exact hj))
      bands.length (le_refl _)
    rw [List.take_length] at hst
    rw [hst] at hbufs
    cases hbufs
    dsimp only
    rw [if_neg ho]
    have hband : ∀ (i : ℕ) (b : ℕ × ℤ), bands[i]? = some b →
        ∃ (w : Wavelet), ws[i]? = some w ∧ b.1 = w.window_size ∧
          (fb.initFactors fb.bandCount)[i]? = some b.2 := by
      intro i b hbi
      have hi : i < fb.bandCount := by
        rw [← hblen]; exact (List.getElem?_eq_some_iff.mp hbi).1
      obtain ⟨w, hw, _, hbw⟩ := hget i hi
      rw [hbi] at hbw
      cases hbw
      refine ⟨w, hw, rfl, ?_⟩
      rw [List.getD_eq_getElem?_getD, List.getElem?_eq_getElem (by rw [hflen]; exact hi)]
      rfl
    intro e he
    obtain ⟨⟨i, b, hi, hbi, hk, hc⟩, hall⟩ := hcap e he
    refine ⟨?_, ?_⟩
    · obtain ⟨w, hw, hbw, hf⟩ := hband i b hbi
      exact ⟨i, w, hw, by rw [hf, hk], by rw [hc, hbw]⟩
    · intro j w hw hf
      have hj : j < fb.bandCount := by
        rw [← hlen]; exact (List.getElem?_eq_some_iff.mp hw).1
      obtain ⟨w', hw', _, hbw⟩ := hget j hj
      rw [hw] at hw'
      cases hw'
      have hd : (fb.initFactors fb.bandCount).getD j 0 = e.1 := by
        rw [List.getD_eq_getElem?_getD, hf]; rfl
      rw [hd] at hbw
      exact hall j _ (by rw [hblen]; exact hj) hbw rfl

end Filterbank

/-- C31. Ring-buffer capacity. After `init` (on a positive sample rate and
number of bands per octave), with an optimisation selected: the keys of
`data_` increase strictly (one buffer per key), every factor in use is a key,
and the capacity of the buffer keyed by `r` is `window_size_i * r` for one of
the bands `i` of factor `r` and at least `window_size_j * r` for every band `j`
of factor `r`: it is the largest of these products.  With no optimisation
selected there is at least one band and the only buffer, keyed by 1, has for
capacity the window size of the last band, which no window size exceeds. -/
theorem ring_buffer_capacity (fb fb1 : Filterbank) (h : fb.init = some fb1)
    (hsr : 0 < fb.reference_wavelet_.samplerate) (hb : 0 < fb.bands_per_octave) :
    (fb.optimisation ≠ Optimisation.None →
      (fb1.data_.map Prod.fst).Pairwise (fun a b => a < b) ∧
      (∀ r ∈ fb1.downsampling_factors, ∃ c, (r, c) ∈ fb1.data_) ∧
      ∀ (r : ℤ) (c : CircularBuffer), (r, c) ∈ fb1.data_ →
        (∃ (i : ℕ) (w : Wavelet), fb1.wavelets_[i]? = some w ∧ fb1.downsampling_factors[i]? = some r ∧
          c.capacity = w.window_size * r.toNat) ∧
        ∀ (j : ℕ) (w : Wavelet), fb1.wavelets_[j]? = some w → fb1.downsampling_factors[j]? = some r →
          w.window_size * r.toNat ≤ c.capacity) ∧
    (fb.optimisation = Optimisation.None →
      0 < fb1.size ∧ ∃ c last, fb1.data_ = [(1, c)] ∧
        fb1.wavelets_[fb1.size - 1]? = some last ∧ c.capacity = last.window_size ∧
        ∀ (j : ℕ) (w : Wavelet), fb1.wavelets_[j]? = some w → w.window_size ≤ c.capacity) := by
  open woma.Filterbank in
    have init_capacity_none : ∀ (fb fb1 : Filterbank) (h : fb.init = some fb1)
        (hsr : 0 < fb.reference_wavelet_.samplerate) (hb : 0 < fb.bands_per_octave)
        (ho : fb.optimisation = Optimisation.None),
        0 < fb1.size ∧ ∃ c last, fb1.data_ = [(1, c)] ∧ fb1.wavelets_[fb1.size - 1]? = some last ∧
          c.capacity = last.window_size ∧
          ∀ (j : ℕ) (w : Wavelet), fb1.wavelets_[j]? = some w → w.window_size ≤ c.capacity := by
      intro fb fb1 h hsr hb ho
      have hn : 0 < fb.bandCount := by
        rcases Nat.eq_zero_or_pos fb.bandCount with h0 | h0
        · rw [fb.init_none_of_no_band h0 ho] at h
          cases h
        · exact h0
      obtain ⟨_, _, ws, bufs, hws, hbufs, rfl⟩ := fb.init_eq_some fb1 h
      have hlen : ws.length = fb.bandCount := by
        rw [fb.initWavelets_length _ _ _ hws]; simp [initScales]
      have hget : ∀ i, i < fb.bandCount → ∃ w, ws[i]? = some w ∧
          fb.initWavelet (fb.scaleAt i) none = some w := by
        intro i hi
        obtain ⟨w, hw, hf⟩ := fb.initWavelets_getElem? _ ws hws i hi
        rw [if_neg (not_not.mpr ho)] at hf
        exact ⟨w, hw, hf⟩
      obtain ⟨last, hlast, hlastf⟩ := hget (fb.bandCount - 1) (by omega)
      unfold initBuffers at hbufs
      rw [if_pos ho, hlen, hlast] at hbufs
      simp only [Option.bind_eq_bind, Option.some_bind, Option.some.injEq, mapUpdate] at hbufs
      subst hbufs
      obtain ⟨w0, hw0, hw0s, hw03, _⟩ := fb.initWavelet_isSome (fb.scaleAt (fb.bandCount - 1))
        (fb.scaleAt_pos hsr _).le hsr.le none (by intro d hd; cases hd)
      rw [hlastf] at hw0
      cases hw0
      have hcap : (CircularBuffer.empty.resize last.window_size).capacity = last.window_size := by
        unfold CircularBuffer.resize CircularBuffer.empty
        have : last.window_size > 0 := by omega
        simp [this]
      refine ⟨by show 0 < ws.length; rw [hlen]; exact hn, _, last, rfl, ?_, hcap, ?_⟩
      · show ws[ws.length - 1]? = some last
        rw [hlen]; exact hlast
      · intro j w hw
        have hj : j < fb.bandCount := by
          rw [← hlen]; exact (List.getElem?_eq_some_iff.mp hw).1
        obtain ⟨w', hw', hf⟩ := hget j hj
        rw [hw] at hw'
        cases hw'
        rw [hcap]
        exact fb.initWavelet_none_window_mono (fb.scaleAt j) (fb.scaleAt (fb.bandCount - 1))
          (fb.scaleAt_pos hsr _).le (fb.scaleAt_mono hsr hb j _ (by omega)) hsr.le w last hf hlastf
  constructor
  · intro ho
    obtain ⟨_, _, _, bands, hsnd, hinv⟩ := fb.init_buffersInv fb1 h hsr hb ho
    refine ⟨hinv.keys_sorted, ?_, ?_⟩
    · intro r hr
      have hk := (BuffersInv.key_iff bands (fb1.data_, fb1.filters_) hinv r).mpr
        (by rw [hsnd]; exact hr)
      obtain ⟨e, he, rfl⟩ := List.mem_map.mp hk
      exact ⟨e.2, he⟩
    · intro r c hrc
      exact fb.init_capacity_opt fb1 h hsr hb ho (r, c) hrc
  · intro ho
    exact init_capacity_none fb fb1 h hsr hb ho

theorem ring_buffer_capacity_witness :
    ∃ fb1, (optimisedBank Optimisation.Standard1).init = some fb1 ∧
      (fb1.data_.map Prod.fst).Pairwise (fun a b => a < b) ∧
      (∀ r ∈ fb1.downsampling_factors, ∃ c, (r, c) ∈ fb1.data_) ∧
      ∀ (r : ℤ) (c : CircularBuffer), (r, c) ∈ fb1.data_ →
        (∃ (i : ℕ) (w : Wavelet), fb1.wavelets_[i]? = some w ∧ fb1.downsampling_factors[i]? = some r ∧
          c.capacity = w.window_size * r.toNat) ∧
        ∀ (j : ℕ) (w : Wavelet), fb1.wavelets_[j]? = some w → fb1.downsampling_factors[j]? = some r →
          w.window_size * r.toNat ≤ c.capacity := by
  obtain ⟨fb1, h1, _, _⟩ := optimisedBank_init Optimisation.Standard1
  have hsr : 0 < (optimisedBank Optimisation.Standard1).reference_wavelet_.samplerate := by
    have h100 : (optimisedBank Optimisation.Standard1).reference_wavelet_.samplerate = 100 := by
      simp [optimisedBank, scenarioBank, sampleBank, Filterbank.members, MorletWavelet.members]
    rw [h100]; norm_num
  have hb : 0 < (optimisedBank Optimisation.Standard1).bands_per_octave := by
    show (0 : ℝ) < 4
    norm_num
  obtain ⟨a1, a2, a3⟩ := (ring_buffer_capacity (optimisedBank Optimisation.Standard1) fb1 h1
    hsr hb).1 (by show Optimisation.Standard1 ≠ _; decide)
  exact ⟨fb1, h1, a1, a2, a3⟩

namespace LowpassFilter

/-- The ripple factor of `cheby1ap` is positive for a positive ripple. -/
theorem eps_pos (ripple_db : ℝ) (hr : 0 < ripple_db) :
    0 < Real.sqrt ((10 : ℝ) ^ (0.1 * ripple_db) - 1) := by
  apply Real.sqrt_pos.mpr
  have : (1 : ℝ) < (10 : ℝ) ^ (0.1 * ripple_db) :=
    Real.one_lt_rpow (by norm_num) (by positivity)
  linarith

/-- The angles of the poles of `cheby1ap` lie strictly between `-π/2` and
`π/2`. -/
theorem theta_mem (N : ℤ) (i : ℕ) (hN : 1 ≤ N) (hi : i < N.toNat) :
    Real.pi * ((-N + 1 + 2 * (i : ℤ) : ℤ) : ℝ) / (2 * (N : ℝ)) ∈
      Set.Ioo (-(Real.pi / 2)) (Real.pi / 2) := by
  have hN0 : (0 : ℝ) < (N : ℝ) := by exact_mod_cast (by omega : (0 : ℤ) < N)
  have hiN : (i : ℤ) < N := by omega
  have h1 : (-(N : ℝ)) < ((-N + 1 + 2 * (i : ℤ) : ℤ) : ℝ) := by
    have : (-N : ℤ) < -N + 1 + 2 * (i : ℤ) := by omega
    exact_mod_cast this
  have h2 : ((-N + 1 + 2 * (i : ℤ) : ℤ) : ℝ) < (N : ℝ) := by
    have : -N + 1 + 2 * (i : ℤ) < N := by omega
    exact_mod_cast this
  generalize ((-N + 1 + 2 * (i : ℤ) : ℤ) : ℝ) = t at h1 h2
  have hpi := Real.pi_pos
  constructor
  · rw [lt_div_iff₀ (by positivity)]
    nlinarith
  · rw [div_lt_iff₀ (by positivity)]
    nlinarith

/-- The poles of `cheby1ap`, as a list. -/
theorem cheby1ap_poles (N : ℤ) (ripple_db : ℝ) :
    (cheby1ap N ripple_db).2 = (List.range N.toNat).map (fun (i : ℕ) =>
      -Complex.sinh (Complex.mk
        (1 / (N : ℝ) * Real.arsinh (1 / Real.sqrt ((10 : ℝ) ^ (0.1 * ripple_db) - 1)))
        (Real.pi * ((-N + 1 + 2 * (i : ℤ) : ℤ) : ℝ) / (2 * (N : ℝ))))) := rfl

/-- Every pole of the analog prototype has a negative real part. -/
theorem cheby1ap_re_neg (N : ℤ) (ripple_db : ℝ) (hN : 1 ≤ N) (hr : 0 < ripple_db) :
    ∀ p ∈ (cheby1ap N ripple_db).2, p.re < 0 := by
  have mu_pos : ∀ (N : ℤ) (ripple_db : ℝ) (hN : 1 ≤ N) (hr : 0 < ripple_db),
      0 < 1 / (N : ℝ) * Real.arsinh (1 / Real.sqrt ((10 : ℝ) ^ (0.1 * ripple_db) - 1)) := by
    intro N ripple_db hN hr
    have hN0 : (0 : ℝ) < (N : ℝ) := by exact_mod_cast (by omega : (0 : ℤ) < N)
    have h1 : 0 < 1 / Real.sqrt ((10 : ℝ) ^ (0.1 * ripple_db) - 1) :=
      one_div_pos.mpr (eps_pos ripple_db hr)
    exact mul_pos (one_div_pos.mpr hN0) (by
        have key : ∀ y : ℝ, 0 < y → 0 < Real.arsinh y := by
          intro y hy
          rw [Real.arsinh]
          apply Real.log_pos
          have hsq : 1 ≤ Real.sqrt (1 + y ^ 2) := by
            rw [Real.one_le_sqrt]
            nlinarith [sq_nonneg y]
          linarith
        exact key _ h1)
  intro p hp
  rw [cheby1ap_poles] at hp
  obtain ⟨i, hi, rfl⟩ := List.mem_map.mp hp
  rw [List.mem_range] at hi
  rw [Complex.neg_re, sinh_mk_re]
  have hs : 0 < Real.sinh
      (1 / (N : ℝ) * Real.arsinh (1 / Real.sqrt ((10 : ℝ) ^ (0.1 * ripple_db) - 1))) :=
    (by
      have key : ∀ x : ℝ, 0 < x → 0 < Real.sinh x := by
        intro x hx
        rw [Real.sinh_eq]
        have := Real.exp_lt_exp.mpr (show -x < x by linarith)
        linarith
      exact key _ (mu_pos N ripple_db hN hr))
  have hc := Real.cos_pos_of_mem_Ioo (theta_mem N i hN hi)
  have := mul_pos hs hc
  linarith

/-- The warped cutoff `4 * tan(π * cutoff / 2)` is positive for a cutoff in
`(0, 1)`. -/
theorem warped_pos (cutoff : ℝ) (h0 : 0 < cutoff) (h1 : cutoff < 1) :
    0 < 4 * Real.tan (Real.pi * cutoff / 2) := by
  have hpi := Real.pi_pos
  have := Real.tan_pos_of_pos_of_lt_pi_div_two (x := Real.pi * cutoff / 2) (by positivity)
    (by nlinarith)
  linarith

/-- The poles after `_zpklp2lp` keep a negative real part. -/
theorem lp2lp_re_neg (p : List ℂ) (k wo : ℝ) (hwo : 0 < wo) (hp : ∀ x ∈ p, x.re < 0) :
    ∀ q ∈ (_zpklp2lp p k wo).2, q.re < 0 := by
  intro q hq
  unfold _zpklp2lp at hq
  obtain ⟨x, hx, rfl⟩ := List.mem_map.mp hq
  have := hp x hx
  simp only [Complex.mul_re, Complex.ofReal_re, Complex.ofReal_im, mul_zero, sub_zero]
  exact mul_neg_of_neg_of_pos this hwo

/-- The bilinear transform of a point of the open left half plane: no division
by zero, and a point of the open unit disk. -/
theorem bilinear_abs_lt_one (q : ℂ) (hq : q.re < 0) :
    (4 : ℂ) - q ≠ 0 ∧ Complex.abs (((4 : ℂ) + q) / ((4 : ℂ) - q)) < 1 := by
  have hne : (4 : ℂ) - q ≠ 0 := by
    intro h
    have : ((4 : ℂ) - q).re = 0 := by rw [h]; rfl
    simp at this
    linarith
  refine ⟨hne, ?_⟩
  rw [map_div₀, div_lt_one (AbsoluteValue.pos Complex.abs hne)]
  rw [Complex.abs_apply, Complex.abs_apply]
  apply Real.sqrt_lt_sqrt (Complex.normSq_nonneg _)
  rw [Complex.normSq_apply, Complex.normSq_apply]
  simp only [Complex.add_re, Complex.sub_re, Complex.add_im, Complex.sub_im]
  have e1 : (4 : ℂ).re = 4 := rfl
  have e2 : (4 : ℂ).im = 0 := rfl
  rw [e1, e2]
  nlinarith

end LowpassFilter

/-- C38. Stability of the designed filter: for every order `N ≥ 1`, ripple
`> 0` dB and cutoff in `(0, 1)`: the ripple factor `eps`, by which `cheby1ap`
divides, is positive; `cheby1ap` returns `N` poles, each with a strictly
negative real part; the warped cutoff `4 * tan(π * cutoff / 2)` is positive;
for every pole `q` after `_zpklp2lp` the divisor `4 - q` of the bilinear step
is not zero and `(4 + q) / (4 - q)` has a modulus strictly below 1; the product
of the `4 - q`, by which the gain is divided, is not zero; and every pole
`_zpkbilinear` returns has a modulus strictly below 1. -/
theorem filter_stability (N : ℤ) (ripple cutoff : ℝ) (hN : 1 ≤ N) (hr : 0 < ripple)
    (h0 : 0 < cutoff) (h1 : cutoff < 1) :
    0 < Real.sqrt ((10 : ℝ) ^ (0.1 * ripple) - 1) ∧
    (LowpassFilter.cheby1ap N ripple).2.length = N.toNat ∧
    (∀ p ∈ (LowpassFilter.cheby1ap N ripple).2, p.re < 0) ∧
    0 < 4 * Real.tan (Real.pi * cutoff / 2) ∧
    (∀ q ∈ (LowpassFilter._zpklp2lp (LowpassFilter.cheby1ap N ripple).2
        (LowpassFilter.cheby1ap N ripple).1 (4 * Real.tan (Real.pi * cutoff / 2))).2,
      (4 : ℂ) - q ≠ 0 ∧ Complex.abs (((4 : ℂ) + q) / ((4 : ℂ) - q)) < 1) ∧
    (((LowpassFilter._zpklp2lp (LowpassFilter.cheby1ap N ripple).2
        (LowpassFilter.cheby1ap N ripple).1 (4 * Real.tan (Real.pi * cutoff / 2))).2.map
      (fun x => (4 : ℂ) - x)).prod ≠ 0) ∧
    ∀ z ∈ (LowpassFilter._zpkbilinear
        (LowpassFilter._zpklp2lp (LowpassFilter.cheby1ap N ripple).2
          (LowpassFilter.cheby1ap N ripple).1 (4 * Real.tan (Real.pi * cutoff / 2))).2
        (LowpassFilter._zpklp2lp (LowpassFilter.cheby1ap N ripple).2
          (LowpassFilter.cheby1ap N ripple).1 (4 * Real.tan (Real.pi * cutoff / 2))).1).2.2,
      Complex.abs z < 1 := by
  have hq := LowpassFilter.lp2lp_re_neg (LowpassFilter.cheby1ap N ripple).2
    (LowpassFilter.cheby1ap N ripple).1 _ (LowpassFilter.warped_pos cutoff h0 h1)
    (LowpassFilter.cheby1ap_re_neg N ripple hN hr)
  refine ⟨LowpassFilter.eps_pos ripple hr, ?_, LowpassFilter.cheby1ap_re_neg N ripple hN hr,
    LowpassFilter.warped_pos cutoff h0 h1, ?_, ?_, ?_⟩
  · rw [LowpassFilter.cheby1ap_poles]
    simp
  · intro q hq'
    exact LowpassFilter.bilinear_abs_lt_one q (hq q hq')
  · apply List.prod_ne_zero
    intro hz
    obtain ⟨x, hx, hx0⟩ := List.mem_map.mp hz
    exact (LowpassFilter.bilinear_abs_lt_one x (hq x hx)).1 hx0
  · intro z hz
    unfold LowpassFilter._zpkbilinear at hz
    simp only at hz
    obtain ⟨x, hx, rfl⟩ := List.mem_map.mp hz
    have := (LowpassFilter.bilinear_abs_lt_one x (hq x hx)).2
    simpa using this

theorem filter_stability_witness :
    (1 : ℤ) ≤ 4 ∧ (0 : ℝ) < 0.05 ∧ (0 : ℝ) < 0.4 ∧ (0.4 : ℝ) < 1 ∧
    (LowpassFilter.cheby1ap 4 0.05).2.length = 4 ∧
    (∀ p ∈ (LowpassFilter.cheby1ap 4 0.05).2, p.re < 0) ∧
    ∀ z ∈ (LowpassFilter._zpkbilinear
        (LowpassFilter._zpklp2lp (LowpassFilter.cheby1ap 4 0.05).2
          (LowpassFilter.cheby1ap 4 0.05).1 (4 * Real.tan (Real.pi * 0.4 / 2))).2
        (LowpassFilter._zpklp2lp (LowpassFilter.cheby1ap 4 0.05).2
          (LowpassFilter.cheby1ap 4 0.05).1 (4 * Real.tan (Real.pi * 0.4 / 2))).1).2.2,
      Complex.abs z < 1 := by
  obtain ⟨_, a2, a3, _, _, _, a7⟩ := filter_stability 4 0.05 0.4 (by norm_num) (by norm_num)
    (by norm_num) (by norm_num)
  exact ⟨by norm_num, by norm_num, by norm_num, by norm_num, a2, a3, a7⟩

namespace LowpassFilter

/-- A list of complex numbers that read backwards is the list of its
conjugates has a real product. -/
theorem prod_im_of_reverse_conj (l : List ℂ) (h : l.reverse = l.map (starRingEnd ℂ)) :
    l.prod.im = 0 := by
  have h1 : (starRingEnd ℂ) l.prod = l.prod := by
    rw [map_list_prod, ← h, List.prod_reverse]
  exact Complex.conj_eq_iff_im.mp h1

/-- The property passes to the images under a map that commutes with the
conjugation. -/
theorem reverse_conj_map (l : List ℂ) (g : ℂ → ℂ)
    (hg : ∀ x, g ((starRingEnd ℂ) x) = (starRingEnd ℂ) (g x))
    (h : l.reverse = l.map (starRingEnd ℂ)) :
    (l.map g).reverse = (l.map g).map (starRingEnd ℂ) := by
  rw [← List.map_reverse, h, List.map_map, List.map_map]
  apply List.map_congr_left
  intro x _
  exact hg x

/-- The poles of `cheby1ap` come in conjugate pairs: pole `N - 1 - i` is the
conjugate of pole `i`. -/
theorem cheby1ap_reverse_conj (N : ℤ) (ripple_db : ℝ) (hN : 1 ≤ N) :
    (cheby1ap N ripple_db).2.reverse = (cheby1ap N ripple_db).2.map (starRingEnd ℂ) := by
  rw [cheby1ap_poles]
  apply List.ext_getElem
  · simp
  · intro j h1 h2
    have hj : j < N.toNat := by simpa using h1
    rw [List.getElem_reverse]
    simp only [List.getElem_map, List.getElem_range, List.length_map, List.length_range]
    rw [map_neg, ← sinh_mk_conj]
    congr 3
    have hcast : ((N.toNat - 1 - j : ℕ) : ℤ) = N - 1 - (j : ℤ) := by omega
    have hN0 : (N : ℝ) ≠ 0 := by
      have : (0 : ℝ) < (N : ℝ) := by exact_mod_cast (by omega : (0 : ℤ) < N)
      exact this.ne'
    rw [hcast]
    push_cast
    field_simp
    ring

/-- The poles after `_zpklp2lp` come in conjugate pairs. -/
theorem lp2lp_reverse_conj (p : List ℂ) (k wo : ℝ)
    (h : p.reverse = p.map (starRingEnd ℂ)) :
    (_zpklp2lp p k wo).2.reverse = (_zpklp2lp p k wo).2.map (starRingEnd ℂ) := by
  unfold _zpklp2lp
  apply reverse_conj_map p (fun x => x * (wo : ℂ)) _ h
  intro x
  simp

/-- On poles in conjugate pairs the gain `k * Re(1 / Π (fs2 - p))` of the source
is `k / Re(Π (fs2 - p))`, and `_zpkbilinear` is the step the specification
states. -/
theorem bilinear_eq_stated (p : List ℂ) (k : ℝ) (h : p.reverse = p.map (starRingEnd ℂ)) :
    ((p.map (fun x => (4 : ℂ) - x)).prod).im = 0 ∧ _zpkbilinear p k = statedBilinear p k := by
  have him : ((p.map (fun x => (4 : ℂ) - x)).prod).im = 0 := by
    apply prod_im_of_reverse_conj
    apply reverse_conj_map p (fun x => (4 : ℂ) - x) _ h
    intro x
    have h4 : (starRingEnd ℂ) (4 : ℂ) = 4 := by
      rw [show (4 : ℂ) = ((4 : ℝ) : ℂ) by norm_cast, Complex.conj_ofReal]
    simp only [map_sub, h4]
  refine ⟨him, ?_⟩
  unfold _zpkbilinear statedBilinear
  have h4 : (((4 : ℝ) : ℂ)) = (4 : ℂ) := by norm_cast
  simp only [h4]
  generalize (p.map (fun x => (4 : ℂ) - x)).prod = D at him
  have hD : D = ((D.re : ℝ) : ℂ) := by
    apply Complex.ext
    · simp
    · simp [him]
  have hre : (1 / D).re = 1 / D.re := by
    rw [hD]
    rw [show (1 : ℂ) / ((D.re : ℝ) : ℂ) = (((1 / D.re : ℝ)) : ℂ) by push_cast; ring]
    simp
  rw [hre]
  congr 1
  ring

end LowpassFilter

/-- C35. Bilinear step: for every order `N ≥ 1`, ripple `> 0` and cutoff in
`(0, 1)`, on the gain and the frequency-warped Chebyshev poles that `cheby1`
passes to it, `_zpkbilinear` is the step the specification states
(`statedBilinear`): it returns `N` zeros, all `-1`, each pole `p` mapped to
`(4 + p) / (4 - p)`, and the gain divided by the real part of the product of
the `4 - p`.  The expression of the source, `k * Re(1 / Π (4 - p))`, is this
quotient because the poles come in conjugate pairs (the list read backwards is
the list of the conjugates), which makes the product real; the product is not
zero.  `cheby1` returns the coefficients `zpk2tf` computes from this result. -/
theorem bilinear_step (N : ℤ) (ripple cutoff : ℝ) (hN : 1 ≤ N) (hr : 0 < ripple)
    (h0 : 0 < cutoff) (h1 : cutoff < 1) :
    LowpassFilter._zpkbilinear
        (LowpassFilter._zpklp2lp (LowpassFilter.cheby1ap N ripple).2
          (LowpassFilter.cheby1ap N ripple).1 (4 * Real.tan (Real.pi * cutoff / 2))).2
        (LowpassFilter._zpklp2lp (LowpassFilter.cheby1ap N ripple).2
          (LowpassFilter.cheby1ap N ripple).1 (4 * Real.tan (Real.pi * cutoff / 2))).1 =
      LowpassFilter.statedBilinear
        (LowpassFilter._zpklp2lp (LowpassFilter.cheby1ap N ripple).2
          (LowpassFilter.cheby1ap N ripple).1 (4 * Real.tan (Real.pi * cutoff / 2))).2
        (LowpassFilter._zpklp2lp (LowpassFilter.cheby1ap N ripple).2
          (LowpassFilter.cheby1ap N ripple).1 (4 * Real.tan (Real.pi * cutoff / 2))).1 ∧
    (LowpassFilter.statedBilinear
        (LowpassFilter._zpklp2lp (LowpassFilter.cheby1ap N ripple).2
          (LowpassFilter.cheby1ap N ripple).1 (4 * Real.tan (Real.pi * cutoff / 2))).2
        (LowpassFilter._zpklp2lp (LowpassFilter.cheby1ap N ripple).2
          (LowpassFilter.cheby1ap N ripple).1 (4 * Real.tan (Real.pi * cutoff / 2))).1).2.1 =
      List.replicate N.toNat (-1 : ℂ) ∧
    (LowpassFilter._zpklp2lp (LowpassFilter.cheby1ap N ripple).2
        (LowpassFilter.cheby1ap N ripple).1 (4 * Real.tan (Real.pi * cutoff / 2))).2.reverse =
      (LowpassFilter._zpklp2lp (LowpassFilter.cheby1ap N ripple).2
        (LowpassFilter.cheby1ap N ripple).1 (4 * Real.tan (Real.pi * cutoff / 2))).2.map
        (starRingEnd ℂ) ∧
    (((LowpassFilter._zpklp2lp (LowpassFilter.cheby1ap N ripple).2
        (LowpassFilter.cheby1ap N ripple).1 (4 * Real.tan (Real.pi * cutoff / 2))).2.map
      (fun x => (4 : ℂ) - x)).prod).im = 0 ∧
    (((LowpassFilter._zpklp2lp (LowpassFilter.cheby1ap N ripple).2
        (LowpassFilter.cheby1ap N ripple).1 (4 * Real.tan (Real.pi * cutoff / 2))).2.map
      (fun x => (4 : ℂ) - x)).prod).re ≠ 0 ∧
    LowpassFilter.cheby1 N ripple cutoff =
      some (LowpassFilter.zpk2tf
        (LowpassFilter._zpkbilinear
          (LowpassFilter._zpklp2lp (LowpassFilter.cheby1ap N ripple).2
            (LowpassFilter.cheby1ap N ripple).1 (4 * Real.tan (Real.pi * cutoff / 2))).2
          (LowpassFilter._zpklp2lp (LowpassFilter.cheby1ap N ripple).2
            (LowpassFilter.cheby1ap N ripple).1 (4 * Real.tan (Real.pi * cutoff / 2))).1).2.1
        (LowpassFilter._zpkbilinear
          (LowpassFilter._zpklp2lp (LowpassFilter.cheby1ap N ripple).2
            (LowpassFilter.cheby1ap N ripple).1 (4 * Real.tan (Real.pi * cutoff / 2))).2
          (LowpassFilter._zpklp2lp (LowpassFilter.cheby1ap N ripple).2
            (LowpassFilter.cheby1ap N ripple).1 (4 * Real.tan (Real.pi * cutoff / 2))).1).2.2
        (LowpassFilter._zpkbilinear
          (LowpassFilter._zpklp2lp (LowpassFilter.cheby1ap N ripple).2
            (LowpassFilter.cheby1ap N ripple).1 (4 * Real.tan (Real.pi * cutoff / 2))).2
          (LowpassFilter._zpklp2lp (LowpassFilter.cheby1ap N ripple).2
            (LowpassFilter.cheby1ap N ripple).1 (4 * Real.tan (Real.pi * cutoff / 2))).1).1) := by
  have hrev := LowpassFilter.lp2lp_reverse_conj (LowpassFilter.cheby1ap N ripple).2
    (LowpassFilter.cheby1ap N ripple).1 (4 * Real.tan (Real.pi * cutoff / 2))
    (LowpassFilter.cheby1ap_reverse_conj N ripple hN)
  obtain ⟨him, heq⟩ := LowpassFilter.bilinear_eq_stated _
    (LowpassFilter._zpklp2lp (LowpassFilter.cheby1ap N ripple).2
      (LowpassFilter.cheby1ap N ripple).1 (4 * Real.tan (Real.pi * cutoff / 2))).1 hrev
  have hq := LowpassFilter.lp2lp_re_neg (LowpassFilter.cheby1ap N ripple).2
    (LowpassFilter.cheby1ap N ripple).1 _ (LowpassFilter.warped_pos cutoff h0 h1)
    (LowpassFilter.cheby1ap_re_neg N ripple hN hr)
  have hne : ((LowpassFilter._zpklp2lp (LowpassFilter.cheby1ap N ripple).2
        (LowpassFilter.cheby1ap N ripple).1 (4 * Real.tan (Real.pi * cutoff / 2))).2.map
      (fun x => (4 : ℂ) - x)).prod ≠ 0 := by
    apply List.prod_ne_zero
    intro hz
    obtain ⟨x, hx, hx0⟩ := List.mem_map.mp hz
    exact (LowpassFilter.bilinear_abs_lt_one x (hq x hx)).1 hx0
  refine ⟨heq, ?_, hrev, him, ?_, ?_⟩
  · unfold LowpassFilter.statedBilinear LowpassFilter._zpklp2lp
    simp only [List.length_map]
    rw [LowpassFilter.cheby1ap_poles]
    simp
  · intro hre
    apply hne
    apply Complex.ext
    · rw [hre]; rfl
    · rw [him]; rfl
  · unfold LowpassFilter.cheby1
    rw [if_neg (by push_neg; exact ⟨h0, h1.le⟩)]

theorem bilinear_step_witness :
    (1 : ℤ) ≤ 4 ∧ (0 : ℝ) < 0.05 ∧ (0 : ℝ) < 0.4 ∧ (0.4 : ℝ) < 1 ∧
    LowpassFilter._zpkbilinear
        (LowpassFilter._zpklp2lp (LowpassFilter.cheby1ap 4 0.05).2
          (LowpassFilter.cheby1ap 4 0.05).1 (4 * Real.tan (Real.pi * 0.4 / 2))).2
        (LowpassFilter._zpklp2lp (LowpassFilter.cheby1ap 4 0.05).2
          (LowpassFilter.cheby1ap 4 0.05).1 (4 * Real.tan (Real.pi * 0.4 / 2))).1 =
      LowpassFilter.statedBilinear
        (LowpassFilter._zpklp2lp (LowpassFilter.cheby1ap 4 0.05).2
          (LowpassFilter.cheby1ap 4 0.05).1 (4 * Real.tan (Real.pi * 0.4 / 2))).2
        (LowpassFilter._zpklp2lp (LowpassFilter.cheby1ap 4 0.05).2
          (LowpassFilter.cheby1ap 4 0.05).1 (4 * Real.tan (Real.pi * 0.4 / 2))).1 :=
  ⟨by norm_num, by norm_num, by norm_num, by norm_num,
    (bilinear_step 4 0.05 0.4 (by norm_num) (by norm_num) (by norm_num) (by norm_num)).1⟩

namespace LowpassFilter

/-- What `init` leaves for an order of at least 1 and a cutoff in `(0, 1]`:
the attributes as they are, `order + 1` coefficients in `b` and in `a`, and a
memory of `order` zeros. -/
theorem init_state (f : LowpassFilter) (ho : 1 ≤ f.order) (h0 : 0 < f.cutoff)
    (h1 : f.cutoff ≤ 1) :
    ∃ g, f.init = some g ∧ g.order = f.order ∧ g.cutoff = f.cutoff ∧
      g.rippleLevel = f.rippleLevel ∧ g.b.length = f.order.toNat + 1 ∧
      g.a.length = f.order.toNat + 1 ∧ g.z = List.replicate f.order.toNat 0 := by
  obtain ⟨g, hg, q1, q2, q3, q4⟩ := lowpass_init_isSome f h0 h1
  obtain ⟨_, _, s3, s4⟩ := lowpass_init_sized f g hg ho
  have hz : g.z.length = f.order.toNat := by rw [q2, List.length_replicate]
  exact ⟨g, hg, q1, q3, q4, by rw [s3, hz], by rw [s4, hz], q2⟩

/-- What the constructor `LowpassFilter(cutoff, N, ripple)` returns for an
order of at least 1 and a cutoff in `(0, 1]`: the result of `init`. -/
theorem construct_state (cutoff : ℝ) (N : ℤ) (ripple : ℝ) (hN : 1 ≤ N) (hmax : N ≤ INT_MAX)
    (h0 : 0 < cutoff) (h1 : cutoff ≤ 1) :
    ∃ f, construct cutoff N ripple = Construction.built f ∧
      init { cutoff := cutoff, order := N, rippleLevel := ripple, b := [], a := [], z := [] } =
        some f ∧
      f.cutoff = cutoff ∧ f.order = N ∧ f.rippleLevel = ripple ∧
      f.b.length = N.toNat + 1 ∧ f.a.length = N.toNat + 1 ∧
      f.z = List.replicate N.toNat 0 := by
  obtain ⟨f, hf, q1, q2, q3, q4, q5, q6⟩ := init_state
    { cutoff := cutoff, order := N, rippleLevel := ripple, b := [], a := [], z := [] }
    hN h0 h1
  refine ⟨f, ?_, hf, q2, q1, q3, q4, q5, q6⟩
  unfold construct
  rw [FilterbankObject.checkLimits_none_of_mem _ _ _ h0.le h1,
    checkLimits_int_none _ _ _ hN hmax, hf]

end LowpassFilter

/-- C34. Low-pass computed state: for every order `N ≥ 1` (an `int`), ripple
`> 0` and cutoff in `(0, 1]`, the constructor `LowpassFilter(cutoff, N, ripple)`
returns a filter with these attributes, `N + 1` coefficients in `b` and in `a`,
and a memory `z` of `N` zeros; and on every filter whose other attributes have
such values, `cutoff.set(cutoff)`, `order.set(N)` and `rippleLevel.set(ripple)`
return a filter with the new value, `order + 1` coefficients in `b` and in `a`
and a memory of `order` zeros, whatever the coefficients and the memory were
before. -/
theorem lowpass_computed_state (N : ℤ) (ripple cutoff : ℝ) (hN : 1 ≤ N)
    (hmax : N ≤ INT_MAX) (hr : 0 < ripple) (h0 : 0 < cutoff) (h1 : cutoff ≤ 1) :
    (∃ f, LowpassFilter.construct cutoff N ripple = Construction.built f ∧
      f.cutoff = cutoff ∧ f.order = N ∧ f.rippleLevel = ripple ∧
      f.b.length = N.toNat + 1 ∧ f.a.length = N.toNat + 1 ∧
      f.z = List.replicate N.toNat 0) ∧
    (∀ (g : LowpassFilter), g.order = N →
      ∃ f, g.setCutoff cutoff = some f ∧
        f.cutoff = cutoff ∧ f.order = N ∧ f.rippleLevel = g.rippleLevel ∧
        f.b.length = N.toNat + 1 ∧ f.a.length = N.toNat + 1 ∧
        f.z = List.replicate N.toNat 0) ∧
    (∀ (g : LowpassFilter), g.cutoff = cutoff →
      ∃ f, g.setOrder N = some f ∧
        f.cutoff = cutoff ∧ f.order = N ∧ f.rippleLevel = g.rippleLevel ∧
        f.b.length = N.toNat + 1 ∧ f.a.length = N.toNat + 1 ∧
        f.z = List.replicate N.toNat 0) ∧
    (∀ (g : LowpassFilter), g.order = N → g.cutoff = cutoff →
      ∃ f, g.setRippleLevel ripple = some f ∧
        f.cutoff = cutoff ∧ f.order = N ∧ f.rippleLevel = ripple ∧
        f.b.length = N.toNat + 1 ∧ f.a.length = N.toNat + 1 ∧
        f.z = List.replicate N.toNat 0) := by
  refine ⟨?_, ?_, ?_, ?_⟩
  · obtain ⟨f, hf, q1, q2, q3, q4, q5, q6⟩ := LowpassFilter.init_state
      { cutoff := cutoff, order := N, rippleLevel := ripple, b := [], a := [], z := [] }
      hN h0 h1
    refine ⟨f, ?_, q2, q1, q3, q4, q5, q6⟩
    unfold LowpassFilter.construct
    rw [FilterbankObject.checkLimits_none_of_mem _ _ _ h0.le h1,
      LowpassFilter.checkLimits_int_none _ _ _ hN hmax, hf]
  · intro g hg
    obtain ⟨f, hf, q1, q2, q3, q4, q5, q6⟩ := LowpassFilter.init_state
      { g with cutoff := cutoff } (by show 1 ≤ g.order; rw [hg]; exact hN) h0 h1
    refine ⟨f, ?_, q2, by rw [q1]; exact hg, q3, ?_, ?_, ?_⟩
    · unfold LowpassFilter.setCutoff
      rw [if_neg (by push_neg; exact ⟨h0.le, h1⟩)]
      exact hf
    · rw [q4]; show g.order.toNat + 1 = _; rw [hg]
    · rw [q5]; show g.order.toNat + 1 = _; rw [hg]
    · rw [q6]; show List.replicate g.order.toNat 0 = _; rw [hg]
  · intro g hg
    obtain ⟨f, hf, q1, q2, q3, q4, q5, q6⟩ := LowpassFilter.init_state
      { g with order := N } hN (by show 0 < g.cutoff; rw [hg]; exact h0)
      (by show g.cutoff ≤ 1; rw [hg]; exact h1)
    refine ⟨f, ?_, by rw [q2]; exact hg, q1, q3, q4, q5, q6⟩
    unfold LowpassFilter.setOrder
    rw [if_neg (by push_neg; exact ⟨hN, hmax⟩)]
    exact hf
  · intro g hg hc
    obtain ⟨f, hf, q1, q2, q3, q4, q5, q6⟩ := LowpassFilter.init_state
      { g with rippleLevel := ripple } (by show 1 ≤ g.order; rw [hg]; exact hN)
      (by show 0 < g.cutoff; rw [hc]; exact h0) (by show g.cutoff ≤ 1; rw [hc]; exact h1)
    refine ⟨f, hf, by rw [q2]; exact hc, by rw [q1]; exact hg, q3, ?_, ?_, ?_⟩
    · rw [q4]; show g.order.toNat + 1 = _; rw [hg]
    · rw [q5]; show g.order.toNat + 1 = _; rw [hg]
    · rw [q6]; show List.replicate g.order.toNat 0 = _; rw [hg]

theorem lowpass_computed_state_witness :
    ∃ f, LowpassFilter.construct 0.5 4 0.05 = Construction.built f ∧
      f.b.length = 5 ∧ f.a.length = 5 ∧ f.z = [0, 0, 0, 0] := by
  obtain ⟨⟨f, hf, _, _, _, q4, q5, q6⟩, _⟩ := lowpass_computed_state 4 0.05 0.5 (by norm_num)
    (by unfold INT_MAX; norm_num) (by norm_num) (by norm_num) (by norm_num)
  exact ⟨f, hf, q4, q5, q6⟩

namespace LowpassFilter

/-- The denominator `cheby1` returns is monic. -/
theorem cheby1_monic (N : ℤ) (ripple cutoff : ℝ) (ba : List ℝ × List ℝ)
    (h : cheby1 N ripple cutoff = some ba) : ba.2.getD 0 0 = 1 := by
  unfold cheby1 at h
  split_ifs at h
  simp only [Option.some.injEq] at h
  rw [← h]
  unfold zpk2tf
  simp only
  have hh := poly_head (_zpkbilinear
    (_zpklp2lp (cheby1ap N ripple).2 (cheby1ap N ripple).1
      (4 * Real.tan (Real.pi * cutoff / 2))).2
    (_zpklp2lp (cheby1ap N ripple).2 (cheby1ap N ripple).1
      (4 * Real.tan (Real.pi * cutoff / 2))).1).2.2
  have hl := poly_length (_zpkbilinear
    (_zpklp2lp (cheby1ap N ripple).2 (cheby1ap N ripple).1
      (4 * Real.tan (Real.pi * cutoff / 2))).2
    (_zpklp2lp (cheby1ap N ripple).2 (cheby1ap N ripple).1
      (4 * Real.tan (Real.pi * cutoff / 2))).1).2.2
  generalize poly (_zpkbilinear
    (_zpklp2lp (cheby1ap N ripple).2 (cheby1ap N ripple).1
      (4 * Real.tan (Real.pi * cutoff / 2))).2
    (_zpklp2lp (cheby1ap N ripple).2 (cheby1ap N ripple).1
      (4 * Real.tan (Real.pi * cutoff / 2))).1).2.2 = l at hh hl
  cases l with
  | nil => simp at hl
  | cons c t =>
    simp only [List.getD_cons_zero] at hh
    simp only [List.map_cons, List.getD_cons_zero, hh, Complex.one_re]

end LowpassFilter

namespace LowpassFilter

/-- The difference equation of the streaming filter, from a zero memory. -/
theorem difference_equation (f : LowpassFilter) (N : ℕ) (hN : 1 ≤ N)
    (ho : f.order = (N : ℤ)) (hb : f.b.length = N + 1) (ha : f.a.length = N + 1)
    (hz : f.z = List.replicate N 0) (xs : List ℝ) :
    ∃ ys g, f.filterSeq xs = some (ys, g) ∧ ys.length = xs.length ∧
      ∀ n, n < xs.length →
        ys.getD n 0 =
          ∑ i in Finset.range (min n N + 1), f.b.getD i 0 * xs.getD (n - i) 0 -
            ∑ i in Finset.Icc 1 (min n N), f.a.getD i 0 * ys.getD (n - i) 0 := by
  have filterSeq_history : ∀ (N : ℕ), ∀ (xs : List ℝ) (f : LowpassFilter) (hx hy : List ℝ),
      f.Sized → f.z.length = N →
      (∀ j, f.z.getD j 0 = ∑ m in Finset.range N,
        (f.b.getD (j + 1 + m) 0 * hx.getD m 0 - f.a.getD (j + 1 + m) 0 * hy.getD m 0)) →
      ∃ ys g, f.filterSeq xs = some (ys, g) ∧ ys.length = xs.length ∧
        ∀ n, n < xs.length →
          ys.getD n 0 =
            ∑ i in Finset.range (N + 1),
                f.b.getD i 0 * ((xs.take (n + 1)).reverse ++ hx).getD i 0 -
              ∑ i in Finset.range N,
                f.a.getD (i + 1) 0 * ((ys.take n).reverse ++ hy).getD i 0 := by
    intro N
    have step_history : ∀ (f : LowpassFilter) (N : ℕ) (hs : f.Sized) (hN : f.z.length = N)
        (hx hy : List ℝ) (x : ℝ)
        (hinv : ∀ j, f.z.getD j 0 = ∑ m in Finset.range N,
          (f.b.getD (j + 1 + m) 0 * hx.getD m 0 - f.a.getD (j + 1 + m) 0 * hy.getD m 0)),
        f.output x = ∑ i in Finset.range (N + 1), f.b.getD i 0 * (x :: hx).getD i 0 -
            ∑ i in Finset.range N, f.a.getD (i + 1) 0 * hy.getD i 0 ∧
        ∀ j, (f.step x).z.getD j 0 = ∑ m in Finset.range N,
          ((f.step x).b.getD (j + 1 + m) 0 * (x :: hx).getD m 0 -
            (f.step x).a.getD (j + 1 + m) 0 * (f.output x :: hy).getD m 0) := by
      intro f N hs hN hx hy x hinv
      have getD_beyond : ∀ (l : List ℝ) (i : ℕ) (h : l.length ≤ i), l.getD i 0 = 0 := by
        intro l i h
        rw [List.getD_eq_getElem?_getD, List.getElem?_eq_none h]
        rfl
      have nextMemory_getD : ∀ (f : LowpassFilter) (value : ℝ) (j : ℕ),
          (f.nextMemory value).getD j 0 =
            if j < f.z.length then
              f.b.getD (j + 1) 0 * value + f.z.getD (j + 1) 0 - f.a.getD (j + 1) 0 * f.output value
            else 0 := by
        intro f value j
        unfold nextMemory
        by_cases hj : j < f.z.length
        · rw [if_pos hj, List.getD_eq_getElem?_getD, List.getElem?_map,
            List.getElem?_range hj]
          rfl
        · rw [if_neg hj, List.getD_eq_getElem?_getD, List.getElem?_eq_none (by simpa using hj)]
          rfl
      obtain ⟨h1, _, hb, ha⟩ := hs
      have hN1 : 1 ≤ N := by
        have : (1 : ℤ) ≤ (f.z.length : ℤ) := by omega
        omega
      constructor
      · unfold output
        rw [hinv 0, Finset.sum_range_succ', Finset.sum_sub_distrib]
        simp only [List.getD_cons_zero, List.getD_cons_succ]
        have e1 : ∀ m, 0 + 1 + m = m + 1 := fun m => by omega
        simp only [e1]
        ring
      · intro j
        show (f.nextMemory x).getD j 0 = ∑ m in Finset.range N,
          (f.b.getD (j + 1 + m) 0 * (x :: hx).getD m 0 -
            f.a.getD (j + 1 + m) 0 * (f.output x :: hy).getD m 0)
        rw [nextMemory_getD]
        obtain ⟨K, rfl⟩ : ∃ K, N = K + 1 := ⟨N - 1, by omega⟩
        rw [Finset.sum_range_succ']
        simp only [List.getD_cons_zero, List.getD_cons_succ, Nat.add_zero]
        have e1 : ∀ m, j + 1 + (m + 1) = j + 1 + 1 + m := fun m => by omega
        have hsum : ∑ m in Finset.range K, (f.b.getD (j + 1 + (m + 1)) 0 * hx.getD m 0 -
              f.a.getD (j + 1 + (m + 1)) 0 * hy.getD m 0) =
            ∑ m in Finset.range K, (f.b.getD (j + 1 + 1 + m) 0 * hx.getD m 0 -
              f.a.getD (j + 1 + 1 + m) 0 * hy.getD m 0) := by
          apply Finset.sum_congr rfl
          intro m _
          rw [e1 m]
        rw [hsum]
        by_cases hj : j < f.z.length
        · rw [if_pos hj, hinv (j + 1), Finset.sum_range_succ]
          have hb0 : f.b.getD (j + 1 + 1 + K) 0 = 0 := getD_beyond _ _ (by omega)
          have ha0 : f.a.getD (j + 1 + 1 + K) 0 = 0 := getD_beyond _ _ (by omega)
          rw [hb0, ha0]
          ring
        · rw [if_neg hj]
          have hz : ∀ m, f.b.getD (j + 1 + 1 + m) 0 = 0 ∧ f.a.getD (j + 1 + 1 + m) 0 = 0 :=
            fun m => ⟨getD_beyond _ _ (by omega), getD_beyond _ _ (by omega)⟩
          have hb0 : f.b.getD (j + 1) 0 = 0 := getD_beyond _ _ (by omega)
          have ha0 : f.a.getD (j + 1) 0 = 0 := getD_beyond _ _ (by omega)
          rw [hb0, ha0]
          have hzero : ∑ m in Finset.range K, (f.b.getD (j + 1 + 1 + m) 0 * hx.getD m 0 -
              f.a.getD (j + 1 + 1 + m) 0 * hy.getD m 0) = 0 := by
            apply Finset.sum_eq_zero
            intro m _
            rw [(hz m).1, (hz m).2]
            ring
          rw [hzero]
          ring
    intro xs
    induction xs with
    | nil =>
      intro f hx hy _ _ _
      exact ⟨[], f, rfl, rfl, fun n hn => absurd hn (Nat.not_lt_zero _)⟩
    | cons x xs ih =>
      intro f hx hy hs hN hinv
      obtain ⟨hout, hnext⟩ := step_history f N hs hN hx hy x hinv
      obtain ⟨ys, g, hseq, hlen, hys⟩ := ih (f.step x) (x :: hx) (f.output x :: hy)
        (step_sized f hs x) (by
          show (f.nextMemory x).length = N
          unfold nextMemory
          simp [hN]) hnext
      refine ⟨f.output x :: ys, g, ?_, by simp [hlen], ?_⟩
      · simp only [filterSeq, filter_eq f hs x, Option.bind_eq_bind, Option.some_bind, hseq]
      · intro n hn
        cases n with
        | zero =>
          simp only [List.getD_cons_zero, List.take_zero, List.reverse_nil, List.nil_append,
            zero_add, List.take_succ_cons, List.reverse_cons, List.singleton_append]
          exact hout
        | succ n =>
          have hn' : n < xs.length := by simpa using hn
          have := hys n hn'
          simp only [List.getD_cons_succ, List.take_succ_cons, List.reverse_cons,
            List.append_assoc, List.singleton_append]
          exact this
  have take_reverse_getD : ∀ (l : List ℝ) (k i : ℕ) (hk : k ≤ l.length),
      ((l.take k).reverse).getD i 0 = if i < k then l.getD (k - 1 - i) 0 else 0 := by
    intro l k i hk
    have hlen : (l.take k).length = k := by rw [List.length_take]; omega
    by_cases hi : i < k
    · rw [if_pos hi, List.getD_eq_getElem?_getD, List.getD_eq_getElem?_getD,
        List.getElem?_reverse (by rw [hlen]; exact hi), hlen, List.getElem?_take_of_lt (by omega)]
    · rw [if_neg hi, List.getD_eq_getElem?_getD,
        List.getElem?_eq_none (by rw [List.length_reverse, hlen]; omega)]
      rfl
  have sum_taps : ∀ (g : ℕ → ℝ) (n N : ℕ),
      ∑ i in Finset.range (N + 1), (if i < n + 1 then g i else 0) =
        ∑ i in Finset.range (min n N + 1), g i := by
    intro g n N
    rw [← Finset.sum_filter]
    congr 1
    ext i
    simp only [Finset.mem_filter, Finset.mem_range]
    omega
  have sum_past : ∀ (g : ℕ → ℝ) (n N : ℕ),
      ∑ i in Finset.range N, (if i < n then g (i + 1) else 0) =
        ∑ i in Finset.Icc 1 (min n N), g i := by
    intro g n N
    rw [← Finset.sum_filter]
    have hf : (Finset.range N).filter (fun i => i < n) = Finset.range (min n N) := by
      ext i
      simp only [Finset.mem_filter, Finset.mem_range]
      omega
    rw [hf, ← Nat.Ico_succ_right, Finset.sum_Ico_eq_sum_range]
    simp only [Nat.succ_eq_add_one, Nat.add_sub_cancel]
    apply Finset.sum_congr rfl
    intro i _
    rw [Nat.add_comm]
  have hzl : f.z.length = N := by rw [hz, List.length_replicate]
  have hs : f.Sized := ⟨by rw [ho]; exact_mod_cast hN, by rw [hzl, ho], by rw [hb, hzl],
    by rw [ha, hzl]⟩
  obtain ⟨ys, g, hseq, hlen, hys⟩ := filterSeq_history N xs f [] [] hs hzl (by
    intro j
    have h0 : f.z.getD j 0 = 0 := by
      rw [hz, List.getD_eq_getElem?_getD]
      by_cases hj : j < N
      · rw [List.getElem?_eq_getElem (by simpa using hj)]
        simp
      · rw [List.getElem?_eq_none (by simpa using hj)]
        rfl
    rw [h0]
    symm
    apply Finset.sum_eq_zero
    intro m _
    simp)
  refine ⟨ys, g, hseq, hlen, ?_⟩
  intro n hn
  rw [hys n hn]
  simp only [List.append_nil]
  congr 1
  · rw [← sum_taps (fun i => f.b.getD i 0 * xs.getD (n - i) 0) n N]
    apply Finset.sum_congr rfl
    intro i _
    rw [take_reverse_getD xs (n + 1) i (by omega)]
    by_cases hi : i < n + 1
    · rw [if_pos hi, if_pos hi, Nat.add_sub_cancel]
    · rw [if_neg hi, if_neg hi, mul_zero]
  · rw [← sum_past (fun i => f.a.getD i 0 * ys.getD (n - i) 0) n N]
    apply Finset.sum_congr rfl
    intro i _
    rw [take_reverse_getD ys n i (by omega)]
    by_cases hi : i < n
    · rw [if_pos hi, if_pos hi]
      congr 2
      omega
    · rw [if_neg hi, if_neg hi, mul_zero]

end LowpassFilter

/-- C37. The streaming filter realises the transfer function `b / a`: for every
order `N ≥ 1`, on a filter with `N + 1` coefficients in `b` and in `a` and a
zero memory of `N` entries, successive calls of `filter` on the samples of any
sequence `x` return, one output per sample, and the outputs satisfy the
direct-form difference equation
`y[n] = Σ_{i = 0 .. min(n, N)} b[i] * x[n - i] - Σ_{i = 1 .. min(n, N)} a[i] * y[n - i]`
for every `n`; and the denominator `cheby1` returns is monic, `a[0] = 1`. -/
theorem streaming_filter (f : LowpassFilter) (N : ℕ) (hN : 1 ≤ N)
    (ho : f.order = (N : ℤ)) (hb : f.b.length = N + 1) (ha : f.a.length = N + 1)
    (hz : f.z = List.replicate N 0) (xs : List ℝ) :
    (∃ ys g, f.filterSeq xs = some (ys, g) ∧ ys.length = xs.length ∧
      ∀ n, n < xs.length →
        ys.getD n 0 =
          ∑ i in Finset.range (min n N + 1), f.b.getD i 0 * xs.getD (n - i) 0 -
            ∑ i in Finset.Icc 1 (min n N), f.a.getD i 0 * ys.getD (n - i) 0) ∧
    ∀ (order : ℤ) (ripple cutoff : ℝ) (ba : List ℝ × List ℝ),
      LowpassFilter.cheby1 order ripple cutoff = some ba → ba.2.getD 0 0 = 1 := by
  exact ⟨LowpassFilter.difference_equation f N hN ho hb ha hz xs,
    fun order ripple cutoff ba h => LowpassFilter.cheby1_monic order ripple cutoff ba h⟩

theorem streaming_filter_witness :
    ∃ f ys g, LowpassFilter.construct 0.5 4 0.05 = Construction.built f ∧
      f.filterSeq [1, 0, 0] = some (ys, g) ∧ ys.length = 3 ∧
      ys.getD 0 0 = f.b.getD 0 0 * 1 ∧ f.a.getD 0 0 = 1 := by
  obtain ⟨f, hf, hinit, _, q2, _, q4, q5, q6⟩ := LowpassFilter.construct_state 0.5 4 0.05
    (by norm_num) (by unfold INT_MAX; norm_num) (by norm_num) (by norm_num)
  obtain ⟨⟨ys, g, hseq, hlen, hys⟩, hmonic⟩ := streaming_filter f 4 (by norm_num) q2 q4 q5 q6
    [1, 0, 0]
  refine ⟨f, ys, g, hf, hseq, hlen, ?_, ?_⟩
  · rw [hys 0 (by simp)]
    simp
  · unfold LowpassFilter.init at hinit
    cases hc : LowpassFilter.cheby1 4 0.05 0.5 with
    | none => simp [hc] at hinit
    | some ba =>
      simp only [hc, Option.map_some', Option.some.injEq] at hinit
      rw [← hinit]
      exact hmonic 4 0.05 0.5 ba hc

namespace LowpassFilter

/-- Two lists of the same length with the same entries are equal. -/
theorem ext_getD_zero (l1 l2 : List ℂ) (hlen : l1.length = l2.length)
    (h : ∀ i, l1.getD i 0 = l2.getD i 0) : l1 = l2 := by
  apply List.ext_getElem hlen
  intro i h1 h2
  have := h i
  rw [List.getD_eq_getElem?_getD, List.getD_eq_getElem?_getD, List.getElem?_eq_getElem h1,
    List.getElem?_eq_getElem h2] at this
  simpa using this

/-- A complex coefficient read past the end of the vector, with the zero
default. -/
theorem getD_beyond_complex (l : List ℂ) (i : ℕ) (h : l.length ≤ i) : l.getD i 0 = 0 := by
  rw [List.getD_eq_getElem?_getD, List.getElem?_eq_none h]
  rfl

/-- The coefficient formula of `convolve c [1, -p]` at every index. -/
theorem convolve_getD (c : List ℂ) (p : ℂ) (hL : 1 ≤ c.length) (i : ℕ) :
    (convolve c [1, -p]).getD i 0 =
      c.getD i 0 - p * (if i = 0 then 0 else c.getD (i - 1) 0) := by
  have convolve_entry : ∀ (c : List ℂ) (p : ℂ) (hL : 1 ≤ c.length) (i : ℕ) (hi : i < c.length + 1),
      (convolve c [1, -p]).getD i 0 =
        c.getD i 0 - p * (if i = 0 then 0 else c.getD (i - 1) 0) := by
    intro c p hL i hi
    unfold convolve
    rcases Nat.eq_or_lt_of_le hL with h1 | h2
    · -- a single coefficient: the source swaps the two vectors
      obtain ⟨c0, rfl⟩ := List.length_eq_one.mp h1.symm
      have hi' : i = 0 ∨ i = 1 := by simp at hi; omega
      rcases hi' with rfl | rfl
      · simp [List.range_succ]
      · simp [List.range_succ]
    · have hswap : ¬ ([1, -p] : List ℂ).length > c.length := by simp; omega
      simp only [if_neg hswap]
      rw [List.getD_eq_getElem?_getD, List.getElem?_map, List.getElem?_range (by simp; omega)]
      simp only [Option.map_some', Option.getD_some, List.length_cons, List.length_nil]
      have hkmin : (if i ≥ 0 + 1 + 1 - 1 then i - (0 + 1 + 1 - 1) else 0) = i - 1 := by
        split_ifs <;> omega
      have hkmax : (if i < c.length - 1 then i else c.length - 1) = min i (c.length - 1) := by
        split_ifs <;> omega
      rw [hkmin, hkmax]
      rcases Nat.eq_zero_or_pos i with h0 | hpos
      · subst h0
        have e2 : min 0 (c.length - 1) + 1 - (0 - 1) = 1 := by omega
        rw [e2]
        simp [List.range_succ]
      · rw [if_neg (show ¬ i = 0 by omega)]
        rcases Nat.lt_or_ge i c.length with hlt | hge
        · have e2 : min i (c.length - 1) + 1 - (i - 1) = 2 := by omega
          rw [e2]
          have e3 : i - 1 + 1 = i := by omega
          have e5 : i - (i - 1) = 1 := by omega
          simp [List.range_succ, e3, e5]
          ring
        · have hiL : i = c.length := by omega
          have e2 : min i (c.length - 1) + 1 - (i - 1) = 1 := by omega
          rw [e2]
          have e4 : c.getD i 0 = 0 := by
            rw [List.getD_eq_getElem?_getD, List.getElem?_eq_none (by omega)]; rfl
          have e5 : i - (i - 1) = 1 := by omega
          rw [e4]
          simp [List.range_succ, e5]
          ring
  by_cases hi : i < c.length + 1
  · exact convolve_entry c p hL i hi
  · rw [getD_beyond_complex _ _ (by rw [convolve_length]; simp; omega),
      getD_beyond_complex c i (by omega), if_neg (by omega),
      getD_beyond_complex c (i - 1) (by omega)]
    ring

theorem convolve_linear_length (c : List ℂ) (p : ℂ) (hL : 1 ≤ c.length) :
    (convolve c [1, -p]).length = c.length + 1 := by
  rw [convolve_length]
  simp

/-- `poly` with one more zero. -/
theorem poly_append (l : List ℂ) (p : ℂ) : poly (l ++ [p]) = convolve (poly l) [1, -p] := by
  unfold poly
  rw [List.foldl_append]
  rfl

theorem poly_length_pos (l : List ℂ) : 1 ≤ (poly l).length := by
  rw [poly_length]; omega

/-- The sum of the coefficients of `poly`: the value at 1 of the polynomial,
the product of the `1 - p`. -/
theorem poly_sum (l : List ℂ) : (poly l).sum = (l.map (fun p => 1 - p)).prod := by
  have convolve_sum : ∀ (c : List ℂ) (p : ℂ) (hL : 1 ≤ c.length),
      (convolve c [1, -p]).sum = (1 - p) * c.sum := by
    intro c p hL
    have sum_eq_sum_range : ∀ (l : List ℂ), l.sum = ∑ i in Finset.range l.length, l.getD i 0 := by
      intro l
      rw [← list_sum_range_eq, Filterbank.map_range_getD]
    rw [sum_eq_sum_range, convolve_linear_length c p hL, sum_eq_sum_range c]
    have h1 : ∑ i in Finset.range (c.length + 1), (convolve c [1, -p]).getD i 0 =
        ∑ i in Finset.range (c.length + 1), c.getD i 0 -
          p * ∑ i in Finset.range (c.length + 1), (if i = 0 then 0 else c.getD (i - 1) 0) := by
      rw [Finset.mul_sum, ← Finset.sum_sub_distrib]
      apply Finset.sum_congr rfl
      intro i _
      exact convolve_getD c p hL i
    rw [h1, Finset.sum_range_succ, getD_beyond_complex c c.length (le_refl _),
      Finset.sum_range_succ']
    simp only [Nat.add_one_ne_zero, if_false, Nat.add_sub_cancel, if_true, add_zero]
    ring
  induction l using List.reverseRecOn with
  | nil => simp [poly]
  | append_singleton l p ih =>
    rw [poly_append, convolve_sum _ _ (poly_length_pos l), ih, List.map_append,
      List.prod_append]
    simp [mul_comm]

/-- On zeros in conjugate pairs the coefficients of `poly` are real. -/
theorem poly_real (l : List ℂ) (h : l.reverse = l.map (starRingEnd ℂ)) (i : ℕ) :
    ((poly l).getD i 0).im = 0 := by
  have poly_conj : ∀ (l : List ℂ), poly (l.map (starRingEnd ℂ)) = (poly l).map (starRingEnd ℂ) := by
    intro l
    have convolve_conj : ∀ (c : List ℂ) (p : ℂ) (hL : 1 ≤ c.length),
        convolve (c.map (starRingEnd ℂ)) [1, -(starRingEnd ℂ) p] =
          (convolve c [1, -p]).map (starRingEnd ℂ) := by
      intro c p hL
      have hget : ∀ (l : List ℂ) (i : ℕ),
          (l.map (starRingEnd ℂ)).getD i 0 = (starRingEnd ℂ) (l.getD i 0) := by
        intro l i
        rw [List.getD_eq_getElem?_getD, List.getD_eq_getElem?_getD, List.getElem?_map]
        cases l[i]? <;> simp
      apply ext_getD_zero
      · rw [List.length_map, convolve_linear_length _ _ (by simpa using hL),
          convolve_linear_length c p hL, List.length_map]
      · intro i
        rw [hget, convolve_getD _ _ (by simpa using hL), convolve_getD c p hL, hget, hget]
        by_cases hi : i = 0
        · simp [hi]
        · simp [hi]
    induction l using List.reverseRecOn with
    | nil => simp [poly]
    | append_singleton l p ih =>
      rw [List.map_append, List.map_singleton, poly_append, poly_append, ih,
        convolve_conj _ _ (poly_length_pos l)]
  have poly_perm : ∀ (l1 l2 : List ℂ) (h : l1.Perm l2), poly l1 = poly l2 := by
    intro l1 l2 h
    have convolve_comm : ∀ (c : List ℂ) (p q : ℂ),
        convolve (convolve c [1, -p]) [1, -q] = convolve (convolve c [1, -q]) [1, -p] := by
      intro c p q
      rcases Nat.eq_zero_or_pos c.length with h0 | hL
      · have hc : c = [] := List.length_eq_zero.mp h0
        subst hc
        have e : ∀ (r : ℂ), convolve [] [1, -r] = [0] := by
          intro r
          simp [convolve, List.range_succ]
        rw [e p, e q]
        apply ext_getD_zero
        · rw [convolve_linear_length _ _ (by simp), convolve_linear_length _ _ (by simp)]
        · intro i
          rw [convolve_getD _ _ (by simp), convolve_getD _ _ (by simp)]
          have h0 : ∀ j, ([0] : List ℂ).getD j 0 = 0 := by
            intro j
            cases j <;> simp
          simp [h0]
      · have hL1 : 1 ≤ c.length := hL
        have key : ∀ (a b : ℂ) (i : ℕ), (convolve (convolve c [1, -a]) [1, -b]).getD i 0 =
            c.getD i 0 - (a + b) * (if i = 0 then 0 else c.getD (i - 1) 0) +
              a * b * (if i = 0 then 0 else if i - 1 = 0 then 0 else c.getD (i - 1 - 1) 0) := by
          intro a b i
          have ha := convolve_linear_length c a hL1
          rw [convolve_getD _ _ (by omega), convolve_getD c a hL1]
          by_cases hi : i = 0
          · simp [hi]
          · simp only [if_neg hi]
            rw [convolve_getD c a hL1]
            ring
        have hlen2 : ∀ (a b : ℂ), (convolve (convolve c [1, -a]) [1, -b]).length = c.length + 2 := by
          intro a b
          have ha := convolve_linear_length c a hL1
          rw [convolve_linear_length _ _ (by omega), ha]
        apply ext_getD_zero
        · rw [hlen2 p q, hlen2 q p]
        · intro i
          rw [key p q i, key q p i]
          ring
    unfold poly
    exact List.Perm.foldl_eq' h (fun x _ y _ z => convolve_comm z x y) [1]
  have h1 : poly l = (poly l).map (starRingEnd ℂ) := by
    rw [← poly_conj, ← h]
    exact (poly_perm _ _ (List.reverse_perm l)).symm
  have h2 : (poly l).getD i 0 = (starRingEnd ℂ) ((poly l).getD i 0) := by
    conv_lhs => rw [h1]
    rw [List.getD_eq_getElem?_getD, List.getD_eq_getElem?_getD, List.getElem?_map]
    cases (poly l)[i]? <;> simp
  exact Complex.conj_eq_iff_im.mp h2.symm

end LowpassFilter

namespace LowpassFilter

/-- The sum of the real parts of a list of complex numbers. -/
theorem sum_map_re (l : List ℂ) (k : ℝ) :
    (l.map (fun c => k * c.re)).sum = k * l.sum.re ∧ (l.map (fun c => c.re)).sum = l.sum.re := by
  induction l with
  | nil => simp
  | cons x t ih =>
    simp only [List.map_cons, List.sum_cons, Complex.add_re, ih.1, ih.2]
    exact ⟨by ring, trivial⟩

end LowpassFilter

namespace LowpassFilter

/-- The coefficients `cheby1` returns, the sum of `a`, which is not zero, and
the quotient of the sums of `b` and of `a`. -/
theorem cheby1_dc_gain (N : ℤ) (ripple cutoff : ℝ) (hN : 1 ≤ N) (hr : 0 < ripple)
    (h0 : 0 < cutoff) (h1 : cutoff < 1) :
    ∃ ba, cheby1 N ripple cutoff = some ba ∧
      ba = zpk2tf
        (_zpkbilinear
          (_zpklp2lp (cheby1ap N ripple).2 (cheby1ap N ripple).1
            (4 * Real.tan (Real.pi * cutoff / 2))).2
          (_zpklp2lp (cheby1ap N ripple).2 (cheby1ap N ripple).1
            (4 * Real.tan (Real.pi * cutoff / 2))).1).2.1
        (_zpkbilinear
          (_zpklp2lp (cheby1ap N ripple).2 (cheby1ap N ripple).1
            (4 * Real.tan (Real.pi * cutoff / 2))).2
          (_zpklp2lp (cheby1ap N ripple).2 (cheby1ap N ripple).1
            (4 * Real.tan (Real.pi * cutoff / 2))).1).2.2
        (_zpkbilinear
          (_zpklp2lp (cheby1ap N ripple).2 (cheby1ap N ripple).1
            (4 * Real.tan (Real.pi * cutoff / 2))).2
          (_zpklp2lp (cheby1ap N ripple).2 (cheby1ap N ripple).1
            (4 * Real.tan (Real.pi * cutoff / 2))).1).1 ∧
      ba.2.sum ≠ 0 ∧
      ba.1.sum / ba.2.sum =
        (if N % 2 = 0 then 1 / Real.sqrt (1 + ((10 : ℝ) ^ (0.1 * ripple) - 1)) else 1) := by
  have cheby1ap_gain : ∀ (N : ℤ) (ripple : ℝ) (hN : 1 ≤ N) (hr : 0 < ripple),
      (((cheby1ap N ripple).2.map (fun x => -x)).prod).im = 0 ∧
        (((cheby1ap N ripple).2.map (fun x => -x)).prod).re ≠ 0 ∧
        (cheby1ap N ripple).1 =
          (if N % 2 = 0 then
            (((cheby1ap N ripple).2.map (fun x => -x)).prod).re /
              Real.sqrt (1 + Real.sqrt ((10 : ℝ) ^ (0.1 * ripple) - 1) *
                Real.sqrt ((10 : ℝ) ^ (0.1 * ripple) - 1))
          else (((cheby1ap N ripple).2.map (fun x => -x)).prod).re) := by
    intro N ripple hN hr
    have him : (((cheby1ap N ripple).2.map (fun x => -x)).prod).im = 0 := by
      apply prod_im_of_reverse_conj
      apply reverse_conj_map _ (fun x => -x) _ (cheby1ap_reverse_conj N ripple hN)
      intro x
      simp
    have hne : ((cheby1ap N ripple).2.map (fun x => -x)).prod ≠ 0 := by
      apply List.prod_ne_zero
      intro hz
      obtain ⟨x, hx, hx0⟩ := List.mem_map.mp hz
      have := cheby1ap_re_neg N ripple hN hr x hx
      have hx' : x = 0 := by
        have := neg_eq_zero.mp hx0
        exact this
      rw [hx'] at this
      simp at this
    refine ⟨him, ?_, rfl⟩
    intro hre
    apply hne
    apply Complex.ext
    · rw [hre]; rfl
    · rw [him]; rfl
  have dc_gain_core : ∀ (p : List ℂ) (k wo : ℝ) (hwo : 0 < wo) (hre : ∀ x ∈ p, x.re < 0)
      (hrev : p.reverse = p.map (starRingEnd ℂ)),
      (zpk2tf (_zpkbilinear (_zpklp2lp p k wo).2 (_zpklp2lp p k wo).1).2.1
          (_zpkbilinear (_zpklp2lp p k wo).2 (_zpklp2lp p k wo).1).2.2
          (_zpkbilinear (_zpklp2lp p k wo).2 (_zpklp2lp p k wo).1).1).2.sum ≠ 0 ∧
      (zpk2tf (_zpkbilinear (_zpklp2lp p k wo).2 (_zpklp2lp p k wo).1).2.1
          (_zpkbilinear (_zpklp2lp p k wo).2 (_zpklp2lp p k wo).1).2.2
          (_zpkbilinear (_zpklp2lp p k wo).2 (_zpklp2lp p k wo).1).1).1.sum /
        (zpk2tf (_zpkbilinear (_zpklp2lp p k wo).2 (_zpklp2lp p k wo).1).2.1
          (_zpkbilinear (_zpklp2lp p k wo).2 (_zpklp2lp p k wo).1).2.2
          (_zpkbilinear (_zpklp2lp p k wo).2 (_zpklp2lp p k wo).1).1).2.sum =
        k / ((p.map (fun x => -x)).prod).re := by
    intro p k wo hwo hre hrev
    have prod_one_sub_bilinear : ∀ (l : List ℂ) (h : ∀ x ∈ l, (4 : ℂ) - x ≠ 0),
        ((l.map (fun x => ((4 : ℂ) + x) / ((4 : ℂ) - x))).map (fun p => 1 - p)).prod *
            (l.map (fun x => (4 : ℂ) - x)).prod =
          (l.map (fun x => -2 * x)).prod := by
      intro l h
      induction l with
      | nil => simp
      | cons x t ih =>
        have hx := h x (List.mem_cons_self _ _)
        have ht := ih (fun y hy => h y (List.mem_cons_of_mem _ hy))
        simp only [List.map_cons, List.prod_cons]
        rw [← ht]
        field_simp
        ring
    have prod_neg_two : ∀ (p : List ℂ) (wo : ℝ),
        ((p.map (fun x => x * (wo : ℂ))).map (fun x => -2 * x)).prod =
          (p.map (fun x => -x)).prod * ((2 * wo : ℝ) : ℂ) ^ p.length := by
      intro p wo
      induction p with
      | nil => simp
      | cons x t ih =>
        simp only [List.map_cons, List.prod_cons, List.length_cons, ih, pow_succ]
        push_cast
        ring
    -- the product of the -p is real and not zero
    have hkim : ((p.map (fun x => -x)).prod).im = 0 := by
      apply prod_im_of_reverse_conj
      apply reverse_conj_map _ (fun x => -x) _ hrev
      intro x
      simp
    have hkne : (p.map (fun x => -x)).prod ≠ 0 := by
      apply List.prod_ne_zero
      intro hz
      obtain ⟨x, hx, hx0⟩ := List.mem_map.mp hz
      have := hre x hx
      have hx' : x = 0 := neg_eq_zero.mp hx0
      rw [hx'] at this
      simp at this
    -- the poles after the frequency transform
    have hq := lp2lp_re_neg p k wo hwo hre
    have hqrev := lp2lp_reverse_conj p k wo hrev
    have hq2 : (_zpklp2lp p k wo).2 = p.map (fun x => x * (wo : ℂ)) := rfl
    have hq1 : (_zpklp2lp p k wo).1 = k * wo ^ p.length := rfl
    have h4 : ∀ x ∈ (_zpklp2lp p k wo).2, (4 : ℂ) - x ≠ 0 :=
      fun x hx => (bilinear_abs_lt_one x (hq x hx)).1
    obtain ⟨hDim, hbil⟩ := bilinear_eq_stated (_zpklp2lp p k wo).2 (_zpklp2lp p k wo).1 hqrev
    have hDne : ((_zpklp2lp p k wo).2.map (fun x => (4 : ℂ) - x)).prod ≠ 0 := by
      apply List.prod_ne_zero
      intro hz
      obtain ⟨x, hx, hx0⟩ := List.mem_map.mp hz
      exact h4 x hx hx0
    have hprod := prod_one_sub_bilinear (_zpklp2lp p k wo).2 h4
    rw [hbil]
    unfold statedBilinear zpk2tf
    simp only
    rw [(sum_map_re _ _).1, (sum_map_re _ 0).2, poly_sum, poly_sum]
    rw [hq2] at hprod hDim hDne ⊢
    rw [prod_neg_two] at hprod
    rw [hq1]
    generalize (p.map (fun x => -x)).prod = kc at hkim hkne hprod ⊢
    generalize ((p.map (fun x => x * (wo : ℂ))).map (fun x => (4 : ℂ) - x)).prod = D
      at hDim hDne hprod ⊢
    generalize (((p.map (fun x => x * (wo : ℂ))).map
      (fun x => ((4 : ℂ) + x) / ((4 : ℂ) - x))).map (fun p => 1 - p)).prod = A at hprod ⊢
    have hlen : (p.map (fun x => x * (wo : ℂ))).length = p.length := List.length_map _ _
    rw [hlen]
    have hz : ((List.replicate p.length (-1 : ℂ)).map (fun p => 1 - p)).prod =
        (((2 : ℝ) ^ p.length : ℝ) : ℂ) := by
      rw [List.map_replicate, List.prod_replicate]
      push_cast
      norm_num
    rw [hz, Complex.ofReal_re]
    have hD : D = ((D.re : ℝ) : ℂ) := by
      apply Complex.ext
      · simp
      · simp [hDim]
    have hkc : kc = ((kc.re : ℝ) : ℂ) := by
      apply Complex.ext
      · simp
      · simp [hkim]
    have hDre : D.re ≠ 0 := by
      intro h
      apply hDne
      rw [hD, h]
      simp
    have hkre : kc.re ≠ 0 := by
      intro h
      apply hkne
      rw [hkc, h]
      simp
    have hA : A = (((kc.re * (2 * wo) ^ p.length / D.re : ℝ)) : ℂ) := by
      have hD0 : (D : ℂ) ≠ 0 := hDne
      have : A = kc * ((2 * wo : ℝ) : ℂ) ^ p.length / D := by
        rw [← hprod]
        field_simp
      rw [this]
      conv_lhs => rw [hD, hkc]
      push_cast
      ring
    have hAre : A.re = kc.re * (2 * wo) ^ p.length / D.re := by
      rw [hA, Complex.ofReal_re]
    rw [hAre]
    have hwo0 : wo ≠ 0 := hwo.ne'
    have hpow : (2 * wo) ^ p.length ≠ 0 := pow_ne_zero _ (by positivity)
    refine ⟨?_, ?_⟩
    · exact div_ne_zero (mul_ne_zero hkre hpow) hDre
    · rw [mul_pow]
      field_simp
      ring
  have eps_sq : ∀ (ripple : ℝ) (hr : 0 < ripple),
      Real.sqrt ((10 : ℝ) ^ (0.1 * ripple) - 1) * Real.sqrt ((10 : ℝ) ^ (0.1 * ripple) - 1) =
        (10 : ℝ) ^ (0.1 * ripple) - 1 := by
    intro ripple hr
    apply Real.mul_self_sqrt
    have : (1 : ℝ) < (10 : ℝ) ^ (0.1 * ripple) :=
      Real.one_lt_rpow (by norm_num) (by positivity)
    linarith
  obtain ⟨hne, hratio⟩ := dc_gain_core (cheby1ap N ripple).2 (cheby1ap N ripple).1
    (4 * Real.tan (Real.pi * cutoff / 2)) (warped_pos cutoff h0 h1)
    (cheby1ap_re_neg N ripple hN hr) (cheby1ap_reverse_conj N ripple hN)
  obtain ⟨_, hkre, hk⟩ := cheby1ap_gain N ripple hN hr
  refine ⟨_, ?_, rfl, hne, ?_⟩
  · unfold cheby1
    rw [if_neg (by push_neg; exact ⟨h0, h1.le⟩)]
  · rw [hratio]
    conv_lhs => rw [hk]
    rw [eps_sq ripple hr]
    generalize (((cheby1ap N ripple).2.map (fun x => -x)).prod).re = kr at hkre ⊢
    have hs : 0 < Real.sqrt (1 + ((10 : ℝ) ^ (0.1 * ripple) - 1)) := by
      apply Real.sqrt_pos.mpr
      have : (1 : ℝ) < (10 : ℝ) ^ (0.1 * ripple) :=
        Real.one_lt_rpow (by norm_num) (by positivity)
      linarith
    by_cases he : N % 2 = 0
    · rw [if_pos he, if_pos he]
      field_simp
      ring
    · rw [if_neg he, if_neg he]
      field_simp

end LowpassFilter

namespace LowpassFilter

/-- Successive calls of `filter` on a constant input: output `n` is the output
of the filter after `n` calls. -/
theorem filterSeq_const (x : ℝ) : ∀ (m : ℕ) (f : LowpassFilter), f.Sized →
    f.filterSeq (List.replicate m x) =
      some ((List.range m).map (fun (n : ℕ) => (f.stepN x n).output x), f.stepN x m) := by
  intro m
  induction m with
  | zero => intro f _; rfl
  | succ m ih =>
    intro f hs
    rw [List.replicate_succ]
    simp only [filterSeq, filter_eq f hs x, Option.bind_eq_bind, Option.some_bind,
      ih (f.step x) (step_sized f hs x)]
    rw [List.range_succ_eq_map, List.map_cons, List.map_map]
    rfl

/-- The sum of a list of real numbers as a sum over its indices. -/
theorem sum_eq_sum_range_real (l : List ℝ) :
    l.sum = ∑ i in Finset.range l.length, l.getD i 0 := by
  induction l using List.reverseRecOn with
  | nil => simp
  | append_singleton l a ih =>
    rw [List.sum_append, List.length_append, List.length_singleton, Finset.sum_range_succ, ih]
    congr 1
    · apply Finset.sum_congr rfl
      intro i hi
      rw [List.getD_append _ _ _ _ (Finset.mem_range.mp hi)]
    · simp [List.getD_eq_getElem?_getD]

/-- The step response of the streaming filter, from a zero memory: from output
`N` on, `Σ_{i ≤ N} a[i] * y[n - i]` is the sum of `b` when `a[0] = 1`. -/
theorem step_response_equation (f : LowpassFilter) (N : ℕ) (hN : 1 ≤ N)
    (ho : f.order = (N : ℤ)) (hb : f.b.length = N + 1) (ha : f.a.length = N + 1)
    (hz : f.z = List.replicate N 0) (ha0 : f.a.getD 0 0 = 1) (n : ℕ) :
    ∑ i in Finset.range (N + 1), f.a.getD i 0 * (f.stepN 1 (n + N - i)).output 1 = f.b.sum := by
  have hzl : f.z.length = N := by rw [hz, List.length_replicate]
  have hs : f.Sized := ⟨by rw [ho]; exact_mod_cast hN, by rw [hzl, ho], by rw [hb, hzl],
    by rw [ha, hzl]⟩
  obtain ⟨ys, g, hseq, hlen, hys⟩ := difference_equation f N hN ho hb ha hz
    (List.replicate (n + N + 1) 1)
  rw [filterSeq_const 1 (n + N + 1) f hs] at hseq
  have hys' : ys = (List.range (n + N + 1)).map (fun (k : ℕ) => (f.stepN 1 k).output 1) := by
    have := Option.some.inj hseq
    exact (congrArg Prod.fst this).symm
  have hget : ∀ k, k < n + N + 1 → ys.getD k 0 = (f.stepN 1 k).output 1 := by
    intro k hk
    rw [hys', List.getD_eq_getElem?_getD, List.getElem?_map, List.getElem?_range hk]
    rfl
  have hx : ∀ k, k < n + N + 1 → (List.replicate (n + N + 1) (1 : ℝ)).getD k 0 = 1 := by
    intro k hk
    rw [List.getD_eq_getElem?_getD, List.getElem?_replicate, if_pos hk]
    rfl
  have h := hys (n + N) (by simp)
  have hmin : min (n + N) N = N := by omega
  rw [hmin, hget (n + N) (by omega)] at h
  have hB : ∑ i in Finset.range (N + 1),
      f.b.getD i 0 * (List.replicate (n + N + 1) (1 : ℝ)).getD (n + N - i) 0 = f.b.sum := by
    rw [sum_eq_sum_range_real f.b, hb]
    apply Finset.sum_congr rfl
    intro i _
    rw [hx _ (by omega), mul_one]
  rw [hB] at h
  have hA : ∑ i in Finset.Icc 1 N, f.a.getD i 0 * ys.getD (n + N - i) 0 =
      ∑ i in Finset.range N, f.a.getD (i + 1) 0 * (f.stepN 1 (n + N - (i + 1))).output 1 := by
    rw [← Nat.Ico_succ_right, Finset.sum_Ico_eq_sum_range]
    simp only [Nat.succ_eq_add_one, Nat.add_sub_cancel]
    apply Finset.sum_congr rfl
    intro i _
    rw [hget _ (by omega), Nat.add_comm 1 i]
  rw [hA] at h
  rw [Finset.sum_range_succ', ha0, Nat.sub_zero, one_mul, h]
  ring

end LowpassFilter

namespace LowpassFilter

/-- The poles `_zpkbilinear` returns come in conjugate pairs when the poles it
is given do. -/
theorem bilinear_reverse_conj (q : List ℂ) (k : ℝ) (h : q.reverse = q.map (starRingEnd ℂ)) :
    (_zpkbilinear q k).2.2.reverse = (_zpkbilinear q k).2.2.map (starRingEnd ℂ) := by
  unfold _zpkbilinear
  simp only
  apply reverse_conj_map q _ _ h
  intro x
  have h4 : (starRingEnd ℂ) (((4 : ℝ) : ℂ)) = ((4 : ℝ) : ℂ) := Complex.conj_ofReal 4
  simp only [map_div₀, map_add, map_sub, h4]

end LowpassFilter

/-- C39. DC gain of the designed filter: for every order `N ≥ 1` (an `int`),
ripple `r > 0` dB and cutoff in `(0, 1)`, the constructor returns a filter
whose coefficients satisfy `(Σ b[i]) / (Σ a[i]) = 1` when `N` is odd and
`1 / sqrt(1 + eps²)` with `eps² = 10^(0.1 * r) - 1` when `N` is even, the sum
of `a` not being zero; successive calls of `filter` on the constant input 1
return (output `n` is `y n`, the output of the filter after `n` calls), and the
outputs tend to this value. -/
theorem dc_gain (N : ℤ) (ripple cutoff : ℝ) (hN : 1 ≤ N) (hmax : N ≤ INT_MAX)
    (hr : 0 < ripple) (h0 : 0 < cutoff) (h1 : cutoff < 1) :
    ∃ f, LowpassFilter.construct cutoff N ripple = Construction.built f ∧
      f.a.sum ≠ 0 ∧
      f.b.sum / f.a.sum =
        (if N % 2 = 0 then 1 / Real.sqrt (1 + ((10 : ℝ) ^ (0.1 * ripple) - 1)) else 1) ∧
      (∀ (m : ℕ), f.filterSeq (List.replicate m 1) =
        some ((List.range m).map (fun (n : ℕ) => (f.stepN 1 n).output 1), f.stepN 1 m)) ∧
      Filter.Tendsto (fun (n : ℕ) => (f.stepN 1 n).output 1) Filter.atTop
        (nhds (f.b.sum / f.a.sum)) := by
  open woma.LowpassFilter in
    have step_response_tendsto : ∀ (f : LowpassFilter) (N : ℕ) (hN : 1 ≤ N)
        (ho : f.order = (N : ℤ)) (hb : f.b.length = N + 1) (ha : f.a.length = N + 1)
        (hz : f.z = List.replicate N 0) (ps : List ℂ) (hps : ps.length = N)
        (hroots : ∀ p ∈ ps, Complex.abs p < 1)
        (hcoef : ∀ i, (poly ps).getD i 0 = ((f.a.getD i 0 : ℝ) : ℂ)) (hsum : f.a.sum ≠ 0),
        Filter.Tendsto (fun (n : ℕ) => (f.stepN 1 n).output 1) Filter.atTop
          (nhds (f.b.sum / f.a.sum)) := by
      intro f N hN ho hb ha hz ps hps hroots hcoef hsum
      have recurrence_tendsto_zero : ∀ (ps : List ℂ),
          (∀ p ∈ ps, Complex.abs p < 1) → ∀ (u : ℕ → ℂ) (n0 : ℕ),
            (∀ n, n0 ≤ n → ∑ i in Finset.range (ps.length + 1),
              (poly ps).getD i 0 * u (n + ps.length - i) = 0) →
            Filter.Tendsto u Filter.atTop (nhds 0) := by
        intro ps
        have tendsto_zero_of_step : ∀ (u v : ℕ → ℂ) (p : ℂ) (hp : Complex.abs p < 1)
            (hv : Filter.Tendsto v Filter.atTop (nhds 0))
            (hu : ∀ k, u (k + 1) = p * u k + v k),
            Filter.Tendsto u Filter.atTop (nhds 0) := by
          intro u v p hp hv hu
          rw [Metric.tendsto_atTop] at hv ⊢
          intro ε hε
          have hr0 : 0 ≤ Complex.abs p := AbsoluteValue.nonneg _ _
          have hδ : 0 < ε * (1 - Complex.abs p) / 2 := by
            have : 0 < 1 - Complex.abs p := by linarith
            positivity
          obtain ⟨K, hK⟩ := hv _ hδ
          have hbound : ∀ m, Complex.abs (u (K + m)) ≤
              Complex.abs p ^ m * Complex.abs (u K) + ε / 2 := by
            intro m
            induction m with
            | zero => simp; linarith
            | succ m ih =>
              have hvm : Complex.abs (v (K + m)) < ε * (1 - Complex.abs p) / 2 := by
                have := hK (K + m) (by omega)
                rwa [dist_zero_right, Complex.norm_eq_abs] at this
              have h1 : u (K + (m + 1)) = p * u (K + m) + v (K + m) := hu (K + m)
              rw [h1]
              calc Complex.abs (p * u (K + m) + v (K + m))
                  ≤ Complex.abs (p * u (K + m)) + Complex.abs (v (K + m)) :=
                    AbsoluteValue.add_le _ _ _
                _ = Complex.abs p * Complex.abs (u (K + m)) + Complex.abs (v (K + m)) := by
                    rw [map_mul]
                _ ≤ Complex.abs p * (Complex.abs p ^ m * Complex.abs (u K) + ε / 2) +
                      ε * (1 - Complex.abs p) / 2 := by
                    have := mul_le_mul_of_nonneg_left ih hr0
                    linarith
                _ = Complex.abs p ^ (m + 1) * Complex.abs (u K) + ε / 2 := by
                    rw [pow_succ]
                    ring
          have hpow : Filter.Tendsto (fun m : ℕ => Complex.abs p ^ m * Complex.abs (u K))
              Filter.atTop (nhds 0) := by
            have := (tendsto_pow_atTop_nhds_zero_of_lt_one hr0 hp).mul_const (Complex.abs (u K))
            simpa using this
          rw [Metric.tendsto_atTop] at hpow
          obtain ⟨M, hM⟩ := hpow (ε / 2) (by positivity)
          refine ⟨K + M, ?_⟩
          intro n hn
          rw [dist_zero_right, Complex.norm_eq_abs]
          obtain ⟨m, rfl⟩ : ∃ m, n = K + m := ⟨n - K, by omega⟩
          have h1 := hbound m
          have h2 := hM m (by omega)
          rw [dist_zero_right, Real.norm_eq_abs, abs_lt] at h2
          linarith [h2.2]
        have recurrence_factor : ∀ (c : List ℂ) (p : ℂ) (hL : 1 ≤ c.length) (u : ℕ → ℂ) (n : ℕ)
            (h : ∑ i in Finset.range (c.length + 1),
              (convolve c [1, -p]).getD i 0 * u (n + c.length - i) = 0),
            ∑ i in Finset.range c.length,
              c.getD i 0 * (u (n + (c.length - 1) - i + 1) - p * u (n + (c.length - 1) - i)) = 0 := by
          intro c p hL u n h
          have h1 : ∑ i in Finset.range (c.length + 1),
              (convolve c [1, -p]).getD i 0 * u (n + c.length - i) =
              ∑ i in Finset.range (c.length + 1), c.getD i 0 * u (n + c.length - i) -
                p * ∑ i in Finset.range (c.length + 1),
                  (if i = 0 then 0 else c.getD (i - 1) 0) * u (n + c.length - i) := by
            rw [Finset.mul_sum, ← Finset.sum_sub_distrib]
            apply Finset.sum_congr rfl
            intro i _
            rw [convolve_getD c p hL i]
            ring
          rw [h1, Finset.sum_range_succ, getD_beyond_complex c c.length (le_refl _),
            Finset.sum_range_succ'] at h
          simp only [Nat.add_one_ne_zero, if_false, Nat.add_sub_cancel, if_true, zero_mul, add_zero]
            at h
          rw [Finset.mul_sum, ← Finset.sum_sub_distrib] at h
          refine Eq.trans (Finset.sum_congr rfl ?_) h
          intro i hi
          have hi' : i < c.length := Finset.mem_range.mp hi
          have e1 : n + (c.length - 1) - i + 1 = n + c.length - i := by omega
          have e2 : n + (c.length - 1) - i = n + c.length - (i + 1) := by omega
          rw [e1, e2]
          ring
        induction ps using List.reverseRecOn with
        | nil =>
          intro _ u n0 h
          have hz : ∀ n, n0 ≤ n → u n = 0 := by
            intro n hn
            have := h n hn
            simpa [poly] using this
          apply tendsto_const_nhds.congr'
          rw [Filter.EventuallyEq, Filter.eventually_atTop]
          exact ⟨n0, fun n hn => (hz n hn).symm⟩
        | append_singleton l p ih =>
          intro hroots u n0 h
          have hlen : (poly l).length = l.length + 1 := poly_length l
          have hv := ih (fun q hq => hroots q (List.mem_append_left _ hq))
            (fun k => u (k + 1) - p * u k) n0 (by
              intro n hn
              have hn' := h n hn
              rw [poly_append, List.length_append, List.length_singleton] at hn'
              have := recurrence_factor (poly l) p (poly_length_pos l) u n (by
                rw [hlen]; exact hn')
              rw [hlen, Nat.add_sub_cancel] at this
              exact this)
          exact tendsto_zero_of_step u (fun k => u (k + 1) - p * u k) p
            (hroots p (List.mem_append_right _ (List.mem_singleton_self p))) hv
            (fun k => by ring)
      have ha0 : f.a.getD 0 0 = 1 := by
        have h0 := hcoef 0
        rw [poly_head] at h0
        exact_mod_cast h0.symm
      have hrec : ∀ n, 0 ≤ n → ∑ i in Finset.range (ps.length + 1),
          (poly ps).getD i 0 *
            (fun (k : ℕ) => ((((f.stepN 1 k).output 1 - f.b.sum / f.a.sum : ℝ)) : ℂ))
              (n + ps.length - i) = 0 := by
        intro n _
        rw [hps]
        have h1 := step_response_equation f N hN ho hb ha hz ha0 n
        have h2 : ∑ i in Finset.range (N + 1),
            f.a.getD i 0 * ((f.stepN 1 (n + N - i)).output 1 - f.b.sum / f.a.sum) = 0 := by
          simp only [mul_sub]
          rw [Finset.sum_sub_distrib, h1, ← Finset.sum_mul, ← ha, ← sum_eq_sum_range_real]
          field_simp
        have h3 : ∑ i in Finset.range (N + 1), (poly ps).getD i 0 *
            ((((f.stepN 1 (n + N - i)).output 1 - f.b.sum / f.a.sum : ℝ)) : ℂ) =
            (((∑ i in Finset.range (N + 1),
              f.a.getD i 0 * ((f.stepN 1 (n + N - i)).output 1 - f.b.sum / f.a.sum) : ℝ)) : ℂ) := by
          rw [Complex.ofReal_sum]
          apply Finset.sum_congr rfl
          intro i _
          rw [hcoef i, Complex.ofReal_mul]
        rw [h3, h2]
        simp
      have hu := recurrence_tendsto_zero ps hroots
        (fun (k : ℕ) => ((((f.stepN 1 k).output 1 - f.b.sum / f.a.sum : ℝ)) : ℂ)) 0 hrec
      have hre : Filter.Tendsto (fun (n : ℕ) => (f.stepN 1 n).output 1 - f.b.sum / f.a.sum)
          Filter.atTop (nhds 0) := by
        have h5 := (Complex.continuous_re.tendsto 0).comp hu
        rw [Complex.zero_re] at h5
        refine h5.congr ?_
        intro n
        simp only [Function.comp_apply, Complex.ofReal_re]
      have := hre.add_const (f.b.sum / f.a.sum)
      simpa using this
  open woma.LowpassFilter in
    have construct_designed : ∀ (N : ℤ) (ripple cutoff : ℝ) (hN : 1 ≤ N) (hmax : N ≤ INT_MAX)
        (hr : 0 < ripple) (h0 : 0 < cutoff) (h1 : cutoff < 1),
        ∃ f ba ps, construct cutoff N ripple = Construction.built f ∧
          cheby1 N ripple cutoff = some ba ∧ f.b = ba.1 ∧ f.a = ba.2 ∧
          f.order = N ∧ f.b.length = N.toNat + 1 ∧ f.a.length = N.toNat + 1 ∧
          f.z = List.replicate N.toNat 0 ∧
          ba.2.sum ≠ 0 ∧
          ba.1.sum / ba.2.sum =
            (if N % 2 = 0 then 1 / Real.sqrt (1 + ((10 : ℝ) ^ (0.1 * ripple) - 1)) else 1) ∧
          ps.length = N.toNat ∧ (∀ p ∈ ps, Complex.abs p < 1) ∧
          ∀ i, (poly ps).getD i 0 = ((f.a.getD i 0 : ℝ) : ℂ) := by
      intro N ripple cutoff hN hmax hr h0 h1
      obtain ⟨f, hf, hinit, _, q2, _, q4, q5, q6⟩ := construct_state cutoff N ripple hN hmax h0 h1.le
      obtain ⟨ba, hba, hform, hne, hratio⟩ := cheby1_dc_gain N ripple cutoff hN hr h0 h1
      have hfb : f.b = ba.1 ∧ f.a = ba.2 := by
        unfold init at hinit
        simp only at hinit
        rw [hba] at hinit
        simp only [Option.map_some', Option.some.injEq] at hinit
        rw [← hinit]
        exact ⟨rfl, rfl⟩
      have hq := lp2lp_re_neg (cheby1ap N ripple).2 (cheby1ap N ripple).1 _
        (warped_pos cutoff h0 h1) (cheby1ap_re_neg N ripple hN hr)
      have hqrev := lp2lp_reverse_conj (cheby1ap N ripple).2 (cheby1ap N ripple).1
        (4 * Real.tan (Real.pi * cutoff / 2)) (cheby1ap_reverse_conj N ripple hN)
      have hprev := bilinear_reverse_conj _
        (_zpklp2lp (cheby1ap N ripple).2 (cheby1ap N ripple).1
          (4 * Real.tan (Real.pi * cutoff / 2))).1 hqrev
      refine ⟨f, ba, (_zpkbilinear
        (_zpklp2lp (cheby1ap N ripple).2 (cheby1ap N ripple).1
          (4 * Real.tan (Real.pi * cutoff / 2))).2
        (_zpklp2lp (cheby1ap N ripple).2 (cheby1ap N ripple).1
          (4 * Real.tan (Real.pi * cutoff / 2))).1).2.2,
        hf, hba, hfb.1, hfb.2, q2, q4, q5, q6, hne, hratio, ?_, ?_, ?_⟩
      · unfold _zpkbilinear _zpklp2lp
        simp only [List.length_map]
        rw [cheby1ap_poles]
        simp
      · intro z hz
        unfold _zpkbilinear at hz
        simp only at hz
        obtain ⟨x, hx, rfl⟩ := List.mem_map.mp hz
        have := (bilinear_abs_lt_one x (hq x hx)).2
        simpa using this
      · intro i
        have him := poly_real _ hprev i
        rw [hfb.2, hform]
        unfold zpk2tf
        simp only
        generalize poly (_zpkbilinear
          (_zpklp2lp (cheby1ap N ripple).2 (cheby1ap N ripple).1
            (4 * Real.tan (Real.pi * cutoff / 2))).2
          (_zpklp2lp (cheby1ap N ripple).2 (cheby1ap N ripple).1
            (4 * Real.tan (Real.pi * cutoff / 2))).1).2.2 = l at him ⊢
        have hre : (l.map (fun c => c.re)).getD i 0 = (l.getD i 0).re := by
          rw [List.getD_eq_getElem?_getD, List.getD_eq_getElem?_getD, List.getElem?_map]
          cases l[i]? <;> simp
        rw [hre]
        apply Complex.ext
        · rw [Complex.ofReal_re]
        · rw [Complex.ofReal_im, him]
  obtain ⟨f, ba, ps, hf, _, hb, ha, q2, q4, q5, q6, hne, hratio, hlen, hroots, hcoef⟩ :=
    construct_designed N ripple cutoff hN hmax hr h0 h1
  have hN1 : 1 ≤ N.toNat := by omega
  have hNc : ((N.toNat : ℕ) : ℤ) = N := by omega
  have hzl : f.z.length = N.toNat := by rw [q6, List.length_replicate]
  have hs : f.Sized := ⟨by rw [q2]; exact hN, by rw [hzl, q2, hNc], by rw [q4, hzl],
    by rw [q5, hzl]⟩
  refine ⟨f, hf, by rw [ha]; exact hne, by rw [hb, ha]; exact hratio,
    fun m => LowpassFilter.filterSeq_const 1 m f hs, ?_⟩
  exact step_response_tendsto f N.toNat hN1 (by rw [q2, hNc]) q4 q5 q6 ps hlen
    hroots hcoef (by rw [ha]; exact hne)

theorem dc_gain_witness :
    ∃ f, LowpassFilter.construct 0.4 4 0.05 = Construction.built f ∧
      f.b.sum / f.a.sum = 1 / Real.sqrt (1 + ((10 : ℝ) ^ (0.1 * (0.05 : ℝ)) - 1)) ∧
      Filter.Tendsto (fun (n : ℕ) => (f.stepN 1 n).output 1) Filter.atTop
        (nhds (f.b.sum / f.a.sum)) := by
  obtain ⟨f, hf, _, hratio, _, ht⟩ := dc_gain 4 0.05 0.4 (by norm_num)
    (by unfold INT_MAX; norm_num) (by norm_num) (by norm_num) (by norm_num)
  refine ⟨f, hf, ?_, ht⟩
  rw [hratio, if_pos (by norm_num)]

namespace LowpassFilter

theorem stepN_add (v : ℝ) : ∀ (a b : ℕ) (f : LowpassFilter),
    (f.stepN v a).stepN v b = f.stepN v (a + b) := by
  intro a
  induction a with
  | zero => intro b f; rw [Nat.zero_add]; rfl
  | succ a ih =>
    intro b f
    rw [Nat.succ_add]
    exact ih b (f.step v)

end LowpassFilter

namespace LowpassFilter

/-- The filter `init` installs for a buffer: the coefficients `cheby1` returns
for the order 4, the ripple 0.05 and the cutoff, and a zero memory. -/
theorem installed_designed (dflt g : LowpassFilter) (v : ℝ) (h0 : create 1 4 0.05 = some dflt)
    (h : dflt.setCutoff v = some g) :
    ∃ ba, cheby1 4 0.05 v = some ba ∧ g.b = ba.1 ∧ g.a = ba.2 ∧ g.order = 4 ∧
      g.z = List.replicate 4 0 := by
  have ho : dflt.order = 4 ∧ dflt.rippleLevel = 0.05 := by
    unfold create at h0
    split_ifs at h0
    unfold init at h0
    cases hc : cheby1 4 0.05 1 with
    | none => rw [hc] at h0; cases h0
    | some ba =>
      rw [hc] at h0
      simp only [Option.map_some', Option.some.injEq] at h0
      rw [← h0]
      exact ⟨rfl, rfl⟩
  unfold setCutoff at h
  split_ifs at h
  unfold init at h
  simp only [ho.1, ho.2] at h
  cases hc : cheby1 4 0.05 v with
  | none => rw [hc] at h; cases h
  | some ba =>
    rw [hc] at h
    simp only [Option.map_some', Option.some.injEq] at h
    rw [← h]
    exact ⟨ba, rfl, rfl, rfl, rfl, rfl⟩

end LowpassFilter

namespace Filterbank

theorem filteredBuffers_length (fb : Filterbank) (h : fb.Ready)
    (ho : fb.optimisation ≠ Optimisation.None) :
    fb.filters_.length = fb.filteredBuffers.length := by
  unfold filteredBuffers
  cases hd : fb.data_ with
  | nil => exact absurd hd h.data_nonempty
  | cons first rest => exact h.filters_length ho first rest hd

end Filterbank

namespace Filterbank

/-- The fill phase of `update` at one position of the filter loop: the filter
and the buffer the loop pairs at the position, and what `update` leaves
there. -/
theorem update_pairs (fb : Filterbank) (h : fb.Ready)
    (ho : fb.optimisation ≠ Optimisation.None) (v : ℝ) (i : ℕ) (k : ℤ) (flt : LowpassFilter)
    (hi : fb.filters_[i]? = some (k, flt)) :
    ∃ kd c, fb.filteredBuffers[i]? = some (kd, c) ∧ c.Sound ∧ flt.Sized ∧
      fb.update v = some (fb.next v) ∧
      (fb.next v).filters_[i]? = some (k, feedFilter flt c v) ∧
      (fb.next v).filteredBuffers[i]? = some (kd, c.fill (filteredValue flt c v)) ∧
      fillFilteredStep flt c v = some (feedFilter flt c v, c.fill (filteredValue flt c v)) := by
  have fillFiltered_getElem : ∀ (v : ℝ), ∀ (fs : List (ℤ × LowpassFilter))
      (ds : List (ℤ × CircularBuffer)) (i : ℕ) (k : ℤ) (flt : LowpassFilter) (kd : ℤ)
      (c : CircularBuffer), fs[i]? = some (k, flt) → ds[i]? = some (kd, c) →
      (fillFilteredFilters v fs ds)[i]? = some (k, feedFilter flt c v) ∧
        (fillFilteredData v fs ds)[i]? = some (kd, c.fill (filteredValue flt c v)) := by
    intro v
    intro fs
    induction fs with
    | nil => intro ds i k flt kd c h; cases i <;> cases h
    | cons f fs ih =>
      intro ds i k flt kd c hf hd
      cases ds with
      | nil => cases i <;> cases hd
      | cons d ds =>
        obtain ⟨kf, g⟩ := f
        obtain ⟨ke, e⟩ := d
        cases i with
        | zero =>
          simp only [List.getElem?_cons_zero, Option.some.injEq, Prod.mk.injEq] at hf hd
          obtain ⟨rfl, rfl⟩ := hf
          obtain ⟨rfl, rfl⟩ := hd
          simp only [fillFilteredFilters, fillFilteredData, List.getElem?_cons_zero]
          exact ⟨trivial, trivial⟩
        | succ i =>
          simp only [List.getElem?_cons_succ] at hf hd
          simp only [fillFilteredFilters, fillFilteredData, List.getElem?_cons_succ]
          exact ih ds i k flt kd c hf hd
  have next_filteredBuffers : ∀ (fb : Filterbank) (v : ℝ)
      (ho : fb.optimisation ≠ Optimisation.None),
      (fb.next v).filters_ = fillFilteredFilters v fb.filters_ fb.filteredBuffers ∧
        (fb.next v).filteredBuffers = fillFilteredData v fb.filters_ fb.filteredBuffers := by
    intro fb v ho
    have fillFilteredData_head : ∀ (v : ℝ) (fs : List (ℤ × LowpassFilter))
        (first : ℤ × CircularBuffer) (rest : List (ℤ × CircularBuffer)),
        ∃ c ds, fillFilteredData v fs (first :: rest) = (first.1, c) :: ds := by
      intro v fs first rest
      cases fs with
      | nil => exact ⟨first.2, rest, rfl⟩
      | cons f fs =>
        obtain ⟨kf, g⟩ := f
        exact ⟨_, _, rfl⟩
    unfold filteredBuffers next nextFilters nextData
    simp only
    cases hd : fb.data_ with
    | nil =>
      simp only
      refine ⟨?_, ?_⟩
      · cases fb.filters_ <;> rfl
      · cases fb.filters_ <;> rfl
    | cons first rest =>
      simp only [if_pos ho]
      by_cases h1 : first.1 = 1
      · simp only [if_pos h1]
        exact ⟨trivial, trivial⟩
      · simp only [if_neg h1]
        obtain ⟨c, ds, hcd⟩ := fillFilteredData_head v fb.filters_ first rest
        rw [hcd]
        simp only [if_neg h1]
        exact ⟨trivial, trivial⟩
  have filteredBuffers_subset : ∀ (fb : Filterbank), ∀ e ∈ fb.filteredBuffers, e ∈ fb.data_ := by
    intro fb
    intro e he
    unfold filteredBuffers at he
    cases hd : fb.data_ with
    | nil => rw [hd] at he; cases he
    | cons first rest =>
      rw [hd] at he
      simp only at he
      split_ifs at he
      · exact List.mem_cons_of_mem _ he
      · exact he
  have hlen := fb.filteredBuffers_length h ho
  have hil : i < fb.filters_.length := (List.getElem?_eq_some_iff.mp hi).1
  have hib : i < fb.filteredBuffers.length := by rw [← hlen]; exact hil
  have hget : fb.filteredBuffers[i]? = some (fb.filteredBuffers[i]) :=
    List.getElem?_eq_getElem hib
  rcases hc : fb.filteredBuffers[i] with ⟨kd, c⟩
  rw [hc] at hget
  have hsound : c.Sound :=
    h.buffers_sound (kd, c) (filteredBuffers_subset fb _ (List.mem_iff_getElem?.mpr ⟨i, hget⟩))
  have hsized : flt.Sized := h.filters_sized (k, flt) (List.mem_iff_getElem?.mpr ⟨i, hi⟩)
  obtain ⟨n1, n2⟩ := next_filteredBuffers fb v ho
  obtain ⟨p1, p2⟩ := fillFiltered_getElem v fb.filters_ fb.filteredBuffers i k flt kd c hi hget
  refine ⟨kd, c, hget, hsound, hsized, fb.update_eq h v, ?_, ?_,
    fillFilteredStep_eq flt c hsized hsound v⟩
  · rw [n1]; exact p1
  · rw [n2]; exact p2

/-- With increasing keys of at least 1 and filters for exactly the keys above
1, the filter loop of `update` pairs every filter with the buffer of its key,
which is above 1. -/
theorem filteredBuffers_keys (fb : Filterbank)
    (hs : (fb.data_.map Prod.fst).Pairwise (fun a b => a < b))
    (h1 : ∀ k ∈ fb.data_.map Prod.fst, 1 ≤ k)
    (hf : fb.filters_.map Prod.fst = (fb.data_.map Prod.fst).filter (fun k => decide (1 < k))) :
    fb.filters_.map Prod.fst = fb.filteredBuffers.map Prod.fst ∧
      ∀ k ∈ fb.filters_.map Prod.fst, 1 < k := by
  refine ⟨?_, ?_⟩
  · unfold filteredBuffers
    cases hd : fb.data_ with
    | nil =>
      rw [hd] at hf
      simpa using hf
    | cons first rest =>
      rw [hd] at hf hs h1
      rw [hf, filter_keys_rest first rest hs (h1 _ (by simp))]
  · intro k hk
    rw [hf, List.mem_filter] at hk
    simpa using hk.2

end Filterbank

/-- C33. Warm-up of a decimated buffer, as the code performs it. In every state
`update` reaches after `init` with an optimisation selected (on a positive
sample rate and number of bands per octave, with at least one band; `feed`
returns on every sequence of samples), `update(v)` returns, and for every
filter of `filters_`, of key `k`: `k > 1`, and the filter loop pairs the filter
with the buffer of key `k`, on which it has the result `fillFilteredStep`
returns.  When the buffer is empty, the filter after `update` is the filter
after `2 * capacity` calls of `filter(v)` (one call, then `2 * capacity - 1`
more), and the buffer is full of `capacity` copies of the output of the last of
these calls, all other outputs being discarded.  When the buffer is not empty,
the filter is advanced by exactly one call of `filter(v)` and its output is
pushed. -/
theorem decimated_warmup (fb fb1 : Filterbank) (h : fb.init = some fb1)
    (hsr : 0 < fb.reference_wavelet_.samplerate) (hb : 0 < fb.bands_per_octave)
    (ho : fb.optimisation ≠ Optimisation.None) (hn : 0 < fb1.size) (xs : List ℝ) (v : ℝ) :
    ∃ fb2 outs fb3, fb1.feed xs = some (fb2, outs) ∧ fb2.update v = some fb3 ∧
      ∀ (i : ℕ) (k : ℤ) (flt : LowpassFilter), fb2.filters_[i]? = some (k, flt) →
        1 < k ∧ ∃ (c : CircularBuffer) (flt1 : LowpassFilter) (c1 : CircularBuffer),
          fb2.filteredBuffers[i]? = some (k, c) ∧ fb3.filters_[i]? = some (k, flt1) ∧
          fb3.filteredBuffers[i]? = some (k, c1) ∧
          Filterbank.fillFilteredStep flt c v = some (flt1, c1) ∧
          (c.size = 0 → ∃ ys, flt.filterSeq (List.replicate (2 * c.capacity) v) =
              some (ys, flt1) ∧
            c1 = { capacity := c.capacity,
                   items := List.replicate c.capacity (ys.getD (2 * c.capacity - 1) 0) }) ∧
          (c.size > 0 → ∃ y, flt.filter v = some (y, flt1) ∧ c1 = c.push_back y) := by
  open woma.Filterbank in
    have warmup_step : ∀ (flt : LowpassFilter) (c : CircularBuffer) (hf : flt.Sized)
        (hc : c.Sound) (v : ℝ),
        (c.size = 0 → ∃ ys, flt.filterSeq (List.replicate (2 * c.capacity) v) =
            some (ys, feedFilter flt c v) ∧
          c.fill (filteredValue flt c v) =
            { capacity := c.capacity,
              items := List.replicate c.capacity (ys.getD (2 * c.capacity - 1) 0) }) ∧
        (c.size > 0 → ∃ y, flt.filter v = some (y, feedFilter flt c v) ∧
          c.fill (filteredValue flt c v) = c.push_back y) := by
      intro flt c hf hc v
      open woma.LowpassFilter in
        have outputN_succ : ∀ (v : ℝ), ∀ (n : ℕ) (f : LowpassFilter) (last : ℝ),
            f.outputN v (n + 1) last = (f.stepN v n).output v := by
          intro v
          intro n
          induction n with
          | zero => intro f last; rfl
          | succ n ih =>
            intro f last
            exact ih (f.step v) (f.output v)
      obtain ⟨hcap, hfull⟩ := hc
      refine ⟨?_, ?_⟩
      · intro h0
        have h0' : c.items.length = 0 := h0
        have hm : 2 * c.capacity = (2 * c.capacity - 2) + 1 + 1 := by omega
        have hfeed : flt.stepN v (2 * c.capacity) = feedFilter flt c v := by
          unfold feedFilter
          rw [if_pos h0']
          have : 2 * c.capacity = (2 * c.capacity - 1) + 1 := by omega
          conv_lhs => rw [this]
          rfl
        refine ⟨(List.range (2 * c.capacity)).map (fun (n : ℕ) => (flt.stepN v n).output v),
          by rw [← hfeed]; exact LowpassFilter.filterSeq_const v _ flt hf, ?_⟩
        have hval : ((List.range (2 * c.capacity)).map
            (fun (n : ℕ) => (flt.stepN v n).output v)).getD (2 * c.capacity - 1) 0 =
            filteredValue flt c v := by
          rw [List.getD_eq_getElem?_getD, List.getElem?_map, List.getElem?_range (by omega)]
          simp only [Option.map_some', Option.getD_some]
          unfold filteredValue
          rw [if_pos h0']
          have e1 : 2 * c.capacity - 1 = (2 * c.capacity - 2) + 1 := by omega
          rw [e1, outputN_succ]
          rfl
        rw [hval]
        unfold CircularBuffer.fill
        rw [if_pos h0']
      · intro hpos
        have hpos' : 0 < c.items.length := hpos
        have hne : ¬ c.items.length = 0 := by omega
        have hlen : c.items.length = c.capacity := by
          rcases hfull with h | h
          · exact absurd h hne
          · exact h
        refine ⟨flt.output v, ?_, ?_⟩
        · rw [LowpassFilter.filter_eq flt hf v]
          unfold feedFilter
          rw [if_neg hne]
        · unfold filteredValue CircularBuffer.fill CircularBuffer.push_back
          rw [if_neg hne, if_neg hne, if_neg (by omega), if_neg (by omega)]
  open woma.Filterbank in
    have run_pairing : ∀ (fb fb1 : Filterbank) (h : fb.init = some fb1)
        (hsr : 0 < fb.reference_wavelet_.samplerate) (hb : 0 < fb.bands_per_octave)
        (ho : fb.optimisation ≠ Optimisation.None) (hn : 0 < fb1.size) (xs : List ℝ),
        fb1.feed xs = some (fb1.run xs) ∧ (fb1.run xs).1.Ready ∧
          (fb1.run xs).1.optimisation ≠ Optimisation.None ∧
          (fb1.run xs).1.filters_.map Prod.fst = (fb1.run xs).1.filteredBuffers.map Prod.fst ∧
          ∀ k ∈ (fb1.run xs).1.filters_.map Prod.fst, 1 < k := by
      intro fb fb1 h hsr hb ho hn xs
      obtain ⟨hopt, _, _, bands, _, hinv⟩ := fb.init_buffersInv fb1 h hsr hb ho
      have hready : fb1.Ready :=
        fb.init_ready fb1 h hsr hb (by rw [← fb.init_size fb1 h]; exact hn)
      obtain ⟨r1, r2, r3, _, r5, _⟩ := Filterbank.run_keys xs fb1 hready
      have hkeys := (fb1.run xs).1.filteredBuffers_keys (by rw [r2]; exact hinv.keys_sorted)
        (by
          rw [r2]
          intro k hk
          obtain ⟨e, he, rfl⟩ := List.mem_map.mp hk
          exact (hinv.buffers e he).2.2)
        (by rw [r3, r2]; exact hinv.filter_keys)
      exact ⟨Filterbank.feed_eq xs fb1 hready, r1, by rw [r5, hopt]; exact ho, hkeys.1, hkeys.2⟩
  obtain ⟨hfeed, hready, ho2, hkeys, hgt⟩ := run_pairing fb fb1 h hsr hb ho hn xs
  refine ⟨(fb1.run xs).1, (fb1.run xs).2, (fb1.run xs).1.next v, hfeed,
    Filterbank.update_eq _ hready v, ?_⟩
  intro i k flt hi
  obtain ⟨kd, c, q1, q2, q3, _, q5, q6, q7⟩ :=
    Filterbank.update_pairs _ hready ho2 v i k flt hi
  have hk : kd = k := by
    have e1 : ((fb1.run xs).1.filters_.map Prod.fst)[i]? = some k := by
      rw [List.getElem?_map, hi]; rfl
    have e2 : ((fb1.run xs).1.filteredBuffers.map Prod.fst)[i]? = some kd := by
      rw [List.getElem?_map, q1]; rfl
    rw [hkeys, e2] at e1
    exact Option.some.inj e1
  subst hk
  obtain ⟨w1, w2⟩ := warmup_step flt c q3 q2 v
  refine ⟨hgt kd (List.mem_map.mpr ⟨(kd, flt), List.mem_iff_getElem?.mpr ⟨i, hi⟩, rfl⟩),
    c, _, _, q1, q5, q6, q7, w1, w2⟩

theorem decimated_warmup_witness :
    ∃ fb1 fb3, (optimisedBank Optimisation.Standard1).init = some fb1 ∧ 0 < fb1.size ∧
      fb1.update 1 = some fb3 ∧
      ∀ (i : ℕ) (k : ℤ) (flt : LowpassFilter), fb1.filters_[i]? = some (k, flt) →
        1 < k ∧ ∃ (c : CircularBuffer) (flt1 : LowpassFilter) (c1 : CircularBuffer),
          fb1.filteredBuffers[i]? = some (k, c) ∧ fb3.filters_[i]? = some (k, flt1) ∧
          fb3.filteredBuffers[i]? = some (k, c1) ∧
          Filterbank.fillFilteredStep flt c 1 = some (flt1, c1) := by
  obtain ⟨fb1, h1, hsize, _⟩ := optimisedBank_init Optimisation.Standard1
  have hsr : 0 < (optimisedBank Optimisation.Standard1).reference_wavelet_.samplerate := by
    have h100 : (optimisedBank Optimisation.Standard1).reference_wavelet_.samplerate = 100 := by
      simp [optimisedBank, scenarioBank, sampleBank, Filterbank.members, MorletWavelet.members]
    rw [h100]; norm_num
  have hb : 0 < (optimisedBank Optimisation.Standard1).bands_per_octave := by
    show (0 : ℝ) < 4
    norm_num
  have hn : 0 < fb1.size := by rw [hsize]; norm_num
  obtain ⟨fb2, outs, fb3, hfeed, hup, hall⟩ := decimated_warmup
    (optimisedBank Optimisation.Standard1) fb1 h1 hsr hb
    (by show Optimisation.Standard1 ≠ _; decide) hn [] 1
  have e2 : fb2 = fb1 := by
    have : some (fb1, ([] : List (List ℂ))) = some (fb2, outs) := hfeed
    cases this
    rfl
  subst e2
  refine ⟨fb2, fb3, h1, hn, hup, ?_⟩
  intro i k flt hi
  obtain ⟨a1, c, flt1, c1, a2, a3, a4, a5, _⟩ := hall i k flt hi
  exact ⟨a1, c, flt1, c1, a2, a3, a4, a5⟩

/-- C33, counterexample. The filterbank of the test "Filterbank: Scales" (sample
rate 100, frequencies 1 to 30, 4 bands per octave) with the optimisation
`Standard1`, first call `update(1)` after `init`: at one position of the filter
loop, with a filter and an empty buffer of a key above 1, the buffer `update`
leaves is not the one of the stated warm-up, which pushes the outputs of
`2 * capacity - 1` further calls of `filter` after `2 * capacity - 1` discarded
ones: the code pushes one output `2 * capacity - 1` times. -/
theorem warmup_counterexample :
    ∃ (fb0 fb1 : Filterbank) (i : ℕ) (k : ℤ) (flt flt1 : LowpassFilter)
      (c c1 : CircularBuffer) (s : LowpassFilter × CircularBuffer),
      (optimisedBank Optimisation.Standard1).init = some fb0 ∧ fb0.update 1 = some fb1 ∧
      fb0.filters_[i]? = some (k, flt) ∧ fb0.filteredBuffers[i]? = some (k, c) ∧ 1 < k ∧
      c.size = 0 ∧ fb1.filters_[i]? = some (k, flt1) ∧
      fb1.filteredBuffers[i]? = some (k, c1) ∧
      Filterbank.fillFilteredStep flt c 1 = some (flt1, c1) ∧
      Filterbank.statedWarmup flt c 1 = some s ∧ s.2 ≠ c1 := by
  open woma.Filterbank in
    have warmup_differs : ∀ (flt : LowpassFilter) (c : CircularBuffer) (N : ℤ) (ripple cutoff : ℝ)
        (ba : List ℝ × List ℝ) (hN : 1 ≤ N) (he : N % 2 = 0) (hr : 0 < ripple) (h0 : 0 < cutoff)
        (h1 : cutoff < 1) (hba : LowpassFilter.cheby1 N ripple cutoff = some ba)
        (hb : flt.b = ba.1) (ha : flt.a = ba.2) (ho : flt.order = N)
        (hz : flt.z = List.replicate N.toNat 0) (hc : c.items = [])
        (hcap : N.toNat + 1 ≤ c.capacity),
        ∃ s, statedWarmup flt c 1 = some s ∧
          s.1 = flt.stepN 1 (2 * c.capacity - 1 + (2 * c.capacity - 1)) ∧
          s.2 ≠ c.fill (filteredValue flt c 1) := by
      intro flt c N ripple cutoff ba hN he hr h0 h1 hba hb ha ho hz hc hcap
      open woma.LowpassFilter in
        have cheby1_even_response : ∀ (N : ℤ) (ripple cutoff : ℝ) (hN : 1 ≤ N) (he : N % 2 = 0)
            (hr : 0 < ripple) (h0 : 0 < cutoff) (h1 : cutoff < 1),
            ∃ ba, cheby1 N ripple cutoff = some ba ∧ ba.1.length = N.toNat + 1 ∧
              ba.2.length = N.toNat + 1 ∧ ba.2.getD 0 0 = 1 ∧ ba.2.getD N.toNat 0 ≠ 0 ∧
              ba.1.getD 0 0 * ba.2.sum ≠ ba.1.sum := by
          intro N ripple cutoff hN he hr h0 h1
          have poly_last : ∀ (l : List ℂ), (poly l).getD l.length 0 = (l.map (fun p => -p)).prod := by
            intro l
            induction l using List.reverseRecOn with
            | nil => simp [poly]
            | append_singleton l p ih =>
              rw [poly_append, convolve_getD _ _ (poly_length_pos l), List.length_append,
                List.length_singleton, if_neg (by omega), Nat.add_sub_cancel, ih,
                getD_beyond_complex _ _ (by rw [poly_length]), List.map_append, List.prod_append]
              simp [mul_comm]
          have abs_prod_lt : ∀ (l : List ℂ) (h : ∀ x ∈ l, Complex.abs x < 2),
              Complex.abs l.prod ≤ 2 ^ l.length ∧ (l ≠ [] → Complex.abs l.prod < 2 ^ l.length) := by
            intro l h
            induction l with
            | nil => simp
            | cons x t ih =>
              have hx := h x (List.mem_cons_self _ _)
              obtain ⟨ht, _⟩ := ih (fun y hy => h y (List.mem_cons_of_mem _ hy))
              have h0 : 0 ≤ Complex.abs x := Complex.abs.nonneg x
              have hp : (0 : ℝ) < 2 ^ t.length := by positivity
              have hlt : Complex.abs (x :: t).prod < 2 ^ (x :: t).length := by
                rw [List.prod_cons, map_mul, List.length_cons, pow_succ]
                calc Complex.abs x * Complex.abs t.prod ≤ Complex.abs x * 2 ^ t.length :=
                      mul_le_mul_of_nonneg_left ht h0
                  _ < 2 * 2 ^ t.length := mul_lt_mul_of_pos_right hx hp
                  _ = 2 ^ t.length * 2 := mul_comm _ _
              exact ⟨hlt.le, fun _ => hlt⟩
          have designed_poles : ∀ (N : ℤ) (ripple cutoff : ℝ) (hN : 1 ≤ N) (hr : 0 < ripple)
              (h0 : 0 < cutoff) (h1 : cutoff < 1),
              (_zpkbilinear
                (_zpklp2lp (cheby1ap N ripple).2 (cheby1ap N ripple).1
                  (4 * Real.tan (Real.pi * cutoff / 2))).2
                (_zpklp2lp (cheby1ap N ripple).2 (cheby1ap N ripple).1
                  (4 * Real.tan (Real.pi * cutoff / 2))).1).2.1 = List.replicate N.toNat (-1) ∧
              (_zpkbilinear
                (_zpklp2lp (cheby1ap N ripple).2 (cheby1ap N ripple).1
                  (4 * Real.tan (Real.pi * cutoff / 2))).2
                (_zpklp2lp (cheby1ap N ripple).2 (cheby1ap N ripple).1
                  (4 * Real.tan (Real.pi * cutoff / 2))).1).2.2.length = N.toNat ∧
              (∀ p ∈ (_zpkbilinear
                (_zpklp2lp (cheby1ap N ripple).2 (cheby1ap N ripple).1
                  (4 * Real.tan (Real.pi * cutoff / 2))).2
                (_zpklp2lp (cheby1ap N ripple).2 (cheby1ap N ripple).1
                  (4 * Real.tan (Real.pi * cutoff / 2))).1).2.2, Complex.abs p < 1) ∧
              ((_zpkbilinear
                (_zpklp2lp (cheby1ap N ripple).2 (cheby1ap N ripple).1
                  (4 * Real.tan (Real.pi * cutoff / 2))).2
                (_zpklp2lp (cheby1ap N ripple).2 (cheby1ap N ripple).1
                  (4 * Real.tan (Real.pi * cutoff / 2))).1).2.2.reverse =
                (_zpkbilinear
                  (_zpklp2lp (cheby1ap N ripple).2 (cheby1ap N ripple).1
                    (4 * Real.tan (Real.pi * cutoff / 2))).2
                  (_zpklp2lp (cheby1ap N ripple).2 (cheby1ap N ripple).1
                    (4 * Real.tan (Real.pi * cutoff / 2))).1).2.2.map (starRingEnd ℂ)) ∧
              (N % 2 = 0 → ∀ p ∈ (_zpkbilinear
                (_zpklp2lp (cheby1ap N ripple).2 (cheby1ap N ripple).1
                  (4 * Real.tan (Real.pi * cutoff / 2))).2
                (_zpklp2lp (cheby1ap N ripple).2 (cheby1ap N ripple).1
                  (4 * Real.tan (Real.pi * cutoff / 2))).1).2.2, p ≠ 0) := by
            intro N ripple cutoff hN hr h0 h1
            have cheby1ap_im_ne : ∀ (N : ℤ) (ripple_db : ℝ) (hN : 1 ≤ N) (he : N % 2 = 0),
                ∀ p ∈ (cheby1ap N ripple_db).2, p.im ≠ 0 := by
              intro N ripple_db hN he
              have sinh_mk_im : ∀ (x y : ℝ), (Complex.sinh (Complex.mk x y)).im = Real.cosh x * Real.sin y := by
                intro x y
                have h : Complex.mk x y = (x : ℂ) + (y : ℂ) * Complex.I := by
                  apply Complex.ext <;> simp
                rw [h, Complex.sinh_add, Complex.sinh_mul_I, Complex.cosh_mul_I]
                simp [Complex.sinh_ofReal_re, Complex.cos_ofReal_re, Complex.sinh_ofReal_im,
                  Complex.cos_ofReal_im, Complex.cosh_ofReal_im, Complex.sin_ofReal_im,
                  Complex.cosh_ofReal_re, Complex.sin_ofReal_re]
              intro p hp
              rw [cheby1ap_poles] at hp
              obtain ⟨i, hi, rfl⟩ := List.mem_map.mp hp
              rw [List.mem_range] at hi
              rw [Complex.neg_im, sinh_mk_im]
              have hN0 : (0 : ℝ) < (N : ℝ) := by exact_mod_cast (by omega : (0 : ℤ) < N)
              have hth := theta_mem N i hN hi
              have hpi := Real.pi_pos
              have hk : ((-N + 1 + 2 * (i : ℤ) : ℤ) : ℝ) ≠ 0 := by
                have : (-N + 1 + 2 * (i : ℤ) : ℤ) ≠ 0 := by omega
                exact_mod_cast this
              have hne : Real.pi * ((-N + 1 + 2 * (i : ℤ) : ℤ) : ℝ) / (2 * (N : ℝ)) ≠ 0 := by
                apply div_ne_zero (mul_ne_zero hpi.ne' hk)
                positivity
              have hsin : Real.sin (Real.pi * ((-N + 1 + 2 * (i : ℤ) : ℤ) : ℝ) / (2 * (N : ℝ))) ≠ 0 := by
                intro h0
                apply hne
                exact (Real.sin_eq_zero_iff_of_lt_of_lt (by linarith [hth.1]) (by linarith [hth.2])).mp h0
              have hcosh := Real.cosh_pos
                (1 / (N : ℝ) * Real.arsinh (1 / Real.sqrt ((10 : ℝ) ^ (0.1 * ripple_db) - 1)))
              exact neg_ne_zero.mpr (mul_ne_zero hcosh.ne' hsin)
            have bilinear_ne_zero : ∀ (x : ℂ) (wo : ℝ) (hwo : 0 < wo) (hx : x.im ≠ 0),
                ((4 : ℂ) + x * (wo : ℂ)) / ((4 : ℂ) - x * (wo : ℂ)) ≠ 0 := by
              intro x wo hwo hx
              have him : (x * (wo : ℂ)).im ≠ 0 := by
                simp only [Complex.mul_im, Complex.ofReal_re, Complex.ofReal_im, mul_zero, zero_add]
                exact mul_ne_zero hx hwo.ne'
              apply div_ne_zero
              · intro h
                have : ((4 : ℂ) + x * (wo : ℂ)).im = 0 := by rw [h]; rfl
                rw [Complex.add_im] at this
                have h4 : (4 : ℂ).im = 0 := by
                  rw [show (4 : ℂ) = ((4 : ℝ) : ℂ) by norm_cast, Complex.ofReal_im]
                rw [h4, zero_add] at this
                exact him this
              · intro h
                have : ((4 : ℂ) - x * (wo : ℂ)).im = 0 := by rw [h]; rfl
                rw [Complex.sub_im] at this
                have h4 : (4 : ℂ).im = 0 := by
                  rw [show (4 : ℂ) = ((4 : ℝ) : ℂ) by norm_cast, Complex.ofReal_im]
                rw [h4, zero_sub, neg_eq_zero] at this
                exact him this
            have hwo := warped_pos cutoff h0 h1
            have hq := lp2lp_re_neg (cheby1ap N ripple).2 (cheby1ap N ripple).1 _
              hwo (cheby1ap_re_neg N ripple hN hr)
            have hqrev := lp2lp_reverse_conj (cheby1ap N ripple).2 (cheby1ap N ripple).1
              (4 * Real.tan (Real.pi * cutoff / 2)) (cheby1ap_reverse_conj N ripple hN)
            have hprev := bilinear_reverse_conj _
              (_zpklp2lp (cheby1ap N ripple).2 (cheby1ap N ripple).1
                (4 * Real.tan (Real.pi * cutoff / 2))).1 hqrev
            refine ⟨?_, ?_, ?_, hprev, ?_⟩
            · unfold _zpkbilinear _zpklp2lp
              simp only [List.length_map]
              rw [cheby1ap_poles]
              simp
            · unfold _zpkbilinear _zpklp2lp
              simp only [List.length_map]
              rw [cheby1ap_poles]
              simp
            · intro z hz
              unfold _zpkbilinear at hz
              simp only at hz
              obtain ⟨x, hx, rfl⟩ := List.mem_map.mp hz
              have := (bilinear_abs_lt_one x (hq x hx)).2
              simpa using this
            · intro he z hz
              unfold _zpkbilinear _zpklp2lp at hz
              simp only [List.map_map] at hz
              obtain ⟨x, hx, rfl⟩ := List.mem_map.mp hz
              have := bilinear_ne_zero x _ hwo (cheby1ap_im_ne N ripple hN he x hx)
              simpa using this
          obtain ⟨ba, hba, hform, hne, hratio⟩ := cheby1_dc_gain N ripple cutoff hN hr h0 h1
          obtain ⟨hZ, hPlen, hPabs, hPrev, hPne⟩ := designed_poles N ripple cutoff hN hr h0 h1
          have hPne := hPne he
          rw [if_pos he] at hratio
          generalize _zpkbilinear
              (_zpklp2lp (cheby1ap N ripple).2 (cheby1ap N ripple).1
                (4 * Real.tan (Real.pi * cutoff / 2))).2
              (_zpklp2lp (cheby1ap N ripple).2 (cheby1ap N ripple).1
                (4 * Real.tan (Real.pi * cutoff / 2))).1 = T at hform hZ hPlen hPabs hPrev hPne
          have hN1 : 1 ≤ N.toNat := by omega
          have hre : ∀ (l : List ℂ) (i : ℕ), (l.map (fun c => c.re)).getD i 0 = (l.getD i 0).re := by
            intro l i
            rw [List.getD_eq_getElem?_getD, List.getD_eq_getElem?_getD, List.getElem?_map]
            cases l[i]? <;> simp
          have hkre : ∀ (l : List ℂ) (k : ℝ) (i : ℕ), i < l.length →
              (l.map (fun c => k * c.re)).getD i 0 = k * (l.getD i 0).re := by
            intro l k i hi
            rw [List.getD_eq_getElem?_getD, List.getD_eq_getElem?_getD, List.getElem?_map,
              List.getElem?_eq_getElem hi]
            rfl
          have hb : ba.1 = (poly T.2.1).map (fun c => T.1 * c.re) := by rw [hform]; rfl
          have ha : ba.2 = (poly T.2.2).map (fun c => c.re) := by rw [hform]; rfl
          -- the sums
          have hB : ba.1.sum = T.1 * 2 ^ N.toNat := by
            rw [hb, (sum_map_re _ T.1).1, poly_sum, hZ, List.map_replicate, List.prod_replicate]
            have : ((1 : ℂ) - (-1)) ^ N.toNat = (((2 : ℝ) ^ N.toNat : ℝ) : ℂ) := by
              push_cast
              norm_num
            rw [this, Complex.ofReal_re]
          have hb0 : ba.1.getD 0 0 = T.1 := by
            rw [hb, hkre _ _ 0 (poly_length_pos _), poly_head]
            simp
          have hA : |ba.2.sum| < 2 ^ N.toNat := by
            rw [ha, (sum_map_re _ 0).2, poly_sum]
            have h2 : ∀ x ∈ T.2.2.map (fun p => 1 - p), Complex.abs x < 2 := by
              intro x hx
              obtain ⟨p, hp, rfl⟩ := List.mem_map.mp hx
              have hp1 := hPabs p hp
              calc Complex.abs (1 - p) ≤ Complex.abs 1 + Complex.abs p := by
                    have := Complex.abs.sub_le 1 0 p
                    simpa using this
                _ < 2 := by rw [map_one]; linarith
            have hne' : T.2.2.map (fun p => 1 - p) ≠ [] := by
              intro hnil
              have := congrArg List.length hnil
              rw [List.length_map, hPlen] at this
              simp at this
              omega
            have h3 := (abs_prod_lt _ h2).2 hne'
            rw [List.length_map, hPlen] at h3
            exact lt_of_le_of_lt (Complex.abs_re_le_abs _) h3
          refine ⟨ba, hba, ?_, ?_, cheby1_monic N ripple cutoff ba hba, ?_, ?_⟩
          · rw [hb, List.length_map, poly_length, hZ, List.length_replicate]
          · rw [ha, List.length_map, poly_length, hPlen]
          · rw [ha, hre, ← hPlen, poly_last]
            have him : ((T.2.2.map (fun p => -p)).prod).im = 0 := by
              rw [← poly_last]
              exact poly_real _ hPrev _
            have hprod : (T.2.2.map (fun p => -p)).prod ≠ 0 := by
              apply List.prod_ne_zero
              intro hz
              obtain ⟨x, hx, hx0⟩ := List.mem_map.mp hz
              exact hPne x hx (neg_eq_zero.mp hx0)
            intro h
            apply hprod
            apply Complex.ext
            · rw [h]; rfl
            · rw [him]; rfl
          · rw [hb0, hB]
            intro h
            have hG : (0 : ℝ) < 1 / Real.sqrt (1 + ((10 : ℝ) ^ (0.1 * ripple) - 1)) := by
              apply one_div_pos.mpr
              apply Real.sqrt_pos.mpr
              have : (0 : ℝ) < (10 : ℝ) ^ (0.1 * ripple) := Real.rpow_pos_of_pos (by norm_num) _
              linarith
            have hT : T.1 ≠ 0 := by
              intro hT0
              rw [hB, hT0, zero_mul, zero_div] at hratio
              linarith
            have hA2 : ba.2.sum = 2 ^ N.toNat := mul_left_cancel₀ hT h
            rw [hA2, abs_of_pos (by positivity)] at hA
            exact lt_irrefl _ hA
      open woma.LowpassFilter in
        have step_response_not_constant : ∀ (f : LowpassFilter) (N : ℕ) (hN : 1 ≤ N)
            (ho : f.order = (N : ℤ)) (hb : f.b.length = N + 1) (ha : f.a.length = N + 1)
            (hz : f.z = List.replicate N 0) (ha0 : f.a.getD 0 0 = 1) (haN : f.a.getD N 0 ≠ 0)
            (hne : f.b.getD 0 0 * f.a.sum ≠ f.b.sum) (n0 : ℕ) (Y : ℝ)
            (hY : ∀ j, j ≤ N → (f.stepN 1 (n0 + j)).output 1 = Y), False := by
          intro f N hN ho hb ha hz ha0 haN hne n0 Y hY
          have heq := step_response_equation f N hN ho hb ha hz ha0
          have hA : f.a.sum = ∑ i in Finset.range (N + 1), f.a.getD i 0 := by
            rw [sum_eq_sum_range_real, ha]
          -- the constant is the quotient of the sums
          have hYA : Y * f.a.sum = f.b.sum := by
            rw [← heq n0, hA, Finset.mul_sum]
            apply Finset.sum_congr rfl
            intro i hi
            have hi' : i < N + 1 := Finset.mem_range.mp hi
            have : n0 + N - i = n0 + (N - i) := by omega
            rw [this, hY (N - i) (by omega)]
            ring
          -- backwards, one output at a time
          have hback : ∀ m, m ≤ n0 → ∀ j, j ≤ N → (f.stepN 1 (n0 - m + j)).output 1 = Y := by
            intro m
            induction m with
            | zero => intro _ j hj; exact hY j hj
            | succ m ih =>
              intro hm j hj
              have ih' := ih (by omega)
              have hfirst : (f.stepN 1 (n0 - (m + 1))).output 1 = Y := by
                have h1 := heq (n0 - (m + 1))
                rw [Finset.sum_range_succ] at h1
                have h2 : ∑ i in Finset.range N,
                    f.a.getD i 0 * (f.stepN 1 (n0 - (m + 1) + N - i)).output 1 =
                    ∑ i in Finset.range N, f.a.getD i 0 * Y := by
                  apply Finset.sum_congr rfl
                  intro i hi
                  have hi' : i < N := Finset.mem_range.mp hi
                  have : n0 - (m + 1) + N - i = n0 - m + (N - 1 - i) := by omega
                  rw [this, ih' (N - 1 - i) (by omega)]
                rw [h2] at h1
                have h3 : n0 - (m + 1) + N - N = n0 - (m + 1) := by omega
                rw [h3] at h1
                rw [hA, Finset.sum_range_succ, mul_add, Finset.mul_sum] at hYA
                have h4 : ∑ i in Finset.range N, Y * f.a.getD i 0 =
                    ∑ i in Finset.range N, f.a.getD i 0 * Y :=
                  Finset.sum_congr rfl (fun i _ => mul_comm _ _)
                rw [h4] at hYA
                have h5 : f.a.getD N 0 * ((f.stepN 1 (n0 - (m + 1))).output 1 - Y) = 0 := by
                  linarith
                rcases mul_eq_zero.mp h5 with h6 | h6
                · exact absurd h6 haN
                · linarith
              rcases Nat.eq_zero_or_pos j with hj0 | hj0
              · rw [hj0, Nat.add_zero]; exact hfirst
              · have : n0 - (m + 1) + j = n0 - m + (j - 1) := by omega
                rw [this]
                exact ih' (j - 1) (by omega)
          have h0 := hback n0 (le_refl _) 0 (Nat.zero_le _)
          rw [Nat.sub_self, Nat.add_zero] at h0
          have hout : (f.stepN 1 0).output 1 = f.b.getD 0 0 := by
            show f.b.getD 0 0 * 1 + f.z.getD 0 0 = f.b.getD 0 0
            rw [hz]
            have : (List.replicate N (0 : ℝ)).getD 0 0 = 0 := by
              rw [List.getD_eq_getElem?_getD, List.getElem?_replicate]
              split_ifs <;> rfl
            rw [this]
            ring
          apply hne
          rw [← hout, h0]
          exact hYA
      open woma.CircularBuffer in
        have foldl_push_back : ∀ (l : List ℝ), ∀ (c : CircularBuffer), 1 ≤ c.capacity →
            c.items.length ≤ c.capacity →
            (l.foldl push_back c).capacity = c.capacity ∧
              (l.foldl push_back c).items =
                (c.items ++ l).drop (c.items.length + l.length - c.capacity) := by
          intro l
          induction l using List.reverseRecOn with
          | nil =>
            intro c _ h2
            refine ⟨rfl, ?_⟩
            simp only [List.foldl_nil, List.append_nil, List.length_nil, Nat.add_zero]
            rw [Nat.sub_eq_zero_of_le h2]
            rfl
          | append_singleton l v ih =>
            intro c h1 h2
            obtain ⟨q1, q2⟩ := ih c h1 h2
            rw [List.foldl_append, List.foldl_cons, List.foldl_nil]
            have hlen : (l.foldl push_back c).items.length =
                c.items.length + l.length - (c.items.length + l.length - c.capacity) := by
              rw [q2, List.length_drop, List.length_append]
            generalize l.foldl push_back c = d at q1 q2 hlen ⊢
            unfold push_back
            rw [if_neg (by rw [q1]; omega)]
            by_cases hlt : d.items.length < d.capacity
            · rw [if_pos hlt]
              refine ⟨q1, ?_⟩
              rw [q1, hlen] at hlt
              simp only [List.length_append, List.length_singleton]
              have e1 : c.items.length + l.length - c.capacity = 0 := by omega
              have e2 : c.items.length + (l.length + 1) - c.capacity = 0 := by omega
              rw [q2, e1, e2, List.drop_zero, List.drop_zero, List.append_assoc]
            · rw [if_neg hlt]
              refine ⟨q1, ?_⟩
              rw [q1, hlen] at hlt
              simp only [List.length_append, List.length_singleton]
              have e : (c.items ++ (l ++ [v])).drop (c.items.length + (l.length + 1) - c.capacity) =
                  (c.items ++ l).drop (1 + (c.items.length + l.length - c.capacity)) ++ [v] := by
                rw [← List.append_assoc,
                  List.drop_append_of_le_length (by rw [List.length_append]; omega)]
                congr 2
                omega
              rw [q2, List.drop_drop, e, Nat.add_comm]
      obtain ⟨ba', hba', q1, q2, q3, q4, q5⟩ :=
        cheby1_even_response N ripple cutoff hN he hr h0 h1
      rw [hba] at hba'
      cases hba'
      have hoN : flt.order = ((N.toNat : ℕ) : ℤ) := by rw [ho]; omega
      have hzl : flt.z.length = N.toNat := by rw [hz, List.length_replicate]
      have hbl : flt.b.length = N.toNat + 1 := by rw [hb, q1]
      have hal : flt.a.length = N.toNat + 1 := by rw [ha, q2]
      have hs : flt.Sized := ⟨by rw [ho]; exact hN, by rw [hzl]; exact hoN.symm, by rw [hbl, hzl],
        by rw [hal, hzl]⟩
      have hsize : ¬ c.size > 0 := by
        unfold CircularBuffer.size
        rw [hc]
        simp
      have hst : statedWarmup flt c 1 =
          some (flt.stepN 1 (2 * c.capacity - 1 + (2 * c.capacity - 1)),
            ((List.range (2 * c.capacity - 1)).map (fun (n : ℕ) =>
              ((flt.stepN 1 (2 * c.capacity - 1)).stepN 1 n).output 1)).foldl
                CircularBuffer.push_back c) := by
        unfold statedWarmup
        rw [if_neg hsize, LowpassFilter.filterSeq_const 1 _ flt hs]
        simp only [Option.bind_eq_bind, Option.some_bind]
        rw [LowpassFilter.filterSeq_const 1 _ _ (LowpassFilter.stepN_sized 1 _ flt hs)]
        simp only [Option.some_bind]
        rw [LowpassFilter.stepN_add]
      refine ⟨_, hst, rfl, ?_⟩
      intro heq
      have hitems := congrArg CircularBuffer.items heq
      obtain ⟨_, hfold⟩ := foldl_push_back
        ((List.range (2 * c.capacity - 1)).map (fun (n : ℕ) =>
          ((flt.stepN 1 (2 * c.capacity - 1)).stepN 1 n).output 1)) c (by omega)
        (by rw [hc]; exact Nat.zero_le _)
      simp only at hitems
      rw [hfold] at hitems
      have hfill : (c.fill (filteredValue flt c 1)).items =
          List.replicate c.capacity (filteredValue flt c 1) := by
        unfold CircularBuffer.fill
        rw [hc]
        rfl
      rw [hfill, hc, List.nil_append, List.length_nil, Nat.zero_add, List.length_map,
        List.length_range] at hitems
      have hk : 2 * c.capacity - 1 - c.capacity = c.capacity - 1 := by omega
      rw [hk] at hitems
      apply step_response_not_constant flt N.toNat (by omega) hoN hbl hal hz
        (by rw [ha]; exact q3) (by rw [ha]; exact q4) (by rw [hb, ha]; exact q5)
        (2 * c.capacity - 1 + (c.capacity - 1)) (filteredValue flt c 1)
      intro j hj
      have hget := congrArg (fun (l : List ℝ) => l.getD j 0) hitems
      simp only at hget
      rw [List.getD_eq_getElem?_getD, List.getD_eq_getElem?_getD, List.getElem?_drop,
        List.getElem?_map, List.getElem?_range (by omega), List.getElem?_replicate,
        if_pos (by omega)] at hget
      simp only [Option.map_some', Option.getD_some] at hget
      rw [LowpassFilter.stepN_add] at hget
      rw [← hget]
      congr 2
      omega
  open woma.Filterbank in
    have init_designed : ∀ (fb fb' : Filterbank) (h : fb.init = some fb')
        (ho : fb.optimisation ≠ Optimisation.None),
        ∀ f ∈ fb'.filters_, 1 < f.1 ∧
          ∃ ba, LowpassFilter.cheby1 4 0.05 (0.8 / (f.1 : ℝ)) = some ba ∧
            f.2.b = ba.1 ∧ f.2.a = ba.2 ∧ f.2.order = 4 ∧ f.2.z = List.replicate 4 0 := by
      intro fb fb' h ho
      have initBufferStep_designed : ∀
          (st st' : List (ℤ × CircularBuffer) × List (ℤ × LowpassFilter))
          (band : ℕ × ℤ) (h : initBufferStep st band = some st')
          (hP : ∀ f ∈ st.2, 1 < f.1 ∧ ∃ ba, LowpassFilter.cheby1 4 0.05 (0.8 / (f.1 : ℝ)) = some ba ∧
            f.2.b = ba.1 ∧ f.2.a = ba.2 ∧ f.2.order = 4 ∧ f.2.z = List.replicate 4 0),
          ∀ f ∈ st'.2, 1 < f.1 ∧ ∃ ba, LowpassFilter.cheby1 4 0.05 (0.8 / (f.1 : ℝ)) = some ba ∧
            f.2.b = ba.1 ∧ f.2.a = ba.2 ∧ f.2.order = 4 ∧ f.2.z = List.replicate 4 0 := by
        intro st st' band h hP
        unfold initBufferStep at h
        by_cases hc : band.2 > 1 ∧ mapCount band.2 st.2 = 0
        · rw [if_pos hc] at h
          cases hd : LowpassFilter.create 1 4 0.05 with
          | none => rw [hd] at h; cases h
          | some dflt =>
            rw [hd] at h
            simp only [Option.bind_eq_bind, Option.some_bind] at h
            cases hg : dflt.setCutoff (0.8 / (band.2 : ℝ)) with
            | none => rw [hg] at h; cases h
            | some g =>
              rw [hg] at h
              simp only [Option.some_bind, Option.some.injEq] at h
              rw [← h]
              intro f hf
              have hdes := LowpassFilter.installed_designed dflt g _ hd hg
              rcases mapUpdate_mem _ _ _ _ f hf with q | q | ⟨v, hv, q⟩
              · exact hP f q
              · rw [q]; exact ⟨hc.1, hdes⟩
              · rw [q]; exact hP _ hv
        · rw [if_neg hc] at h
          simp only [Option.some.injEq] at h
          rw [← h]
          exact hP
      obtain ⟨_, _, ws, bufs, hws, hbufs, rfl⟩ := fb.init_eq_some fb' h
      unfold initBuffers at hbufs
      rw [if_neg ho] at hbufs
      cases hbands : (List.range ws.length).mapM (fun (i : ℕ) => do
            let w ← ws[i]?
            let d ← (fb.initFactors fb.bandCount)[i]?
            some (w.window_size, d)) with
      | none => rw [hbands] at hbufs; cases hbufs
      | some bands =>
        rw [hbands] at hbufs
        simp only [Option.bind_eq_bind, Option.some_bind] at hbufs
        exact foldlM_option_invariant initBufferStep
          (fun st => ∀ f ∈ st.2, 1 < f.1 ∧
            ∃ ba, LowpassFilter.cheby1 4 0.05 (0.8 / (f.1 : ℝ)) = some ba ∧
              f.2.b = ba.1 ∧ f.2.a = ba.2 ∧ f.2.order = 4 ∧ f.2.z = List.replicate 4 0)
          (fun st band st' hstep hP => initBufferStep_designed st st' band hstep hP)
          bands ([], []) bufs hbufs
          (fun f hf => (by cases hf))
  obtain ⟨fb0, w, hinit, hready, hopt, _, hempty, _, hwl, hfac, hw, _, _, hw3, _⟩ :=
    optimisedBank_last_band
  have hoB : (optimisedBank Optimisation.Standard1).optimisation ≠ Optimisation.None := by
    simp [optimisedBank]
  have ho0 : fb0.optimisation ≠ Optimisation.None := by rw [hopt]; decide
  have hsr : 0 < (optimisedBank Optimisation.Standard1).reference_wavelet_.samplerate := by
    have h100 : (optimisedBank Optimisation.Standard1).reference_wavelet_.samplerate = 100 := by
      simp [optimisedBank, scenarioBank, sampleBank, Filterbank.members, MorletWavelet.members]
    rw [h100]; norm_num
  have hb : 0 < (optimisedBank Optimisation.Standard1).bands_per_octave := by
    show (0 : ℝ) < 4
    norm_num
  obtain ⟨_, hflen, _, bands, hsnd, hinv⟩ :=
    (optimisedBank Optimisation.Standard1).init_buffersInv fb0 hinit hsr hb hoB
  have hfl : fb0.downsampling_factors.length = 20 := by rw [hflen, hwl]
  have hbl : bands.length = 20 := by
    have := congrArg List.length hsnd
    rw [List.length_map, hfl] at this
    exact this
  -- the last buffer is the one of the last band
  obtain ⟨pre, c, hdata, _⟩ := hinv.last (by rw [hbl]; norm_num)
  simp only at hdata
  rw [hsnd, hbl] at hdata
  have hd2 : 2 ≤ fb0.downsampling_factors.getD 19 0 := by
    rw [Filterbank.getD_of_lt _ 19 (by rw [hfl]; norm_num) 0 1]
    exact hfac
  obtain ⟨d, hdef⟩ : ∃ d, d = fb0.downsampling_factors.getD 19 0 := ⟨_, rfl⟩
  rw [show (20 - 1 : ℕ) = 19 from rfl, ← hdef] at hdata
  rw [← hdef] at hd2
  have hmem : (d, c) ∈ fb0.data_ := by rw [hdata]; simp
  have hc0 : c.items = [] := hempty (d, c) hmem
  have hf19 : fb0.downsampling_factors[19]? = some d := by
    rw [hdef, List.getD_eq_getElem?_getD, List.getElem?_eq_getElem (by rw [hfl]; norm_num)]
    rfl
  have hcap := ((optimisedBank Optimisation.Standard1).init_capacity_opt fb0 hinit hsr hb hoB
    (d, c) hmem).2 19 w hw hf19
  simp only at hcap
  have hcap6 : 6 ≤ c.capacity := by
    have hdn : 2 ≤ d.toNat := by omega
    calc 6 = 3 * 2 := rfl
      _ ≤ w.window_size * d.toNat := Nat.mul_le_mul hw3 hdn
      _ ≤ c.capacity := hcap
  -- the buffers of the filter loop end with this buffer
  have hfb : ∃ L, fb0.filteredBuffers = L ++ [(d, c)] := by
    unfold Filterbank.filteredBuffers
    rw [hdata]
    cases pre with
    | nil =>
      refine ⟨[], ?_⟩
      simp only [List.nil_append]
      rw [if_neg (by show ¬ d = 1; omega)]
    | cons p ps =>
      simp only [List.cons_append]
      by_cases hp : p.1 = 1
      · exact ⟨ps, by rw [if_pos hp]⟩
      · exact ⟨p :: ps, by rw [if_neg hp]; rfl⟩
  obtain ⟨L, hL⟩ := hfb
  have hbuf : fb0.filteredBuffers[L.length]? = some (d, c) := by
    rw [hL, List.getElem?_append_right (le_refl _)]
    simp
  have hlen := fb0.filteredBuffers_length hready ho0
  rw [hL, List.length_append, List.length_singleton] at hlen
  have hfi : fb0.filters_[L.length]? = some (fb0.filters_[L.length]) :=
    List.getElem?_eq_getElem (by omega)
  rcases hkf : fb0.filters_[L.length] with ⟨k, flt⟩
  rw [hkf] at hfi
  obtain ⟨kd, c', q1, _, _, q4, q5, q6, q7⟩ :=
    Filterbank.update_pairs fb0 hready ho0 1 L.length k flt hfi
  rw [hbuf] at q1
  cases q1
  have hkeys := (fb0.filteredBuffers_keys hinv.keys_sorted
    (by
      intro k hk
      obtain ⟨e, he, rfl⟩ := List.mem_map.mp hk
      exact (hinv.buffers e he).2.2)
    hinv.filter_keys).1
  have hk : d = k := by
    have e1 : (fb0.filters_.map Prod.fst)[L.length]? = some k := by
      rw [List.getElem?_map, hfi]; rfl
    have e2 : (fb0.filteredBuffers.map Prod.fst)[L.length]? = some d := by
      rw [List.getElem?_map, hbuf]; rfl
    rw [hkeys, e2] at e1
    exact Option.some.inj e1
  subst hk
  obtain ⟨hk1, ba, hba, hbb, hba2, hord, hz⟩ :=
    init_designed (optimisedBank Optimisation.Standard1) fb0 hinit hoB (d, flt)
      (List.mem_iff_getElem?.mpr ⟨_, hfi⟩)
  simp only at hk1 hba hbb hba2 hord hz
  have hdr : (2 : ℝ) ≤ (d : ℝ) := by exact_mod_cast hd2
  obtain ⟨s, hs, _, hne⟩ := warmup_differs flt c 4 0.05 (0.8 / (d : ℝ)) ba
    (by norm_num) (by decide) (by norm_num) (by positivity)
    (by rw [div_lt_one (by linarith)]; linarith) hba hbb hba2 hord hz hc0
    (by show 4 + 1 ≤ c.capacity; omega)
  exact ⟨fb0, fb0.next 1, L.length, d, flt, _, c, _, s, hinit, q4, hfi, hbuf, hk1,
    (by show c.items.length = 0; rw [hc0]; rfl), q5, q6, q7, hs, hne⟩

end woma
